import Mathlib

/-!
# Two-pass assembler: line parser, symbol-table builder, code generator

A shallow embedding of `lang-engine.c`, `gda.c` and `assembler.c`.

Conventions of the embedding

* A `char` array is a `List Char`; a `char *` into it is a `Nat` index.  Reading
  an index outside the list gives the NUL character (the arrays the program
  uses are zero-initialised and NUL-terminated).
* A C string passed by value to a read-only routine is the list of its
  characters before the terminating NUL (`cstr`).
* `long` is 64 bits and `int` is 32 bits (LP64); `unsigned short` is 16 bits.
* A pointer to a container element is the index of its slot.
* An object that was never assigned holds `none`.  Behaviour the C standard
  leaves undefined or unspecified (a read through a null pointer, a shift by a
  negative count, a computation on a value that was never assigned) makes the
  embedded routine return `none`.
-/

set_option autoImplicit false

namespace Asm

/-! ## Constants of `lang-engine.h` / `lang-engine.c` / `assembler.c` -/

def max_symbol_len : Nat := 30
def syntax_error_buf_len : Nat := 120
def max_data_in_a_line : Nat := 80
def max_line_size : Nat := 85

def MIN_C_NUMBER : Int := -8192
def MAX_C_NUMBER : Int := 8191
def MAX_REG_NUM : Int := 7
def MIN_REG_NUM : Int := 0

def PROG_BASE_ADDR : Nat := 100

/-- The NUL character, `END_LINE` in the source. -/
def END_LINE : Char := Char.ofNat 0

/-! ## `<ctype.h>` in the C locale -/

/-- `isspace`: space, `\t`, `\n`, `\v`, `\f`, `\r`. -/
def isspace (c : Char) : Bool :=
  c = ' ' || (9 ≤ c.toNat && c.toNat ≤ 13)

/-- `isalpha`: `A`..`Z`, `a`..`z`. -/
def isalpha (c : Char) : Bool :=
  (65 ≤ c.toNat && c.toNat ≤ 90) || (97 ≤ c.toNat && c.toNat ≤ 122)

/-- `isdigit`: `0`..`9`. -/
def isdigit (c : Char) : Bool :=
  48 ≤ c.toNat && c.toNat ≤ 57

/-- `isalnum`. -/
def isalnum (c : Char) : Bool :=
  isalpha c || isdigit c

/-! ## `<string.h>` on a char array and an index -/

/-- Character stored at index `p`. -/
def charAt (buf : List Char) (p : Nat) : Char :=
  buf.getD p END_LINE

/-- The C string that starts at the head of `l`: everything before the first NUL. -/
def cstrOf : List Char → List Char
  | [] => []
  | c :: cs => if c = END_LINE then [] else c :: cstrOf cs

/-- The C string that starts at index `p` of `buf`. -/
def cstr (buf : List Char) (p : Nat) : List Char :=
  cstrOf (buf.drop p)

/-- Number of leading `isspace` characters of `l`. -/
def spanSpace : List Char → Nat
  | [] => 0
  | c :: cs => if isspace c then spanSpace cs + 1 else 0

/-- The macro `SKIP_SPACE(ptr)`: `while(isspace(*ptr)) ptr++`. -/
def SKIP_SPACE (buf : List Char) (p : Nat) : Nat :=
  p + spanSpace (buf.drop p)

/-- Offset of the first occurrence of `c` in the C string at the head of `l`. -/
def strchrOf (c : Char) : List Char → Option Nat
  | [] => none
  | x :: xs =>
    if x = c then some 0
    else if x = END_LINE then none
    else (strchrOf c xs).map (· + 1)

/-- `strchr(buf + p, c)` for a non-NUL `c`: index of the first `c`, or `none` for `NULL`. -/
def strchr (buf : List Char) (p : Nat) (c : Char) : Option Nat :=
  (strchrOf c (buf.drop p)).map (· + p)

/-- Offset of the first `isspace` character in the C string at the head of `l`. -/
def strpbrkOf : List Char → Option Nat
  | [] => none
  | x :: xs =>
    if x = END_LINE then none
    else if isspace x then some 0
    else (strpbrkOf xs).map (· + 1)

/-- `strpbrk(buf + p, SPACES)` with `SPACES = "\n \r\t\f\v"`, the `isspace` set. -/
def strpbrk_SPACES (buf : List Char) (p : Nat) : Option Nat :=
  (strpbrkOf (buf.drop p)).map (· + p)

/-- The store `*p = c`. -/
def poke (buf : List Char) (p : Nat) (c : Char) : List Char :=
  buf.set p c

/-- The statement `if(p) *p = END_LINE;` for a pointer `p` that may be null. -/
def poke_if (buf : List Char) (p : Option Nat) : List Char :=
  match p with
  | some t => poke buf t END_LINE
  | none => buf

/-! ## Symbol-name validation -/

inductive sst_symbol_valid_tag
  | sst_symbol_ok
  | sst_symbol_starts_no_alpha
  | sst_symbol_contains_no_alpha_numeric
  | sst_symbol_too_long
  deriving DecidableEq, Repr

open sst_symbol_valid_tag

/-- The `while(*string && str_len <= max_symbol_len)` loop of
`lang_engine_symbol_validation` and the test that follows it. -/
def symbol_validation_loop : List Char → Nat → sst_symbol_valid_tag
  | [], str_len =>
    if str_len > max_symbol_len then sst_symbol_too_long else sst_symbol_ok
  | c :: cs, str_len =>
    if str_len ≤ max_symbol_len then
      if !isalnum c then sst_symbol_contains_no_alpha_numeric
      else symbol_validation_loop cs (str_len + 1)
    else sst_symbol_too_long

/-- `lang_engine_symbol_validation(string)`. -/
def lang_engine_symbol_validation (string : List Char) : sst_symbol_valid_tag :=
  match string with
  | [] => sst_symbol_starts_no_alpha
  | c :: cs =>
    if !isalpha c then sst_symbol_starts_no_alpha
    else symbol_validation_loop cs 0

/-! ## Number validation -/

inductive sst_number_valid_tag
  | sst_number_ok
  | sst_number_overflows
  | sst_number_bigger_than_max
  | sst_number_lower_than_min
  | sst_number_invalid_number
  deriving DecidableEq, Repr

open sst_number_valid_tag

/-- The table `sst_symbol_valid_tag_str_error`, indexed by the tag. -/
def sst_symbol_valid_tag_str_error : sst_symbol_valid_tag → String
  | sst_symbol_ok => ""
  | sst_symbol_starts_no_alpha => "symbol starts with non alpha character."
  | sst_symbol_contains_no_alpha_numeric => "symbol contains a non alpha numeric character."
  | sst_symbol_too_long => "symbol is too long"

/-- The table `sst_number_valid_str_error`, indexed by the tag. -/
def sst_number_valid_str_error : sst_number_valid_tag → String
  | sst_number_ok => ""
  | sst_number_overflows => "out of range (over-flow)."
  | sst_number_bigger_than_max => "bigger than maximum"
  | sst_number_lower_than_min => "lower than minimum"
  | sst_number_invalid_number => "invalid number"

def LONG_MAX : Int := 2 ^ 63 - 1
def LONG_MIN : Int := -(2 ^ 63)

/-- Conversion of a `long` to `int`: the value modulo `2^32`, read as signed. -/
def long_to_int (v : Int) : Int :=
  (v + 2 ^ 31) % 2 ^ 32 - 2 ^ 31

/-- The digit loop of `strtol` in base 10: the accumulated magnitude and the
number of digits read. -/
def strtol_digits : List Char → Nat → Nat → Nat × Nat
  | [], acc, n => (acc, n)
  | c :: cs, acc, n =>
    if isdigit c then strtol_digits cs (acc * 10 + (c.toNat - 48)) (n + 1)
    else (acc, n)

/-- What `strtol` reports: the returned `long`, how many characters lie between
the start of the string and `*endptr`, and whether `errno` is `ERANGE`. -/
structure strtol_result where
  value : Int
  consumed : Nat
  erange : Bool
  deriving DecidableEq, Repr

/-- `strtol(s, &end, 10)`: leading white space, an optional sign, decimal
digits.  With no digit nothing is consumed; a value outside `long` is clamped
and flagged. -/
def strtol (s : List Char) : strtol_result :=
  let ws := spanSpace s
  let s1 := s.drop ws
  let neg : Bool := s1.head? = some '-'
  let sg : Nat := if s1.head? = some '-' ∨ s1.head? = some '+' then 1 else 0
  let r := strtol_digits (s1.drop sg) 0 0
  if r.2 = 0 then { value := 0, consumed := 0, erange := false }
  else
    let v : Int := if neg then -(r.1 : Int) else (r.1 : Int)
    if v > LONG_MAX then { value := LONG_MAX, consumed := ws + sg + r.2, erange := true }
    else if v < LONG_MIN then { value := LONG_MIN, consumed := ws + sg + r.2, erange := true }
    else { value := v, consumed := ws + sg + r.2, erange := false }

/-- `lang_engine_number_validation(string, endptr, num, max, min)`: the tag, the
value stored in `*num` (stored on every path) and the value stored in `*endptr`
(`none` when it is left untouched). -/
def lang_engine_number_validation (buf : List Char) (string : Nat) (max min : Int) :
    sst_number_valid_tag × Int × Option Nat :=
  let r := strtol (buf.drop string)
  let num := long_to_int r.value
  if r.consumed = 0 then (sst_number_invalid_number, num, none)
  else if r.erange then (sst_number_overflows, num, none)
  else if num > max then (sst_number_bigger_than_max, num, none)
  else if num < min then (sst_number_lower_than_min, num, none)
  else (sst_number_ok, num, some (string + r.consumed))

/-! ## Operands -/

/-- `enum argument_option`; the numeric values are 0, 1 and 3. -/
inductive argument_option
  | tag_arg_tag_constant
  | tag_arg_tag_symbol
  | tag_arg_tag_register
  deriving DecidableEq, Repr

open argument_option

def argument_option.toNat : argument_option → Nat
  | tag_arg_tag_constant => 0
  | tag_arg_tag_symbol => 1
  | tag_arg_tag_register => 3

/-- The union `{register_number, constant_number, symbol}` that holds an
operand.  The members are kept apart: the program reads only the member it
wrote last, selected by the accompanying `argument_option`. -/
structure arg_union where
  register_number : Int := 0
  constant_number : Int := 0
  symbol : List Char := []
  deriving DecidableEq, Repr

/-- `struct text_param`. -/
structure text_param where
  error_str : String := ""
  opt : argument_option := tag_arg_tag_constant
  param : arg_union := {}
  deriving DecidableEq, Repr

/-- `lang_engine_parse_param(param, endptr)`.  No caller reads `*endptr`
afterwards, so only the returned struct is kept. -/
def lang_engine_parse_param (buf : List Char) (param : Nat) : text_param :=
  let param := SKIP_SPACE buf param
  if charAt buf param = 'r' then
    let v := lang_engine_number_validation buf (param + 1) MAX_REG_NUM MIN_REG_NUM
    { error_str :=
        if v.1 ≠ sst_number_ok then "register is " ++ sst_number_valid_str_error v.1 else ""
      opt := tag_arg_tag_register
      param := { register_number := v.2.1 } }
  else if charAt buf param = '#' then
    let v := lang_engine_number_validation buf (param + 1) MAX_C_NUMBER MIN_C_NUMBER
    { error_str :=
        if v.1 ≠ sst_number_ok then "constant number is " ++ sst_number_valid_str_error v.1
        else ""
      opt := tag_arg_tag_constant
      param := { constant_number := v.2.1 } }
  else
    let symbol_valid_temp := lang_engine_symbol_validation (cstr buf param)
    if symbol_valid_temp ≠ sst_symbol_ok then
      { error_str :=
          String.mk (cstr buf param) ++ " is " ++
            sst_symbol_valid_tag_str_error symbol_valid_temp ++ "."
        opt := tag_arg_tag_symbol }
    else
      { opt := tag_arg_tag_symbol
        param := { symbol := cstr buf param } }

/-! ## The parsed line, `struct syntax_struct` -/

/-- The tag `dir_or_inst_tag`; `tag_dir` has the value 0. -/
inductive line_tag
  | tag_dir
  | tag_inst
  | tag_syntax_error
  | tag_line_null
  deriving DecidableEq, Repr

open line_tag

/-- `enum inst_tag`, in declaration order (values 0 to 15). -/
inductive inst_tag
  | tag_mov | tag_cmp | tag_add | tag_sub | tag_lea
  | tag_not | tag_clr | tag_inc | tag_dec | tag_jmp | tag_bne | tag_red | tag_prn | tag_jsr
  | tag_rts | tag_stop
  deriving DecidableEq, Repr

open inst_tag

def inst_tag.toNat : inst_tag → Nat
  | tag_mov => 0 | tag_cmp => 1 | tag_add => 2 | tag_sub => 3 | tag_lea => 4
  | tag_not => 5 | tag_clr => 6 | tag_inc => 7 | tag_dec => 8 | tag_jmp => 9
  | tag_bne => 10 | tag_red => 11 | tag_prn => 12 | tag_jsr => 13
  | tag_rts => 14 | tag_stop => 15

def is_i_tag_groupA (i_tag : inst_tag) : Bool :=
  tag_mov.toNat ≤ i_tag.toNat && i_tag.toNat ≤ tag_lea.toNat

def is_i_tag_groupB (i_tag : inst_tag) : Bool :=
  tag_not.toNat ≤ i_tag.toNat && i_tag.toNat ≤ tag_jsr.toNat

def is_i_tag_groupC (i_tag : inst_tag) : Bool :=
  tag_rts.toNat ≤ i_tag.toNat && i_tag.toNat ≤ tag_stop.toNat

/-- `enum dir_tag`. -/
inductive dir_tag
  | tag_data
  | tag_string
  | tag_extern
  | tag_entry
  deriving DecidableEq, Repr

open dir_tag

/-- The tag `arg_options` of a Group B instruction. -/
inductive group_B_arg_options
  | tag_1_arg
  | tag_arg_2_args_with_symbol
  deriving DecidableEq, Repr

open group_B_arg_options

/-- The member `asm_directive` of the union: `d_tag` and the members of
`directive_union`.  `num_array` holds the elements written so far, in index
order. -/
structure asm_directive_fields where
  d_tag : dir_tag := tag_data
  symbol : List Char := []
  num_array : List Int := []
  num_count : Nat := 0
  string : List Char := []
  deriving DecidableEq, Repr

/-- The member `group_A` of `inst_arguments`. -/
structure group_A_fields where
  left_and_right_args : argument_option × argument_option :=
    (tag_arg_tag_constant, tag_arg_tag_constant)
  arg_option : arg_union × arg_union := ({}, {})
  deriving DecidableEq, Repr

/-- The member `arg_2_symbol` of `sub_group_b`. -/
structure arg_2_symbol_fields where
  symbol : List Char := []
  left_and_right_args : argument_option × argument_option :=
    (tag_arg_tag_constant, tag_arg_tag_constant)
  arg_2_args_options : arg_union × arg_union := ({}, {})
  deriving DecidableEq, Repr

/-- The member `rest_of_group_b` of `sub_group_b`. -/
structure rest_of_group_b_fields where
  arg_opt : argument_option := tag_arg_tag_constant
  arg_option : arg_union := {}
  deriving DecidableEq, Repr

/-- The member `group_B` of `inst_arguments`. -/
structure group_B_fields where
  arg_options : group_B_arg_options := tag_1_arg
  arg_2_symbol : arg_2_symbol_fields := {}
  rest_of_group_b : rest_of_group_b_fields := {}
  deriving DecidableEq, Repr

/-- The member `cpu_inst` of the union. -/
structure cpu_inst_fields where
  i_tag : inst_tag := tag_mov
  group_A : group_A_fields := {}
  group_B : group_B_fields := {}
  deriving DecidableEq, Repr

/-- `struct syntax_struct`; the default value is the zero-initialised struct
`result = {0}`. -/
structure syntax_struct where
  symbol : List Char := []
  syntax_error_buffer : String := ""
  dir_or_inst_tag : line_tag := tag_dir
  asm_directive : asm_directive_fields := {}
  cpu_inst : cpu_inst_fields := {}
  deriving DecidableEq, Repr

/-- `lang_engine_set_result_as_error`, with the formatted message as argument. -/
def lang_engine_set_result_as_error (ss : syntax_struct) (message : String) : syntax_struct :=
  { ss with syntax_error_buffer := message, dir_or_inst_tag := tag_syntax_error }

/-! ## Keyword tables -/

/-- `struct cpu_instruction`. -/
structure cpu_instruction where
  inst_name : List Char
  i_tag : inst_tag
  deriving DecidableEq, Repr

/-- `struct asm_directive`. -/
structure asm_directive where
  dir_name : List Char
  d_tag : dir_tag
  deriving DecidableEq, Repr

/-- The table `i_map`, in the order of the source (sorted by name). -/
def i_map : List cpu_instruction :=
  [ ⟨"add".toList, tag_add⟩, ⟨"bne".toList, tag_bne⟩, ⟨"clr".toList, tag_clr⟩,
    ⟨"cmp".toList, tag_cmp⟩, ⟨"dec".toList, tag_dec⟩, ⟨"inc".toList, tag_inc⟩,
    ⟨"jmp".toList, tag_jmp⟩, ⟨"jsr".toList, tag_jsr⟩, ⟨"lea".toList, tag_lea⟩,
    ⟨"mov".toList, tag_mov⟩, ⟨"not".toList, tag_not⟩, ⟨"prn".toList, tag_prn⟩,
    ⟨"red".toList, tag_red⟩, ⟨"rts".toList, tag_rts⟩, ⟨"stop".toList, tag_stop⟩,
    ⟨"sub".toList, tag_sub⟩ ]

/-- The table `asm_dirs`, in the order of the source (sorted by name). -/
def asm_dirs : List asm_directive :=
  [ ⟨".data".toList, tag_data⟩, ⟨".entry".toList, tag_entry⟩,
    ⟨".extern".toList, tag_extern⟩, ⟨".string".toList, tag_string⟩ ]

/-- `lang_engine_is_string_a_cpu_inst`: `bsearch` over the sorted `i_map` with
`strcmp` on the names, that is the entry whose name equals `string`, if any. -/
def lang_engine_is_string_a_cpu_inst (string : List Char) : Option cpu_instruction :=
  i_map.find? (fun e => e.inst_name = string)

/-- `lang_engine_is_string_a_asm_dir`: `bsearch` over the sorted `asm_dirs`. -/
def lang_engine_is_string_a_asm_dir (string : List Char) : Option asm_directive :=
  asm_dirs.find? (fun e => e.dir_name = string)

/-! ## The line parser `lang_engine_create_ss_from_logical_line`

The C function parses in place: it overwrites separators of the line buffer
with NUL.  Every part below therefore returns the parsed line together with
the contents of the buffer when the function returns. -/

/-- The double-quote character. -/
def DQUOTE : Char := Char.ofNat 34

/-- The `switch (tp.opt)` that copies the parsed operand into the operand union. -/
def store_arg (tp : text_param) (a : arg_union) : arg_union :=
  match tp.opt with
  | tag_arg_tag_constant => { a with constant_number := tp.param.constant_number }
  | tag_arg_tag_register => { a with register_number := tp.param.register_number }
  | tag_arg_tag_symbol => { a with symbol := tp.param.symbol }

/-- The `for` loop of the `.data` case; `fuel` is the number of iterations left
and `i` the loop index, `fuel + i = max_data_in_a_line`. -/
def parse_data_loop (buf : List Char) (dir_name : String) :
    Nat → Nat → Nat → syntax_struct → syntax_struct
  | 0, i, _, result =>
    { result with asm_directive := { result.asm_directive with num_count := i + 1 } }
  | fuel + 1, i, temp1, result =>
    let v := lang_engine_number_validation buf temp1 MAX_C_NUMBER MIN_C_NUMBER
    let result : syntax_struct :=
      { result with asm_directive :=
          { result.asm_directive with num_array := result.asm_directive.num_array ++ [v.2.1] } }
    if v.1 = sst_number_ok then
      let temp2 := v.2.2.getD 0
      if charAt buf temp2 = '\n' ∨ charAt buf temp2 = END_LINE then
        { result with asm_directive := { result.asm_directive with num_count := i + 1 } }
      else
        let sp := isspace (charAt buf temp2)
        let temp2 := if sp then SKIP_SPACE buf temp2 else temp2
        if sp ∧ charAt buf temp2 = END_LINE then
          { result with asm_directive := { result.asm_directive with num_count := i + 1 } }
        else if sp ∧ charAt buf temp2 ≠ ',' then
          lang_engine_set_result_as_error result
            ("expected separator ',' for directive '" ++ dir_name ++ "' ")
        else if charAt buf temp2 ≠ ',' then
          lang_engine_set_result_as_error result
            ("invalid character '" ++ String.singleton (charAt buf temp2) ++
              "' for directive '" ++ dir_name ++ "' ")
        else parse_data_loop buf dir_name fuel (i + 1) (temp2 + 1) result
    else
      lang_engine_set_result_as_error result (sst_number_valid_str_error v.1)

/-- The block `if(dir) { ... }` followed by `return result`. -/
def parse_directive (dir : Option asm_directive) (result : syntax_struct) (buf : List Char)
    (temp1 : Option Nat) : syntax_struct × List Char :=
  match dir with
  | none => (result, buf)
  | some dir =>
    let dir_name := String.mk dir.dir_name
    match temp1 with
    | none =>
      (lang_engine_set_result_as_error result
        ("no arguments for directive: '" ++ dir_name ++ "'"), buf)
    | some t =>
      let result : syntax_struct :=
        { result with asm_directive := { result.asm_directive with d_tag := dir.d_tag } }
      let temp1 := SKIP_SPACE buf (t + 1)
      match dir.d_tag with
      | tag_data =>
        (parse_data_loop buf dir_name max_data_in_a_line 0 temp1 result, buf)
      | tag_string =>
        match strchr buf temp1 DQUOTE with
        | none =>
          (lang_engine_set_result_as_error result
            ("expected starting token '" ++ String.singleton DQUOTE ++ "' for directive " ++
              dir_name ++ " ."), buf)
        | some temp2 =>
          if temp1 ≠ temp2 then
            (lang_engine_set_result_as_error result
              (" ending token '" ++ String.singleton DQUOTE ++ "' without starting token '" ++
                String.singleton DQUOTE ++ "' for directive " ++ dir_name ++ " ."), buf)
          else
            match strchr buf (temp2 + 1) DQUOTE with
            | none =>
              (lang_engine_set_result_as_error result
                ("expected ending token '" ++ String.singleton DQUOTE ++ "' for directive " ++
                  dir_name ++ " ."), buf)
            | some temp2 =>
              let buf := poke buf temp2 END_LINE
              let result : syntax_struct :=
                { result with asm_directive :=
                    { result.asm_directive with string := cstr buf (temp1 + 1) } }
              let temp2 := SKIP_SPACE buf (temp2 + 1)
              if charAt buf temp2 ≠ END_LINE then
                (lang_engine_set_result_as_error result
                  ("extraneous text for directive: '" ++ dir_name ++ "'."), buf)
              else (result, buf)
      | _ =>
        -- case tag_entry: case tag_extern:
        if charAt buf temp1 = END_LINE then
          (lang_engine_set_result_as_error result
            ("no arguments for directive: '" ++ dir_name ++ "'"), buf)
        else
          let temp2 := strpbrk_SPACES buf temp1
          let buf := poke_if buf temp2
          let extraneous : Bool := match temp2 with
            | some t2 =>
              charAt buf (SKIP_SPACE buf (t2 + 1)) ≠ END_LINE ∧
                charAt buf (SKIP_SPACE buf (t2 + 1)) ≠ '\n'
            | none => false
          if extraneous then
            (lang_engine_set_result_as_error result
              ("extraneous text for directive: '" ++ dir_name ++ "'."), buf)
          else
            let symbol_valid_temp := lang_engine_symbol_validation (cstr buf temp1)
            if symbol_valid_temp = sst_symbol_ok then
              ({ result with asm_directive :=
                  { result.asm_directive with symbol := cstr buf temp1 } }, buf)
            else
              (lang_engine_set_result_as_error result
                ("'" ++ String.mk (cstr buf temp1) ++ "' " ++
                  sst_symbol_valid_tag_str_error symbol_valid_temp), buf)

/-- The Group A branch, entered with `temp1` non-null. -/
def parse_group_A (inst : cpu_instruction) (dir : Option asm_directive)
    (result : syntax_struct) (buf : List Char) (temp1 : Nat) : syntax_struct × List Char :=
  let inst_name := String.mk inst.inst_name
  let temp1 := SKIP_SPACE buf (temp1 + 1)
  match strchr buf temp1 ',' with
  | none =>
    (lang_engine_set_result_as_error result
      ("expected separator ',' for cpu instruction: '" ++ inst_name ++ "'."), buf)
  | some temp2 =>
    let buf := poke buf temp2 END_LINE
    let buf := poke_if buf (strpbrk_SPACES buf temp1)
    let temp3 := strpbrk_SPACES buf (SKIP_SPACE buf (temp2 + 1))
    let buf := poke_if buf temp3
    let extraneous : Bool := match temp3 with
      | some t3 => charAt buf (SKIP_SPACE buf (t3 + 1)) ≠ END_LINE
      | none => false
    if extraneous then
      (lang_engine_set_result_as_error result
        ("extraneous text for cpu instruction: '" ++ inst_name ++ "'."), buf)
    else
      -- for(i = 0; i < 2; i++, temp1 = temp2 + 1), iteration i = 0
      let tp := lang_engine_parse_param buf (SKIP_SPACE buf temp1)
      if tp.error_str ≠ "" then (lang_engine_set_result_as_error result tp.error_str, buf)
      else
        let gA := result.cpu_inst.group_A
        let gA : group_A_fields :=
          { left_and_right_args := (tp.opt, gA.left_and_right_args.2)
            arg_option := (store_arg tp gA.arg_option.1, gA.arg_option.2) }
        let result : syntax_struct :=
          { result with cpu_inst := { result.cpu_inst with group_A := gA } }
        -- iteration i = 1
        let tp := lang_engine_parse_param buf (SKIP_SPACE buf (temp2 + 1))
        if tp.error_str ≠ "" then (lang_engine_set_result_as_error result tp.error_str, buf)
        else
          let gA : group_A_fields :=
            { left_and_right_args := (gA.left_and_right_args.1, tp.opt)
              arg_option := (gA.arg_option.1, store_arg tp gA.arg_option.2) }
          let result : syntax_struct :=
            { result with cpu_inst := { result.cpu_inst with group_A := gA } }
          parse_directive dir result buf (some (temp2 + 1))

/-- The indexed form of Group B, entered once `(` was found at `temp2` and `)`
at `temp3`. -/
def parse_group_B_2_args (inst : cpu_instruction) (dir : Option asm_directive)
    (result : syntax_struct) (buf : List Char) (temp1 temp2 temp3 : Nat) :
    syntax_struct × List Char :=
  let inst_name := String.mk inst.inst_name
  let result : syntax_struct :=
    { result with cpu_inst :=
        { result.cpu_inst with group_B :=
            { result.cpu_inst.group_B with arg_options := tag_arg_2_args_with_symbol } } }
  if temp3 < temp2 then
    (lang_engine_set_result_as_error result
      ("closing brackets ')' appears before opening brackets '(' token  for cpu instruction: '"
        ++ inst_name ++ "'."), buf)
  else
    let buf := poke buf temp2 END_LINE
    match strpbrk_SPACES buf temp1 with
    | some temp4 =>
      let buf := poke buf temp4 END_LINE
      (lang_engine_set_result_as_error result
        ("label '" ++ String.mk (cstr buf temp1) ++
          "' must appear next to opening brackets '(' without spaces for cpu instruction: '"
          ++ inst_name ++ "'."), buf)
    | none =>
      let symbol_valid_temp := lang_engine_symbol_validation (cstr buf temp1)
      if symbol_valid_temp ≠ sst_symbol_ok then
        -- the source indexes the number-error table with the symbol tag
        (lang_engine_set_result_as_error result
          ("label '" ++ String.mk (cstr buf temp1) ++ "' is " ++
            (match symbol_valid_temp with
              | sst_symbol_starts_no_alpha => sst_number_valid_str_error sst_number_overflows
              | sst_symbol_contains_no_alpha_numeric =>
                sst_number_valid_str_error sst_number_bigger_than_max
              | _ => sst_number_valid_str_error sst_number_lower_than_min) ++
            " for cpu instruction: '" ++ inst_name ++ "'."), buf)
      else
        let a2 : arg_2_symbol_fields :=
          { result.cpu_inst.group_B.arg_2_symbol with symbol := cstr buf temp1 }
        let result : syntax_struct :=
          { result with cpu_inst :=
              { result.cpu_inst with group_B :=
                  { result.cpu_inst.group_B with arg_2_symbol := a2 } } }
        let temp1 := SKIP_SPACE buf (temp2 + 1)
        match strchr buf temp1 ',' with
        | none =>
          (lang_engine_set_result_as_error result
            ("expected separator ',' for cpu instruction: '" ++ inst_name ++ "'."), buf)
        | some temp2 =>
          let buf := poke buf temp2 END_LINE
          let buf := poke_if buf (strpbrk_SPACES buf temp1)
          let buf := poke buf temp3 END_LINE
          if charAt buf (SKIP_SPACE buf (temp3 + 1)) ≠ END_LINE then
            (lang_engine_set_result_as_error result
              ("extraneous text for cpu instruction: '" ++ inst_name ++ "'."), buf)
          else
            let buf := poke_if buf (strpbrk_SPACES buf (SKIP_SPACE buf (temp2 + 1)))
            -- for(i = 0; i < 2; i++, temp1 = temp2 + 1), iteration i = 0
            let tp := lang_engine_parse_param buf (SKIP_SPACE buf temp1)
            if tp.error_str ≠ "" then
              (lang_engine_set_result_as_error result tp.error_str, buf)
            else
              let a2 : arg_2_symbol_fields :=
                { a2 with
                  left_and_right_args := (tp.opt, a2.left_and_right_args.2)
                  arg_2_args_options :=
                    (store_arg tp a2.arg_2_args_options.1, a2.arg_2_args_options.2) }
              let result : syntax_struct :=
                { result with cpu_inst :=
                    { result.cpu_inst with group_B :=
                        { result.cpu_inst.group_B with arg_2_symbol := a2 } } }
              -- iteration i = 1
              let tp := lang_engine_parse_param buf (SKIP_SPACE buf (temp2 + 1))
              if tp.error_str ≠ "" then
                (lang_engine_set_result_as_error result tp.error_str, buf)
              else
                let a2 : arg_2_symbol_fields :=
                  { a2 with
                    left_and_right_args := (a2.left_and_right_args.1, tp.opt)
                    arg_2_args_options :=
                      (a2.arg_2_args_options.1, store_arg tp a2.arg_2_args_options.2) }
                let result : syntax_struct :=
                  { result with cpu_inst :=
                      { result.cpu_inst with group_B :=
                          { result.cpu_inst.group_B with arg_2_symbol := a2 } } }
                parse_directive dir result buf (some (temp2 + 1))

/-- The Group B branch, entered with `temp1` non-null. -/
def parse_group_B (inst : cpu_instruction) (dir : Option asm_directive)
    (result : syntax_struct) (buf : List Char) (temp1 : Nat) : syntax_struct × List Char :=
  let inst_name := String.mk inst.inst_name
  let temp1 := SKIP_SPACE buf (temp1 + 1)
  match strchr buf temp1 '(', strchr buf (temp1 + 1) ')' with
  | some _, none =>
    (lang_engine_set_result_as_error result
      ("missing closing brackets ')' token  for cpu instruction: '" ++ inst_name ++ "'."), buf)
  | none, some _ =>
    (lang_engine_set_result_as_error result
      ("missing opening brackets '(' token  for cpu instruction: '" ++ inst_name ++ "'."), buf)
  | some temp2, some temp3 => parse_group_B_2_args inst dir result buf temp1 temp2 temp3
  | none, none =>
    let temp2 := strpbrk_SPACES buf temp1
    let buf := poke_if buf temp2
    let extraneous : Bool := match temp2 with
      | some t2 => charAt buf (SKIP_SPACE buf (t2 + 1)) ≠ END_LINE
      | none => false
    if extraneous then
      (lang_engine_set_result_as_error result
        ("extraneous text for cpu instruction: '" ++ inst_name ++ "'."), buf)
    else
      let tp := lang_engine_parse_param buf temp1
      if tp.error_str ≠ "" then (lang_engine_set_result_as_error result tp.error_str, buf)
      else
        let rest : rest_of_group_b_fields :=
          { arg_opt := tp.opt
            arg_option := store_arg tp result.cpu_inst.group_B.rest_of_group_b.arg_option }
        let result : syntax_struct :=
          { result with cpu_inst :=
              { result.cpu_inst with group_B :=
                  { result.cpu_inst.group_B with rest_of_group_b := rest } } }
        parse_directive dir result buf (some temp1)

/-- The Group C branch. -/
def parse_group_C (inst : cpu_instruction) (dir : Option asm_directive)
    (result : syntax_struct) (buf : List Char) (temp1 : Option Nat) :
    syntax_struct × List Char :=
  match temp1 with
  | some t =>
    let temp1 := SKIP_SPACE buf (t + 1)
    if charAt buf temp1 ≠ END_LINE ∧ charAt buf temp1 ≠ '\n' then
      (lang_engine_set_result_as_error result
        ("extraneous text for cpu instruction: '" ++ String.mk inst.inst_name ++ "'."), buf)
    else parse_directive dir result buf (some temp1)
  | none => parse_directive dir result buf none

/-- The part of the parser after the optional label: keyword lookup and the
instruction and directive branches.  `logical_line` points behind the label. -/
def parse_after_label (result : syntax_struct) (buf : List Char) (logical_line : Nat) :
    syntax_struct × List Char :=
  let logical_line := SKIP_SPACE buf logical_line
  let temp1 := strpbrk_SPACES buf logical_line
  let buf := poke_if buf temp1
  let inst := lang_engine_is_string_a_cpu_inst (cstr buf logical_line)
  let dir := lang_engine_is_string_a_asm_dir (cstr buf logical_line)
  match inst with
  | none =>
    match dir with
    | none =>
      (lang_engine_set_result_as_error result
        ("'" ++ String.mk (cstr buf logical_line) ++ "' unknown key word."), buf)
    | some _ => parse_directive dir result buf temp1
  | some inst =>
    let result : syntax_struct :=
      { result with
        dir_or_inst_tag := tag_inst
        cpu_inst := { result.cpu_inst with i_tag := inst.i_tag } }
    if is_i_tag_groupA inst.i_tag || is_i_tag_groupB inst.i_tag then
      match temp1 with
      | none =>
        (lang_engine_set_result_as_error result
          ("no arguments for instruction: '" ++ String.mk inst.inst_name ++ "'"), buf)
      | some t =>
        if is_i_tag_groupA inst.i_tag then parse_group_A inst dir result buf t
        else parse_group_B inst dir result buf t
    else parse_group_C inst dir result buf temp1

/-- `lang_engine_create_ss_from_logical_line(logical_line)` on the char array
`buf`, `logical_line` pointing at its start: the returned struct and the array
as the call leaves it. -/
def lang_engine_create_ss_from_logical_line (buf : List Char) : syntax_struct × List Char :=
  let result : syntax_struct := {}
  let logical_line := SKIP_SPACE buf 0
  if charAt buf logical_line = END_LINE ∨ charAt buf logical_line = ';' then
    ({ result with dir_or_inst_tag := tag_line_null }, buf)
  else
    match strchr buf logical_line ':' with
    | some temp1 =>
      match strchr buf (temp1 + 1) ':' with
      | some _ =>
        (lang_engine_set_result_as_error result "token ':' appears twice or more.", buf)
      | none =>
        let buf := poke buf temp1 END_LINE
        let symbol_valid_temp := lang_engine_symbol_validation (cstr buf logical_line)
        if symbol_valid_temp = sst_symbol_ok then
          let result : syntax_struct := { result with symbol := cstr buf logical_line }
          let buf := poke buf temp1 ':'
          parse_after_label result buf (temp1 + 1)
        else
          (lang_engine_set_result_as_error result
            ("'" ++ String.mk (cstr buf logical_line) ++ "' " ++
              sst_symbol_valid_tag_str_error symbol_valid_temp), buf)
    | none => parse_after_label result buf logical_line

/-! ## The generic dynamic array `gda`

`pointer_array` is the array of element pointers, `none` for `NULL`;
`pointers_count` is its length.  Allocation is taken to succeed. -/

structure gda (α : Type) where
  pointer_array : List (Option α)
  elem_count : Nat
  deriving DecidableEq, Repr

section Gda

variable {α : Type}

/-- The field `pointers_count`. -/
def gda.pointers_count (g : gda α) : Nat :=
  g.pointer_array.length

/-- `gda_create`: two null slots, no element. -/
def gda_create : gda α :=
  { pointer_array := [none, none], elem_count := 0 }

/-- Index of the first slot whose element satisfies `hit`. -/
def search_slots (hit : α → Bool) : List (Option α) → Option Nat
  | [] => none
  | none :: rest => (search_slots hit rest).map (· + 1)
  | some x :: rest => if hit x then some 0 else (search_slots hit rest).map (· + 1)

/-- `gda_search(gda, candidate)`; `hit x` stands for `compar(x, candidate) == 0`.
The result is the slot of the element found, `none` for `NULL`. -/
def gda_search (g : gda α) (hit : α → Bool) : Option Nat :=
  search_slots hit g.pointer_array

/-- Index of the first null slot. -/
def first_null : List (Option α) → Option Nat
  | [] => none
  | none :: _ => some 0
  | some _ :: rest => (first_null rest).map (· + 1)

/-- `gda_insert(gda, candidate)`: the first null slot takes a copy of the
candidate; when there is none the array doubles, the copy goes to index
`elem_count` and every slot after it is cleared. -/
def gda_insert (g : gda α) (candidate : α) : gda α :=
  match first_null g.pointer_array with
  | some i =>
    { pointer_array := g.pointer_array.set i (some candidate)
      elem_count := g.elem_count + 1 }
  | none =>
    let grown := (g.pointer_array ++ List.replicate g.pointers_count none).set
      g.elem_count (some candidate)
    { pointer_array :=
        grown.take (g.elem_count + 1) ++
          List.replicate (g.pointers_count * 2 - (g.elem_count + 1)) none
      elem_count := g.elem_count + 1 }

/-- `gda_size`. -/
def gda_size (g : gda α) : Nat :=
  g.elem_count

/-- The element a slot pointer points to. -/
def gda.deref (g : gda α) (slot : Nat) : Option α :=
  (g.pointer_array.get? slot).join

/-- A store through a slot pointer. -/
def gda.modify (g : gda α) (slot : Nat) (f : α → α) : gda α :=
  { g with pointer_array := g.pointer_array.modify (Option.map f) slot }

/-- The elements met by `gda_for_each` when null slots are skipped. -/
def gda.elems (g : gda α) : List α :=
  g.pointer_array.filterMap id

end Gda

/-! ## `translation_unit.h` -/

inductive sym_type
  | sym_type_data
  | sym_type_code
  | sym_type_extern
  | sym_type_entry
  | sym_type_code_entry
  | sym_type_data_entry
  deriving DecidableEq, Repr

open sym_type

/-- `struct symbol`.  `addr` is `none` as long as nothing was assigned to it:
the `.extern` and `.entry` cases of pass 1 insert a symbol without setting its
address. -/
structure symbol where
  symbol_name : List Char
  addr : Option Nat
  sym_type : sym_type
  line_def : Nat
  deriving DecidableEq, Repr

/-- `struct extern_call`; `addresses` is the array the member points to. -/
structure extern_call where
  symbol_name : List Char
  addresses : gda Nat
  deriving DecidableEq, Repr

/-- `struct translation_unit`. -/
structure translation_unit where
  symbol_table : gda symbol
  bmc_code : gda Nat
  bmc_data : gda Nat
  extern_usage : gda extern_call
  deriving DecidableEq, Repr

/-- `assembler_create_new_translation_unit`. -/
def assembler_create_new_translation_unit : translation_unit :=
  { symbol_table := gda_create, bmc_code := gda_create, bmc_data := gda_create,
    extern_usage := gda_create }

/-- `symbol_table_compar(x, candidate) == 0` for a candidate named `name`. -/
def symbol_named (name : List Char) (x : symbol) : Bool :=
  x.symbol_name = name

/-! ## Reading the source file -/

/-- The strings successive calls `fgets(buffer, max_line_size, am_file)` store:
each call reads up to and including a newline and at most `max_line_size - 1`
characters.  `cur` holds, reversed, the `n` characters read so far by the call
in progress. -/
def split_lines (cur : List Char) (n : Nat) : List Char → List (List Char)
  | [] => if cur = [] then [] else [cur.reverse]
  | c :: cs =>
    if c = '\n' ∨ n + 1 = max_line_size - 1 then (c :: cur).reverse :: split_lines [] 0 cs
    else split_lines (c :: cur) (n + 1) cs

/-- The sequence of strings `fgets` delivers for a file. -/
def file_lines (am_file : List Char) : List (List Char) :=
  split_lines [] 0 am_file

/-- What `fgets` leaves in `buffer`: the line, a NUL, and the former contents
behind them. -/
def fgets_store (buffer line : List Char) : List Char :=
  line ++ END_LINE :: buffer.drop (line.length + 1)

/-- The local `char buffer[max_line_size + 1] = {0}`. -/
def buffer_init : List Char :=
  List.replicate (max_line_size + 1) END_LINE

/-! ## Pass 1: `assembler_first_pass_symbol_table`

The counters `IC`, `DC` and `line_count` are natural numbers without
overflow. -/

/-- The locals of `assembler_first_pass_symbol_table` that live across loop
iterations, with the symbol table. -/
structure first_pass_state where
  symbol_table : gda symbol
  buffer : List Char
  in_table : Option Nat
  dummy : symbol
  line_count : Nat
  error : Int
  IC : Nat
  DC : Nat
  deriving DecidableEq, Repr

/-- The local `struct symbol dummy`, declared without initialiser.  Its name,
type and line are assigned before every `gda_insert` of it; its address is
not. -/
def dummy_init : symbol :=
  { symbol_name := [], addr := none, sym_type := sym_type_data, line_def := 0 }

/-- The locals at loop entry. -/
def first_pass_init (symbol_table : gda symbol) : first_pass_state :=
  { symbol_table := symbol_table, buffer := buffer_init, in_table := none, dummy := dummy_init,
    line_count := 1, error := 0, IC := PROG_BASE_ADDR, DC := 0 }

/-- The label part of `case tag_inst`. -/
def first_pass_inst_label (s_struct : syntax_struct) (st : first_pass_state) :
    first_pass_state :=
  if s_struct.symbol ≠ [] then
    let dummy : symbol := { st.dummy with symbol_name := s_struct.symbol }
    let in_table := gda_search st.symbol_table (symbol_named dummy.symbol_name)
    let st := { st with dummy := dummy, in_table := in_table }
    match in_table with
    | some slot =>
      match (st.symbol_table.deref slot).map (·.sym_type) with
      | some sym_type_entry =>
        { st with
          symbol_table :=
            st.symbol_table.modify slot
              (fun y => { y with addr := some st.IC, sym_type := sym_type_code_entry }) }
      | _ => { st with error := 1 }
    | none =>
      let dummy : symbol :=
        { dummy with sym_type := sym_type_code, addr := some st.IC, line_def := st.line_count }
      { st with dummy := dummy, symbol_table := gda_insert st.symbol_table dummy }
  else st

/-- The number of words `case tag_inst` adds to `IC`. -/
def first_pass_inst_words (s_struct : syntax_struct) : Nat :=
  let cpu_inst := s_struct.cpu_inst
  1 +
  (if is_i_tag_groupA cpu_inst.i_tag then
    if cpu_inst.group_A.left_and_right_args.1 = tag_arg_tag_register ∧
        cpu_inst.group_A.left_and_right_args.2 = tag_arg_tag_register then 1
    else 2
  else if is_i_tag_groupB cpu_inst.i_tag then
    if cpu_inst.group_B.arg_options = tag_arg_2_args_with_symbol then
      if cpu_inst.group_B.arg_2_symbol.left_and_right_args.1 = tag_arg_tag_register ∧
          cpu_inst.group_B.arg_2_symbol.left_and_right_args.2 = tag_arg_tag_register then 2
      else 3
    else 1
  else 0)

/-- What `DC +=` adds for a `.string` or `.data` directive. -/
def first_pass_data_size (s_struct : syntax_struct) : Nat :=
  if s_struct.asm_directive.d_tag = tag_string then s_struct.asm_directive.string.length + 1
  else s_struct.asm_directive.num_count

/-- The lookup at the head of `case tag_dir`, done for `.extern` and `.entry`:
the directive's symbol is copied to `dummy` and searched. -/
def first_pass_dir_lookup (s_struct : syntax_struct) (st : first_pass_state) :
    first_pass_state :=
  if s_struct.asm_directive.d_tag = tag_extern ∨ s_struct.asm_directive.d_tag = tag_entry then
    let dummy : symbol := { st.dummy with symbol_name := s_struct.asm_directive.symbol }
    { st with
      dummy := dummy
      in_table := gda_search st.symbol_table (symbol_named dummy.symbol_name) }
  else st

/-- The `.extern` branch of `case tag_dir`. -/
def first_pass_extern_dir (st : first_pass_state) : first_pass_state :=
  match st.in_table with
  | some slot =>
    match (st.symbol_table.deref slot).map (·.sym_type) with
    | some sym_type_extern => st
    | _ => { st with error := 1 }
  | none =>
    let dummy : symbol :=
      { st.dummy with sym_type := sym_type_extern, line_def := st.line_count }
    { st with dummy := dummy, symbol_table := gda_insert st.symbol_table dummy }

/-- The `.entry` branch of `case tag_dir`. -/
def first_pass_entry_dir (st : first_pass_state) : first_pass_state :=
  match st.in_table with
  | some slot =>
    match (st.symbol_table.deref slot).map (·.sym_type) with
    | some sym_type_data =>
      { st with
        symbol_table :=
          st.symbol_table.modify slot (fun y => { y with sym_type := sym_type_data_entry }) }
    | some sym_type_code =>
      { st with
        symbol_table :=
          st.symbol_table.modify slot (fun y => { y with sym_type := sym_type_code_entry }) }
    | some sym_type_extern => { st with error := 1 }
    | _ => st
  | none =>
    let dummy : symbol :=
      { st.dummy with sym_type := sym_type_entry, line_def := st.line_count }
    { st with dummy := dummy, symbol_table := gda_insert st.symbol_table dummy }

/-- The `.string` / `.data` branch of `case tag_dir`. -/
def first_pass_data (s_struct : syntax_struct) (st : first_pass_state) : first_pass_state :=
  if s_struct.symbol = [] then st
  else
    let dummy : symbol := { st.dummy with symbol_name := s_struct.symbol }
    let in_table := gda_search st.symbol_table (symbol_named dummy.symbol_name)
    let st := { st with dummy := dummy, in_table := in_table }
    match in_table with
    | some slot =>
      match (st.symbol_table.deref slot).map (·.sym_type) with
      | some sym_type_entry =>
        { st with
          symbol_table :=
            st.symbol_table.modify slot
              (fun y => { y with sym_type := sym_type_data_entry, addr := some st.DC })
          DC := st.DC + first_pass_data_size s_struct }
      | _ => { st with error := 1 }
    | none =>
      let dummy : symbol :=
        { dummy with addr := some st.DC, sym_type := sym_type_data, line_def := st.line_count }
      { st with
        dummy := dummy
        DC := st.DC + first_pass_data_size s_struct
        symbol_table := gda_insert st.symbol_table dummy }

/-- `case tag_dir`. -/
def first_pass_dir (s_struct : syntax_struct) (st : first_pass_state) : first_pass_state :=
  let st := first_pass_dir_lookup s_struct st
  if s_struct.asm_directive.d_tag = tag_extern then first_pass_extern_dir st
  else if s_struct.asm_directive.d_tag = tag_entry then first_pass_entry_dir st
  else if s_struct.asm_directive.d_tag = tag_string ∨
      s_struct.asm_directive.d_tag = tag_data then first_pass_data s_struct st
  else st

/-- The `switch` on the parsed line in the body of the `while` loop. -/
def first_pass_switch (s_struct : syntax_struct) (st : first_pass_state) : first_pass_state :=
  match s_struct.dir_or_inst_tag with
  | tag_syntax_error => { st with error := 1 }
  | tag_inst =>
    let st := first_pass_inst_label s_struct st
    { st with IC := st.IC + first_pass_inst_words s_struct }
  | tag_dir => first_pass_dir s_struct st
  | tag_line_null => st

/-- The parsed line pass 1 works on when `fgets` has just delivered `line`. -/
def first_pass_parse (st : first_pass_state) (line : List Char) : syntax_struct :=
  (lang_engine_create_ss_from_logical_line (fgets_store st.buffer line)).1

/-- One iteration of the `while` loop: `fgets` has delivered `line`. -/
def first_pass_line (st : first_pass_state) (line : List Char) : first_pass_state :=
  let r := lang_engine_create_ss_from_logical_line (fgets_store st.buffer line)
  let st := first_pass_switch r.1 { st with buffer := r.2 }
  { st with line_count := st.line_count + 1 }

/-- The whole `while` loop over the strings `fgets` delivers. -/
def first_pass_scan (st : first_pass_state) (lines : List (List Char)) : first_pass_state :=
  lines.foldl first_pass_line st

/-- The state of the `gda_for_each` loop that closes pass 1. -/
structure first_pass_post_state where
  symbol_table : gda symbol
  in_table : Option Nat
  error : Int
  deriving DecidableEq, Repr

/-- One iteration of the closing `gda_for_each` loop, at slot `slot`.  A
non-null slot is taken as `in_table` and rebased when it is a data symbol.  At
a null slot the `else if` reads `in_table->sym_type`; with `in_table` null the
read is undefined and the result is `none`. -/
def first_pass_post_step (IC : Nat) (ps : first_pass_post_state) (slot : Nat) :
    Option first_pass_post_state :=
  match ps.symbol_table.deref slot with
  | some y =>
    if y.sym_type = sym_type_data ∨ y.sym_type = sym_type_data_entry then
      some { ps with
        in_table := some slot
        symbol_table :=
          ps.symbol_table.modify slot (fun y => { y with addr := y.addr.map (· + IC) }) }
    else some { ps with in_table := some slot }
  | none =>
    match ps.in_table with
    | none => none
    | some p =>
      match ps.symbol_table.deref p with
      | none => none
      | some y =>
        if y.sym_type = sym_type_entry then some { ps with error := 1 } else some ps

/-- The closing `gda_for_each` loop over the slots `slots`. -/
def first_pass_post (IC : Nat) : List Nat → first_pass_post_state →
    Option first_pass_post_state
  | [], ps => some ps
  | slot :: rest, ps =>
    match first_pass_post_step IC ps slot with
    | none => none
    | some ps => first_pass_post IC rest ps

/-- The part of pass 1 after the `while` loop, from the state the loop left. -/
def first_pass_finish (st : first_pass_state) : Option first_pass_post_state :=
  first_pass_post st.IC (List.range st.symbol_table.pointers_count)
    { symbol_table := st.symbol_table, in_table := st.in_table, error := st.error }

/-- `assembler_first_pass_symbol_table(symbol_table, am_file, file_name)`: the
returned error flag and the symbol table as the call leaves it, or `none`
when the closing loop reads through a null `in_table`. -/
def assembler_first_pass_symbol_table (symbol_table : gda symbol) (am_file : List Char) :
    Option (Int × gda symbol) :=
  (first_pass_finish (first_pass_scan (first_pass_init symbol_table)
    (file_lines am_file))).map (fun ps => (ps.error, ps.symbol_table))

/-! ## Pass 2: `assembler_second_pass` -/

/-- Conversion to `unsigned short`: the value modulo `2^16`. -/
def to_ushort (v : Int) : Nat :=
  (v % 65536).toNat

/-- Conversion of a `char` of the line to `unsigned short` (`char` is signed). -/
def char_to_ushort (c : Char) : Nat :=
  if c.toNat < 128 then c.toNat else to_ushort ((c.toNat : Int) - 256)

/-- The locals of `assembler_second_pass` that live across statements, with the
translation unit.  `i` is declared without initialiser: `none` until a loop
assigns it. -/
structure second_pass_state where
  t_unit : translation_unit
  buffer : List Char
  bmc_code_i : Nat
  line_counter : Nat
  i : Option Int
  error : Int
  deriving DecidableEq, Repr

/-- `gda_insert(t_unit->bmc_code, &bmc_code_i)`. -/
def emit_code (st : second_pass_state) : second_pass_state :=
  { st with t_unit := { st.t_unit with bmc_code := gda_insert st.t_unit.bmc_code st.bmc_code_i } }

/-- `gda_insert(t_unit->bmc_data, &bmc_code_i)`. -/
def emit_data (st : second_pass_state) : second_pass_state :=
  { st with t_unit := { st.t_unit with bmc_data := gda_insert st.t_unit.bmc_data st.bmc_code_i } }

/-- The block that records a reference to the external symbol `name`:
`temp = gda_size(bmc_code) + PROG_BASE_ADDR` is appended to the addresses of the
entry of that name, which is created when `gda_search` finds none. -/
def record_extern_use (tu : translation_unit) (name : List Char) : translation_unit :=
  let temp := (gda_size tu.bmc_code + PROG_BASE_ADDR) % 65536
  match gda_search tu.extern_usage (fun e => e.symbol_name = name) with
  | some e_call_find =>
    { tu with
      extern_usage :=
        tu.extern_usage.modify e_call_find
          (fun e => { e with addresses := gda_insert e.addresses temp }) }
  | none =>
    { tu with
      extern_usage :=
        gda_insert tu.extern_usage
          { symbol_name := name, addresses := gda_insert gda_create temp } }

/-- The `case tag_arg_tag_symbol` block: look the name up; when it is absent set
`error`, when it is external store 1 in `bmc_code_i` and record the use,
otherwise store `(addr << 2) | 2`.  The flag tells whether the symbol was
found.  An address that was never assigned gives no defined word. -/
def symbol_operand (st : second_pass_state) (name : List Char) :
    Option (second_pass_state × Bool) :=
  match gda_search st.t_unit.symbol_table (symbol_named name) with
  | none => some ({ st with error := 1 }, false)
  | some slot =>
    match st.t_unit.symbol_table.deref slot with
    | none => none
    | some f_sym =>
      if f_sym.sym_type = sym_type_extern then
        some ({ st with
                bmc_code_i := 1
                t_unit := record_extern_use st.t_unit f_sym.symbol_name }, true)
      else
        f_sym.addr.map
          (fun addr => ({ st with bmc_code_i := ((addr <<< 2) ||| 2) % 65536 }, true))

/-- `register_number << count` stored in `bmc_code_i`; a count outside `0..31`
is undefined. -/
def register_word (register_number : Int) (count : Int) : Option Nat :=
  if 0 ≤ count ∧ count < 32 then some (to_ushort (register_number * 2 ^ count.toNat))
  else none

/-- The `switch` on an operand tag that computes the operand word into
`bmc_code_i`; `count` is the shift count the register case uses. -/
def operand_switch (st : second_pass_state) (opt : argument_option) (a : arg_union)
    (count : Option Int) : Option second_pass_state :=
  match opt with
  | tag_arg_tag_register =>
    match count with
    | none => none
    | some count =>
      (register_word a.register_number count).map (fun w => { st with bmc_code_i := w })
  | tag_arg_tag_constant => some { st with bmc_code_i := to_ushort (a.constant_number * 4) }
  | tag_arg_tag_symbol => (symbol_operand st a.symbol).map (·.1)

/-- The loop `for(i=0;i<2;i++)` that emits one word per operand. -/
def operand_loop (st : second_pass_state) (args : argument_option × argument_option)
    (opts : arg_union × arg_union) : Option second_pass_state :=
  match operand_switch { st with i := some 0 } args.1 opts.1 (some (8 - 0 * 6)) with
  | none => none
  | some st =>
    let st := emit_code st
    match operand_switch { st with i := some 1 } args.2 opts.2 (some (8 - 1 * 6)) with
    | none => none
    | some st => some { emit_code st with i := some 2 }

/-- The shared word of two register operands. -/
def shared_register_word (opts : arg_union × arg_union) : Nat :=
  to_ushort ((opts.1.register_number * 2 ^ 8).lor (opts.2.register_number * 2 ^ 2))

/-- `case tag_inst` of pass 2. -/
def second_pass_inst (s_struct : syntax_struct) (st : second_pass_state) :
    Option second_pass_state :=
  let cpu_inst := s_struct.cpu_inst
  let st := { st with bmc_code_i := (cpu_inst.i_tag.toNat <<< 6) % 65536 }
  if is_i_tag_groupA cpu_inst.i_tag then
    let gA := cpu_inst.group_A
    let st := { st with bmc_code_i :=
      (st.bmc_code_i ||| (gA.left_and_right_args.1.toNat <<< 4) |||
        (gA.left_and_right_args.2.toNat <<< 2)) % 65536 }
    let st := emit_code st
    if gA.left_and_right_args.1 = tag_arg_tag_register ∧
        gA.left_and_right_args.2 = tag_arg_tag_register then
      some (emit_code { st with bmc_code_i := shared_register_word gA.arg_option })
    else operand_loop st gA.left_and_right_args gA.arg_option
  else if is_i_tag_groupB cpu_inst.i_tag then
    let gB := cpu_inst.group_B
    if gB.arg_options = tag_arg_2_args_with_symbol then
      let a2 := gB.arg_2_symbol
      let st := { st with bmc_code_i :=
        (st.bmc_code_i ||| (2 <<< 2) ||| (a2.left_and_right_args.1.toNat <<< 12) |||
          (a2.left_and_right_args.2.toNat <<< 10)) % 65536 }
      let st := emit_code st
      match symbol_operand st a2.symbol with
      | none => none
      | some r =>
        let st := if r.2 then emit_code r.1 else r.1
        if a2.left_and_right_args.1 = tag_arg_tag_register ∧
            a2.left_and_right_args.2 = tag_arg_tag_register then
          some (emit_code { st with bmc_code_i := shared_register_word a2.arg_2_args_options })
        else operand_loop st a2.left_and_right_args a2.arg_2_args_options
    else
      let rest := gB.rest_of_group_b
      let st := { st with bmc_code_i := (st.bmc_code_i ||| (rest.arg_opt.toNat <<< 2)) % 65536 }
      let st := emit_code st
      (operand_switch st rest.arg_opt rest.arg_option (st.i.map (fun i => 8 - i * 6))).map
        emit_code
  else some (emit_code st)

/-- The `.string` loop: one data word per character. -/
def string_loop (st : second_pass_state) : List Char → second_pass_state
  | [] => st
  | c :: cs => string_loop (emit_data { st with bmc_code_i := char_to_ushort c }) cs

/-- The `.data` loop `for(i=0;i<num_count;i++)`; `fuel` is the number of
iterations left.  A read of `num_array[i]` outside what the parser wrote is
undefined. -/
def data_loop (num_array : List Int) : Nat → Nat → second_pass_state →
    Option second_pass_state
  | 0, i, st => some { st with i := some (i : Int) }
  | fuel + 1, i, st =>
    match num_array.get? i with
    | none => none
    | some v =>
      data_loop num_array fuel (i + 1)
        (emit_data { st with i := some (i : Int), bmc_code_i := to_ushort v })

/-- `case tag_dir` of pass 2. -/
def second_pass_dir (s_struct : syntax_struct) (st : second_pass_state) :
    Option second_pass_state :=
  let d := s_struct.asm_directive
  if d.d_tag = tag_string then
    some (emit_data { string_loop st d.string with bmc_code_i := 0 })
  else if d.d_tag = tag_data then data_loop d.num_array d.num_count 0 st
  else some st

/-- One iteration of the `while` loop of pass 2: `fgets` has delivered `line`. -/
def second_pass_line (st : second_pass_state) (line : List Char) : Option second_pass_state :=
  let r := lang_engine_create_ss_from_logical_line (fgets_store st.buffer line)
  let st := { st with buffer := r.2 }
  let next : Option second_pass_state :=
    match r.1.dir_or_inst_tag with
    | tag_syntax_error => some st
    | tag_line_null => some st
    | tag_inst => second_pass_inst r.1 st
    | tag_dir => second_pass_dir r.1 st
  next.map (fun st => { st with line_counter := st.line_counter + 1 })

/-- The whole `while` loop of pass 2. -/
def second_pass_scan : List (List Char) → second_pass_state → Option second_pass_state
  | [], st => some st
  | line :: rest, st =>
    match second_pass_line st line with
    | none => none
    | some st => second_pass_scan rest st

/-- The locals at loop entry. -/
def second_pass_init (t_unit : translation_unit) : second_pass_state :=
  { t_unit := t_unit, buffer := buffer_init, bmc_code_i := 0, line_counter := 1, i := none,
    error := 0 }

/-- `assembler_second_pass(t_unit, am_file, file_name)`: the returned error flag
and the translation unit as the call leaves it, or `none` when the run meets
undefined behaviour. -/
def assembler_second_pass (t_unit : translation_unit) (am_file : List Char) :
    Option (Int × translation_unit) :=
  (second_pass_scan (file_lines am_file) (second_pass_init t_unit)).map
    (fun st => (st.error, st.t_unit))

/-! ## The driver `assemble`, for one file -/

/-- What `assemble` does with one opened `.am` file: pass 1 on a fresh
translation unit, then pass 2 when pass 1 returned 0.  The result is the
translation unit handed to `out_print_translation_unit`, `some none` when no
output is written, and `none` when a pass meets undefined behaviour. -/
def assemble_file (am_file : List Char) : Option (Option translation_unit) :=
  let t_unit := assembler_create_new_translation_unit
  match assembler_first_pass_symbol_table t_unit.symbol_table am_file with
  | none => none
  | some (e1, symbol_table) =>
    if e1 = 0 then
      match assembler_second_pass { t_unit with symbol_table := symbol_table } am_file with
      | none => none
      | some (e2, t_unit) => if e2 = 0 then some (some t_unit) else some none
    else some none

/-! ## Auxiliary definitions for the statements -/

/-- The symbol `gda_search` finds in the table under `name`. -/
def find_symbol (symbol_table : gda symbol) (name : List Char) : Option symbol :=
  (gda_search symbol_table (symbol_named name)).bind symbol_table.deref

/-- The six-line example program of the specification. -/
def example_program : List Char :=
  ("MAIN: mov r1, r2\n" ++ "      .data 5, -3, 17\n" ++ "LEN:  .string " ++
    String.mk [DQUOTE, 'h', 'i', DQUOTE] ++ "\n" ++ "      .extern X\n" ++ "      jmp X\n" ++
    "      .entry MAIN\n").toList

/-- The symbol table pass 1 leaves for `example_program`. -/
def example_symbol_table : gda symbol :=
  { pointer_array :=
      [ some ⟨"MAIN".toList, some 100, sym_type_code_entry, 1⟩,
        some ⟨"LEN".toList, some 104, sym_type_data, 3⟩,
        some ⟨"X".toList, some 0, sym_type_extern, 4⟩,
        none ]
    elem_count := 3 }

/-- A program that declares `X` with `.entry`, never defines it, and defines `A`. -/
def undefined_entry_program : List Char :=
  ".entry X\nA: stop\n".toList

/-- A name of 31 characters. -/
def name_of_31 : List Char :=
  "abcdefghijklmnopqrstuvwxyz01234".toList

/-- The array `g` holds exactly the elements `l`, in the slots `0 .. l.length - 1`,
every later slot is null, `elem_count` is right and the array is not empty: the
shape of every array built by `gda_create` and `gda_insert`. -/
def gda.holds {α : Type} (g : gda α) (l : List α) : Prop :=
  ∃ k, g.pointer_array = l.map some ++ List.replicate k none ∧ g.elem_count = l.length ∧
    0 < l.length + k

/-- How pass 1 may change a symbol that is in the table: the name stays, and
once the symbol is more than a bare Entry its address stays and its type can
only go from Data to DataEntry or from Code to CodeEntry. -/
def symbol_evolves (y y' : symbol) : Prop :=
  y'.symbol_name = y.symbol_name ∧
    (y.sym_type ≠ sym_type_entry →
      y'.addr = y.addr ∧
        (y'.sym_type = y.sym_type ∨
          (y.sym_type = sym_type_data ∧ y'.sym_type = sym_type_data_entry) ∨
          (y.sym_type = sym_type_code ∧ y'.sym_type = sym_type_code_entry)))

/-- How pass 1 may change the symbol table: it keeps its shape and every symbol
it holds stays in it, changed at most as `symbol_evolves` allows. -/
def table_evolves (g g' : gda symbol) : Prop :=
  ∀ l, g.holds l →
    (∃ l', g'.holds l') ∧
      ∀ name y, find_symbol g name = some y →
        ∃ y', find_symbol g' name = some y' ∧ symbol_evolves y y'

/-- The address change the closing loop of pass 1 makes to a symbol: data
symbols are rebased by the final instruction counter. -/
def rebase_symbol (IC : Nat) (y : symbol) : symbol :=
  if y.sym_type = sym_type_data ∨ y.sym_type = sym_type_data_entry then
    { y with addr := y.addr.map (· + IC) }
  else y

/-- The state pass 1 is in after the lines `pre`. -/
def first_pass_state_after (pre : List (List Char)) : first_pass_state :=
  first_pass_scan (first_pass_init gda_create) pre

/-- A program that defines `X` as the label of a `.data` line, names it in
`.entry`, and then uses `X` as the label of an instruction line. -/
def data_then_code_program : List Char :=
  "X: .data 5\n.entry X\nX: stop\n".toList

/-- The only change from `b` to `b'` is that some characters were overwritten
with NUL: the length is the same and every character of `b'` is the one at the
same index of `b` or NUL. -/
def only_nul_written (b b' : List Char) : Prop :=
  b'.length = b.length ∧ ∀ i, charAt b' i = charAt b i ∨ charAt b' i = END_LINE

/-- A program with one Group B instruction in the indexed form, both index
operands registers. -/
def indexed_registers_program : List Char :=
  "L: .data 1\n jmp L(r1,r2)\n".toList

/-- A program with one Group B instruction in the indexed form, one index
operand a constant. -/
def indexed_constant_program : List Char :=
  "L: .data 1\n jmp L(r1,#5)\n".toList

/-- The character of the decimal digit `d`. -/
def digit_char (d : Nat) : Char :=
  Char.ofNat (48 + d)

/-- The base-10 literal of a natural number, most significant digit first. -/
def decimal_nat (m : Nat) : List Char :=
  if m = 0 then ['0'] else (Nat.digits 10 m).reverse.map digit_char

/-- The base-10 literal of an integer: a minus sign for a negative number, then
the digits of the absolute value. -/
def decimal (n : Int) : List Char :=
  if n < 0 then '-' :: decimal_nat n.natAbs else decimal_nat n.natAbs

/-- The parsed line `s` defines `name` as a data label in the table `tbl`: it
is a `.data` or `.string` directive labeled `name`, and the table holds `name`
not at all or as a bare Entry. -/
def defines_data (s : syntax_struct) (tbl : gda symbol) (name : List Char) : Prop :=
  s.dir_or_inst_tag = tag_dir ∧
    (s.asm_directive.d_tag = tag_data ∨ s.asm_directive.d_tag = tag_string) ∧
    s.symbol = name ∧ name ≠ [] ∧
    (find_symbol tbl name = none ∨
      ∃ y, find_symbol tbl name = some y ∧ y.sym_type = sym_type_entry)

/-- The parsed line `s` defines `name` as a code label in the table `tbl`: it
is an instruction labeled `name`, and the table holds `name` not at all or as
a bare Entry. -/
def defines_code (s : syntax_struct) (tbl : gda symbol) (name : List Char) : Prop :=
  s.dir_or_inst_tag = tag_inst ∧ s.symbol = name ∧ name ≠ [] ∧
    (find_symbol tbl name = none ∨
      ∃ y, find_symbol tbl name = some y ∧ y.sym_type = sym_type_entry)

/-- Where the address of a symbol `new` that a line leaves in the table comes
from, `old` being the symbol the table held under that name before the line: a
data symbol was a data symbol with that address already, or the line defines it
at the data counter `DC`; a code symbol was a code symbol with that address
already, or the line defines it at the instruction counter `IC`. -/
def line_origin (s : syntax_struct) (tbl : gda symbol) (IC DC : Nat) (old : Option symbol)
    (new : symbol) : Prop :=
  ((new.sym_type = sym_type_data ∨ new.sym_type = sym_type_data_entry) →
      (∃ y, old = some y ∧ (y.sym_type = sym_type_data ∨ y.sym_type = sym_type_data_entry) ∧
        new.addr = y.addr) ∨
      (defines_data s tbl new.symbol_name ∧ new.addr = some DC)) ∧
    ((new.sym_type = sym_type_code ∨ new.sym_type = sym_type_code_entry) →
      (∃ y, old = some y ∧ (y.sym_type = sym_type_code ∨ y.sym_type = sym_type_code_entry) ∧
        new.addr = y.addr) ∨
      (defines_code s tbl new.symbol_name ∧ new.addr = some IC))

/-- The three ways one line of pass 1 changes the symbol table: not at all, by
inserting a symbol under a name the table does not hold, or by a store to the
symbol found under a name; `origin` relates the symbol held before to the
symbol held after. -/
def table_step (origin : Option symbol → symbol → Prop) (g g' : gda symbol) : Prop :=
  g' = g ∨
    (∃ x, find_symbol g x.symbol_name = none ∧ g' = gda_insert g x ∧ origin none x) ∨
    (∃ slot y f, gda_search g (symbol_named y.symbol_name) = some slot ∧
      g.deref slot = some y ∧ (∀ z : symbol, (f z).symbol_name = z.symbol_name) ∧
      g' = g.modify slot f ∧ origin (some y) (f y))

/-- The address of the symbol `y`, held in the table after the lines `lines`
of pass 1, was recorded at its definition: for a data symbol there is a line
that defines it and its address is the data counter before that line; for a
code symbol there is a line that defines it and its address is the instruction
counter before that line. -/
def address_recorded (lines : List (List Char)) (y : symbol) : Prop :=
  ((y.sym_type = sym_type_data ∨ y.sym_type = sym_type_data_entry) →
      ∃ pre line post, lines = pre ++ line :: post ∧
        defines_data (first_pass_parse (first_pass_state_after pre) line)
          (first_pass_state_after pre).symbol_table y.symbol_name ∧
        y.addr = some (first_pass_state_after pre).DC) ∧
    ((y.sym_type = sym_type_code ∨ y.sym_type = sym_type_code_entry) →
      ∃ pre line post, lines = pre ++ line :: post ∧
        defines_code (first_pass_parse (first_pass_state_after pre) line)
          (first_pass_state_after pre).symbol_table y.symbol_name ∧
        y.addr = some (first_pass_state_after pre).IC)

/-- The entry of the extern-usage map under the name `X`: the first element of
that name. -/
def extern_entry (tu : translation_unit) (X : List Char) : Option extern_call :=
  tu.extern_usage.elems.find? (fun e => e.symbol_name = X)

/-- The addresses the extern-usage map holds under the name `X`, in the order
of the array; none when there is no entry. -/
def extern_addresses (tu : translation_unit) (X : List Char) : List Nat :=
  match extern_entry tu X with
  | some e => e.addresses.elems
  | none => []

/-- The shape of the extern-usage map pass 2 builds: an array in the shape of
`gda.holds` whose entries have pairwise different names and address arrays of
that shape too. -/
def extern_usage_ok (g : gda extern_call) : Prop :=
  ∃ l, g.holds l ∧ (l.map (fun e => e.symbol_name)).Nodup ∧
    ∀ e ∈ l, ∃ a, e.addresses.holds a

/-- The table holds `name` with type External. -/
def is_external (tbl : gda symbol) (name : List Char) : Bool :=
  match find_symbol tbl name with
  | some y => decide (y.sym_type = sym_type_extern)
  | none => false

/-- The reference an operand records in the extern-usage map when `n` code
words have been emitted: a Symbol operand that names an external symbol
records the address `n + 100`, as an `unsigned short`. -/
def operand_refs (tbl : gda symbol) (n : Nat) (opt : argument_option) (a : arg_union) :
    List (List Char × Nat) :=
  if opt = tag_arg_tag_symbol ∧ is_external tbl a.symbol = true then
    [(a.symbol, (n + PROG_BASE_ADDR) % 65536)]
  else []

/-- The operand is a Symbol whose name the table does not hold. -/
def operand_undefined (tbl : gda symbol) (opt : argument_option) (a : arg_union) : Bool :=
  decide (opt = tag_arg_tag_symbol) && (find_symbol tbl a.symbol).isNone

/-- The addresses among `refs` recorded for the name `X`, in order. -/
def refs_of (refs : List (List Char × Nat)) (X : List Char) : List Nat :=
  (refs.filter (fun r => r.1 = X)).map (fun r => r.2)

/-- What a stretch of pass 2 does to the translation unit and the error flag:
the symbol table stays, the code words `ws` are appended, the references
`refs` are appended to the extern-usage map under their names, and the error
flag is set when `undef` holds and kept otherwise. -/
def pass2_effect (st st' : second_pass_state) (ws : List Nat) (refs : List (List Char × Nat))
    (undef : Bool) : Prop :=
  st'.t_unit.symbol_table = st.t_unit.symbol_table ∧
    gda_size st'.t_unit.bmc_code = gda_size st.t_unit.bmc_code + ws.length ∧
    (∀ c, st.t_unit.bmc_code.holds c → st'.t_unit.bmc_code.holds (c ++ ws)) ∧
    (extern_usage_ok st.t_unit.extern_usage →
      extern_usage_ok st'.t_unit.extern_usage ∧
        ∀ X, extern_addresses st'.t_unit X = extern_addresses st.t_unit X ++ refs_of refs X) ∧
    st'.error = (if undef = true then 1 else st.error)

/-- The operand word pass 2 computes for an operand: a register shifted by
`count`, a constant shifted by 2, 1 for an external symbol, the address shifted
by 2 with the bits `10` for any other symbol of the table; for a symbol the
table does not hold nothing is computed and the word is what `bmc_code_i` held
before, `stale`.  There is no word when the shift count or the address is not
defined. -/
def operand_word (tbl : gda symbol) (opt : argument_option) (a : arg_union)
    (count : Option Int) (stale : Nat) : Option Nat :=
  match opt with
  | tag_arg_tag_register => count.bind (register_word a.register_number)
  | tag_arg_tag_constant => some (to_ushort (a.constant_number * 4))
  | tag_arg_tag_symbol =>
    match find_symbol tbl a.symbol with
    | none => some stale
    | some y =>
      if y.sym_type = sym_type_extern then some 1
      else y.addr.map (fun addr => ((addr <<< 2) ||| 2) % 65536)

/-- The opcode word pass 2 computes for a parsed instruction: the tag shifted
by 6, with the operand modes of the instruction's form. -/
def opcode_word (s : syntax_struct) : Nat :=
  if is_i_tag_groupA s.cpu_inst.i_tag then
    ((s.cpu_inst.i_tag.toNat <<< 6) % 65536 |||
      (s.cpu_inst.group_A.left_and_right_args.1.toNat <<< 4) |||
      (s.cpu_inst.group_A.left_and_right_args.2.toNat <<< 2)) % 65536
  else if is_i_tag_groupB s.cpu_inst.i_tag then
    if s.cpu_inst.group_B.arg_options = tag_arg_2_args_with_symbol then
      ((s.cpu_inst.i_tag.toNat <<< 6) % 65536 ||| (2 <<< 2) |||
        (s.cpu_inst.group_B.arg_2_symbol.left_and_right_args.1.toNat <<< 12) |||
        (s.cpu_inst.group_B.arg_2_symbol.left_and_right_args.2.toNat <<< 10)) % 65536
    else
      ((s.cpu_inst.i_tag.toNat <<< 6) % 65536 |||
        (s.cpu_inst.group_B.rest_of_group_b.arg_opt.toNat <<< 2)) % 65536
  else (s.cpu_inst.i_tag.toNat <<< 6) % 65536

/-- The operands of a parsed instruction that pass 2 treats one by one, in
that order, each with the number of code words the instruction has emitted
when the operand is treated: the two operands of a Group A instruction unless
both are registers; the base symbol of the indexed form, and its two index
operands unless both are registers; the operand of the single-operand form.
The base symbol gets a word only when the table holds it. -/
def operand_slots (tbl : gda symbol) (s : syntax_struct) :
    List (argument_option × arg_union × Nat) :=
  if is_i_tag_groupA s.cpu_inst.i_tag then
    if s.cpu_inst.group_A.left_and_right_args.1 = tag_arg_tag_register ∧
        s.cpu_inst.group_A.left_and_right_args.2 = tag_arg_tag_register then []
    else
      [(s.cpu_inst.group_A.left_and_right_args.1, s.cpu_inst.group_A.arg_option.1, 1),
        (s.cpu_inst.group_A.left_and_right_args.2, s.cpu_inst.group_A.arg_option.2, 2)]
  else if is_i_tag_groupB s.cpu_inst.i_tag then
    if s.cpu_inst.group_B.arg_options = tag_arg_2_args_with_symbol then
      (tag_arg_tag_symbol, { symbol := s.cpu_inst.group_B.arg_2_symbol.symbol }, 1) ::
        (if s.cpu_inst.group_B.arg_2_symbol.left_and_right_args.1 = tag_arg_tag_register ∧
            s.cpu_inst.group_B.arg_2_symbol.left_and_right_args.2 = tag_arg_tag_register then []
          else
            [(s.cpu_inst.group_B.arg_2_symbol.left_and_right_args.1,
                s.cpu_inst.group_B.arg_2_symbol.arg_2_args_options.1,
                if (find_symbol tbl s.cpu_inst.group_B.arg_2_symbol.symbol).isSome then 2 else 1),
              (s.cpu_inst.group_B.arg_2_symbol.left_and_right_args.2,
                s.cpu_inst.group_B.arg_2_symbol.arg_2_args_options.2,
                if (find_symbol tbl s.cpu_inst.group_B.arg_2_symbol.symbol).isSome then 3 else 2)])
    else
      [(s.cpu_inst.group_B.rest_of_group_b.arg_opt,
        s.cpu_inst.group_B.rest_of_group_b.arg_option, 1)]
  else []

/-- The references an instruction records in the extern-usage map when `n` code
words have been emitted before it, in order. -/
def inst_refs (tbl : gda symbol) (n : Nat) (s : syntax_struct) : List (List Char × Nat) :=
  (operand_slots tbl s).flatMap (fun slot => operand_refs tbl (n + slot.2.2) slot.1 slot.2.1)

/-- One of the operands of the instruction is a Symbol whose name the table
does not hold. -/
def inst_undefined (tbl : gda symbol) (s : syntax_struct) : Bool :=
  (operand_slots tbl s).any (fun slot => operand_undefined tbl slot.1 slot.2.1)

/-- The parsed line pass 2 works on when `fgets` has just delivered `line`. -/
def second_pass_parse (st : second_pass_state) (line : List Char) : syntax_struct :=
  (lang_engine_create_ss_from_logical_line (fgets_store st.buffer line)).1

/-- The parsed lines a pass works on for the strings `fgets` delivers, the line
buffer holding `buffer` before the first of them. -/
def parsed_lines : List (List Char) → List Char → List syntax_struct
  | [], _ => []
  | line :: rest, buffer =>
    (lang_engine_create_ss_from_logical_line (fgets_store buffer line)).1 ::
      parsed_lines rest (lang_engine_create_ss_from_logical_line (fgets_store buffer line)).2

/-- The references a parsed line records in the extern-usage map when `n` code
words have been emitted before it: those of its operands when it is an
instruction, none otherwise. -/
def line_refs (tbl : gda symbol) (n : Nat) (s : syntax_struct) : List (List Char × Nat) :=
  if s.dir_or_inst_tag = tag_inst then inst_refs tbl n s else []

/-- The parsed line is an instruction with a Symbol operand whose name the
table does not hold. -/
def line_undefined (tbl : gda symbol) (s : syntax_struct) : Bool :=
  decide (s.dir_or_inst_tag = tag_inst) && inst_undefined tbl s

/-- The number of operands of a parsed line that name the external symbol `X`:
the number of references to `X` in the line. -/
def reference_count (tbl : gda symbol) (X : List Char) (s : syntax_struct) : Nat :=
  if s.dir_or_inst_tag = tag_inst then
    ((operand_slots tbl s).filter (fun slot =>
      decide (slot.1 = tag_arg_tag_symbol) && decide (slot.2.1.symbol = X) &&
        is_external tbl X)).length
  else 0

/-- Two results of a stretch of pass 2 that differ at most in the error flag:
both undefined, or both defined with the same translation unit and the same
other locals. -/
def same_but_error (a b : Option second_pass_state) : Prop :=
  a.map (fun s => (s.t_unit, s.buffer, s.bmc_code_i, s.line_counter, s.i)) =
    b.map (fun s => (s.t_unit, s.buffer, s.bmc_code_i, s.line_counter, s.i))

/-- Every symbol of the table that is not external has had an address
assigned. -/
def addresses_assigned (tbl : gda symbol) : Prop :=
  ∀ y ∈ tbl.elems, y.sym_type ≠ sym_type_extern → y.addr ≠ none

/-- The parsed instruction is a Group B instruction in the single-operand form
with a register operand: the one form whose operand word is shifted by a count
taken from the loop counter `i` as earlier lines left it. -/
def single_register_form (s : syntax_struct) : Prop :=
  is_i_tag_groupB s.cpu_inst.i_tag = true ∧
    s.cpu_inst.group_B.arg_options ≠ tag_arg_2_args_with_symbol ∧
    s.cpu_inst.group_B.rest_of_group_b.arg_opt = tag_arg_tag_register

/-- The value of the bits `hi .. lo` of the word `w`. -/
def bits (w hi lo : Nat) : Nat :=
  w / 2 ^ lo % 2 ^ (hi + 1 - lo)

/-- The state in which pass 2 treats the instruction of the line `line`: the
state `st` after `fgets` and the parser have worked on the line buffer. -/
def second_pass_at (st : second_pass_state) (line : List Char) : second_pass_state :=
  { st with
    buffer := (lang_engine_create_ss_from_logical_line (fgets_store st.buffer line)).2 }

/-- The translation unit pass 2 starts from for the example program: fresh, with
the symbol table pass 1 returned. -/
def example_unit : translation_unit :=
  { assembler_create_new_translation_unit with symbol_table := example_symbol_table }

/-- A program that declares `X` external and refers to it twice. -/
def extern_twice_program : List Char :=
  ".extern X\n jmp X\n prn X\n".toList

/-- The translation unit pass 2 starts from for `extern_twice_program`: fresh,
with the symbol table pass 1 returned. -/
def extern_twice_start : translation_unit :=
  { assembler_create_new_translation_unit with
    symbol_table :=
      { pointer_array := [some ⟨"X".toList, none, sym_type_extern, 1⟩, none], elem_count := 1 } }

/-- The translation unit pass 2 leaves for `extern_twice_program`. -/
def extern_twice_unit : translation_unit :=
  { symbol_table := extern_twice_start.symbol_table
    bmc_code := { pointer_array := [some 580, some 1, some 772, some 1], elem_count := 4 }
    bmc_data := gda_create
    extern_usage :=
      { pointer_array :=
          [some ⟨"X".toList, { pointer_array := [some 101, some 103], elem_count := 2 }⟩, none]
        elem_count := 1 } }

/-- A program whose first line names a symbol that no line defines. -/
def undefined_symbol_program : List Char :=
  "jmp NOPE\n stop\n".toList

/-- The translation unit pass 2 leaves for `undefined_symbol_program`, started
from a fresh one. -/
def undefined_symbol_unit : translation_unit :=
  { assembler_create_new_translation_unit with
    bmc_code := { pointer_array := [some 580, some 580, some 960, none], elem_count := 3 } }

/-- Pass 2 treats the parsed line with defined behaviour whatever the loop
counter holds: as an instruction it is not in the single-operand form of Group
B with a register operand, and as a `.data` directive it has all the numbers
it counts in `num_array`. -/
def line_defined (s : syntax_struct) : Prop :=
  (s.dir_or_inst_tag = tag_inst → ¬single_register_form s) ∧
    (s.dir_or_inst_tag = tag_dir → s.asm_directive.d_tag = tag_data →
      s.asm_directive.num_count ≤ s.asm_directive.num_array.length)

/-- The line `.extern X`, as `fgets` delivers it. -/
def extern_X_line : List Char :=
  ".extern X\n".toList

/-- The line `prn X`, as `fgets` delivers it. -/
def prn_X_line : List Char :=
  " prn X\n".toList

/-- The line buffer of pass 2 when `fgets` has stored `prn X` over what the
parser left of `.extern X`. -/
def prn_X_buffer : List Char :=
  fgets_store (lang_engine_create_ss_from_logical_line (fgets_store buffer_init extern_X_line)).2
    prn_X_line

/-- The two words the loop over the two operands computes: the first with the
word `stale` in `bmc_code_i`, the second with the first word there. -/
def operand_loop_words (tbl : gda symbol) (args : argument_option × argument_option)
    (opts : arg_union × arg_union) (stale : Nat) : Option (List Nat) :=
  (operand_word tbl args.1 opts.1 (some (8 - 0 * 6)) stale).bind (fun w1 =>
    (operand_word tbl args.2 opts.2 (some (8 - 1 * 6)) w1).map (fun w2 => [w1, w2]))

/-- The words pass 2 appends for a parsed instruction after its opcode word,
`i` being the loop counter as earlier lines left it: the shared register word
or one word per operand for Group A; the word of the base symbol (when the
table holds it) and then the shared register word or one word per index
operand for the indexed form; the operand word for the single-operand form;
nothing for Group C. -/
def inst_operand_words (tbl : gda symbol) (s : syntax_struct) (i : Option Int) :
    Option (List Nat) :=
  if is_i_tag_groupA s.cpu_inst.i_tag then
    if s.cpu_inst.group_A.left_and_right_args.1 = tag_arg_tag_register ∧
        s.cpu_inst.group_A.left_and_right_args.2 = tag_arg_tag_register then
      some [shared_register_word s.cpu_inst.group_A.arg_option]
    else
      operand_loop_words tbl s.cpu_inst.group_A.left_and_right_args
        s.cpu_inst.group_A.arg_option (opcode_word s)
  else if is_i_tag_groupB s.cpu_inst.i_tag then
    if s.cpu_inst.group_B.arg_options = tag_arg_2_args_with_symbol then
      (operand_word tbl tag_arg_tag_symbol { symbol := s.cpu_inst.group_B.arg_2_symbol.symbol }
        none (opcode_word s)).bind (fun wb =>
          if s.cpu_inst.group_B.arg_2_symbol.left_and_right_args.1 = tag_arg_tag_register ∧
              s.cpu_inst.group_B.arg_2_symbol.left_and_right_args.2 = tag_arg_tag_register then
            some ((if (find_symbol tbl s.cpu_inst.group_B.arg_2_symbol.symbol).isSome then [wb]
                else []) ++
              [shared_register_word s.cpu_inst.group_B.arg_2_symbol.arg_2_args_options])
          else
            (operand_loop_words tbl s.cpu_inst.group_B.arg_2_symbol.left_and_right_args
              s.cpu_inst.group_B.arg_2_symbol.arg_2_args_options wb).map (fun ws =>
                (if (find_symbol tbl s.cpu_inst.group_B.arg_2_symbol.symbol).isSome then [wb]
                  else []) ++ ws))
    else
      (operand_word tbl s.cpu_inst.group_B.rest_of_group_b.arg_opt
        s.cpu_inst.group_B.rest_of_group_b.arg_option (i.map (fun i => 8 - i * 6))
        (opcode_word s)).map (fun w => [w])
  else some []

/-- A program whose data symbol `L` gets the address 16384: the line
`L: .data 5`, the line `.extern X`, the line `jmp L` and 8141 lines `prn X`,
which make 16284 code words in all. -/
def far_symbol_lines : List (List Char) :=
  ["L: .data 5\n".toList, extern_X_line, " jmp L\n".toList] ++ List.replicate 8141 prn_X_line

/-- The symbol table pass 1 returns for `far_symbol_lines`. -/
def far_symbol_table : gda symbol :=
  { pointer_array :=
      [some ⟨"L".toList, some 16384, sym_type_data, 1⟩,
        some ⟨"X".toList, some 0, sym_type_extern, 2⟩]
    elem_count := 2 }

/-- The state of pass 1 after the first three lines of `far_symbol_lines`. -/
def far_symbol_first : first_pass_state :=
  first_pass_scan (first_pass_init gda_create)
    ["L: .data 5\n".toList, extern_X_line, " jmp L\n".toList]

/-- The line buffer of pass 1 when `fgets` has stored `prn X` after the first
three lines of `far_symbol_lines`. -/
def far_symbol_buffer : List Char :=
  fgets_store far_symbol_first.buffer prn_X_line

/-- The translation unit pass 2 starts from for `far_symbol_lines`: fresh, with
the symbol table pass 1 returned. -/
def far_symbol_unit : translation_unit :=
  { assembler_create_new_translation_unit with symbol_table := far_symbol_table }

/-- The sign of `strcmp(a, b)` for two C strings, each given by its characters
before the NUL: the strings are compared character by character as unsigned
values, and a string that ends first is the smaller one. -/
def strcmp : List Char → List Char → Int
  | [], [] => 0
  | [], _ :: _ => -1
  | _ :: _, [] => 1
  | a :: as, b :: bs =>
    if a = b then strcmp as bs else if a.toNat < b.toNat then -1 else 1

/-- `cpu_i_compar(a, b)`: `strcmp` on the names. -/
def cpu_i_compar (a b : List Char) : Int :=
  strcmp a b

/-- The mnemonic the language gives each instruction tag. -/
def inst_tag.mnemonic : inst_tag → List Char
  | tag_mov => "mov".toList | tag_cmp => "cmp".toList | tag_add => "add".toList
  | tag_sub => "sub".toList | tag_lea => "lea".toList | tag_not => "not".toList
  | tag_clr => "clr".toList | tag_inc => "inc".toList | tag_dec => "dec".toList
  | tag_jmp => "jmp".toList | tag_bne => "bne".toList | tag_red => "red".toList
  | tag_prn => "prn".toList | tag_jsr => "jsr".toList | tag_rts => "rts".toList
  | tag_stop => "stop".toList

/-- The keyword the language gives each directive tag. -/
def dir_tag.keyword : dir_tag → List Char
  | tag_data => ".data".toList
  | tag_string => ".string".toList
  | tag_extern => ".extern".toList
  | tag_entry => ".entry".toList

/-- The first token of the text at index `p` of `buf`: after the leading white
space, the characters up to the next white space or the end of the string. -/
def first_token (buf : List Char) (p : Nat) : List Char :=
  (buf.drop (SKIP_SPACE buf p)).takeWhile (fun c => decide (c ≠ END_LINE) && !isspace c)

/-- What the branches of the parser may do to the tags of the result: the
instruction tag stays, and the line tag stays or becomes `tag_syntax_error`. -/
def keeps_tags (r r' : syntax_struct) : Prop :=
  r'.cpu_inst.i_tag = r.cpu_inst.i_tag ∧
    (r'.dir_or_inst_tag = r.dir_or_inst_tag ∨ r'.dir_or_inst_tag = tag_syntax_error)

/-- A `.data` line with 81 values. -/
def data_81_line : List Char :=
  ".data ".toList ++ (List.replicate 80 "1,".toList).flatten ++ "1\n".toList

/-- The array after the calls `gda_insert(gda, x)` for the elements `xs`, in
that order, on the array `gda_create` returns. -/
def gda_of_inserts {α : Type} (xs : List α) : gda α :=
  xs.foldl gda_insert gda_create

/-- The slots `gda_for_each` visits, in the order of the visits: the loop runs
from `gda_get_begin_ptr` up to and including `gda_get_end_ptr`, the last slot
of the array. -/
def gda_for_each {α : Type} (g : gda α) : List (Option α) :=
  (List.range g.pointers_count).map (fun slot => g.deref slot)

/-- The one-line program `stop`. -/
def stop_program : List Char :=
  "stop\n".toList

/-! ## `out.c`: the object file -/

/-- The loop `for(i=0;i<14;i++, code <<=1)` of `out_print_ob` with `n`
iterations left: each prints `/` when `code & 0x2000` is not zero and `.`
otherwise, then shifts the `unsigned short` one place to the left. -/
def out_print_bits : Nat → Nat → List Char
  | 0, _ => []
  | n + 1, code =>
    (if code &&& 0x2000 ≠ 0 then '/' else '.') :: out_print_bits n ((code <<< 1) % 65536)

/-- The glyphs `out_print_ob` prints for the word `w`, after the read
`code = *(unsigned short *)*bmc_it_begin`. -/
def out_print_word (w : Nat) : List Char :=
  out_print_bits 14 (w % 65536)

/-- The inner `gda_for_each` loop of `out_print_ob` over one array: for every
slot that is not null the glyphs of the word and a newline. -/
def out_print_block (it : gda Nat) : List Char :=
  (gda_for_each it).flatMap (fun slot =>
    match slot with
    | some w => out_print_word w ++ [Char.ofNat 10]
    | none => [])

/-- The text `out_print_ob(bmc_code, bmc_data, ob_file)` writes: the header line
with the two sizes in decimal, separated by a tab, the code block and an empty
line, the data block and an empty line. -/
def out_print_ob (bmc_code bmc_data : gda Nat) : List Char :=
  decimal_nat (gda_size bmc_code) ++ [Char.ofNat 9] ++ decimal_nat (gda_size bmc_data) ++
    [Char.ofNat 10] ++
    (out_print_block bmc_code ++ [Char.ofNat 10]) ++
    (out_print_block bmc_data ++ [Char.ofNat 10])

/-- The number a string of glyphs denotes when it is read as binary digits,
most significant first, `/` for 1 and any other glyph for 0: the decoding the
specification speaks of. -/
def glyphs_value (glyphs : List Char) : Nat :=
  glyphs.foldl (fun acc c => 2 * acc + (if c = '/' then 1 else 0)) 0

/-! ## The driver `assemble`, for a list of files -/

/-- What `assemble` did with one file: the value `assembler_first_pass_symbol_table`
returned, `none` when it was not called; the value `assembler_second_pass`
returned, `none` when it was not called; and the translation unit
`out_print_translation_unit` was called with, `none` when it was not called. -/
structure file_run where
  first_pass : Option Int
  second_pass : Option Int
  printed : Option translation_unit
  deriving DecidableEq, Repr

/-- The body of the `for` loop of `assemble` for one file.  The argument is the
text of the `.am` file when `asm_pre_asm` returned its name and `fopen` opened
it, `none` when one of the two failed.  The result is `none` when a pass meets
undefined behaviour. -/
def assemble_one (am : Option (List Char)) : Option file_run :=
  match am with
  | none => some { first_pass := none, second_pass := none, printed := none }
  | some am_file =>
    let t_unit := assembler_create_new_translation_unit
    match assembler_first_pass_symbol_table t_unit.symbol_table am_file with
    | none => none
    | some (e1, symbol_table) =>
      if e1 = 0 then
        match assembler_second_pass { t_unit with symbol_table := symbol_table } am_file with
        | none => none
        | some (e2, t_unit) =>
          if e2 = 0 then
            some { first_pass := some e1, second_pass := some e2, printed := some t_unit }
          else some { first_pass := some e1, second_pass := some e2, printed := none }
      else some { first_pass := some e1, second_pass := none, printed := none }

/-- The `for` loop of `assemble` over the files. -/
def assemble_loop : List (Option (List Char)) → Option (List file_run)
  | [] => some []
  | am :: rest =>
    match assemble_one am with
    | none => none
    | some run => (assemble_loop rest).map (fun runs => run :: runs)

/-- `assemble(files, file_count)`: the value returned, which is the constant of
the closing `return 0;`, and what was done with each file. -/
def assemble (files : List (Option (List Char))) : Option (Int × List file_run) :=
  (assemble_loop files).map (fun runs => (0, runs))

/-- The number of files that were compiled, that is, for which preprocessing,
pass 1 and pass 2 all succeeded: the value the header `assembler.h` says
`assemble` returns. -/
def compiled_count (runs : List file_run) : Nat :=
  (runs.filter (fun run =>
    decide (run.first_pass = some 0) && decide (run.second_pass = some 0))).length

/-- The one-line program `A: stop`. -/
def labeled_stop_program : List Char :=
  "A: stop\n".toList

/-- A program that fails in pass 1: its second line is not a statement. -/
def syntax_error_program : List Char :=
  "A: stop\n foo\n".toList

/-- A program that passes pass 1 and fails in pass 2: `B` is not defined. -/
def undefined_operand_program : List Char :=
  "A: jmp B\n".toList

/-- What holds of an address `a` the extern-usage map has under the name `X`,
`tbl` being the symbol table and `code` the code words emitted so far: `X` is
external in the table, and `a` is `n + 100` as an `unsigned short` for an index
`n` at which the code holds the word 1. -/
def extern_address_ok (tbl : gda symbol) (code : List Nat) (X : List Char) (a : Nat) : Prop :=
  is_external tbl X = true ∧
    ∃ n, a = (n + PROG_BASE_ADDR) % 65536 ∧ code.get? n = some 1

/-- A program with two labeled instructions: `A: mov r1, #5` takes three words,
so `B: stop` is at the address 103. -/
def two_labels_program : List Char :=
  "A: mov r1, #5\nB: stop\n".toList

/-- The symbol table pass 1 leaves for `two_labels_program`. -/
def two_labels_table : gda symbol :=
  { pointer_array :=
      [ some ⟨"A".toList, some 100, sym_type_code, 1⟩,
        some ⟨"B".toList, some 103, sym_type_code, 2⟩ ]
    elem_count := 2 }

/-- The translation unit pass 2 leaves for `two_labels_program`. -/
def two_labels_unit : translation_unit :=
  { assembler_create_new_translation_unit with
    symbol_table := two_labels_table
    bmc_code := { pointer_array := [some 48, some 256, some 20, some 960], elem_count := 4 } }

/-- A program whose `.string` directive holds the byte 233 and the letter `A`. -/
def string_233_program : List Char :=
  "S: .string ".toList ++ [DQUOTE, Char.ofNat 233, 'A', DQUOTE, Char.ofNat 10]

/-- A program that fails in pass 1 and creates no symbol: its only line is not
a statement. -/
def no_statement_program : List Char :=
  "foo\n".toList

/-- The buffer `fgets` fills from a zeroed buffer with the line `mov r1, r2`. -/
def mov_buffer : List Char :=
  fgets_store buffer_init "mov r1, r2\n".toList

end Asm

/-! # Theorems -/

namespace Asm

open sst_symbol_valid_tag sst_number_valid_tag argument_option line_tag inst_tag dir_tag
open group_B_arg_options sym_type

/-! ## The shape of a `gda` -/

section GdaLemmas

variable {α : Type}

theorem first_null_map_some (l : List α) (rest : List (Option α)) :
    first_null (l.map some ++ rest) = (first_null rest).map (· + l.length) := by
  induction l with
  | nil => simp
  | cons a l ih =>
    show (first_null (l.map some ++ rest)).map (· + 1) = _
    rw [ih, Option.map_map]
    congr 1

theorem first_null_replicate (k : Nat) :
    first_null (List.replicate k (none : Option α)) = if k = 0 then none else some 0 := by
  cases k <;> simp [List.replicate, first_null]

theorem gda_create_holds : (gda_create : gda α).holds [] :=
  ⟨2, rfl, rfl, by simp⟩

theorem gda_insert_holds {g : gda α} {l : List α} (h : g.holds l) (x : α) :
    (gda_insert g x).holds (l ++ [x]) := by
  obtain ⟨k, hp, hc, hpos⟩ := h
  unfold gda_insert
  rw [hp, first_null_map_some, first_null_replicate]
  cases k with
  | zero =>
    simp only [↓reduceIte, Option.map_none']
    refine ⟨l.length - 1, ?_, by simp [hc], by simp⟩
    simp only [gda.pointers_count, hp, hc, List.replicate, List.append_nil, List.length_map]
    rw [List.set_append_right _ _ (by simp)]
    simp only [List.length_map, Nat.sub_self]
    cases hl : l.length with
    | zero => omega
    | succ n =>
      simp only [List.replicate, List.set_cons_zero, Nat.add_sub_cancel]
      have e1 : List.map some l ++ some x :: List.replicate n none =
          (List.map some l ++ [some x]) ++ List.replicate n none := by simp
      rw [e1, List.take_append_of_le_length (by simp [hl]),
        List.take_of_length_le (by simp [hl])]
      have e2 : (n + 1) * 2 - (n + 1 + 1) = n := by omega
      simp [e2]
  | succ k =>
    simp only [Nat.add_one_ne_zero, ↓reduceIte, Option.map_some', Nat.zero_add]
    refine ⟨k, ?_, by simp [hc], by simp⟩
    simp only
    rw [List.set_append_right _ _ (by simp)]
    simp [List.replicate]

theorem gda_modify_holds {g : gda α} {l : List α} (h : g.holds l) (i : Nat) (f : α → α) :
    (g.modify i f).holds (l.modify f i) := by
  obtain ⟨k, hp, hc, hpos⟩ := h
  refine ⟨k, ?_, by simp [gda.modify, hc], by simpa using hpos⟩
  simp only [gda.modify, hp]
  clear hp hc hpos
  induction l generalizing i with
  | nil =>
    simp only [List.map_nil, List.nil_append, List.modify_nil]
    induction k generalizing i with
    | zero => simp
    | succ k ih =>
      cases i with
      | zero => simp [List.replicate]
      | succ i => simp [List.replicate, ih]
  | cons a l ih =>
    cases i with
    | zero => simp
    | succ i => simp [ih]

theorem search_slots_map_some (hit : α → Bool) (l : List α) (k : Nat) :
    search_slots hit (l.map some ++ List.replicate k none) = l.findIdx? hit := by
  induction l with
  | nil =>
    induction k with
    | zero => rfl
    | succ k ih => simp_all [List.replicate, search_slots]
  | cons a l ih =>
    simp only [List.map_cons, List.cons_append, search_slots, List.findIdx?_cons]
    split
    · rfl
    · rw [List.findIdx?_start_succ]
      show Option.map _ (search_slots hit (List.map some l ++ List.replicate k none)) = _
      rw [ih]

theorem gda_search_holds {g : gda α} {l : List α} (h : g.holds l) (hit : α → Bool) :
    gda_search g hit = l.findIdx? hit := by
  obtain ⟨k, hp, -, -⟩ := h
  rw [gda_search, hp, search_slots_map_some]

theorem gda_deref_holds {g : gda α} {l : List α} (h : g.holds l) (i : Nat) :
    g.deref i = l.get? i := by
  obtain ⟨k, hp, -, -⟩ := h
  simp only [gda.deref, hp]
  by_cases hi : i < l.length
  · simp [List.getElem?_append_left, hi]
  · have hi' : l.length ≤ i := Nat.le_of_not_lt hi
    rw [List.get?_eq_getElem?, List.getElem?_append_right (by simpa using hi')]
    rw [List.get?_eq_getElem?, List.getElem?_eq_none hi']
    by_cases h2 : i - (List.map some l).length < k
    · simp [List.getElem?_replicate, h2]
    · simp [List.getElem?_replicate, h2]

theorem gda_elems_holds {g : gda α} {l : List α} (h : g.holds l) : g.elems = l := by
  obtain ⟨k, hp, -, -⟩ := h
  simp only [gda.elems, hp, List.filterMap_append]
  have : List.filterMap id (List.replicate k (none : Option α)) = [] := by
    induction k with
    | zero => rfl
    | succ k ih => simp [List.replicate, ih]
  rw [this, List.append_nil]
  induction l with
  | nil => rfl
  | cons a l ih => simp [ih]

theorem findIdx?_bind_get? (p : α → Bool) (l : List α) :
    (l.findIdx? p).bind (fun i => l.get? i) = l.find? p := by
  induction l with
  | nil => rfl
  | cons a l ih =>
    simp only [List.findIdx?_cons, List.find?_cons]
    cases hpa : p a with
    | true => simp
    | false =>
      simp only [Bool.false_eq_true, ↓reduceIte, Nat.zero_add]
      rw [List.findIdx?_start_succ, ← ih]
      cases List.findIdx? p l <;> simp

end GdaLemmas

/-! ## Symbols in the table -/

theorem find?_modify_of_preserved {α : Type} (p : α → Bool) (f : α → α)
    (hf : ∀ y, p (f y) = p y) (l : List α) (i : Nat) :
    (l.modify f i).find? p =
      if l.findIdx? p = some i then (l.find? p).map f else l.find? p := by
  induction l generalizing i with
  | nil => simp
  | cons a l ih =>
    cases i with
    | zero =>
      simp only [List.modify_zero_cons, List.find?_cons, hf, List.findIdx?_cons]
      cases hpa : p a with
      | true => simp
      | false =>
        simp only [Bool.false_eq_true, ↓reduceIte, Nat.zero_add]
        rw [List.findIdx?_start_succ]
        cases List.findIdx? p l <;> simp
    | succ j =>
      simp only [List.modify_succ_cons, List.find?_cons, List.findIdx?_cons]
      cases hpa : p a with
      | true => simp
      | false =>
        simp only [Bool.false_eq_true, ↓reduceIte, Nat.zero_add]
        rw [List.findIdx?_start_succ, ih]
        cases List.findIdx? p l <;> simp

theorem find_symbol_holds {g : gda symbol} {l : List symbol} (h : g.holds l)
    (name : List Char) : find_symbol g name = l.find? (symbol_named name) := by
  unfold find_symbol
  rw [gda_search_holds h, ← findIdx?_bind_get?]
  congr 1
  funext i
  exact gda_deref_holds h i

theorem findIdx?_get? {α : Type} (p : α → Bool) (l : List α) (i : Nat)
    (h : l.findIdx? p = some i) : l.find? p = l.get? i := by
  rw [← findIdx?_bind_get?, h]
  rfl


/-! ## Counters and the error flag in one line of pass 1 -/

theorem first_pass_inst_label_IC (s_struct : syntax_struct) (st : first_pass_state) :
    (first_pass_inst_label s_struct st).IC = st.IC := by
  unfold first_pass_inst_label
  split
  · dsimp only
    split
    · split <;> rfl
    · rfl
  · rfl

theorem first_pass_dir_IC (s_struct : syntax_struct) (st : first_pass_state) :
    (first_pass_dir s_struct st).IC = st.IC := by
  have h0 : (first_pass_dir_lookup s_struct st).IC = st.IC := by
    unfold first_pass_dir_lookup
    split <;> rfl
  have h1 : ∀ s : first_pass_state, (first_pass_extern_dir s).IC = s.IC := by
    intro s
    unfold first_pass_extern_dir
    repeat' split
    all_goals rfl
  have h2 : ∀ s : first_pass_state, (first_pass_entry_dir s).IC = s.IC := by
    intro s
    unfold first_pass_entry_dir
    repeat' split
    all_goals rfl
  have h3 : ∀ s : first_pass_state, (first_pass_data s_struct s).IC = s.IC := by
    intro s
    unfold first_pass_data
    dsimp only
    repeat' split
    all_goals rfl
  unfold first_pass_dir
  dsimp only
  repeat' split
  all_goals simp only [h0, h1, h2, h3]

theorem first_pass_line_IC (st : first_pass_state) (line : List Char) :
    (first_pass_line st line).IC =
      if (first_pass_parse st line).dir_or_inst_tag = tag_inst then
        st.IC + first_pass_inst_words (first_pass_parse st line)
      else st.IC := by
  unfold first_pass_line first_pass_parse first_pass_switch
  dsimp only
  split <;> simp_all [first_pass_inst_label_IC, first_pass_dir_IC]

theorem groupB_not_groupA (t : inst_tag) (h : is_i_tag_groupB t = true) :
    is_i_tag_groupA t = false := by
  cases t <;> revert h <;> decide

theorem groupC_not_groupA_groupB (t : inst_tag) (h : is_i_tag_groupC t = true) :
    is_i_tag_groupA t = false ∧ is_i_tag_groupB t = false := by
  cases t <;> revert h <;> decide

/-! ## The symbol table along pass 1 -/

theorem symbol_evolves_refl (y : symbol) : symbol_evolves y y :=
  ⟨rfl, fun _ => ⟨rfl, Or.inl rfl⟩⟩

theorem symbol_evolves_trans {a b c : symbol} (h1 : symbol_evolves a b)
    (h2 : symbol_evolves b c) : symbol_evolves a c := by
  obtain ⟨n1, e1⟩ := h1
  obtain ⟨n2, e2⟩ := h2
  refine ⟨n2.trans n1, fun ha => ?_⟩
  obtain ⟨a1, t1⟩ := e1 ha
  have hb : b.sym_type ≠ sym_type_entry := by
    rcases t1 with t | ⟨_, t⟩ | ⟨_, t⟩ <;> rw [t]
    · exact ha
    · decide
    · decide
  obtain ⟨a2, t2⟩ := e2 hb
  refine ⟨a2.trans a1, ?_⟩
  rcases t1 with t | ⟨s, t⟩ | ⟨s, t⟩ <;> rcases t2 with u | ⟨v, u⟩ | ⟨v, u⟩ <;>
    simp_all

theorem table_evolves_refl (g : gda symbol) : table_evolves g g :=
  fun l h => ⟨⟨l, h⟩, fun _ y hy => ⟨y, hy, symbol_evolves_refl y⟩⟩

theorem table_evolves_trans {g1 g2 g3 : gda symbol} (h12 : table_evolves g1 g2)
    (h23 : table_evolves g2 g3) : table_evolves g1 g3 := by
  intro l hl
  obtain ⟨⟨l2, hl2⟩, f12⟩ := h12 l hl
  obtain ⟨hl3, f23⟩ := h23 l2 hl2
  refine ⟨hl3, fun name y hy => ?_⟩
  obtain ⟨y2, hy2, e12⟩ := f12 name y hy
  obtain ⟨y3, hy3, e23⟩ := f23 name y2 hy2
  exact ⟨y3, hy3, symbol_evolves_trans e12 e23⟩

theorem table_evolves_insert (g : gda symbol) (x : symbol) :
    table_evolves g (gda_insert g x) := by
  intro l hl
  refine ⟨⟨_, gda_insert_holds hl x⟩, fun name y hy => ⟨y, ?_, symbol_evolves_refl y⟩⟩
  rw [find_symbol_holds hl] at hy
  rw [find_symbol_holds (gda_insert_holds hl x), List.find?_append, hy]
  rfl

theorem table_evolves_modify (g : gda symbol) (slot : Nat) (y0 : symbol)
    (f : symbol → symbol) (hd : g.deref slot = some y0)
    (hn : ∀ y, (f y).symbol_name = y.symbol_name)
    (he : symbol_evolves y0 (f y0)) : table_evolves g (g.modify slot f) := by
  intro l hl
  refine ⟨⟨_, gda_modify_holds hl slot f⟩, fun n y hy => ?_⟩
  rw [find_symbol_holds hl] at hy
  rw [find_symbol_holds (gda_modify_holds hl slot f),
    find?_modify_of_preserved _ f (fun y => by simp [symbol_named, hn]) l slot]
  split
  · rename_i hidx
    have h0 : l.find? (symbol_named n) = some y0 := by
      rw [findIdx?_get? _ _ _ hidx, ← gda_deref_holds hl, hd]
    rw [h0] at hy
    obtain rfl : y0 = y := Option.some.inj hy
    exact ⟨f y0, by simp [h0], he⟩
  · exact ⟨y, hy, symbol_evolves_refl y⟩

theorem deref_type_eq {g : gda symbol} {slot : Nat} {t : sym_type}
    (h : (g.deref slot).map (·.sym_type) = some t) :
    ∃ y, g.deref slot = some y ∧ y.sym_type = t := by
  cases hd : g.deref slot with
  | none => simp [hd] at h
  | some y => exact ⟨y, rfl, by simpa [hd] using h⟩

theorem first_pass_inst_label_evolves (s_struct : syntax_struct) (st : first_pass_state) :
    table_evolves st.symbol_table (first_pass_inst_label s_struct st).symbol_table := by
  unfold first_pass_inst_label
  split
  · dsimp only
    split
    · rename_i slot hs
      split
      · rename_i ht
        obtain ⟨y, hy, hty⟩ := deref_type_eq ht
        exact table_evolves_modify _ slot y _ hy (fun _ => rfl)
          ⟨rfl, fun h => absurd hty h⟩
      · exact table_evolves_refl _
    · exact table_evolves_insert _ _
  · exact table_evolves_refl _

theorem first_pass_dir_lookup_table (s_struct : syntax_struct) (st : first_pass_state) :
    (first_pass_dir_lookup s_struct st).symbol_table = st.symbol_table := by
  unfold first_pass_dir_lookup
  split <;> rfl

theorem first_pass_extern_evolves (st : first_pass_state) :
    table_evolves st.symbol_table (first_pass_extern_dir st).symbol_table := by
  unfold first_pass_extern_dir
  split
  · split <;> exact table_evolves_refl _
  · exact table_evolves_insert _ _

theorem first_pass_entry_evolves (st : first_pass_state) :
    table_evolves st.symbol_table (first_pass_entry_dir st).symbol_table := by
  unfold first_pass_entry_dir
  split
  · rename_i slot hs
    split
    · rename_i ht
      obtain ⟨y, hy, hty⟩ := deref_type_eq ht
      exact table_evolves_modify _ slot y _ hy (fun _ => rfl)
        ⟨rfl, fun _ => ⟨rfl, Or.inr (Or.inl ⟨hty, rfl⟩)⟩⟩
    · rename_i ht
      obtain ⟨y, hy, hty⟩ := deref_type_eq ht
      exact table_evolves_modify _ slot y _ hy (fun _ => rfl)
        ⟨rfl, fun _ => ⟨rfl, Or.inr (Or.inr ⟨hty, rfl⟩)⟩⟩
    · exact table_evolves_refl _
    · exact table_evolves_refl _
  · exact table_evolves_insert _ _

theorem first_pass_data_evolves (s_struct : syntax_struct) (st : first_pass_state) :
    table_evolves st.symbol_table (first_pass_data s_struct st).symbol_table := by
  unfold first_pass_data
  split
  · exact table_evolves_refl _
  · dsimp only
    split
    · rename_i slot hs
      split
      · rename_i ht
        obtain ⟨y, hy, hty⟩ := deref_type_eq ht
        exact table_evolves_modify _ slot y _ hy (fun _ => rfl)
          ⟨rfl, fun h => absurd hty h⟩
      · exact table_evolves_refl _
    · exact table_evolves_insert _ _

theorem first_pass_dir_evolves (s_struct : syntax_struct) (st : first_pass_state) :
    table_evolves st.symbol_table (first_pass_dir s_struct st).symbol_table := by
  unfold first_pass_dir
  dsimp only
  rw [← first_pass_dir_lookup_table s_struct st]
  split
  · exact first_pass_extern_evolves _
  · split
    · exact first_pass_entry_evolves _
    · split
      · exact first_pass_data_evolves _ _
      · exact table_evolves_refl _

theorem first_pass_switch_evolves (s_struct : syntax_struct) (st : first_pass_state) :
    table_evolves st.symbol_table (first_pass_switch s_struct st).symbol_table := by
  unfold first_pass_switch
  split
  · exact table_evolves_refl _
  · exact first_pass_inst_label_evolves _ _
  · exact first_pass_dir_evolves _ _
  · exact table_evolves_refl _

theorem first_pass_line_evolves (st : first_pass_state) (line : List Char) :
    table_evolves st.symbol_table (first_pass_line st line).symbol_table := by
  exact first_pass_switch_evolves
    (lang_engine_create_ss_from_logical_line (fgets_store st.buffer line)).1
    { st with buffer := (lang_engine_create_ss_from_logical_line (fgets_store st.buffer line)).2 }

theorem first_pass_scan_evolves (lines : List (List Char)) (st : first_pass_state) :
    table_evolves st.symbol_table (first_pass_scan st lines).symbol_table := by
  induction lines generalizing st with
  | nil => exact table_evolves_refl _
  | cons line rest ih =>
    exact table_evolves_trans (first_pass_line_evolves st line) (ih _)

/-! ## The closing loop of pass 1 -/

theorem deref_of_array {g : gda symbol} {l : List symbol} {k : Nat}
    (hp : g.pointer_array = l.map some ++ List.replicate k none) (i : Nat) :
    g.deref i = l.get? i := by
  simp only [gda.deref, hp]
  by_cases hi : i < l.length
  · simp [List.getElem?_append_left, hi]
  · have hi' : l.length ≤ i := Nat.le_of_not_lt hi
    rw [List.get?_eq_getElem?, List.getElem?_append_right (by simpa using hi')]
    rw [List.get?_eq_getElem?, List.getElem?_eq_none hi']
    by_cases h2 : i - (List.map some l).length < k
    · simp [List.getElem?_replicate, h2]
    · simp [List.getElem?_replicate, h2]

theorem modify_append_length {β : Type} (f : β → β) (l₁ : List β) (b : β) (l₂ : List β) :
    (l₁ ++ b :: l₂).modify f l₁.length = l₁ ++ f b :: l₂ := by
  induction l₁ with
  | nil => simp
  | cons a l₁ ih => simp [ih]

theorem modify_of_array {g : gda symbol} {done rest : List symbol} {a : symbol} {k : Nat}
    (hp : g.pointer_array = (done ++ a :: rest).map some ++ List.replicate k none)
    (f : symbol → symbol) :
    (g.modify done.length f).pointer_array =
      (done ++ f a :: rest).map some ++ List.replicate k none := by
  simp only [gda.modify, hp, List.map_append, List.map_cons, List.append_assoc,
    List.cons_append]
  have h := modify_append_length (Option.map f) (List.map some done) (some a)
    (List.map some rest ++ List.replicate k none)
  rw [List.length_map] at h
  rw [h]
  rfl

/-- The table after the closing loop has visited the slot of `a`. -/
theorem first_pass_post_step_some (IC : Nat) (ps : first_pass_post_state)
    (done rest : List symbol) (a : symbol) (k : Nat)
    (hp : ps.symbol_table.pointer_array =
      (done.map (rebase_symbol IC) ++ a :: rest).map some ++ List.replicate k none) :
    ∃ ps1, first_pass_post_step IC ps done.length = some ps1 ∧
      ps1.symbol_table.pointer_array =
        ((done ++ [a]).map (rebase_symbol IC) ++ rest).map some ++ List.replicate k none ∧
      ps1.symbol_table.elem_count = ps.symbol_table.elem_count ∧
      ps1.in_table = some done.length ∧ ps1.error = ps.error := by
  have hlen : done.length = (done.map (rebase_symbol IC)).length := by simp
  have hd : ps.symbol_table.deref done.length = some a := by
    rw [deref_of_array hp, List.get?_eq_getElem?]
    conv_lhs => rw [hlen]
    rw [List.getElem?_append_right (Nat.le_refl _)]
    simp
  unfold first_pass_post_step
  rw [hd]
  dsimp only
  split
  · rename_i hty
    refine ⟨_, rfl, ?_, rfl, rfl, rfl⟩
    dsimp only
    conv_lhs => rw [hlen]
    rw [modify_of_array hp]
    simp [rebase_symbol, hty]
  · rename_i hty
    refine ⟨_, rfl, ?_, rfl, rfl, rfl⟩
    dsimp only
    rw [hp]
    simp [rebase_symbol, hty]

theorem first_pass_post_elems (IC : Nat) (rest : List symbol) :
    ∀ (done : List symbol) (k : Nat) (tail : List Nat) (ps : first_pass_post_state),
      ps.symbol_table.pointer_array =
          (done.map (rebase_symbol IC) ++ rest).map some ++ List.replicate k none →
      ∃ ps', first_pass_post IC (List.range' done.length rest.length ++ tail) ps =
          first_pass_post IC tail ps' ∧
        ps'.symbol_table.pointer_array =
          ((done ++ rest).map (rebase_symbol IC)).map some ++ List.replicate k none ∧
        ps'.symbol_table.elem_count = ps.symbol_table.elem_count ∧
        ps'.in_table =
          (if rest = [] then ps.in_table else some (done.length + rest.length - 1)) ∧
        ps'.error = ps.error := by
  induction rest with
  | nil =>
    intro done k tail ps hp
    refine ⟨ps, by simp, by simpa using hp, rfl, by simp, rfl⟩
  | cons a rest ih =>
    intro done k tail ps hp
    obtain ⟨ps1, hs, hp1, hc1, hi1, he1⟩ := first_pass_post_step_some IC ps done rest a k hp
    obtain ⟨ps', hpost, hp', hc', hi', he'⟩ := ih (done ++ [a]) k tail ps1 hp1
    refine ⟨ps', ?_, by simpa using hp', hc'.trans hc1, ?_, he'.trans he1⟩
    · simp only [List.length_cons, List.range'_succ, List.cons_append, first_pass_post, hs]
      simpa using hpost
    · rw [hi', hi1]
      by_cases hr : rest = []
      · subst hr
        simp
      · rw [if_neg hr, if_neg (List.cons_ne_nil a rest)]
        have e : (done ++ [a]).length + rest.length - 1 =
            done.length + (a :: rest).length - 1 := by
          simp
        rw [e]

theorem first_pass_post_nulls (IC : Nat) (l : List symbol) (k : Nat) (p : Nat) (y : symbol)
    (hy : l.get? p = some y) :
    ∀ (m s : Nat) (ps : first_pass_post_state),
      ps.symbol_table.pointer_array = l.map some ++ List.replicate k none →
      ps.in_table = some p → l.length ≤ s →
      first_pass_post IC (List.range' s m) ps =
        some { ps with
          error := if 0 < m ∧ y.sym_type = sym_type_entry then 1 else ps.error } := by
  intro m
  induction m with
  | zero =>
    intro s ps hp hi hs
    simp [first_pass_post]
  | succ m ih =>
    intro s ps hp hi hs
    have hd : ps.symbol_table.deref s = none := by
      rw [deref_of_array hp, List.get?_eq_getElem?, List.getElem?_eq_none hs]
    have hdp : ps.symbol_table.deref p = some y := by
      rw [deref_of_array hp, hy]
    by_cases hty : y.sym_type = sym_type_entry
    · simp only [List.range'_succ, first_pass_post, first_pass_post_step, hd, hi, hdp, hty,
        ↓reduceIte]
      rw [ih (s + 1) { ps with in_table := some p, error := 1 } hp rfl (by omega)]
      simp [hty]
    · simp only [List.range'_succ, first_pass_post, first_pass_post_step, hd, hi, hdp, hty,
        ↓reduceIte]
      rw [ih (s + 1) ps hp hi (by omega)]
      simp [hty, hi]

/-- What the closing loop does to a table that holds at least one symbol: every
data symbol is rebased, and the error flag is set exactly when the array has a
null slot and the last symbol of the table is a bare Entry. -/
theorem first_pass_finish_holds (st : first_pass_state) (l : List symbol)
    (h : st.symbol_table.holds l) (hne : l ≠ []) :
    ∃ ps k, first_pass_finish st = some ps ∧
      ps.symbol_table.pointer_array =
        (l.map (rebase_symbol st.IC)).map some ++ List.replicate k none ∧
      ps.symbol_table.holds (l.map (rebase_symbol st.IC)) ∧
      ps.error =
        (if 0 < k ∧ ∃ y, l.getLast? = some y ∧ y.sym_type = sym_type_entry then 1
          else st.error) := by
  obtain ⟨k, hp, hc, hpos⟩ := h
  have hrange : List.range st.symbol_table.pointers_count =
      List.range' ([] : List symbol).length l.length ++ List.range' l.length k := by
    rw [gda.pointers_count, hp, List.range_eq_range']
    simp only [List.length_append, List.length_map, List.length_replicate, List.length_nil]
    have := List.range'_append_1 0 l.length k
    rw [Nat.zero_add, Nat.add_comm] at this
    exact this.symm
  obtain ⟨ps', hpost, hp', hc', hi', he'⟩ :=
    first_pass_post_elems st.IC l [] k (List.range' l.length k)
      { symbol_table := st.symbol_table, in_table := st.in_table, error := st.error }
      (by simpa using hp)
  have hlast : ∃ y, l.get? (l.length - 1) = some y ∧ l.getLast? = some y := by
    cases hl : l.getLast? with
    | none => simp_all
    | some y =>
      refine ⟨y, ?_, rfl⟩
      rw [List.getLast?_eq_getElem?] at hl
      rw [List.get?_eq_getElem?, hl]
  obtain ⟨y, hy, hylast⟩ := hlast
  have hy' : (l.map (rebase_symbol st.IC)).get? (l.length - 1) =
      some (rebase_symbol st.IC y) := by
    simp [List.get?_eq_getElem?] at hy ⊢
    exact ⟨y, hy, rfl⟩
  have hi'' : ps'.in_table = some (l.length - 1) := by
    rw [hi']
    simp [hne]
  have hnull := first_pass_post_nulls st.IC (l.map (rebase_symbol st.IC)) k (l.length - 1)
    (rebase_symbol st.IC y) hy' k l.length ps' (by simpa using hp') hi'' (by simp)
  have hty : (rebase_symbol st.IC y).sym_type = y.sym_type := by
    unfold rebase_symbol
    split <;> rfl
  refine ⟨{ ps' with
      error := if 0 < k ∧ (rebase_symbol st.IC y).sym_type = sym_type_entry then 1
        else ps'.error }, k, ?_, ?_, ⟨k, ?_, ?_, ?_⟩, ?_⟩
  · unfold first_pass_finish
    rw [hrange, hpost, hnull]
  · simpa using hp'
  · simpa using hp'
  · simp only [List.length_map]
    rw [hc']
    exact hc
  · simpa using hpos
  · simp only [he', hylast, Option.some.injEq, exists_eq_left', hty]

/-! ## Labels in one line of pass 1 -/

theorem find_symbol_some_iff (g : gda symbol) (name : List Char) (y : symbol) :
    find_symbol g name = some y ↔
      ∃ slot, gda_search g (symbol_named name) = some slot ∧ g.deref slot = some y := by
  unfold find_symbol
  exact Option.bind_eq_some

theorem gda_search_none_of_find {g : gda symbol} {l : List symbol} (h : g.holds l)
    {name : List Char} (hf : find_symbol g name = none) :
    gda_search g (symbol_named name) = none := by
  rw [find_symbol_holds h, List.find?_eq_none] at hf
  rw [gda_search_holds h, List.findIdx?_eq_none_iff]
  intro x hx
  simpa using hf x hx

theorem find_symbol_insert_new {g : gda symbol} {l : List symbol} (h : g.holds l)
    (x : symbol) (hf : find_symbol g x.symbol_name = none) :
    find_symbol (gda_insert g x) x.symbol_name = some x := by
  rw [find_symbol_holds h] at hf
  rw [find_symbol_holds (gda_insert_holds h x), List.find?_append, hf]
  simp [symbol_named]

theorem find_symbol_modify {g : gda symbol} {l : List symbol} (h : g.holds l)
    {name : List Char} {slot : Nat} (hs : gda_search g (symbol_named name) = some slot)
    (f : symbol → symbol) (hn : ∀ y, (f y).symbol_name = y.symbol_name) :
    find_symbol (g.modify slot f) name = (find_symbol g name).map f := by
  rw [gda_search_holds h] at hs
  rw [find_symbol_holds (gda_modify_holds h slot f), find_symbol_holds h,
    find?_modify_of_preserved _ f (fun y => by simp [symbol_named, hn]) l slot, if_pos hs]

/-- The label of an instruction line, by cases on what the table holds under
that name. -/
theorem first_pass_inst_label_spec (s_struct : syntax_struct) (st : first_pass_state)
    {l : List symbol} (h : st.symbol_table.holds l) (hl : s_struct.symbol ≠ []) :
    (find_symbol st.symbol_table s_struct.symbol = none →
        find_symbol (first_pass_inst_label s_struct st).symbol_table s_struct.symbol =
            some ⟨s_struct.symbol, some st.IC, sym_type_code, st.line_count⟩ ∧
          (first_pass_inst_label s_struct st).error = st.error) ∧
      (∀ y, find_symbol st.symbol_table s_struct.symbol = some y →
        y.sym_type = sym_type_entry →
        find_symbol (first_pass_inst_label s_struct st).symbol_table s_struct.symbol =
            some { y with addr := some st.IC, sym_type := sym_type_code_entry } ∧
          (first_pass_inst_label s_struct st).error = st.error) ∧
      (∀ y, find_symbol st.symbol_table s_struct.symbol = some y →
        y.sym_type ≠ sym_type_entry →
        (first_pass_inst_label s_struct st).error = 1 ∧
          (first_pass_inst_label s_struct st).symbol_table = st.symbol_table) := by
  refine ⟨fun hf => ?_, fun y hf ht => ?_, fun y hf ht => ?_⟩
  · have hs := gda_search_none_of_find h hf
    unfold first_pass_inst_label
    rw [if_pos hl]
    simp only [hs, and_true]
    exact find_symbol_insert_new h ⟨s_struct.symbol, some st.IC, sym_type_code, st.line_count⟩
      hf
  · obtain ⟨slot, hs, hd⟩ := (find_symbol_some_iff _ _ _).mp hf
    unfold first_pass_inst_label
    rw [if_pos hl]
    simp only [hs, hd, Option.map_some', ht, and_true]
    rw [find_symbol_modify h hs
      (fun y => { y with addr := some st.IC, sym_type := sym_type_code_entry })
      (fun _ => rfl), hf]
    rfl
  · obtain ⟨slot, hs, hd⟩ := (find_symbol_some_iff _ _ _).mp hf
    unfold first_pass_inst_label
    rw [if_pos hl]
    simp only [hs, hd, Option.map_some']
    split
    · rename_i heq
      exact absurd (Option.some.inj heq) ht
    · exact ⟨rfl, rfl⟩

/-- The label of a `.data` or `.string` line, by cases on what the table holds
under that name. -/
theorem first_pass_data_spec (s_struct : syntax_struct) (st : first_pass_state)
    {l : List symbol} (h : st.symbol_table.holds l) (hl : s_struct.symbol ≠ []) :
    (find_symbol st.symbol_table s_struct.symbol = none →
        find_symbol (first_pass_data s_struct st).symbol_table s_struct.symbol =
            some ⟨s_struct.symbol, some st.DC, sym_type_data, st.line_count⟩ ∧
          (first_pass_data s_struct st).error = st.error) ∧
      (∀ y, find_symbol st.symbol_table s_struct.symbol = some y →
        y.sym_type = sym_type_entry →
        find_symbol (first_pass_data s_struct st).symbol_table s_struct.symbol =
            some { y with sym_type := sym_type_data_entry, addr := some st.DC } ∧
          (first_pass_data s_struct st).error = st.error) ∧
      (∀ y, find_symbol st.symbol_table s_struct.symbol = some y →
        y.sym_type ≠ sym_type_entry →
        (first_pass_data s_struct st).error = 1 ∧
          (first_pass_data s_struct st).symbol_table = st.symbol_table) := by
  refine ⟨fun hf => ?_, fun y hf ht => ?_, fun y hf ht => ?_⟩
  · have hs := gda_search_none_of_find h hf
    unfold first_pass_data
    rw [if_neg hl]
    simp only [hs, and_true]
    exact find_symbol_insert_new h ⟨s_struct.symbol, some st.DC, sym_type_data, st.line_count⟩
      hf
  · obtain ⟨slot, hs, hd⟩ := (find_symbol_some_iff _ _ _).mp hf
    unfold first_pass_data
    rw [if_neg hl]
    simp only [hs, hd, Option.map_some', ht, and_true]
    rw [find_symbol_modify h hs
      (fun y => { y with sym_type := sym_type_data_entry, addr := some st.DC })
      (fun _ => rfl), hf]
    rfl
  · obtain ⟨slot, hs, hd⟩ := (find_symbol_some_iff _ _ _).mp hf
    unfold first_pass_data
    rw [if_neg hl]
    simp only [hs, hd, Option.map_some']
    split
    · rename_i heq
      exact absurd (Option.some.inj heq) ht
    · exact ⟨rfl, rfl⟩

/-- What an instruction line does to the table and the error flag. -/
theorem first_pass_line_inst (st : first_pass_state) (line : List Char)
    (ht : (first_pass_parse st line).dir_or_inst_tag = tag_inst) :
    ∃ st1 : first_pass_state, st1.symbol_table = st.symbol_table ∧ st1.IC = st.IC ∧
      st1.DC = st.DC ∧ st1.line_count = st.line_count ∧ st1.error = st.error ∧
      (first_pass_line st line).symbol_table =
        (first_pass_inst_label (first_pass_parse st line) st1).symbol_table ∧
      (first_pass_line st line).error =
        (first_pass_inst_label (first_pass_parse st line) st1).error := by
  refine ⟨{ st with
    buffer := (lang_engine_create_ss_from_logical_line (fgets_store st.buffer line)).2 },
    rfl, rfl, rfl, rfl, rfl, ?_, ?_⟩
  · unfold first_pass_line first_pass_switch
    unfold first_pass_parse at ht
    simp only [ht]
    rfl
  · unfold first_pass_line first_pass_switch
    unfold first_pass_parse at ht
    simp only [ht]
    rfl

theorem first_pass_dir_data (s_struct : syntax_struct) (st : first_pass_state)
    (hd : s_struct.asm_directive.d_tag = tag_data ∨ s_struct.asm_directive.d_tag = tag_string) :
    first_pass_dir s_struct st = first_pass_data s_struct st := by
  unfold first_pass_dir first_pass_dir_lookup
  rcases hd with hd | hd <;> simp [hd]

/-- What a `.data` or `.string` line does to the table and the error flag. -/
theorem first_pass_line_data (st : first_pass_state) (line : List Char)
    (ht : (first_pass_parse st line).dir_or_inst_tag = tag_dir)
    (hd : (first_pass_parse st line).asm_directive.d_tag = tag_data ∨
      (first_pass_parse st line).asm_directive.d_tag = tag_string) :
    ∃ st1 : first_pass_state, st1.symbol_table = st.symbol_table ∧ st1.IC = st.IC ∧
      st1.DC = st.DC ∧ st1.line_count = st.line_count ∧ st1.error = st.error ∧
      (first_pass_line st line).symbol_table =
        (first_pass_data (first_pass_parse st line) st1).symbol_table ∧
      (first_pass_line st line).error =
        (first_pass_data (first_pass_parse st line) st1).error := by
  refine ⟨{ st with
    buffer := (lang_engine_create_ss_from_logical_line (fgets_store st.buffer line)).2 },
    rfl, rfl, rfl, rfl, rfl, ?_, ?_⟩
  · rw [← first_pass_dir_data _ _ hd]
    unfold first_pass_line first_pass_switch
    unfold first_pass_parse at ht ⊢
    simp only [ht]
  · rw [← first_pass_dir_data _ _ hd]
    unfold first_pass_line first_pass_switch
    unfold first_pass_parse at ht ⊢
    simp only [ht]

/-! ## What the parser writes to its buffer (C6) -/

theorem only_nul_written_refl (b : List Char) : only_nul_written b b :=
  ⟨rfl, fun _ => Or.inl rfl⟩

theorem charAt_poke (b : List Char) (p : Nat) (c : Char) (i : Nat) :
    charAt (poke b p c) i = if i = p ∧ p < b.length then c else charAt b i := by
  unfold charAt poke
  simp only [List.getD_eq_getElem?_getD, List.getElem?_set]
  by_cases h : p = i
  · subst h
    by_cases h2 : p < b.length
    · simp [h2]
    · simp [h2, List.getElem?_eq_none (Nat.le_of_not_lt h2)]
  · have h' : ¬ i = p := fun e => h e.symm
    simp [h, h']

theorem only_nul_written_poke {b b' : List Char} (h : only_nul_written b b') (p : Nat) :
    only_nul_written b (poke b' p END_LINE) := by
  refine ⟨by simp [poke, h.1], fun i => ?_⟩
  rw [charAt_poke]
  split
  · exact Or.inr rfl
  · exact h.2 i

theorem only_nul_written_poke_if {b b' : List Char} (h : only_nul_written b b')
    (p : Option Nat) : only_nul_written b (poke_if b' p) := by
  cases p with
  | none => exact h
  | some t => exact only_nul_written_poke h t

theorem strchrOf_spec (c : Char) (l : List Char) (t : Nat) (h : strchrOf c l = some t) :
    l.get? t = some c := by
  induction l generalizing t with
  | nil => simp [strchrOf] at h
  | cons x xs ih =>
    unfold strchrOf at h
    split at h
    · rename_i hx
      cases h
      simp [hx]
    · split at h
      · cases h
      · cases hr : strchrOf c xs with
        | none => simp [hr] at h
        | some r =>
          simp only [hr, Option.map_some', Option.some.injEq] at h
          subst h
          simpa using ih r hr

theorem strchr_spec (buf : List Char) (p : Nat) (c : Char) (t : Nat)
    (h : strchr buf p c = some t) : buf.get? t = some c := by
  unfold strchr at h
  cases hr : strchrOf c (buf.drop p) with
  | none => simp [hr] at h
  | some r =>
    simp only [hr, Option.map_some', Option.some.injEq] at h
    subst h
    have := strchrOf_spec c _ r hr
    rw [List.get?_eq_getElem?, List.getElem?_drop] at this
    rw [List.get?_eq_getElem?, Nat.add_comm]
    exact this

theorem poke_poke_restore (buf : List Char) (t : Nat) (c x : Char)
    (h : buf.get? t = some c) : poke (poke buf t x) t c = buf := by
  unfold poke
  rw [List.set_set]
  rw [List.get?_eq_getElem?] at h
  apply List.ext_getElem?
  intro i
  rw [List.getElem?_set]
  split
  · rename_i hti
    subst hti
    split
    · exact h.symm
    · rename_i hlt
      rw [List.getElem?_eq_none (Nat.le_of_not_lt hlt)] at h
      cases h
  · rfl

/-! ## What the symbol-name validator accepts -/

theorem symbol_validation_loop_ok (cs : List Char) (str_len : Nat) :
    symbol_validation_loop cs str_len = sst_symbol_ok ↔
      (∀ c ∈ cs, isalnum c = true) ∧ str_len + cs.length ≤ max_symbol_len := by
  induction cs generalizing str_len with
  | nil =>
    unfold symbol_validation_loop
    split
    · rename_i h
      simp only [reduceCtorEq, List.not_mem_nil, false_implies, implies_true, List.length_nil,
        Nat.add_zero, true_and, false_iff]
      omega
    · rename_i h
      simp only [List.not_mem_nil, false_implies, implies_true, List.length_nil, Nat.add_zero,
        true_and, true_iff]
      omega
  | cons c cs ih =>
    unfold symbol_validation_loop
    split
    · rename_i hlen
      split
      · rename_i hc
        simp only [reduceCtorEq, List.mem_cons, forall_eq_or_imp, false_iff, not_and]
        intro h
        simp [h.1] at hc
      · rename_i hc
        rw [ih]
        simp only [Bool.not_eq_true', Bool.not_eq_false] at hc
        simp only [List.mem_cons, forall_eq_or_imp, hc, true_and, List.length_cons]
        constructor
        · rintro ⟨h1, h2⟩
          exact ⟨h1, by omega⟩
        · rintro ⟨h1, h2⟩
          exact ⟨h1, by omega⟩
    · rename_i hlen
      simp only [reduceCtorEq, List.mem_cons, forall_eq_or_imp, List.length_cons, false_iff,
        not_and]
      intro _
      omega

/-- The validator accepts exactly a letter followed by at most `max_symbol_len`
letters and digits, that is names of up to `max_symbol_len + 1` characters. -/
theorem lang_engine_symbol_validation_ok (string : List Char) :
    lang_engine_symbol_validation string = sst_symbol_ok ↔
      ∃ c cs, string = c :: cs ∧ isalpha c = true ∧ (∀ x ∈ cs, isalnum x = true) ∧
        cs.length ≤ max_symbol_len := by
  cases string with
  | nil => simp [lang_engine_symbol_validation]
  | cons c cs =>
    show (if (!isalpha c) = true then sst_symbol_starts_no_alpha
      else symbol_validation_loop cs 0) = sst_symbol_ok ↔ _
    cases hc : isalpha c with
    | false => simp [hc]
    | true =>
      simp only [Bool.not_true, Bool.false_eq_true, ↓reduceIte, symbol_validation_loop_ok,
        Nat.zero_add]
      constructor
      · rintro ⟨h1, h2⟩
        exact ⟨c, cs, rfl, hc, h1, h2⟩
      · rintro ⟨c', cs', e, -, h1, h2⟩
        cases e
        exact ⟨h1, h2⟩

/-! ## `strtol` on a base-10 literal -/

theorem digit_char_spec (d : Nat) (h : d < 10) :
    isdigit (digit_char d) = true ∧ (digit_char d).toNat - 48 = d ∧
      isspace (digit_char d) = false ∧ digit_char d ≠ '-' ∧ digit_char d ≠ '+' := by
  interval_cases d <;> decide

theorem strtol_digits_map (l : List Nat) (hl : ∀ d ∈ l, d < 10) (acc n : Nat) :
    strtol_digits (l.map digit_char) acc n =
      (l.foldl (fun a d => a * 10 + d) acc, n + l.length) := by
  induction l generalizing acc n with
  | nil => simp [strtol_digits]
  | cons d l ih =>
    have hd := digit_char_spec d (hl d (List.mem_cons_self d l))
    simp only [List.map_cons, strtol_digits, hd.1, ↓reduceIte, hd.2.1, List.foldl_cons,
      List.length_cons]
    rw [ih (fun x hx => hl x (List.mem_cons_of_mem d hx))]
    congr 1
    omega

theorem foldl_reverse_digits (l : List Nat) :
    l.reverse.foldl (fun a d => a * 10 + d) 0 = Nat.ofDigits 10 l := by
  induction l with
  | nil => simp [Nat.ofDigits]
  | cons d l ih =>
    simp only [List.reverse_cons, List.foldl_append, List.foldl_cons, List.foldl_nil, ih,
      Nat.ofDigits_cons]
    omega

theorem strtol_digits_decimal_nat (m : Nat) :
    strtol_digits (decimal_nat m) 0 0 = (m, (decimal_nat m).length) ∧
      0 < (decimal_nat m).length := by
  unfold decimal_nat
  split
  · rename_i h
    subst h
    decide
  · rename_i h
    have hl : ∀ d ∈ (Nat.digits 10 m).reverse, d < 10 := by
      intro d hd
      exact Nat.digits_lt_base (by decide) (List.mem_reverse.mp hd)
    rw [strtol_digits_map _ hl, foldl_reverse_digits, Nat.ofDigits_digits]
    simp only [Nat.zero_add, List.length_reverse, List.length_map, true_and]
    exact List.length_pos.mpr (by simpa [Nat.digits_eq_nil_iff_eq_zero] using h)

theorem decimal_nat_head (m : Nat) :
    ∃ c cs, decimal_nat m = c :: cs ∧ isspace c = false ∧ c ≠ '-' ∧ c ≠ '+' := by
  unfold decimal_nat
  split
  · exact ⟨'0', [], rfl, by decide, by decide, by decide⟩
  · rename_i h
    have hne : (Nat.digits 10 m).reverse ≠ [] := by
      simpa [Nat.digits_eq_nil_iff_eq_zero] using h
    obtain ⟨d, ds, hd⟩ := List.exists_cons_of_ne_nil hne
    have hlt : d < 10 := by
      have : d ∈ (Nat.digits 10 m).reverse := by
        rw [hd]
        exact List.mem_cons_self d ds
      exact Nat.digits_lt_base (by decide) (List.mem_reverse.mp this)
    have hs := digit_char_spec d hlt
    exact ⟨digit_char d, ds.map digit_char, by rw [hd]; rfl, hs.2.2.1, hs.2.2.2.1, hs.2.2.2.2⟩

theorem spanSpace_cons_of_not_space (c : Char) (cs : List Char) (h : isspace c = false) :
    spanSpace (c :: cs) = 0 := by
  simp [spanSpace, h]

theorem strtol_clamp (v : Int) (consumed : Nat) (digits : List Char) (sign : Bool)
    (s : List Char) (hws : spanSpace s = 0)
    (hneg : (s.head? = some '-') = (sign = true))
    (hsg : (if s.head? = some '-' ∨ s.head? = some '+' then 1 else 0) = consumed - digits.length)
    (hdrop : s.drop (consumed - digits.length) = digits)
    (hc : digits.length ≤ consumed) (m : Nat)
    (hd : strtol_digits digits 0 0 = (m, digits.length)) (hpos : 0 < digits.length)
    (hv : v = if sign then -(m : Int) else (m : Int)) :
    strtol s =
      if v > LONG_MAX then { value := LONG_MAX, consumed := consumed, erange := true }
      else if v < LONG_MIN then { value := LONG_MIN, consumed := consumed, erange := true }
      else { value := v, consumed := consumed, erange := false } := by
  unfold strtol
  simp only [hws, List.drop_zero, hsg, hdrop, hd, Nat.zero_add]
  have hne : ¬ digits.length = 0 := by omega
  have hcons : consumed - digits.length + digits.length = consumed := by omega
  simp only [hne, ↓reduceIte, hcons]
  have hvv : (if decide (s.head? = some '-') = true then -(m : Int) else (m : Int)) = v := by
    rw [hv]
    by_cases hs : sign = true
    · have : s.head? = some '-' := by rw [hneg]; exact hs
      simp [this, hs]
    · have : ¬ s.head? = some '-' := by rw [hneg]; exact hs
      simp [this, hs]
  rw [hvv]

/-- On the base-10 literal of `n`, `strtol` consumes the whole literal and
returns `n`, or the nearest bound of `long` with `ERANGE` when `n` is outside
`long`. -/
theorem strtol_decimal (n : Int) :
    strtol (decimal n) =
      if n > LONG_MAX then { value := LONG_MAX, consumed := (decimal n).length, erange := true }
      else if n < LONG_MIN then
        { value := LONG_MIN, consumed := (decimal n).length, erange := true }
      else { value := n, consumed := (decimal n).length, erange := false } := by
  obtain ⟨c, cs, hc, hsp, hm, hp⟩ := decimal_nat_head n.natAbs
  obtain ⟨hdig, hpos⟩ := strtol_digits_decimal_nat n.natAbs
  by_cases hneg : n < 0
  · have hdec : decimal n = '-' :: decimal_nat n.natAbs := by simp [decimal, hneg]
    rw [hdec]
    refine strtol_clamp n _ (decimal_nat n.natAbs) true _
      (spanSpace_cons_of_not_space _ _ (by decide)) (by simp) (by simp) (by simp) (by simp)
      n.natAbs hdig hpos ?_
    simp only [↓reduceIte]
    omega
  · have hdec : decimal n = decimal_nat n.natAbs := by simp [decimal, hneg]
    rw [hdec]
    refine strtol_clamp n _ (decimal_nat n.natAbs) false _ ?_ ?_ ?_ (by simp) (by simp)
      n.natAbs hdig hpos ?_
    · rw [hc]
      exact spanSpace_cons_of_not_space _ _ hsp
    · rw [hc]
      simp [hm]
    · rw [hc]
      simp [hm, hp]
    · simp only [Bool.false_eq_true, ↓reduceIte]
      omega
/-! ## Constant operands written as base-10 literals -/

theorem lang_engine_number_validation_decimal (n : Int) (max min : Int) :
    lang_engine_number_validation ('#' :: decimal n) 1 max min =
      if n > LONG_MAX ∨ n < LONG_MIN then
        (sst_number_overflows, long_to_int (if n > LONG_MAX then LONG_MAX else LONG_MIN), none)
      else if long_to_int n > max then (sst_number_bigger_than_max, long_to_int n, none)
      else if long_to_int n < min then (sst_number_lower_than_min, long_to_int n, none)
      else (sst_number_ok, long_to_int n, some (1 + (decimal n).length)) := by
  obtain ⟨-, hpos⟩ := strtol_digits_decimal_nat n.natAbs
  have hlen : 0 < (decimal n).length := by
    unfold decimal
    split
    · simp
    · exact hpos
  have hne : ¬ (decimal n).length = 0 := by omega
  unfold lang_engine_number_validation
  simp only [List.drop_succ_cons, List.drop_zero, strtol_decimal]
  by_cases h1 : n > LONG_MAX
  · simp [h1, hne]
  · by_cases h2 : n < LONG_MIN
    · simp [h1, h2, hne]
    · simp [h1, h2, hne]

/-- The operand `#n`, `n` written as a base-10 literal, is accepted exactly
when `n` fits a `long` and its truncation to `int` lies in
[`MIN_C_NUMBER`, `MAX_C_NUMBER`]; the value stored is that truncation. -/
theorem constant_operand_accepted_iff (n : Int) :
    ((lang_engine_parse_param ('#' :: decimal n) 0).error_str = "" ↔
        LONG_MIN ≤ n ∧ n ≤ LONG_MAX ∧ MIN_C_NUMBER ≤ long_to_int n ∧
          long_to_int n ≤ MAX_C_NUMBER) ∧
      (lang_engine_parse_param ('#' :: decimal n) 0).opt = tag_arg_tag_constant ∧
      (LONG_MIN ≤ n → n ≤ LONG_MAX →
        (lang_engine_parse_param ('#' :: decimal n) 0).param.constant_number =
          long_to_int n) := by
  have h0 : SKIP_SPACE ('#' :: decimal n) 0 = 0 := by
    simp [SKIP_SPACE, spanSpace, show isspace '#' = false by decide]
  have hc : charAt ('#' :: decimal n) 0 = '#' := rfl
  unfold lang_engine_parse_param
  simp only [h0, hc, show ('#' : Char) ≠ 'r' by decide, ↓reduceIte, Nat.zero_add,
    lang_engine_number_validation_decimal]
  by_cases h1 : n > LONG_MAX ∨ n < LONG_MIN
  · simp only [h1, ↓reduceIte, ne_eq, reduceCtorEq, not_false_eq_true, true_and]
    refine ⟨⟨fun h => absurd h (by decide), fun h => ?_⟩, fun ha hb => ?_⟩
    · rcases h1 with h1 | h1 <;> omega
    · rcases h1 with h1 | h1 <;> omega
  · simp only [h1, ↓reduceIte]
    have h1' : LONG_MIN ≤ n ∧ n ≤ LONG_MAX := by
      constructor <;> omega
    by_cases h2 : long_to_int n > MAX_C_NUMBER
    · simp only [h2, ↓reduceIte, ne_eq, reduceCtorEq, not_false_eq_true, true_and,
        implies_true, and_true]
      refine ⟨fun h => absurd h (by decide), fun h => ?_⟩
      omega
    · simp only [h2, ↓reduceIte]
      by_cases h3 : long_to_int n < MIN_C_NUMBER
      · simp only [h3, ↓reduceIte, ne_eq, reduceCtorEq, not_false_eq_true, true_and,
          implies_true, and_true]
        refine ⟨fun h => absurd h (by decide), fun h => ?_⟩
        omega
      · simp only [h3, ↓reduceIte, ne_eq, not_true_eq_false, true_and, implies_true,
          and_true, true_iff]
        exact ⟨h1'.1, h1'.2, by omega, by omega⟩

/-- For `n` in the range of `int`, the operand `#n` is accepted as the Constant
`n` if and only if `n` lies in [-8192, 8191]. -/
theorem constant_operand_in_int_range (n : Int) (hlo : -(2 ^ 31) ≤ n) (hhi : n < 2 ^ 31) :
    ((lang_engine_parse_param ('#' :: decimal n) 0).error_str = "" ∧
        (lang_engine_parse_param ('#' :: decimal n) 0).opt = tag_arg_tag_constant ∧
        (lang_engine_parse_param ('#' :: decimal n) 0).param.constant_number = n) ↔
      (-8192 ≤ n ∧ n ≤ 8191) := by
  have hw : long_to_int n = n := by
    unfold long_to_int
    omega
  have hL : LONG_MIN ≤ n ∧ n ≤ LONG_MAX := by
    unfold LONG_MIN LONG_MAX
    constructor <;> omega
  obtain ⟨h1, h2, h3⟩ := constant_operand_accepted_iff n
  rw [hw] at h1 h3
  constructor
  · rintro ⟨he, -, -⟩
    have := h1.mp he
    exact ⟨this.2.2.1, this.2.2.2⟩
  · rintro ⟨ha, hb⟩
    exact ⟨h1.mpr ⟨hL.1, hL.2, ha, hb⟩, h2, h3 hL.1 hL.2⟩

/-! ## Evaluations on concrete programs -/

/-- C1 (code defect).  The program `.entry X` / `A: stop` declares `X` as entry
and never defines it, yet pass 1 returns 0: the table has two slots, both
taken, so the closing loop never reaches the branch that reports an undefined
entry; `X` is still a bare Entry without address, and the driver goes on to
pass 2 and to the output writer. -/
theorem first_pass_misses_undefined_entry :
    assembler_first_pass_symbol_table gda_create undefined_entry_program =
        some (0, { pointer_array :=
                    [ some ⟨"X".toList, none, sym_type_entry, 1⟩,
                      some ⟨"A".toList, some 100, sym_type_code, 2⟩ ]
                   elem_count := 2 }) ∧
      (assemble_file undefined_entry_program).map Option.isSome = some true := by
  decide!

/-- C2 (code defect).  For the example program both passes return 0, pass 2
emits 4 code words and the data words `5, -3, 17, 'h', 'i', 0`, so the first
word of `LEN`'s string lies at address 100 + 4 + 3 = 107; pass 1 leaves `LEN`
at address 104, because the unlabeled `.data` line did not advance `DC`. -/
theorem first_pass_data_address_ignores_unlabeled_data :
    (assembler_first_pass_symbol_table gda_create example_program).map
        (fun r => (r.1, find_symbol r.2 "LEN".toList)) =
        some (0, some ⟨"LEN".toList, some 104, sym_type_data, 3⟩) ∧
      (assemble_file example_program).map (Option.map (fun tu => tu.bmc_code.elems.length)) =
        some (some 4) ∧
      (assemble_file example_program).map (Option.map (fun tu => tu.bmc_data.elems)) =
        some (some [5, 65533, 17, 104, 105, 0]) := by
  decide!

/-- C3.  On the six-line example program pass 1 returns 0 with `MAIN` a
CodeEntry at address 100, `LEN` a Data symbol and `X` External; pass 2, run on
that table, returns 0 with the code words `[60, 264, 580, 1]` and the extern
usage `X ↦ [103]`. -/
theorem example_program_assembles :
    assembler_first_pass_symbol_table gda_create example_program =
        some (0, example_symbol_table) ∧
      (assembler_first_pass_symbol_table gda_create example_program).map
          (fun r => (find_symbol r.2 "MAIN".toList).map (fun y => (y.sym_type, y.addr))) =
        some (some (sym_type_code_entry, some 100)) ∧
      (assembler_first_pass_symbol_table gda_create example_program).map
          (fun r => (find_symbol r.2 "LEN".toList).map (fun y => y.sym_type)) =
        some (some sym_type_data) ∧
      (assembler_first_pass_symbol_table gda_create example_program).map
          (fun r => (find_symbol r.2 "X".toList).map (fun y => y.sym_type)) =
        some (some sym_type_extern) ∧
      (assembler_first_pass_symbol_table gda_create example_program).map
          (fun r => r.2.elems.map (fun y => y.symbol_name)) =
        some ["MAIN".toList, "LEN".toList, "X".toList] ∧
      ((assembler_first_pass_symbol_table gda_create example_program).bind
          (fun r => assembler_second_pass
            { assembler_create_new_translation_unit with symbol_table := r.2 }
            example_program)).map Prod.fst = some 0 ∧
      ((assembler_first_pass_symbol_table gda_create example_program).bind
          (fun r => assembler_second_pass
            { assembler_create_new_translation_unit with symbol_table := r.2 }
            example_program)).map (fun r => r.2.bmc_code.elems) = some [60, 264, 580, 1] ∧
      ((assembler_first_pass_symbol_table gda_create example_program).bind
          (fun r => assembler_second_pass
            { assembler_create_new_translation_unit with symbol_table := r.2 }
            example_program)).map
          (fun r => r.2.extern_usage.elems.map (fun e => (e.symbol_name, e.addresses.elems))) =
        some [("X".toList, [103])] := by
  decide!

/-- C4 (code defect).  A name of 31 characters, a letter followed by 30 letters
and digits, passes the validator: the loop counts the characters after the
first one and accepts up to `max_symbol_len` of them. -/
theorem symbol_validation_accepts_31 :
    name_of_31.length = 31 ∧ lang_engine_symbol_validation name_of_31 = sst_symbol_ok := by
  decide

/-- C5 (code defect).  The operand `#4294967296` is outside [-8192, 8191], yet
the operand parser accepts it as the Constant 0 and the line `prn #4294967296`
parses to an Instruction: `strtol` returns 2^32 without `ERANGE` and the store
into the `int` keeps 0, which passes the range test. -/
theorem constant_4294967296_accepted :
    lang_engine_parse_param "#4294967296".toList 0 =
        { error_str := "", opt := tag_arg_tag_constant, param := { constant_number := 0 } } ∧
      (lang_engine_create_ss_from_logical_line "prn #4294967296\n".toList).1 =
        { dir_or_inst_tag := tag_inst
          cpu_inst :=
            { i_tag := tag_prn
              group_B :=
                { rest_of_group_b :=
                    { arg_opt := tag_arg_tag_constant
                      arg_option := { constant_number := 0 } } } } } := by
  decide!

/-! ## The instruction counter (C9, C10) -/

/-- C9.  Whatever the state of pass 1 and the line `fgets` delivers: when the
line parses to an instruction, `IC` grows by 2 for a Group A instruction with
two register operands and by 3 for any other Group A instruction, by 2 for a
Group B instruction in the single-operand form and by 1 for a Group C
instruction; when the line parses to anything else (blank, directive, syntax
error) `IC` is unchanged. -/
theorem first_pass_instruction_counter (st : first_pass_state) (line : List Char) :
    ((first_pass_parse st line).dir_or_inst_tag = tag_inst →
        is_i_tag_groupA (first_pass_parse st line).cpu_inst.i_tag = true →
        ((first_pass_parse st line).cpu_inst.group_A.left_and_right_args =
            (tag_arg_tag_register, tag_arg_tag_register) →
          (first_pass_line st line).IC = st.IC + 2) ∧
        ((first_pass_parse st line).cpu_inst.group_A.left_and_right_args ≠
            (tag_arg_tag_register, tag_arg_tag_register) →
          (first_pass_line st line).IC = st.IC + 3)) ∧
      ((first_pass_parse st line).dir_or_inst_tag = tag_inst →
        is_i_tag_groupB (first_pass_parse st line).cpu_inst.i_tag = true →
        (first_pass_parse st line).cpu_inst.group_B.arg_options = tag_1_arg →
        (first_pass_line st line).IC = st.IC + 2) ∧
      ((first_pass_parse st line).dir_or_inst_tag = tag_inst →
        is_i_tag_groupC (first_pass_parse st line).cpu_inst.i_tag = true →
        (first_pass_line st line).IC = st.IC + 1) ∧
      ((first_pass_parse st line).dir_or_inst_tag ≠ tag_inst →
        (first_pass_line st line).IC = st.IC) := by
  rw [first_pass_line_IC]
  refine ⟨fun ht hA => ⟨fun hr => ?_, fun hr => ?_⟩, fun ht hB h1 => ?_, fun ht hC => ?_,
    fun ht => ?_⟩
  · rw [if_pos ht]
    simp [first_pass_inst_words, hA, hr]
  · rw [if_pos ht]
    have : ¬((first_pass_parse st line).cpu_inst.group_A.left_and_right_args.1 =
          tag_arg_tag_register ∧
        (first_pass_parse st line).cpu_inst.group_A.left_and_right_args.2 =
          tag_arg_tag_register) := by
      intro h
      exact hr (Prod.ext h.1 h.2)
    simp [first_pass_inst_words, hA, this]
  · rw [if_pos ht]
    simp [first_pass_inst_words, groupB_not_groupA _ hB, hB, h1]
  · rw [if_pos ht]
    simp [first_pass_inst_words, (groupC_not_groupA_groupB _ hC).1,
      (groupC_not_groupA_groupB _ hC).2]
  · rw [if_neg ht]

/-- Witness of C9: the five cases on `mov r1, r2`, `mov r1, #5`, `jmp X`, `stop`
and a comment line, from the initial state of pass 1. -/
theorem first_pass_instruction_counter_witness :
    (first_pass_line (first_pass_init gda_create) "mov r1, r2\n".toList).IC =
        (first_pass_init gda_create).IC + 2 ∧
      (first_pass_line (first_pass_init gda_create) "mov r1, #5\n".toList).IC =
        (first_pass_init gda_create).IC + 3 ∧
      (first_pass_line (first_pass_init gda_create) "jmp X\n".toList).IC =
        (first_pass_init gda_create).IC + 2 ∧
      (first_pass_line (first_pass_init gda_create) "stop\n".toList).IC =
        (first_pass_init gda_create).IC + 1 ∧
      (first_pass_line (first_pass_init gda_create) "; a comment\n".toList).IC =
        (first_pass_init gda_create).IC :=
  ⟨((first_pass_instruction_counter (first_pass_init gda_create) "mov r1, r2\n".toList).1
      (by decide!) (by decide!)).1 (by decide!),
    ((first_pass_instruction_counter (first_pass_init gda_create) "mov r1, #5\n".toList).1
      (by decide!) (by decide!)).2 (by decide!),
    (first_pass_instruction_counter (first_pass_init gda_create) "jmp X\n".toList).2.1
      (by decide!) (by decide!) (by decide!),
    (first_pass_instruction_counter (first_pass_init gda_create) "stop\n".toList).2.2.1
      (by decide!) (by decide!),
    (first_pass_instruction_counter (first_pass_init gda_create) "; a comment\n".toList).2.2.2
      (by decide!)⟩

/-- Counterexample to C10 as stated: on the line `jmp L(r1,r2)`, a Group B
instruction in the indexed form with two register index operands, pass 1
advances `IC` by 3, not by 2; on `jmp L(r1,#5)` it advances `IC` by 4, not by
3.  Pass 2 emits as many words: 3 for the first line (opcode, base symbol,
shared register word) and 4 for the second. -/
theorem first_pass_indexed_form_not_2_3 :
    ((first_pass_parse (first_pass_init gda_create) "jmp L(r1,r2)\n".toList).dir_or_inst_tag =
          tag_inst ∧
        (first_pass_parse (first_pass_init gda_create) "jmp L(r1,r2)\n".toList).cpu_inst.i_tag =
          tag_jmp ∧
        (first_pass_parse (first_pass_init gda_create)
            "jmp L(r1,r2)\n".toList).cpu_inst.group_B.arg_options =
          tag_arg_2_args_with_symbol ∧
        (first_pass_parse (first_pass_init gda_create)
            "jmp L(r1,r2)\n".toList).cpu_inst.group_B.arg_2_symbol.left_and_right_args =
          (tag_arg_tag_register, tag_arg_tag_register) ∧
        (first_pass_line (first_pass_init gda_create) "jmp L(r1,r2)\n".toList).IC ≠
          (first_pass_init gda_create).IC + 2) ∧
      ((first_pass_parse (first_pass_init gda_create) "jmp L(r1,#5)\n".toList).dir_or_inst_tag =
          tag_inst ∧
        (first_pass_parse (first_pass_init gda_create)
            "jmp L(r1,#5)\n".toList).cpu_inst.group_B.arg_options =
          tag_arg_2_args_with_symbol ∧
        (first_pass_parse (first_pass_init gda_create)
            "jmp L(r1,#5)\n".toList).cpu_inst.group_B.arg_2_symbol.left_and_right_args =
          (tag_arg_tag_register, tag_arg_tag_constant) ∧
        (first_pass_line (first_pass_init gda_create) "jmp L(r1,#5)\n".toList).IC ≠
          (first_pass_init gda_create).IC + 3) ∧
      (assemble_file indexed_registers_program).map
          (Option.map (fun tu => tu.bmc_code.elems)) = some (some [15944, 414, 264]) ∧
      (assemble_file indexed_constant_program).map
          (Option.map (fun tu => tu.bmc_code.elems)) = some (some [12872, 418, 256, 20]) := by
  decide!

/-- C10 as amended.  Whatever the state of pass 1 and the line: when the line
parses to a Group B instruction in the indexed form, `IC` grows by 3 when both
index operands are registers (opcode word, word of the base symbol, one shared
register word) and by 4 otherwise. -/
theorem first_pass_indexed_form_counter (st : first_pass_state) (line : List Char)
    (ht : (first_pass_parse st line).dir_or_inst_tag = tag_inst)
    (hB : is_i_tag_groupB (first_pass_parse st line).cpu_inst.i_tag = true)
    (h2 : (first_pass_parse st line).cpu_inst.group_B.arg_options =
      tag_arg_2_args_with_symbol) :
    ((first_pass_parse st line).cpu_inst.group_B.arg_2_symbol.left_and_right_args =
          (tag_arg_tag_register, tag_arg_tag_register) →
        (first_pass_line st line).IC = st.IC + 3) ∧
      ((first_pass_parse st line).cpu_inst.group_B.arg_2_symbol.left_and_right_args ≠
          (tag_arg_tag_register, tag_arg_tag_register) →
        (first_pass_line st line).IC = st.IC + 4) := by
  rw [first_pass_line_IC, if_pos ht]
  refine ⟨fun hr => ?_, fun hr => ?_⟩
  · simp [first_pass_inst_words, groupB_not_groupA _ hB, hB, h2, hr]
  · have : ¬((first_pass_parse st line).cpu_inst.group_B.arg_2_symbol.left_and_right_args.1 =
          tag_arg_tag_register ∧
        (first_pass_parse st line).cpu_inst.group_B.arg_2_symbol.left_and_right_args.2 =
          tag_arg_tag_register) := by
      intro h
      exact hr (Prod.ext h.1 h.2)
    simp [first_pass_inst_words, groupB_not_groupA _ hB, hB, h2, this]

/-- Witness of the amended C10 on `jmp L(r1,r2)` and `jmp L(r1,#5)`. -/
theorem first_pass_indexed_form_counter_witness :
    (first_pass_line (first_pass_init gda_create) "jmp L(r1,r2)\n".toList).IC =
        (first_pass_init gda_create).IC + 3 ∧
      (first_pass_line (first_pass_init gda_create) "jmp L(r1,#5)\n".toList).IC =
        (first_pass_init gda_create).IC + 4 :=
  ⟨(first_pass_indexed_form_counter (first_pass_init gda_create) "jmp L(r1,r2)\n".toList
      (by decide!) (by decide!) (by decide!)).1 (by decide!),
    (first_pass_indexed_form_counter (first_pass_init gda_create) "jmp L(r1,#5)\n".toList
      (by decide!) (by decide!) (by decide!)).2 (by decide!)⟩

/-! ## Reachable states of pass 1 -/

theorem first_pass_scan_holds (lines : List (List Char)) :
    ∃ l, (first_pass_scan (first_pass_init gda_create) lines).symbol_table.holds l :=
  (first_pass_scan_evolves lines (first_pass_init gda_create) [] gda_create_holds).1

theorem first_pass_scan_append (st : first_pass_state) (xs ys : List (List Char)) :
    first_pass_scan st (xs ++ ys) = first_pass_scan (first_pass_scan st xs) ys := by
  simp [first_pass_scan, List.foldl_append]

theorem first_pass_scan_cons (st : first_pass_state) (x : List Char) (xs : List (List Char)) :
    first_pass_scan st (x :: xs) = first_pass_scan (first_pass_line st x) xs := rfl

theorem first_pass_switch_error (s_struct : syntax_struct) (st : first_pass_state)
    (h : st.error = 1) : (first_pass_switch s_struct st).error = 1 := by
  have h1 : ∀ s : first_pass_state, s.error = 1 → (first_pass_extern_dir s).error = 1 := by
    intro s hs
    unfold first_pass_extern_dir
    repeat' split
    all_goals first | exact hs | rfl
  have h2 : ∀ s : first_pass_state, s.error = 1 → (first_pass_entry_dir s).error = 1 := by
    intro s hs
    unfold first_pass_entry_dir
    repeat' split
    all_goals first | exact hs | rfl
  have h3 : ∀ s : first_pass_state, s.error = 1 → (first_pass_data s_struct s).error = 1 := by
    intro s hs
    unfold first_pass_data
    dsimp only
    repeat' split
    all_goals first | exact hs | rfl
  have h0 : (first_pass_dir_lookup s_struct st).error = 1 := by
    unfold first_pass_dir_lookup
    split
    · exact h
    · exact h
  have h4 : (first_pass_inst_label s_struct st).error = 1 := by
    unfold first_pass_inst_label
    dsimp only
    repeat' split
    all_goals first | exact h | rfl
  unfold first_pass_switch
  split
  · rfl
  · exact h4
  · unfold first_pass_dir
    dsimp only
    repeat' split
    · exact h1 _ h0
    · exact h2 _ h0
    · exact h3 _ h0
    · exact h0
  · exact h

theorem first_pass_line_error (st : first_pass_state) (line : List Char) (h : st.error = 1) :
    (first_pass_line st line).error = 1 :=
  first_pass_switch_error _
    { st with buffer := (lang_engine_create_ss_from_logical_line (fgets_store st.buffer line)).2 }
    h

theorem first_pass_scan_error (lines : List (List Char)) (st : first_pass_state)
    (h : st.error = 1) : (first_pass_scan st lines).error = 1 := by
  induction lines generalizing st with
  | nil => exact h
  | cons line rest ih => exact ih _ (first_pass_line_error st line h)

/-! ## Labeled lines (C8) -/

/-- C8.  Pass 1 starts with `IC = 100` and `DC = 0`.  In every state `st` pass 1
reaches and for every line that parses with a label: on an instruction line a
name absent from the table is inserted as Code at the current `IC`, a name held
as bare Entry becomes CodeEntry at the current `IC`, and a name held with any
other type sets the error flag and leaves the table unchanged; on a `.data` or
`.string` line the same holds with Data, DataEntry and the current `DC`. -/
theorem first_pass_labeled_line (st : first_pass_state) (line : List Char)
    (hreach : ∃ pre, st = first_pass_scan (first_pass_init gda_create) pre)
    (hlabel : (first_pass_parse st line).symbol ≠ []) :
    (first_pass_init gda_create).IC = 100 ∧ (first_pass_init gda_create).DC = 0 ∧
      ((first_pass_parse st line).dir_or_inst_tag = tag_inst →
        (find_symbol st.symbol_table (first_pass_parse st line).symbol = none →
          find_symbol (first_pass_line st line).symbol_table (first_pass_parse st line).symbol =
            some ⟨(first_pass_parse st line).symbol, some st.IC, sym_type_code,
              st.line_count⟩) ∧
        (∀ y, find_symbol st.symbol_table (first_pass_parse st line).symbol = some y →
          y.sym_type = sym_type_entry →
          find_symbol (first_pass_line st line).symbol_table (first_pass_parse st line).symbol =
            some { y with addr := some st.IC, sym_type := sym_type_code_entry }) ∧
        (∀ y, find_symbol st.symbol_table (first_pass_parse st line).symbol = some y →
          y.sym_type ≠ sym_type_entry →
          (first_pass_line st line).error = 1 ∧
            (first_pass_line st line).symbol_table = st.symbol_table)) ∧
      ((first_pass_parse st line).dir_or_inst_tag = tag_dir →
        ((first_pass_parse st line).asm_directive.d_tag = tag_data ∨
          (first_pass_parse st line).asm_directive.d_tag = tag_string) →
        (find_symbol st.symbol_table (first_pass_parse st line).symbol = none →
          find_symbol (first_pass_line st line).symbol_table (first_pass_parse st line).symbol =
            some ⟨(first_pass_parse st line).symbol, some st.DC, sym_type_data,
              st.line_count⟩) ∧
        (∀ y, find_symbol st.symbol_table (first_pass_parse st line).symbol = some y →
          y.sym_type = sym_type_entry →
          find_symbol (first_pass_line st line).symbol_table (first_pass_parse st line).symbol =
            some { y with sym_type := sym_type_data_entry, addr := some st.DC }) ∧
        (∀ y, find_symbol st.symbol_table (first_pass_parse st line).symbol = some y →
          y.sym_type ≠ sym_type_entry →
          (first_pass_line st line).error = 1 ∧
            (first_pass_line st line).symbol_table = st.symbol_table)) := by
  obtain ⟨pre, rfl⟩ := hreach
  obtain ⟨l, hl⟩ := first_pass_scan_holds pre
  refine ⟨rfl, rfl, fun ht => ?_, fun ht hd => ?_⟩
  · obtain ⟨st1, e1, e2, -, e4, -, e6, e7⟩ := first_pass_line_inst _ line ht
    have spec := first_pass_inst_label_spec (first_pass_parse _ line) st1 (e1 ▸ hl) hlabel
    rw [e6, e7]
    rw [e1, e2, e4] at spec
    exact ⟨fun hf => (spec.1 hf).1, fun y hf hy => (spec.2.1 y hf hy).1, spec.2.2⟩
  · obtain ⟨st1, e1, -, e3, e4, -, e6, e7⟩ := first_pass_line_data _ line ht hd
    have spec := first_pass_data_spec (first_pass_parse _ line) st1 (e1 ▸ hl) hlabel
    rw [e6, e7]
    rw [e1, e3, e4] at spec
    exact ⟨fun hf => (spec.1 hf).1, fun y hf hy => (spec.2.1 y hf hy).1, spec.2.2⟩

/-- Witness of C8: the six cases, on the lines `MAIN: stop` and `MAIN: .data 7`
read in the initial state, after `.entry MAIN`, and after `MAIN: stop`. -/
theorem first_pass_labeled_line_witness :
    (find_symbol (first_pass_line (first_pass_state_after []) "MAIN: stop\n".toList).symbol_table
          (first_pass_parse (first_pass_state_after []) "MAIN: stop\n".toList).symbol =
        some ⟨(first_pass_parse (first_pass_state_after []) "MAIN: stop\n".toList).symbol,
          some (first_pass_state_after []).IC, sym_type_code,
          (first_pass_state_after []).line_count⟩) ∧
      (find_symbol
          (first_pass_line (first_pass_state_after [".entry MAIN\n".toList])
            "MAIN: stop\n".toList).symbol_table
          (first_pass_parse (first_pass_state_after [".entry MAIN\n".toList])
            "MAIN: stop\n".toList).symbol =
        some ⟨"MAIN".toList, some (first_pass_state_after [".entry MAIN\n".toList]).IC,
          sym_type_code_entry, 1⟩) ∧
      ((first_pass_line (first_pass_state_after ["MAIN: stop\n".toList])
            "MAIN: stop\n".toList).error = 1 ∧
        (first_pass_line (first_pass_state_after ["MAIN: stop\n".toList])
            "MAIN: stop\n".toList).symbol_table =
          (first_pass_state_after ["MAIN: stop\n".toList]).symbol_table) ∧
      (find_symbol
          (first_pass_line (first_pass_state_after []) "MAIN: .data 7\n".toList).symbol_table
          (first_pass_parse (first_pass_state_after []) "MAIN: .data 7\n".toList).symbol =
        some ⟨(first_pass_parse (first_pass_state_after []) "MAIN: .data 7\n".toList).symbol,
          some (first_pass_state_after []).DC, sym_type_data,
          (first_pass_state_after []).line_count⟩) ∧
      (find_symbol
          (first_pass_line (first_pass_state_after [".entry MAIN\n".toList])
            "MAIN: .data 7\n".toList).symbol_table
          (first_pass_parse (first_pass_state_after [".entry MAIN\n".toList])
            "MAIN: .data 7\n".toList).symbol =
        some ⟨"MAIN".toList, some (first_pass_state_after [".entry MAIN\n".toList]).DC,
          sym_type_data_entry, 1⟩) ∧
      ((first_pass_line (first_pass_state_after ["MAIN: stop\n".toList])
            "MAIN: .data 7\n".toList).error = 1 ∧
        (first_pass_line (first_pass_state_after ["MAIN: stop\n".toList])
            "MAIN: .data 7\n".toList).symbol_table =
          (first_pass_state_after ["MAIN: stop\n".toList]).symbol_table) :=
  ⟨((first_pass_labeled_line (first_pass_state_after []) "MAIN: stop\n".toList ⟨[], rfl⟩
        (by decide!)).2.2.1 (by decide!)).1 (by decide!),
    ((first_pass_labeled_line (first_pass_state_after [".entry MAIN\n".toList])
        "MAIN: stop\n".toList ⟨[".entry MAIN\n".toList], rfl⟩
        (by decide!)).2.2.1 (by decide!)).2.1 ⟨"MAIN".toList, none, sym_type_entry, 1⟩
        (by decide!) (by decide!),
    ((first_pass_labeled_line (first_pass_state_after ["MAIN: stop\n".toList])
        "MAIN: stop\n".toList ⟨["MAIN: stop\n".toList], rfl⟩
        (by decide!)).2.2.1 (by decide!)).2.2 ⟨"MAIN".toList, some 100, sym_type_code, 1⟩
        (by decide!) (by decide!),
    ((first_pass_labeled_line (first_pass_state_after []) "MAIN: .data 7\n".toList ⟨[], rfl⟩
        (by decide!)).2.2.2 (by decide!) (by decide!)).1 (by decide!),
    ((first_pass_labeled_line (first_pass_state_after [".entry MAIN\n".toList])
        "MAIN: .data 7\n".toList ⟨[".entry MAIN\n".toList], rfl⟩
        (by decide!)).2.2.2 (by decide!) (by decide!)).2.1
        ⟨"MAIN".toList, none, sym_type_entry, 1⟩ (by decide!) (by decide!),
    ((first_pass_labeled_line (first_pass_state_after ["MAIN: stop\n".toList])
        "MAIN: .data 7\n".toList ⟨["MAIN: stop\n".toList], rfl⟩
        (by decide!)).2.2.2 (by decide!) (by decide!)).2.2
        ⟨"MAIN".toList, some 100, sym_type_code, 1⟩ (by decide!) (by decide!)⟩

/-! ## A data label followed by an instruction label (C7) -/

theorem symbol_evolves_defined {y y' : symbol} (h : symbol_evolves y y')
    (hy : y.sym_type ≠ sym_type_entry) :
    y'.sym_type ≠ sym_type_entry ∧ y'.addr = y.addr := by
  obtain ⟨a, t⟩ := h.2 hy
  refine ⟨?_, a⟩
  rcases t with t | ⟨_, t⟩ | ⟨_, t⟩ <;> rw [t]
  · exact hy
  · decide
  · decide

theorem symbol_evolves_data {y y' : symbol} (h : symbol_evolves y y')
    (hy : y.sym_type = sym_type_data ∨ y.sym_type = sym_type_data_entry) :
    (y'.sym_type = sym_type_data ∨ y'.sym_type = sym_type_data_entry) ∧ y'.addr = y.addr := by
  have hne : y.sym_type ≠ sym_type_entry := by
    rcases hy with hy | hy <;> rw [hy] <;> decide
  obtain ⟨a, t⟩ := h.2 hne
  refine ⟨?_, a⟩
  rcases t with t | ⟨s, t⟩ | ⟨s, t⟩
  · rw [t]
    exact hy
  · exact Or.inr t
  · rcases hy with hy | hy <;> rw [hy] at s <;> exact absurd s (by decide)

theorem find_symbol_rebased {g : gda symbol} {l : List symbol} (IC : Nat)
    (h : g.holds (l.map (rebase_symbol IC))) (name : List Char) :
    find_symbol g name = (l.find? (symbol_named name)).map (rebase_symbol IC) := by
  rw [find_symbol_holds h, List.find?_map]
  congr 2
  funext y
  simp only [Function.comp, symbol_named, rebase_symbol]
  split <;> rfl

/-- C7.  Let a program hold a `.data` or `.string` line labeled `name` and,
later, an instruction line labeled `name`.  Then pass 1 returns the error flag
1, the instruction line leaves the symbol table as it was, and, when the data
line is the first definition of `name` (the name was absent or a bare Entry
before it), the symbol keeps the data counter of that line as address and a
data type (Data, or DataEntry once `.entry` names it) up to the instruction
line and to the end of the scan; the table pass 1 returns holds it rebased by
the final instruction counter. -/
theorem first_pass_data_label_then_inst_label (am_file : List Char)
    (pre mid post : List (List Char)) (l1 l2 : List Char) (st1 st2 : first_pass_state)
    (hfile : file_lines am_file = pre ++ l1 :: (mid ++ l2 :: post))
    (hst1 : st1 = first_pass_scan (first_pass_init gda_create) pre)
    (hst2 : st2 = first_pass_scan (first_pass_line st1 l1) mid)
    (h1t : (first_pass_parse st1 l1).dir_or_inst_tag = tag_dir)
    (h1d : (first_pass_parse st1 l1).asm_directive.d_tag = tag_data ∨
      (first_pass_parse st1 l1).asm_directive.d_tag = tag_string)
    (h1l : (first_pass_parse st1 l1).symbol ≠ [])
    (h2t : (first_pass_parse st2 l2).dir_or_inst_tag = tag_inst)
    (h2l : (first_pass_parse st2 l2).symbol = (first_pass_parse st1 l1).symbol) :
    (∃ tbl, assembler_first_pass_symbol_table gda_create am_file = some (1, tbl)) ∧
      (first_pass_line st2 l2).symbol_table = st2.symbol_table ∧
      ((find_symbol st1.symbol_table (first_pass_parse st1 l1).symbol = none ∨
          ∃ y, find_symbol st1.symbol_table (first_pass_parse st1 l1).symbol = some y ∧
            y.sym_type = sym_type_entry) →
        (∃ y, find_symbol st2.symbol_table (first_pass_parse st1 l1).symbol = some y ∧
          y.addr = some st1.DC ∧
          (y.sym_type = sym_type_data ∨ y.sym_type = sym_type_data_entry)) ∧
        (∃ y, find_symbol (first_pass_scan (first_pass_init gda_create)
              (file_lines am_file)).symbol_table (first_pass_parse st1 l1).symbol = some y ∧
          y.addr = some st1.DC ∧
          (y.sym_type = sym_type_data ∨ y.sym_type = sym_type_data_entry)) ∧
        (∃ tbl y, assembler_first_pass_symbol_table gda_create am_file = some (1, tbl) ∧
          find_symbol tbl (first_pass_parse st1 l1).symbol = some y ∧
          y.addr = some (st1.DC +
            (first_pass_scan (first_pass_init gda_create) (file_lines am_file)).IC) ∧
          (y.sym_type = sym_type_data ∨ y.sym_type = sym_type_data_entry))) := by
  -- the table before the data line
  obtain ⟨l0, hl0⟩ : ∃ l, st1.symbol_table.holds l := hst1 ▸ first_pass_scan_holds pre
  -- the data line
  obtain ⟨s1, e1, -, e3, -, -, e6, -⟩ := first_pass_line_data st1 l1 h1t h1d
  have spec1 := first_pass_data_spec (first_pass_parse st1 l1) s1 (e1 ▸ hl0) h1l
  rw [← e6, e1, e3] at spec1
  have hdef : ∃ y1, find_symbol (first_pass_line st1 l1).symbol_table
        (first_pass_parse st1 l1).symbol = some y1 ∧ y1.sym_type ≠ sym_type_entry ∧
      ((find_symbol st1.symbol_table (first_pass_parse st1 l1).symbol = none ∨
          ∃ y, find_symbol st1.symbol_table (first_pass_parse st1 l1).symbol = some y ∧
            y.sym_type = sym_type_entry) →
        y1.addr = some st1.DC ∧
          (y1.sym_type = sym_type_data ∨ y1.sym_type = sym_type_data_entry)) := by
    cases hf : find_symbol st1.symbol_table (first_pass_parse st1 l1).symbol with
    | none =>
      exact ⟨_, (spec1.1 hf).1, by simp, fun _ => ⟨rfl, Or.inl rfl⟩⟩
    | some y =>
      by_cases hy : y.sym_type = sym_type_entry
      · exact ⟨_, (spec1.2.1 y hf hy).1, by simp, fun _ => ⟨rfl, Or.inr rfl⟩⟩
      · refine ⟨y, ?_, hy, fun hfirst => ?_⟩
        · rw [(spec1.2.2 y hf hy).2]
          exact hf
        · rcases hfirst with hnone | ⟨y', hy', hty'⟩
          · exact absurd hnone (by simp)
          · cases hy'
            exact absurd hty' hy
  obtain ⟨y1, hy1, hy1t, hy1first⟩ := hdef
  -- the lines between the two definitions
  obtain ⟨⟨l1a, hl1a⟩, -⟩ := first_pass_line_evolves st1 l1 l0 hl0
  obtain ⟨⟨l2a, hl2a⟩, hmid⟩ := first_pass_scan_evolves mid (first_pass_line st1 l1) l1a hl1a
  rw [← hst2] at hl2a hmid
  obtain ⟨y2, hy2, ev12⟩ := hmid _ y1 hy1
  have hy2t := symbol_evolves_defined ev12 hy1t
  -- the instruction line
  obtain ⟨s2, f1, -, -, -, -, f6, f7⟩ := first_pass_line_inst st2 l2 h2t
  have spec2 := first_pass_inst_label_spec (first_pass_parse st2 l2) s2 (f1 ▸ hl2a)
    (h2l ▸ h1l)
  rw [← f6, ← f7, f1, h2l] at spec2
  obtain ⟨herr3, htab3⟩ := spec2.2.2 y2 hy2 hy2t.1
  -- the rest of the file
  have hfin : first_pass_scan (first_pass_init gda_create) (file_lines am_file) =
      first_pass_scan (first_pass_line st2 l2) post := by
    rw [hfile, first_pass_scan_append, first_pass_scan_cons, first_pass_scan_append,
      first_pass_scan_cons, ← hst1, ← hst2]
  have herrfin := first_pass_scan_error post _ herr3
  have hl3 : (first_pass_line st2 l2).symbol_table.holds l2a := by
    rw [htab3]
    exact hl2a
  obtain ⟨⟨lf, hlf⟩, hpost⟩ := first_pass_scan_evolves post (first_pass_line st2 l2) l2a hl3
  rw [htab3] at hpost
  obtain ⟨y3, hy3, ev23⟩ := hpost _ y2 hy2
  rw [← hfin] at herrfin hlf hy3
  have hne : lf ≠ [] := by
    intro h
    rw [find_symbol_holds hlf, h] at hy3
    simp at hy3
  obtain ⟨ps, k, hps, -, hpsholds, hpserr⟩ := first_pass_finish_holds _ lf hlf hne
  have hret : assembler_first_pass_symbol_table gda_create am_file =
      some (1, ps.symbol_table) := by
    unfold assembler_first_pass_symbol_table
    rw [hps]
    have : ps.error = 1 := by
      rw [hpserr, herrfin]
      split <;> rfl
    simp [this]
  refine ⟨⟨_, hret⟩, htab3, fun hfirst => ?_⟩
  obtain ⟨a1, t1⟩ := hy1first hfirst
  obtain ⟨t2, a2⟩ := symbol_evolves_data ev12 t1
  obtain ⟨t3, a3⟩ := symbol_evolves_data ev23 t2
  refine ⟨⟨y2, hy2, a2.trans a1, t2⟩, ⟨y3, hy3, a3.trans (a2.trans a1), t3⟩,
    ⟨ps.symbol_table,
      rebase_symbol (first_pass_scan (first_pass_init gda_create) (file_lines am_file)).IC y3,
      hret, ?_, ?_, ?_⟩⟩
  · rw [find_symbol_rebased _ hpsholds, ← find_symbol_holds hlf, hy3]
    rfl
  · unfold rebase_symbol
    rw [if_pos t3]
    simp [a3.trans (a2.trans a1)]
  · unfold rebase_symbol
    rw [if_pos t3]
    exact t3

/-- Witness of C7 on the program `X: .data 5` / `.entry X` / `X: stop`: pass 1
returns 1, the instruction line leaves the table unchanged and the returned
table holds `X` with a data type at the data counter of its definition plus the
final instruction counter. -/
theorem first_pass_data_label_then_inst_label_witness :
    (∃ tbl, assembler_first_pass_symbol_table gda_create data_then_code_program =
        some (1, tbl)) ∧
      (first_pass_line
          (first_pass_scan (first_pass_line (first_pass_state_after []) "X: .data 5\n".toList)
            [".entry X\n".toList])
          "X: stop\n".toList).symbol_table =
        (first_pass_scan (first_pass_line (first_pass_state_after []) "X: .data 5\n".toList)
          [".entry X\n".toList]).symbol_table ∧
      (∃ tbl y, assembler_first_pass_symbol_table gda_create data_then_code_program =
          some (1, tbl) ∧
        find_symbol tbl
            (first_pass_parse (first_pass_state_after []) "X: .data 5\n".toList).symbol =
          some y ∧
        y.addr = some ((first_pass_state_after []).DC +
          (first_pass_scan (first_pass_init gda_create)
            (file_lines data_then_code_program)).IC) ∧
        (y.sym_type = sym_type_data ∨ y.sym_type = sym_type_data_entry)) :=
  ⟨(first_pass_data_label_then_inst_label data_then_code_program [] [".entry X\n".toList] []
      "X: .data 5\n".toList "X: stop\n".toList (first_pass_state_after [])
      (first_pass_scan (first_pass_line (first_pass_state_after []) "X: .data 5\n".toList)
        [".entry X\n".toList])
      (by decide!) rfl rfl (by decide!) (by decide!) (by decide!) (by decide!) (by decide!)).1,
    (first_pass_data_label_then_inst_label data_then_code_program [] [".entry X\n".toList] []
      "X: .data 5\n".toList "X: stop\n".toList (first_pass_state_after [])
      (first_pass_scan (first_pass_line (first_pass_state_after []) "X: .data 5\n".toList)
        [".entry X\n".toList])
      (by decide!) rfl rfl (by decide!) (by decide!) (by decide!) (by decide!)
      (by decide!)).2.1,
    ((first_pass_data_label_then_inst_label data_then_code_program [] [".entry X\n".toList] []
      "X: .data 5\n".toList "X: stop\n".toList (first_pass_state_after [])
      (first_pass_scan (first_pass_line (first_pass_state_after []) "X: .data 5\n".toList)
        [".entry X\n".toList])
      (by decide!) rfl rfl (by decide!) (by decide!) (by decide!) (by decide!)
      (by decide!)).2.2 (Or.inl (by decide!))).2.2⟩

/-! ### Every part of the parser writes only NUL -/

theorem parse_directive_frame (dir : Option asm_directive) (result : syntax_struct)
    (buf : List Char) (temp1 : Option Nat) (b : List Char) (h : only_nul_written b buf) :
    only_nul_written b (parse_directive dir result buf temp1).2 := by
  unfold parse_directive
  repeat' first
    | split
    | dsimp only
  all_goals
    repeat' first
      | exact h
      | apply only_nul_written_poke
      | apply only_nul_written_poke_if

theorem parse_group_A_frame (inst : cpu_instruction) (dir : Option asm_directive)
    (result : syntax_struct) (buf : List Char) (temp1 : Nat) (b : List Char)
    (h : only_nul_written b buf) :
    only_nul_written b (parse_group_A inst dir result buf temp1).2 := by
  unfold parse_group_A
  repeat' first
    | split
    | dsimp only
  all_goals
    repeat' first
      | exact h
      | apply only_nul_written_poke
      | apply only_nul_written_poke_if
      | apply parse_directive_frame

theorem parse_group_B_2_args_frame (inst : cpu_instruction) (dir : Option asm_directive)
    (result : syntax_struct) (buf : List Char) (temp1 temp2 temp3 : Nat) (b : List Char)
    (h : only_nul_written b buf) :
    only_nul_written b (parse_group_B_2_args inst dir result buf temp1 temp2 temp3).2 := by
  unfold parse_group_B_2_args
  repeat' first
    | split
    | dsimp only
  all_goals
    repeat' first
      | exact h
      | apply only_nul_written_poke
      | apply only_nul_written_poke_if
      | apply parse_directive_frame

theorem parse_group_B_frame (inst : cpu_instruction) (dir : Option asm_directive)
    (result : syntax_struct) (buf : List Char) (temp1 : Nat) (b : List Char)
    (h : only_nul_written b buf) :
    only_nul_written b (parse_group_B inst dir result buf temp1).2 := by
  unfold parse_group_B
  repeat' first
    | split
    | dsimp only
  all_goals
    repeat' first
      | exact h
      | apply only_nul_written_poke_if
      | apply parse_directive_frame
      | apply parse_group_B_2_args_frame

theorem parse_group_C_frame (inst : cpu_instruction) (dir : Option asm_directive)
    (result : syntax_struct) (buf : List Char) (temp1 : Option Nat) (b : List Char)
    (h : only_nul_written b buf) :
    only_nul_written b (parse_group_C inst dir result buf temp1).2 := by
  unfold parse_group_C
  repeat' first
    | split
    | dsimp only
  all_goals
    repeat' first
      | exact h
      | apply parse_directive_frame

theorem parse_after_label_frame (result : syntax_struct) (buf : List Char)
    (logical_line : Nat) (b : List Char) (h : only_nul_written b buf) :
    only_nul_written b (parse_after_label result buf logical_line).2 := by
  unfold parse_after_label
  repeat' first
    | split
    | dsimp only
  all_goals
    repeat' first
      | exact h
      | apply only_nul_written_poke_if
      | apply parse_directive_frame
      | apply parse_group_A_frame
      | apply parse_group_B_frame
      | apply parse_group_C_frame

/-- Counterexample to C6 as stated: on the buffer holding `mov r1, r2` the
call changes the buffer (the blank after `mov`, the comma and the newline are
overwritten with NUL), and a second call on the buffer as the first call left
it returns a different struct, a syntax error. -/
theorem parser_writes_to_buffer :
    (lang_engine_create_ss_from_logical_line mov_buffer).2 ≠ mov_buffer ∧
      (lang_engine_create_ss_from_logical_line mov_buffer).1.dir_or_inst_tag = tag_inst ∧
      (lang_engine_create_ss_from_logical_line
        (lang_engine_create_ss_from_logical_line mov_buffer).2).1.dir_or_inst_tag =
        tag_syntax_error ∧
      (lang_engine_create_ss_from_logical_line
        (lang_engine_create_ss_from_logical_line mov_buffer).2).1 ≠
        (lang_engine_create_ss_from_logical_line mov_buffer).1 := by
  decide!

/-- C6 as amended.  The parser writes to its buffer, but only NUL characters:
for every buffer, after `lang_engine_create_ss_from_logical_line` returns the
buffer has the same length and every character is the one it held before the
call or NUL. -/
theorem parser_writes_only_nul (buf : List Char) :
    only_nul_written buf (lang_engine_create_ss_from_logical_line buf).2 := by
  unfold lang_engine_create_ss_from_logical_line
  dsimp only
  split
  · exact only_nul_written_refl buf
  · split
    · rename_i temp1 hcolon
      split
      · exact only_nul_written_refl buf
      · split
        · rw [poke_poke_restore buf temp1 ':' END_LINE (strchr_spec _ _ _ _ hcolon)]
          exact parse_after_label_frame _ _ _ _ (only_nul_written_refl buf)
        · exact only_nul_written_poke (only_nul_written_refl buf) _
    · exact parse_after_label_frame _ _ _ _ (only_nul_written_refl buf)

/-! ## The `.extern` and `.entry` directives in pass 1 (C12, C13) -/

theorem find_symbol_insert_other {g : gda symbol} {l : List symbol} (h : g.holds l)
    (x : symbol) (name : List Char) (hn : name ≠ x.symbol_name) :
    find_symbol (gda_insert g x) name = find_symbol g name := by
  rw [find_symbol_holds (gda_insert_holds h x), find_symbol_holds h, List.find?_append]
  have : symbol_named name x = false := by
    simp only [symbol_named, decide_eq_false_iff_not]
    exact fun e => hn e.symm
  simp [List.find?_cons, this]

theorem find_symbol_modify_other {g : gda symbol} {l : List symbol} (h : g.holds l)
    {name : List Char} {slot : Nat} (hs : gda_search g (symbol_named name) = some slot)
    (f : symbol → symbol) (hn : ∀ y, (f y).symbol_name = y.symbol_name)
    (name' : List Char) (hne : name' ≠ name) :
    find_symbol (g.modify slot f) name' = find_symbol g name' := by
  rw [gda_search_holds h] at hs
  rw [find_symbol_holds (gda_modify_holds h slot f), find_symbol_holds h,
    find?_modify_of_preserved _ f (fun y => by simp [symbol_named, hn]) l slot]
  split
  · rename_i hs'
    -- the slot holds a symbol named `name`, not `name'`
    have h1 := findIdx?_get? _ _ _ hs
    have h2 := findIdx?_get? _ _ _ hs'
    cases hg : l.get? slot with
    | none =>
      rw [hg] at h2
      rw [h2]
      rfl
    | some y =>
      rw [hg] at h1 h2
      have e1 := List.find?_some h1
      have e2 := List.find?_some h2
      simp only [symbol_named, decide_eq_true_eq] at e1 e2
      exact absurd (e2.symm.trans e1) hne
  · rfl

/-- What a `.extern` or `.entry` line does before its branch: the lookup of the
directive's symbol. -/
theorem first_pass_line_dir_symbol (st : first_pass_state) (line : List Char)
    (ht : (first_pass_parse st line).dir_or_inst_tag = tag_dir)
    (hd : (first_pass_parse st line).asm_directive.d_tag = tag_extern ∨
      (first_pass_parse st line).asm_directive.d_tag = tag_entry) :
    ∃ st1 : first_pass_state, st1.symbol_table = st.symbol_table ∧
      st1.line_count = st.line_count ∧ st1.error = st.error ∧
      st1.dummy = { st.dummy with symbol_name := (first_pass_parse st line).asm_directive.symbol } ∧
      st1.in_table = gda_search st.symbol_table
        (symbol_named (first_pass_parse st line).asm_directive.symbol) ∧
      ((first_pass_parse st line).asm_directive.d_tag = tag_extern →
        (first_pass_line st line).symbol_table = (first_pass_extern_dir st1).symbol_table ∧
        (first_pass_line st line).error = (first_pass_extern_dir st1).error) ∧
      ((first_pass_parse st line).asm_directive.d_tag = tag_entry →
        (first_pass_line st line).symbol_table = (first_pass_entry_dir st1).symbol_table ∧
        (first_pass_line st line).error = (first_pass_entry_dir st1).error) := by
  refine ⟨first_pass_dir_lookup (first_pass_parse st line) { st with
    buffer := (lang_engine_create_ss_from_logical_line (fgets_store st.buffer line)).2 },
    ?_, ?_, ?_, ?_, ?_, ?_, ?_⟩
  · unfold first_pass_dir_lookup
    split <;> rfl
  · unfold first_pass_dir_lookup
    split <;> rfl
  · unfold first_pass_dir_lookup
    split <;> rfl
  · unfold first_pass_dir_lookup
    rw [if_pos hd]
  · unfold first_pass_dir_lookup
    rw [if_pos hd]
  · intro he
    unfold first_pass_line first_pass_switch
    unfold first_pass_parse at ht he ⊢
    simp only [ht]
    unfold first_pass_dir
    simp only [he, ↓reduceIte, and_self]
  · intro he
    unfold first_pass_line first_pass_switch
    unfold first_pass_parse at ht he ⊢
    simp only [ht]
    unfold first_pass_dir
    simp [he]


/-- C12.  In every state `st` pass 1 reaches and for every line that parses to
the directive `.extern X`: when `X` is not in the table the line inserts it
with type External (under the current line number) and leaves every other
name and the error flag as they were; when `X` is External already the table
and the error flag are unchanged; when `X` is in the table with any other type
the error flag is set and the table is unchanged. -/
theorem first_pass_extern_line (st : first_pass_state) (line : List Char)
    (hreach : ∃ pre, st = first_pass_scan (first_pass_init gda_create) pre)
    (ht : (first_pass_parse st line).dir_or_inst_tag = tag_dir)
    (hd : (first_pass_parse st line).asm_directive.d_tag = tag_extern) :
    (find_symbol st.symbol_table (first_pass_parse st line).asm_directive.symbol = none →
        (∃ y, find_symbol (first_pass_line st line).symbol_table
              (first_pass_parse st line).asm_directive.symbol = some y ∧
            y.symbol_name = (first_pass_parse st line).asm_directive.symbol ∧
            y.sym_type = sym_type_extern ∧ y.line_def = st.line_count) ∧
          (∀ name, name ≠ (first_pass_parse st line).asm_directive.symbol →
            find_symbol (first_pass_line st line).symbol_table name =
              find_symbol st.symbol_table name) ∧
          (first_pass_line st line).error = st.error) ∧
      (∀ y, find_symbol st.symbol_table (first_pass_parse st line).asm_directive.symbol =
            some y →
          y.sym_type = sym_type_extern →
          (first_pass_line st line).symbol_table = st.symbol_table ∧
            (first_pass_line st line).error = st.error) ∧
      (∀ y, find_symbol st.symbol_table (first_pass_parse st line).asm_directive.symbol =
            some y →
          y.sym_type ≠ sym_type_extern →
          (first_pass_line st line).symbol_table = st.symbol_table ∧
            (first_pass_line st line).error = 1) := by
  obtain ⟨pre, rfl⟩ := hreach
  obtain ⟨l, hl⟩ := first_pass_scan_holds pre
  obtain ⟨st1, e1, e2, e3, e4, e5, e6, -⟩ := first_pass_line_dir_symbol _ line ht (Or.inl hd)
  obtain ⟨e6, e7⟩ := e6 hd
  rw [e6, e7]
  refine ⟨fun hf => ?_, fun y hf hy => ?_, fun y hf hy => ?_⟩
  · have hs := gda_search_none_of_find hl hf
    unfold first_pass_extern_dir
    simp only [e5, hs, e1, e2, e3, e4, and_true]
    refine ⟨⟨_, find_symbol_insert_new hl ⟨_, _, sym_type_extern, _⟩ hf, rfl, rfl, rfl⟩, ?_⟩
    intro name hn
    exact find_symbol_insert_other hl _ name hn
  · obtain ⟨slot, hs, hdf⟩ := (find_symbol_some_iff _ _ _).mp hf
    unfold first_pass_extern_dir
    simp only [e5, hs, e1, hdf, Option.map_some', hy, e3, and_self]
  · obtain ⟨slot, hs, hdf⟩ := (find_symbol_some_iff _ _ _).mp hf
    unfold first_pass_extern_dir
    simp only [e5, hs, e1, hdf, Option.map_some']
    split
    · rename_i heq
      exact absurd (Option.some.inj heq) hy
    · exact ⟨rfl, rfl⟩

/-- Witness of C12: `.extern X` read in the initial state, after `.extern X`,
and after `X: stop`. -/
theorem first_pass_extern_line_witness :
    (∃ y, find_symbol (first_pass_line (first_pass_state_after []) ".extern X\n".toList).symbol_table
          (first_pass_parse (first_pass_state_after []) ".extern X\n".toList).asm_directive.symbol =
          some y ∧
        y.symbol_name =
          (first_pass_parse (first_pass_state_after []) ".extern X\n".toList).asm_directive.symbol ∧
        y.sym_type = sym_type_extern ∧ y.line_def = (first_pass_state_after []).line_count) ∧
      ((first_pass_line (first_pass_state_after [".extern X\n".toList])
            ".extern X\n".toList).symbol_table =
          (first_pass_state_after [".extern X\n".toList]).symbol_table ∧
        (first_pass_line (first_pass_state_after [".extern X\n".toList])
            ".extern X\n".toList).error =
          (first_pass_state_after [".extern X\n".toList]).error) ∧
      ((first_pass_line (first_pass_state_after ["X: stop\n".toList])
            ".extern X\n".toList).symbol_table =
          (first_pass_state_after ["X: stop\n".toList]).symbol_table ∧
        (first_pass_line (first_pass_state_after ["X: stop\n".toList])
            ".extern X\n".toList).error = 1) :=
  ⟨((first_pass_extern_line (first_pass_state_after []) ".extern X\n".toList ⟨[], rfl⟩
        (by decide!) (by decide!)).1 (by decide!)).1,
    (first_pass_extern_line (first_pass_state_after [".extern X\n".toList])
        ".extern X\n".toList ⟨[".extern X\n".toList], rfl⟩ (by decide!) (by decide!)).2.1
        ⟨"X".toList, none, sym_type_extern, 1⟩ (by decide!) (by decide!),
    (first_pass_extern_line (first_pass_state_after ["X: stop\n".toList])
        ".extern X\n".toList ⟨["X: stop\n".toList], rfl⟩ (by decide!) (by decide!)).2.2
        ⟨"X".toList, some 100, sym_type_code, 1⟩ (by decide!) (by decide!)⟩


/-- C13.  In every state `st` pass 1 reaches and for every line that parses to
the directive `.entry X`: a Data symbol `X` becomes DataEntry and a Code symbol
`X` becomes CodeEntry, with name, address and line unchanged, every other name
and the error flag as they were; an External `X` sets the error flag and
leaves the table unchanged; an Entry, CodeEntry or DataEntry `X` leaves the
table and the error flag unchanged; and when `X` is not in the table a symbol
of type Entry is inserted under that name, every other name and the error flag
as they were. -/
theorem first_pass_entry_line (st : first_pass_state) (line : List Char)
    (hreach : ∃ pre, st = first_pass_scan (first_pass_init gda_create) pre)
    (ht : (first_pass_parse st line).dir_or_inst_tag = tag_dir)
    (hd : (first_pass_parse st line).asm_directive.d_tag = tag_entry) :
    (∀ y, find_symbol st.symbol_table (first_pass_parse st line).asm_directive.symbol =
            some y →
          (y.sym_type = sym_type_data →
            find_symbol (first_pass_line st line).symbol_table
                (first_pass_parse st line).asm_directive.symbol =
              some { y with sym_type := sym_type_data_entry } ∧
            (∀ name, name ≠ (first_pass_parse st line).asm_directive.symbol →
              find_symbol (first_pass_line st line).symbol_table name =
                find_symbol st.symbol_table name) ∧
            (first_pass_line st line).error = st.error) ∧
          (y.sym_type = sym_type_code →
            find_symbol (first_pass_line st line).symbol_table
                (first_pass_parse st line).asm_directive.symbol =
              some { y with sym_type := sym_type_code_entry } ∧
            (∀ name, name ≠ (first_pass_parse st line).asm_directive.symbol →
              find_symbol (first_pass_line st line).symbol_table name =
                find_symbol st.symbol_table name) ∧
            (first_pass_line st line).error = st.error) ∧
          (y.sym_type = sym_type_extern →
            (first_pass_line st line).symbol_table = st.symbol_table ∧
              (first_pass_line st line).error = 1) ∧
          (y.sym_type = sym_type_entry ∨ y.sym_type = sym_type_code_entry ∨
              y.sym_type = sym_type_data_entry →
            (first_pass_line st line).symbol_table = st.symbol_table ∧
              (first_pass_line st line).error = st.error)) ∧
      (find_symbol st.symbol_table (first_pass_parse st line).asm_directive.symbol = none →
        (∃ y, find_symbol (first_pass_line st line).symbol_table
              (first_pass_parse st line).asm_directive.symbol = some y ∧
            y.symbol_name = (first_pass_parse st line).asm_directive.symbol ∧
            y.sym_type = sym_type_entry ∧ y.line_def = st.line_count) ∧
          (∀ name, name ≠ (first_pass_parse st line).asm_directive.symbol →
            find_symbol (first_pass_line st line).symbol_table name =
              find_symbol st.symbol_table name) ∧
          (first_pass_line st line).error = st.error) := by
  obtain ⟨pre, rfl⟩ := hreach
  obtain ⟨l, hl⟩ := first_pass_scan_holds pre
  obtain ⟨st1, e1, e2, e3, e4, e5, -, e6⟩ := first_pass_line_dir_symbol _ line ht (Or.inr hd)
  obtain ⟨e6, e7⟩ := e6 hd
  rw [e6, e7]
  refine ⟨fun y hf => ?_, fun hf => ?_⟩
  · obtain ⟨slot, hs, hdf⟩ := (find_symbol_some_iff _ _ _).mp hf
    refine ⟨fun hy => ?_, fun hy => ?_, fun hy => ?_, fun hy => ?_⟩
    · unfold first_pass_entry_dir
      simp only [e5, hs, e1, hdf, Option.map_some', hy, e3, and_true]
      refine ⟨?_, fun name hn => ?_⟩
      · rw [find_symbol_modify hl hs (fun y => { y with sym_type := sym_type_data_entry })
          (fun _ => rfl), hf]
        rfl
      · exact find_symbol_modify_other hl hs
          (fun y => { y with sym_type := sym_type_data_entry }) (fun _ => rfl) name hn
    · unfold first_pass_entry_dir
      simp only [e5, hs, e1, hdf, Option.map_some', hy, e3, and_true]
      refine ⟨?_, fun name hn => ?_⟩
      · rw [find_symbol_modify hl hs (fun y => { y with sym_type := sym_type_code_entry })
          (fun _ => rfl), hf]
        rfl
      · exact find_symbol_modify_other hl hs
          (fun y => { y with sym_type := sym_type_code_entry }) (fun _ => rfl) name hn
    · unfold first_pass_entry_dir
      simp only [e5, hs, e1, hdf, Option.map_some', hy, and_self]
    · unfold first_pass_entry_dir
      simp only [e5, hs, e1, hdf, Option.map_some']
      rcases hy with hy | hy | hy <;> simp only [hy, e1, e3, and_self]
  · have hs := gda_search_none_of_find hl hf
    unfold first_pass_entry_dir
    simp only [e5, hs, e1, e2, e3, e4, and_true]
    refine ⟨⟨_, find_symbol_insert_new hl ⟨_, _, sym_type_entry, _⟩ hf, rfl, rfl, rfl⟩, ?_⟩
    intro name hn
    exact find_symbol_insert_other hl _ name hn


/-- Witness of C13: `.entry X` read after `X: .data 5`, after `X: stop`, after
`.extern X`, after `.entry X`, and in the initial state. -/
theorem first_pass_entry_line_witness :
    (find_symbol (first_pass_line (first_pass_state_after ["X: .data 5\n".toList])
          ".entry X\n".toList).symbol_table
          (first_pass_parse (first_pass_state_after ["X: .data 5\n".toList])
            ".entry X\n".toList).asm_directive.symbol =
        some ⟨"X".toList, some 0, sym_type_data_entry, 1⟩) ∧
      (find_symbol (first_pass_line (first_pass_state_after ["X: stop\n".toList])
          ".entry X\n".toList).symbol_table
          (first_pass_parse (first_pass_state_after ["X: stop\n".toList])
            ".entry X\n".toList).asm_directive.symbol =
        some ⟨"X".toList, some 100, sym_type_code_entry, 1⟩) ∧
      ((first_pass_line (first_pass_state_after [".extern X\n".toList])
            ".entry X\n".toList).symbol_table =
          (first_pass_state_after [".extern X\n".toList]).symbol_table ∧
        (first_pass_line (first_pass_state_after [".extern X\n".toList])
            ".entry X\n".toList).error = 1) ∧
      ((first_pass_line (first_pass_state_after [".entry X\n".toList])
            ".entry X\n".toList).symbol_table =
          (first_pass_state_after [".entry X\n".toList]).symbol_table ∧
        (first_pass_line (first_pass_state_after [".entry X\n".toList])
            ".entry X\n".toList).error =
          (first_pass_state_after [".entry X\n".toList]).error) ∧
      (∃ y, find_symbol (first_pass_line (first_pass_state_after []) ".entry X\n".toList).symbol_table
          (first_pass_parse (first_pass_state_after []) ".entry X\n".toList).asm_directive.symbol =
          some y ∧
        y.symbol_name =
          (first_pass_parse (first_pass_state_after []) ".entry X\n".toList).asm_directive.symbol ∧
        y.sym_type = sym_type_entry ∧ y.line_def = (first_pass_state_after []).line_count) :=
  ⟨(((first_pass_entry_line (first_pass_state_after ["X: .data 5\n".toList])
        ".entry X\n".toList ⟨["X: .data 5\n".toList], rfl⟩ (by decide!) (by decide!)).1
        ⟨"X".toList, some 0, sym_type_data, 1⟩ (by decide!)).1 (by decide!)).1,
    (((first_pass_entry_line (first_pass_state_after ["X: stop\n".toList])
        ".entry X\n".toList ⟨["X: stop\n".toList], rfl⟩ (by decide!) (by decide!)).1
        ⟨"X".toList, some 100, sym_type_code, 1⟩ (by decide!)).2.1 (by decide!)).1,
    ((first_pass_entry_line (first_pass_state_after [".extern X\n".toList])
        ".entry X\n".toList ⟨[".extern X\n".toList], rfl⟩ (by decide!) (by decide!)).1
        ⟨"X".toList, none, sym_type_extern, 1⟩ (by decide!)).2.2.1 (by decide!),
    ((first_pass_entry_line (first_pass_state_after [".entry X\n".toList])
        ".entry X\n".toList ⟨[".entry X\n".toList], rfl⟩ (by decide!) (by decide!)).1
        ⟨"X".toList, none, sym_type_entry, 1⟩ (by decide!)).2.2.2 (Or.inl (by decide!)),
    ((first_pass_entry_line (first_pass_state_after []) ".entry X\n".toList ⟨[], rfl⟩
        (by decide!) (by decide!)).2 (by decide!)).1⟩

/-! ## Where the addresses in the table come from (C11) -/

theorem search_slots_deref {α : Type} (hit : α → Bool) (arr : List (Option α)) (slot : Nat)
    (h : search_slots hit arr = some slot) :
    ∃ y, (arr.get? slot).join = some y ∧ hit y = true := by
  induction arr generalizing slot with
  | nil => simp [search_slots] at h
  | cons a arr ih =>
    cases a with
    | none =>
      simp only [search_slots, Option.map_eq_some'] at h
      obtain ⟨i, hi, rfl⟩ := h
      simpa using ih i hi
    | some x =>
      simp only [search_slots] at h
      split at h
      · cases h
        exact ⟨x, rfl, by assumption⟩
      · simp only [Option.map_eq_some'] at h
        obtain ⟨i, hi, rfl⟩ := h
        simpa using ih i hi

theorem gda_search_deref {g : gda symbol} {name : List Char} {slot : Nat}
    (h : gda_search g (symbol_named name) = some slot) :
    ∃ y, g.deref slot = some y ∧ y.symbol_name = name := by
  obtain ⟨y, hy, hn⟩ := search_slots_deref _ _ _ h
  exact ⟨y, hy, by simpa [symbol_named] using hn⟩

theorem find_symbol_none_of_search {g : gda symbol} {name : List Char}
    (h : gda_search g (symbol_named name) = none) : find_symbol g name = none := by
  simp [find_symbol, h]

theorem find_symbol_of_search {g : gda symbol} {name : List Char} {slot : Nat} {y : symbol}
    (h : gda_search g (symbol_named name) = some slot) (hd : g.deref slot = some y) :
    find_symbol g name = some y := by
  simp [find_symbol, h, hd]

theorem table_step_mono {o o' : Option symbol → symbol → Prop} {g g' : gda symbol}
    (h : table_step o g g') (ho : ∀ a b, o a b → o' a b) : table_step o' g g' := by
  rcases h with h | ⟨x, h1, h2, h3⟩ | ⟨slot, y, f, h1, h2, h3, h4, h5⟩
  · exact Or.inl h
  · exact Or.inr (Or.inl ⟨x, h1, h2, ho _ _ h3⟩)
  · exact Or.inr (Or.inr ⟨slot, y, f, h1, h2, h3, h4, ho _ _ h5⟩)

theorem first_pass_inst_label_step (s : syntax_struct) (st : first_pass_state)
    (ht : s.dir_or_inst_tag = tag_inst) :
    table_step (line_origin s st.symbol_table st.IC st.DC) st.symbol_table
      (first_pass_inst_label s st).symbol_table := by
  unfold first_pass_inst_label
  split
  · rename_i hl
    dsimp only
    split
    · rename_i slot hs
      obtain ⟨y, hd, hn⟩ := gda_search_deref hs
      simp only [hd, Option.map_some']
      split
      · rename_i hty
        have hty : y.sym_type = sym_type_entry := Option.some.inj hty
        refine Or.inr (Or.inr ⟨slot, y,
          fun y => { y with addr := some st.IC, sym_type := sym_type_code_entry },
          hn ▸ hs, hd, fun _ => rfl, rfl, ?_, ?_⟩)
        · intro h
          rcases h with h | h <;> simp at h
        · intro _
          refine Or.inr ⟨⟨ht, hn.symm, ?_, Or.inr ⟨y, ?_, hty⟩⟩, rfl⟩
          · show y.symbol_name ≠ []
            rw [hn]
            exact hl
          · exact find_symbol_of_search (hn ▸ hs) hd
      · exact Or.inl rfl
    · rename_i hs
      refine Or.inr (Or.inl ⟨⟨s.symbol, some st.IC, sym_type_code, st.line_count⟩,
        find_symbol_none_of_search hs, rfl, ?_, ?_⟩)
      · intro h
        rcases h with h | h <;> simp at h
      · intro _
        exact Or.inr ⟨⟨ht, rfl, hl, Or.inl (find_symbol_none_of_search hs)⟩, rfl⟩
  · exact Or.inl rfl

theorem first_pass_data_step (s : syntax_struct) (st : first_pass_state)
    (ht : s.dir_or_inst_tag = tag_dir)
    (hd : s.asm_directive.d_tag = tag_data ∨ s.asm_directive.d_tag = tag_string) :
    table_step (line_origin s st.symbol_table st.IC st.DC) st.symbol_table
      (first_pass_data s st).symbol_table := by
  unfold first_pass_data
  split
  · exact Or.inl rfl
  · rename_i hl
    dsimp only
    split
    · rename_i slot hs
      obtain ⟨y, hdf, hn⟩ := gda_search_deref hs
      simp only [hdf, Option.map_some']
      split
      · rename_i hty
        have hty : y.sym_type = sym_type_entry := Option.some.inj hty
        refine Or.inr (Or.inr ⟨slot, y,
          fun y => { y with sym_type := sym_type_data_entry, addr := some st.DC },
          hn ▸ hs, hdf, fun _ => rfl, rfl, ?_, ?_⟩)
        · intro _
          refine Or.inr ⟨⟨ht, hd, hn.symm, ?_, Or.inr ⟨y, ?_, hty⟩⟩, rfl⟩
          · show y.symbol_name ≠ []
            rw [hn]
            exact hl
          · exact find_symbol_of_search (hn ▸ hs) hdf
        · intro h
          rcases h with h | h <;> simp at h
      · exact Or.inl rfl
    · rename_i hs
      refine Or.inr (Or.inl ⟨⟨s.symbol, some st.DC, sym_type_data, st.line_count⟩,
        find_symbol_none_of_search hs, rfl, ?_, ?_⟩)
      · intro _
        exact Or.inr ⟨⟨ht, hd, rfl, hl, Or.inl (find_symbol_none_of_search hs)⟩, rfl⟩
      · intro h
        rcases h with h | h <;> simp at h


theorem first_pass_extern_dir_step (s : syntax_struct) (IC DC : Nat) (st : first_pass_state)
    (hin : st.in_table = gda_search st.symbol_table (symbol_named st.dummy.symbol_name)) :
    table_step (line_origin s st.symbol_table IC DC) st.symbol_table
      (first_pass_extern_dir st).symbol_table := by
  unfold first_pass_extern_dir
  split
  · split
    · exact Or.inl rfl
    · exact Or.inl rfl
  · rename_i hs
    rw [hin] at hs
    refine Or.inr (Or.inl ⟨⟨st.dummy.symbol_name, st.dummy.addr, sym_type_extern, st.line_count⟩,
      find_symbol_none_of_search hs, rfl, ?_, ?_⟩)
    · intro h
      rcases h with h | h <;> simp at h
    · intro h
      rcases h with h | h <;> simp at h

theorem first_pass_entry_dir_step (s : syntax_struct) (IC DC : Nat) (st : first_pass_state)
    (hin : st.in_table = gda_search st.symbol_table (symbol_named st.dummy.symbol_name)) :
    table_step (line_origin s st.symbol_table IC DC) st.symbol_table
      (first_pass_entry_dir st).symbol_table := by
  unfold first_pass_entry_dir
  split
  · rename_i slot hs
    rw [hin] at hs
    obtain ⟨y, hd, hn⟩ := gda_search_deref hs
    simp only [hd, Option.map_some']
    split
    · rename_i hty
      have hty : y.sym_type = sym_type_data := Option.some.inj hty
      refine Or.inr (Or.inr ⟨slot, y, fun y => { y with sym_type := sym_type_data_entry },
        hn ▸ hs, hd, fun _ => rfl, rfl, ?_, ?_⟩)
      · intro _
        exact Or.inl ⟨y, rfl, Or.inl hty, rfl⟩
      · intro h
        rcases h with h | h <;> simp at h
    · rename_i hty
      have hty : y.sym_type = sym_type_code := Option.some.inj hty
      refine Or.inr (Or.inr ⟨slot, y, fun y => { y with sym_type := sym_type_code_entry },
        hn ▸ hs, hd, fun _ => rfl, rfl, ?_, ?_⟩)
      · intro h
        rcases h with h | h <;> simp at h
      · intro _
        exact Or.inl ⟨y, rfl, Or.inl hty, rfl⟩
    · exact Or.inl rfl
    · exact Or.inl rfl
  · rename_i hs
    rw [hin] at hs
    refine Or.inr (Or.inl ⟨⟨st.dummy.symbol_name, st.dummy.addr, sym_type_entry, st.line_count⟩,
      find_symbol_none_of_search hs, rfl, ?_, ?_⟩)
    · intro h
      rcases h with h | h <;> simp at h
    · intro h
      rcases h with h | h <;> simp at h

theorem first_pass_dir_step (s : syntax_struct) (st : first_pass_state)
    (ht : s.dir_or_inst_tag = tag_dir) :
    table_step (line_origin s st.symbol_table st.IC st.DC) st.symbol_table
      (first_pass_dir s st).symbol_table := by
  unfold first_pass_dir
  dsimp only
  split
  · rename_i he
    have := first_pass_extern_dir_step s st.IC st.DC (first_pass_dir_lookup s st)
      (by unfold first_pass_dir_lookup; rw [if_pos (Or.inl he)])
    have e : (first_pass_dir_lookup s st).symbol_table = st.symbol_table := by
      unfold first_pass_dir_lookup
      split <;> rfl
    rw [e] at this
    exact this
  · split
    · rename_i he
      have := first_pass_entry_dir_step s st.IC st.DC (first_pass_dir_lookup s st)
        (by unfold first_pass_dir_lookup; rw [if_pos (Or.inr he)])
      have e : (first_pass_dir_lookup s st).symbol_table = st.symbol_table := by
        unfold first_pass_dir_lookup
        split <;> rfl
      rw [e] at this
      exact this
    · split
      · rename_i hne1 hne2 hd
        have e : first_pass_dir_lookup s st = st := by
          unfold first_pass_dir_lookup
          rw [if_neg (by simp [hne1, hne2])]
        rw [e]
        exact first_pass_data_step s st ht hd.symm
      · have e : (first_pass_dir_lookup s st).symbol_table = st.symbol_table := by
          unfold first_pass_dir_lookup
          split <;> rfl
        exact Or.inl e

/-- One line of pass 1 changes the table in one of the three ways of
`table_step`, and the address of every data or code symbol it leaves was there
before or is the counter at a line that defines the symbol. -/
theorem first_pass_line_step (st : first_pass_state) (line : List Char) :
    table_step (line_origin (first_pass_parse st line) st.symbol_table st.IC st.DC)
      st.symbol_table (first_pass_line st line).symbol_table := by
  unfold first_pass_line first_pass_switch
  dsimp only
  split
  · exact Or.inl rfl
  · rename_i ht
    exact first_pass_inst_label_step _
      { st with
        buffer := (lang_engine_create_ss_from_logical_line (fgets_store st.buffer line)).2 } ht
  · rename_i ht
    exact first_pass_dir_step _
      { st with
        buffer := (lang_engine_create_ss_from_logical_line (fgets_store st.buffer line)).2 } ht
  · exact Or.inl rfl


theorem address_recorded_snoc {lines : List (List Char)} {y : symbol} (last : List Char)
    (h : address_recorded lines y) : address_recorded (lines ++ [last]) y := by
  refine ⟨fun hd => ?_, fun hc => ?_⟩
  · obtain ⟨pre, line, post, e, hdef, ha⟩ := h.1 hd
    exact ⟨pre, line, post ++ [last], by simp [e], hdef, ha⟩
  · obtain ⟨pre, line, post, e, hdef, ha⟩ := h.2 hc
    exact ⟨pre, line, post ++ [last], by simp [e], hdef, ha⟩

theorem address_recorded_of_origin {lines : List (List Char)} (last : List Char)
    {old : Option symbol} {new : symbol}
    (ho : line_origin (first_pass_parse (first_pass_state_after lines) last)
      (first_pass_state_after lines).symbol_table (first_pass_state_after lines).IC
      (first_pass_state_after lines).DC old new)
    (hold : ∀ y, old = some y → address_recorded lines y ∧ new.symbol_name = y.symbol_name) :
    address_recorded (lines ++ [last]) new := by
  refine ⟨fun hd => ?_, fun hc => ?_⟩
  · rcases ho.1 hd with ⟨y, hy, hty, ha⟩ | ⟨hdef, ha⟩
    · obtain ⟨hrec, hn⟩ := hold y hy
      obtain ⟨pre, line, post, e, hdef, ha'⟩ := hrec.1 hty
      exact ⟨pre, line, post ++ [last], by simp [e], hn ▸ hdef, ha.trans ha'⟩
    · exact ⟨lines, last, [], rfl, hdef, ha⟩
  · rcases ho.2 hc with ⟨y, hy, hty, ha⟩ | ⟨hdef, ha⟩
    · obtain ⟨hrec, hn⟩ := hold y hy
      obtain ⟨pre, line, post, e, hdef, ha'⟩ := hrec.2 hty
      exact ⟨pre, line, post ++ [last], by simp [e], hn ▸ hdef, ha.trans ha'⟩
    · exact ⟨lines, last, [], rfl, hdef, ha⟩

/-- Every data or code symbol the table holds after a prefix of the scan has
the counter of a line that defines it as address. -/
theorem first_pass_scan_recorded (lines : List (List Char)) :
    ∀ name y, find_symbol (first_pass_state_after lines).symbol_table name = some y →
      address_recorded lines y := by
  induction lines using List.reverseRecOn with
  | nil =>
    intro name y h
    simp [first_pass_state_after, first_pass_scan, first_pass_init, find_symbol, gda_search,
      gda_create, search_slots] at h
  | append_singleton lines last ih =>
    intro name y hf
    obtain ⟨l, hl⟩ := first_pass_scan_holds lines
    have e : first_pass_state_after (lines ++ [last]) =
        first_pass_line (first_pass_state_after lines) last := by
      simp [first_pass_state_after, first_pass_scan_append, first_pass_scan_cons,
        first_pass_scan]
    rw [e] at hf
    change (first_pass_state_after lines).symbol_table.holds l at hl
    rcases first_pass_line_step (first_pass_state_after lines) last with
      h | ⟨x, h1, h2, h3⟩ | ⟨slot, y0, f, h1, h2, h3, h4, h5⟩
    · rw [h] at hf
      exact address_recorded_snoc last (ih name y hf)
    · rw [h2] at hf
      by_cases hn : name = x.symbol_name
      · rw [hn, find_symbol_insert_new hl x h1] at hf
        cases hf
        exact address_recorded_of_origin last h3 (fun _ h => by cases h)
      · rw [find_symbol_insert_other hl x name hn] at hf
        exact address_recorded_snoc last (ih name y hf)
    · rw [h4] at hf
      have hy0 := find_symbol_of_search h1 h2
      by_cases hn : name = y0.symbol_name
      · rw [hn, find_symbol_modify hl h1 f h3, hy0] at hf
        cases hf
        refine address_recorded_of_origin last h5 (fun y hy => ?_)
        cases hy
        exact ⟨ih _ _ hy0, h3 _⟩
      · rw [find_symbol_modify_other hl h1 f h3 name hn] at hf
        exact address_recorded_snoc last (ih name y hf)


/-- C11.  Let the table hold a symbol `y` under `name` when the scan of pass 1
ends.  Then pass 1 returns, and the table it returns holds, under every name,
the symbol the scan left there, rebased by the final instruction counter when
it is a data symbol and unchanged otherwise.  When `y` is of type Data or
DataEntry, some line of the file defines `name` as a data label, and the
address in the returned table is the data counter before that line plus the
final instruction counter.  When `y` is of type Code or CodeEntry, some line
defines `name` as a code label, the address is the instruction counter before
that line, and the returned table holds `y` itself. -/
theorem first_pass_final_addresses (am_file : List Char) (name : List Char) (y : symbol)
    (hy : find_symbol (first_pass_state_after (file_lines am_file)).symbol_table name =
      some y) :
    ∃ error tbl, assembler_first_pass_symbol_table gda_create am_file = some (error, tbl) ∧
      (∀ name', find_symbol tbl name' =
        (find_symbol (first_pass_state_after (file_lines am_file)).symbol_table name').map
          (rebase_symbol (first_pass_state_after (file_lines am_file)).IC)) ∧
      ((y.sym_type = sym_type_data ∨ y.sym_type = sym_type_data_entry) →
        ∃ pre line post z, file_lines am_file = pre ++ line :: post ∧
          defines_data (first_pass_parse (first_pass_state_after pre) line)
            (first_pass_state_after pre).symbol_table name ∧
          find_symbol tbl name = some z ∧ z.sym_type = y.sym_type ∧
          z.addr = some ((first_pass_state_after pre).DC +
            (first_pass_state_after (file_lines am_file)).IC)) ∧
      ((y.sym_type = sym_type_code ∨ y.sym_type = sym_type_code_entry) →
        ∃ pre line post, file_lines am_file = pre ++ line :: post ∧
          defines_code (first_pass_parse (first_pass_state_after pre) line)
            (first_pass_state_after pre).symbol_table name ∧
          find_symbol tbl name = some y ∧
          y.addr = some (first_pass_state_after pre).IC) := by
  obtain ⟨l, hl⟩ := first_pass_scan_holds (file_lines am_file)
  change (first_pass_state_after (file_lines am_file)).symbol_table.holds l at hl
  have hname : y.symbol_name = name := by
    rw [find_symbol_holds hl] at hy
    simpa [symbol_named] using List.find?_some hy
  have hne : l ≠ [] := by
    intro h
    rw [find_symbol_holds hl, h] at hy
    simp at hy
  obtain ⟨ps, k, hps, -, hpsholds, -⟩ := first_pass_finish_holds _ l hl hne
  have hret : assembler_first_pass_symbol_table gda_create am_file =
      some (ps.error, ps.symbol_table) := by
    unfold assembler_first_pass_symbol_table
    change Option.map _ (first_pass_finish (first_pass_state_after (file_lines am_file))) = _
    rw [hps]
    rfl
  have hall : ∀ name', find_symbol ps.symbol_table name' =
      (find_symbol (first_pass_state_after (file_lines am_file)).symbol_table name').map
        (rebase_symbol (first_pass_state_after (file_lines am_file)).IC) := by
    intro name'
    rw [find_symbol_rebased _ hpsholds, ← find_symbol_holds hl]
  have hrec := first_pass_scan_recorded (file_lines am_file) name y hy
  refine ⟨ps.error, ps.symbol_table, hret, hall, fun hd => ?_, fun hc => ?_⟩
  · obtain ⟨pre, line, post, e, hdef, ha⟩ := hrec.1 hd
    refine ⟨pre, line, post,
      rebase_symbol (first_pass_state_after (file_lines am_file)).IC y, e, hname ▸ hdef,
      ?_, ?_, ?_⟩
    · rw [hall, hy]
      rfl
    · unfold rebase_symbol
      split <;> rfl
    · unfold rebase_symbol
      rw [if_pos hd]
      simp [ha]
  · obtain ⟨pre, line, post, e, hdef, ha⟩ := hrec.2 hc
    refine ⟨pre, line, post, e, hname ▸ hdef, ?_, ha⟩
    rw [hall, hy]
    have : ¬(y.sym_type = sym_type_data ∨ y.sym_type = sym_type_data_entry) := by
      rcases hc with hc | hc <;> rw [hc] <;> decide
    simp [rebase_symbol, this]

/-- Witness of C11 on the example program: `LEN`, a Data symbol at data counter
0, is returned at address 104, and `MAIN`, a CodeEntry symbol, at address
100. -/
theorem first_pass_final_addresses_witness :
    (∃ error tbl, assembler_first_pass_symbol_table gda_create example_program =
        some (error, tbl) ∧
      ∃ pre line post z, file_lines example_program = pre ++ line :: post ∧
        defines_data (first_pass_parse (first_pass_state_after pre) line)
          (first_pass_state_after pre).symbol_table "LEN".toList ∧
        find_symbol tbl "LEN".toList = some z ∧ z.sym_type = sym_type_data ∧
        z.addr = some ((first_pass_state_after pre).DC +
          (first_pass_state_after (file_lines example_program)).IC)) ∧
      (∃ error tbl, assembler_first_pass_symbol_table gda_create example_program =
          some (error, tbl) ∧
        ∃ pre line post, file_lines example_program = pre ++ line :: post ∧
          defines_code (first_pass_parse (first_pass_state_after pre) line)
            (first_pass_state_after pre).symbol_table "MAIN".toList ∧
          find_symbol tbl "MAIN".toList =
            some ⟨"MAIN".toList, some 100, sym_type_code_entry, 1⟩ ∧
          some 100 = some (first_pass_state_after pre).IC) := by
  refine ⟨?_, ?_⟩
  · obtain ⟨error, tbl, h1, -, h3, -⟩ :=
      first_pass_final_addresses example_program "LEN".toList
        ⟨"LEN".toList, some 0, sym_type_data, 3⟩ (by decide!)
    exact ⟨error, tbl, h1, h3 (Or.inl rfl)⟩
  · obtain ⟨error, tbl, h1, -, -, h4⟩ :=
      first_pass_final_addresses example_program "MAIN".toList
        ⟨"MAIN".toList, some 100, sym_type_code_entry, 1⟩ (by decide!)
    exact ⟨error, tbl, h1, h4 (Or.inr rfl)⟩

/-! ## Pass 2: the extern-usage map -/

theorem forall_mem_modify {α : Type} {P : α → Prop} (f : α → α) (hf : ∀ e, P e → P (f e))
    (l : List α) (i : Nat) (h : ∀ e ∈ l, P e) : ∀ e ∈ l.modify f i, P e := by
  induction l generalizing i with
  | nil => simp
  | cons a l ih =>
    cases i with
    | zero =>
      intro e he
      simp only [List.modify_zero_cons, List.mem_cons] at he
      rcases he with rfl | he
      · exact hf _ (h a (List.mem_cons_self _ _))
      · exact h e (List.mem_cons_of_mem _ he)
    | succ i =>
      intro e he
      simp only [List.modify_succ_cons, List.mem_cons] at he
      rcases he with rfl | he
      · exact h e (List.mem_cons_self _ _)
      · exact ih i (fun e he => h e (List.mem_cons_of_mem _ he)) e he

theorem map_modify_of_preserved {α β : Type} (g : α → β) (f : α → α)
    (hf : ∀ e, g (f e) = g e) (l : List α) (i : Nat) : (l.modify f i).map g = l.map g := by
  induction l generalizing i with
  | nil => simp
  | cons a l ih =>
    cases i with
    | zero => simp [hf]
    | succ i => simp [ih]

theorem gda_insert_elems {α : Type} {g : gda α} {l : List α} (h : g.holds l) (x : α) :
    (gda_insert g x).elems = g.elems ++ [x] := by
  rw [gda_elems_holds (gda_insert_holds h x), gda_elems_holds h]

theorem extern_addresses_holds {tu : translation_unit} {l : List extern_call}
    (h : tu.extern_usage.holds l) (X : List Char) :
    extern_addresses tu X =
      match l.find? (fun e => e.symbol_name = X) with
      | some e => e.addresses.elems
      | none => [] := by
  unfold extern_addresses extern_entry
  rw [gda_elems_holds h]

/-- The block that records a reference: the map keeps its shape, the address
is appended under the name, and every other name keeps its addresses. -/
theorem record_extern_use_spec (tu : translation_unit) (name : List Char)
    (h : extern_usage_ok tu.extern_usage) :
    extern_usage_ok (record_extern_use tu name).extern_usage ∧
      ∀ X, extern_addresses (record_extern_use tu name) X =
        extern_addresses tu X ++
          (if name = X then [(gda_size tu.bmc_code + PROG_BASE_ADDR) % 65536] else []) := by
  obtain ⟨l, hl, hnd, ha⟩ := h
  unfold record_extern_use
  dsimp only
  generalize (gda_size tu.bmc_code + PROG_BASE_ADDR) % 65536 = temp
  rw [gda_search_holds hl]
  cases hs : l.findIdx? (fun e => decide (e.symbol_name = name)) with
  | some i =>
    dsimp only
    have hl' := gda_modify_holds hl i
      (fun e => { e with addresses := gda_insert e.addresses temp })
    refine ⟨⟨_, hl', ?_, ?_⟩, fun X => ?_⟩
    · rw [map_modify_of_preserved (fun e : extern_call => e.symbol_name)
        (fun e => { e with addresses := gda_insert e.addresses temp }) (fun _ => rfl)]
      exact hnd
    · refine forall_mem_modify _ ?_ l i ha
      rintro e ⟨a, hea⟩
      exact ⟨_, gda_insert_holds hea _⟩
    · rw [extern_addresses_holds hl', extern_addresses_holds hl,
        find?_modify_of_preserved (fun e : extern_call => decide (e.symbol_name = X))
          (fun e => { e with addresses := gda_insert e.addresses temp }) (fun _ => rfl)]
      have hfind := findIdx?_get? _ _ _ hs
      by_cases hX : name = X
      · subst hX
        rw [if_pos hs, if_pos rfl]
        cases hf : l.find? (fun e => decide (e.symbol_name = name)) with
        | none =>
          have : l.findIdx? (fun e => decide (e.symbol_name = name)) = none := by
            rw [List.findIdx?_eq_none_iff]
            intro e he
            simpa using (List.find?_eq_none.mp hf) e he
          rw [this] at hs
          cases hs
        | some e =>
          obtain ⟨a, hea⟩ := ha e (List.mem_of_find?_eq_some hf)
          simp only [Option.map_some']
          rw [gda_insert_elems hea]
      · rw [if_neg hX, List.append_nil]
        have hno : ¬ l.findIdx? (fun e => decide (e.symbol_name = X)) = some i := by
          intro hs'
          have h2 := findIdx?_get? _ _ _ hs'
          cases hg : l.get? i with
          | none =>
            rw [hg] at hfind
            have : l.findIdx? (fun e => decide (e.symbol_name = name)) = none := by
              rw [List.findIdx?_eq_none_iff]
              intro e he
              simpa using (List.find?_eq_none.mp hfind) e he
            rw [this] at hs
            cases hs
          | some y =>
            rw [hg] at hfind h2
            have e1 := List.find?_some hfind
            have e2 := List.find?_some h2
            simp only [decide_eq_true_eq] at e1 e2
            exact absurd (e1.symm.trans e2) hX
        rw [if_neg hno]
  | none =>
    dsimp only
    have hl' := gda_insert_holds hl
      ({ symbol_name := name, addresses := gda_insert gda_create temp } : extern_call)
    rw [List.findIdx?_eq_none_iff] at hs
    refine ⟨⟨_, hl', ?_, ?_⟩, fun X => ?_⟩
    · rw [List.map_append, List.nodup_append]
      refine ⟨hnd, by simp, ?_⟩
      intro a ha1 ha2
      simp only [List.map_cons, List.map_nil, List.mem_singleton] at ha2
      subst ha2
      obtain ⟨e, he, hen⟩ := List.mem_map.mp ha1
      have := hs e he
      simp at this
      exact this hen
    · intro e he
      rcases List.mem_append.mp he with he | he
      · exact ha e he
      · simp only [List.mem_singleton] at he
        subst he
        exact ⟨_, gda_insert_holds gda_create_holds _⟩
    · rw [extern_addresses_holds hl', extern_addresses_holds hl, List.find?_append]
      by_cases hX : name = X
      · subst hX
        have hnone : l.find? (fun e => decide (e.symbol_name = name)) = none := by
          rw [List.find?_eq_none]
          intro e he
          simpa using hs e he
        rw [hnone, if_pos rfl]
        simp only [Option.none_or, List.find?_cons, decide_True, List.nil_append]
        rw [gda_insert_elems gda_create_holds, gda_elems_holds gda_create_holds]
        rfl
      · rw [if_neg hX, List.append_nil]
        have : List.find? (fun e => decide (e.symbol_name = X))
            [({ symbol_name := name, addresses := gda_insert gda_create temp } : extern_call)] =
            none := by
          simp [List.find?_cons, hX]
        rw [this, Option.or_none]


/-! ## Pass 2: the effect of its steps -/

theorem pass2_effect_of_eq {st st' : second_pass_state} (ht : st'.t_unit = st.t_unit)
    (he : st'.error = st.error) : pass2_effect st st' [] [] false := by
  refine ⟨by rw [ht], by rw [ht]; rfl, fun c hc => ?_, fun h => ⟨by rw [ht]; exact h, fun X => ?_⟩,
    by simpa using he⟩
  · rw [ht, List.append_nil]
    exact hc
  · rw [ht]
    simp [refs_of]

theorem pass2_effect_trans {st1 st2 st3 : second_pass_state} {ws1 ws2 : List Nat}
    {refs1 refs2 : List (List Char × Nat)} {u1 u2 : Bool}
    (h12 : pass2_effect st1 st2 ws1 refs1 u1) (h23 : pass2_effect st2 st3 ws2 refs2 u2) :
    pass2_effect st1 st3 (ws1 ++ ws2) (refs1 ++ refs2) (u1 || u2) := by
  obtain ⟨a1, b1, c1, d1, e1⟩ := h12
  obtain ⟨a2, b2, c2, d2, e2⟩ := h23
  refine ⟨a2.trans a1, ?_, fun c hc => ?_, fun h => ?_, ?_⟩
  · rw [b2, b1, List.length_append, Nat.add_assoc]
  · rw [← List.append_assoc]
    exact c2 _ (c1 c hc)
  · obtain ⟨o1, f1⟩ := d1 h
    obtain ⟨o2, f2⟩ := d2 o1
    refine ⟨o2, fun X => ?_⟩
    rw [f2, f1, List.append_assoc]
    simp [refs_of]
  · rw [e2, e1]
    cases u1 <;> cases u2 <;> simp

theorem gda_size_insert {α : Type} (g : gda α) (x : α) :
    gda_size (gda_insert g x) = gda_size g + 1 := by
  unfold gda_insert gda_size
  split <;> rfl

theorem record_extern_use_frame (tu : translation_unit) (name : List Char) :
    (record_extern_use tu name).symbol_table = tu.symbol_table ∧
      (record_extern_use tu name).bmc_code = tu.bmc_code ∧
      (record_extern_use tu name).bmc_data = tu.bmc_data := by
  unfold record_extern_use
  dsimp only
  split <;> exact ⟨rfl, rfl, rfl⟩

theorem emit_code_effect (st : second_pass_state) :
    pass2_effect st (emit_code st) [st.bmc_code_i] [] false := by
  refine ⟨rfl, gda_size_insert _ _, fun c hc => gda_insert_holds hc _,
    fun h => ⟨h, fun X => ?_⟩, rfl⟩
  simp [refs_of, extern_addresses, extern_entry, emit_code]

theorem is_external_of_find {tbl : gda symbol} {name : List Char} {y : symbol}
    (h : find_symbol tbl name = some y) :
    is_external tbl name = decide (y.sym_type = sym_type_extern) := by
  simp [is_external, h]

/-- The `case tag_arg_tag_symbol` block on a name: the word it leaves in
`bmc_code_i`, whether the name was found, and its effect. -/
theorem symbol_operand_spec (st : second_pass_state) (name : List Char) :
    (symbol_operand st name).map (fun r => (r.1.bmc_code_i, r.2)) =
        (operand_word st.t_unit.symbol_table tag_arg_tag_symbol { symbol := name } none
          st.bmc_code_i).map
          (fun w => (w, (find_symbol st.t_unit.symbol_table name).isSome)) ∧
      ∀ r, symbol_operand st name = some r →
        r.1.i = st.i ∧
        pass2_effect st r.1 []
          (operand_refs st.t_unit.symbol_table (gda_size st.t_unit.bmc_code) tag_arg_tag_symbol
            { symbol := name })
          (operand_undefined st.t_unit.symbol_table tag_arg_tag_symbol { symbol := name }) := by
  unfold symbol_operand operand_word
  cases hs : gda_search st.t_unit.symbol_table (symbol_named name) with
  | none =>
    have hf := find_symbol_none_of_search hs
    simp only [hf, Option.map_some', Option.isSome_none]
    refine ⟨trivial, ?_⟩
    rintro r ⟨rfl⟩
    refine ⟨rfl, rfl, rfl, fun c hc => by simpa using hc, fun h => ⟨h, fun X => ?_⟩, ?_⟩
    · simp [refs_of, operand_refs, is_external, hf, extern_addresses, extern_entry]
    · simp [operand_undefined, hf]
  | some slot =>
    obtain ⟨y, hd, hn⟩ := gda_search_deref hs
    have hf := find_symbol_of_search hs hd
    simp only [hd, hf, Option.isSome_some]
    by_cases hty : y.sym_type = sym_type_extern
    · simp only [hty, ↓reduceIte, Option.map_some']
      refine ⟨trivial, ?_⟩
      rintro r ⟨rfl⟩
      obtain ⟨f1, f2, -⟩ := record_extern_use_frame st.t_unit y.symbol_name
      refine ⟨rfl, f1, by simp [f2], fun c hc => by simpa [f2] using hc, fun h => ?_, ?_⟩
      · obtain ⟨o, f⟩ := record_extern_use_spec st.t_unit y.symbol_name h
        refine ⟨o, fun X => ?_⟩
        rw [f X, hn]
        simp only [refs_of, operand_refs, is_external, hf, hty, decide_True, and_self, ↓reduceIte]
        by_cases hX : name = X <;> simp [hX]
      · simp [operand_undefined, hf]
    · simp only [hty, ↓reduceIte]
      cases ha : y.addr with
      | none => simp
      | some addr =>
        simp only [Option.map_some']
        refine ⟨trivial, ?_⟩
        rintro r ⟨rfl⟩
        refine ⟨rfl, rfl, rfl, fun c hc => by simpa using hc, fun h => ⟨h, fun X => ?_⟩, ?_⟩
        · simp [refs_of, operand_refs, is_external, hf, hty, extern_addresses, extern_entry]
        · simp [operand_undefined, hf]


theorem pass2_effect_congr {st0 st st' : second_pass_state} {ws : List Nat}
    {refs : List (List Char × Nat)} {u : Bool} (ht : st0.t_unit = st.t_unit)
    (he : st0.error = st.error) (h : pass2_effect st0 st' ws refs u) :
    pass2_effect st st' ws refs u := by
  unfold pass2_effect at h ⊢
  rw [ht, he] at h
  exact h

/-- The `switch` on an operand tag: the word it leaves in `bmc_code_i` and its
effect. -/
theorem operand_switch_spec (st : second_pass_state) (opt : argument_option) (a : arg_union)
    (count : Option Int) :
    (operand_switch st opt a count).map (fun r => r.bmc_code_i) =
        operand_word st.t_unit.symbol_table opt a count st.bmc_code_i ∧
      ∀ st1, operand_switch st opt a count = some st1 →
        st1.i = st.i ∧
        pass2_effect st st1 []
          (operand_refs st.t_unit.symbol_table (gda_size st.t_unit.bmc_code) opt a)
          (operand_undefined st.t_unit.symbol_table opt a) := by
  cases opt with
  | tag_arg_tag_register =>
    unfold operand_switch operand_word
    cases count with
    | none => simp
    | some count =>
      simp only [Option.map_map, Option.some_bind]
      refine ⟨by cases register_word a.register_number count <;> rfl, ?_⟩
      intro st1 h
      obtain ⟨w, -, rfl⟩ := Option.map_eq_some'.mp h
      exact ⟨rfl, pass2_effect_of_eq rfl rfl⟩
  | tag_arg_tag_constant =>
    unfold operand_switch operand_word
    refine ⟨rfl, ?_⟩
    rintro st1 ⟨rfl⟩
    exact ⟨rfl, pass2_effect_of_eq rfl rfl⟩
  | tag_arg_tag_symbol =>
    obtain ⟨h1, h2⟩ := symbol_operand_spec st a.symbol
    unfold operand_switch
    dsimp only
    refine ⟨?_, ?_⟩
    · have hw : operand_word st.t_unit.symbol_table tag_arg_tag_symbol a count st.bmc_code_i =
          operand_word st.t_unit.symbol_table tag_arg_tag_symbol { symbol := a.symbol } none
            st.bmc_code_i := rfl
      rw [hw]
      cases hso : symbol_operand st a.symbol <;>
        cases hw' : operand_word st.t_unit.symbol_table tag_arg_tag_symbol { symbol := a.symbol }
          none st.bmc_code_i <;>
        simp only [hso, hw', Option.map_none', Option.map_some', Option.some.injEq,
          Prod.mk.injEq, reduceCtorEq] at h1 ⊢
      exact h1.1
    · intro st1 h
      obtain ⟨r, hr, rfl⟩ := Option.map_eq_some'.mp h
      exact h2 r hr

/-- The loop over the two operands: the two words it emits and its effect. -/
theorem operand_loop_spec (st : second_pass_state) (args : argument_option × argument_option)
    (opts : arg_union × arg_union) :
    ((operand_loop st args opts).isSome =
        ((operand_word st.t_unit.symbol_table args.1 opts.1 (some (8 - 0 * 6))
          st.bmc_code_i).bind
          (fun w1 => operand_word st.t_unit.symbol_table args.2 opts.2 (some (8 - 1 * 6))
            w1)).isSome) ∧
      ∀ st', operand_loop st args opts = some st' →
        ∃ w1 w2,
          operand_word st.t_unit.symbol_table args.1 opts.1 (some (8 - 0 * 6)) st.bmc_code_i =
            some w1 ∧
          operand_word st.t_unit.symbol_table args.2 opts.2 (some (8 - 1 * 6)) w1 = some w2 ∧
          st'.i = some 2 ∧
          pass2_effect st st' [w1, w2]
            (operand_refs st.t_unit.symbol_table (gda_size st.t_unit.bmc_code) args.1 opts.1 ++
              operand_refs st.t_unit.symbol_table (gda_size st.t_unit.bmc_code + 1) args.2
                opts.2)
            (operand_undefined st.t_unit.symbol_table args.1 opts.1 ||
              operand_undefined st.t_unit.symbol_table args.2 opts.2) := by
  obtain ⟨a1, b1⟩ := operand_switch_spec { st with i := some 0 } args.1 opts.1 (some (8 - 0 * 6))
  unfold operand_loop
  cases h1 : operand_switch { st with i := some 0 } args.1 opts.1 (some (8 - 0 * 6)) with
  | none =>
    rw [h1] at a1
    change none = operand_word st.t_unit.symbol_table args.1 opts.1 _ st.bmc_code_i at a1
    rw [← a1]
    simp
  | some st1 =>
    rw [h1] at a1
    change some st1.bmc_code_i = operand_word st.t_unit.symbol_table args.1 opts.1 _
      st.bmc_code_i at a1
    obtain ⟨-, e1⟩ := b1 st1 h1
    have e1 : pass2_effect st st1 [] _ _ := pass2_effect_congr rfl rfl e1
    have e2 := emit_code_effect st1
    obtain ⟨a2, b2⟩ := operand_switch_spec { emit_code st1 with i := some 1 } args.2 opts.2
      (some (8 - 1 * 6))
    have ht : (emit_code st1).t_unit.symbol_table = st.t_unit.symbol_table := e2.1.trans e1.1
    have hn : gda_size (emit_code st1).t_unit.bmc_code = gda_size st.t_unit.bmc_code + 1 := by
      rw [e2.2.1, e1.2.1]
      rfl
    dsimp only
    cases h2 : operand_switch { emit_code st1 with i := some 1 } args.2 opts.2
        (some (8 - 1 * 6)) with
    | none =>
      rw [h2] at a2
      change none = operand_word (emit_code st1).t_unit.symbol_table args.2 opts.2 _
        st1.bmc_code_i at a2
      rw [ht] at a2
      rw [← a1, Option.some_bind, ← a2]
      simp
    | some st2 =>
      rw [h2] at a2
      change some st2.bmc_code_i = operand_word (emit_code st1).t_unit.symbol_table args.2 opts.2
        _ st1.bmc_code_i at a2
      rw [ht] at a2
      obtain ⟨-, e3⟩ := b2 st2 h2
      have e3 : pass2_effect (emit_code st1) st2 [] _ _ := pass2_effect_congr rfl rfl e3
      rw [ht, hn] at e3
      have e4 := emit_code_effect st2
      refine ⟨?_, ?_⟩
      · rw [← a1, Option.some_bind, ← a2]
        rfl
      · rintro st' ⟨rfl⟩
        refine ⟨st1.bmc_code_i, st2.bmc_code_i, a1.symm, a2.symm, rfl, ?_⟩
        have := pass2_effect_trans (pass2_effect_trans (pass2_effect_trans e1 e2) e3) e4
        simp only [List.nil_append, List.append_nil, List.singleton_append, Bool.or_false,
          List.cons_append] at this
        exact @pass2_effect_congr st _ _ _ _ _ rfl rfl
          ⟨this.1, this.2.1, this.2.2.1, this.2.2.2.1, this.2.2.2.2⟩


/-! ## Pass 2: one instruction -/

theorem second_pass_inst_groupA_registers (s : syntax_struct) (st : second_pass_state)
    (hA : is_i_tag_groupA s.cpu_inst.i_tag = true)
    (hr : s.cpu_inst.group_A.left_and_right_args.1 = tag_arg_tag_register ∧
      s.cpu_inst.group_A.left_and_right_args.2 = tag_arg_tag_register) :
    second_pass_inst s st =
      some (emit_code { emit_code { st with bmc_code_i := opcode_word s } with
        bmc_code_i := shared_register_word s.cpu_inst.group_A.arg_option }) := by
  unfold second_pass_inst opcode_word
  simp only [hA, hr, and_self, ↓reduceIte]

theorem second_pass_inst_groupA_loop (s : syntax_struct) (st : second_pass_state)
    (hA : is_i_tag_groupA s.cpu_inst.i_tag = true)
    (hr : ¬(s.cpu_inst.group_A.left_and_right_args.1 = tag_arg_tag_register ∧
      s.cpu_inst.group_A.left_and_right_args.2 = tag_arg_tag_register)) :
    second_pass_inst s st =
      operand_loop (emit_code { st with bmc_code_i := opcode_word s })
        s.cpu_inst.group_A.left_and_right_args s.cpu_inst.group_A.arg_option := by
  unfold second_pass_inst opcode_word
  simp only [hA, hr, ↓reduceIte]

theorem second_pass_inst_groupB_indexed (s : syntax_struct) (st : second_pass_state)
    (hB : is_i_tag_groupB s.cpu_inst.i_tag = true)
    (h2 : s.cpu_inst.group_B.arg_options = tag_arg_2_args_with_symbol) :
    second_pass_inst s st =
      match symbol_operand (emit_code { st with bmc_code_i := opcode_word s })
          s.cpu_inst.group_B.arg_2_symbol.symbol with
      | none => none
      | some r =>
        if s.cpu_inst.group_B.arg_2_symbol.left_and_right_args.1 = tag_arg_tag_register ∧
            s.cpu_inst.group_B.arg_2_symbol.left_and_right_args.2 = tag_arg_tag_register then
          some (emit_code { (if r.2 = true then emit_code r.1 else r.1) with
            bmc_code_i := shared_register_word s.cpu_inst.group_B.arg_2_symbol.arg_2_args_options })
        else
          operand_loop (if r.2 = true then emit_code r.1 else r.1)
            s.cpu_inst.group_B.arg_2_symbol.left_and_right_args
            s.cpu_inst.group_B.arg_2_symbol.arg_2_args_options := by
  unfold second_pass_inst opcode_word
  simp only [groupB_not_groupA _ hB, hB, h2, ↓reduceIte, Bool.false_eq_true]
  try rfl

theorem second_pass_inst_groupB_single (s : syntax_struct) (st : second_pass_state)
    (hB : is_i_tag_groupB s.cpu_inst.i_tag = true)
    (h1 : s.cpu_inst.group_B.arg_options ≠ tag_arg_2_args_with_symbol) :
    second_pass_inst s st =
      (operand_switch (emit_code { st with bmc_code_i := opcode_word s })
        s.cpu_inst.group_B.rest_of_group_b.arg_opt s.cpu_inst.group_B.rest_of_group_b.arg_option
        (st.i.map (fun i => 8 - i * 6))).map emit_code := by
  unfold second_pass_inst opcode_word
  simp only [groupB_not_groupA _ hB, hB, h1, ↓reduceIte, Bool.false_eq_true]
  rfl

theorem second_pass_inst_groupC (s : syntax_struct) (st : second_pass_state)
    (hA : is_i_tag_groupA s.cpu_inst.i_tag = false)
    (hB : is_i_tag_groupB s.cpu_inst.i_tag = false) :
    second_pass_inst s st = some (emit_code { st with bmc_code_i := opcode_word s }) := by
  unfold second_pass_inst opcode_word
  simp only [hA, hB, ↓reduceIte, Bool.false_eq_true]

theorem emit_word_effect (st : second_pass_state) (w : Nat) :
    pass2_effect st (emit_code { st with bmc_code_i := w }) [w] [] false :=
  @pass2_effect_congr { st with bmc_code_i := w } _ _ _ _ _ rfl rfl (emit_code_effect _)

theorem operand_word_external {tbl : gda symbol} {a : arg_union} {count : Option Int}
    {stale w : Nat} (he : is_external tbl a.symbol = true)
    (hw : operand_word tbl tag_arg_tag_symbol a count stale = some w) : w = 1 := by
  unfold operand_word at hw
  unfold is_external at he
  cases hf : find_symbol tbl a.symbol with
  | none => simp [hf] at he
  | some y =>
    simp only [hf, decide_eq_true_eq] at he hw
    simp only [he, ↓reduceIte, Option.some.injEq] at hw
    exact hw.symm

theorem operand_refs_symbol_external {tbl : gda symbol} (n : Nat) {a : arg_union}
    (he : is_external tbl a.symbol = true) :
    operand_refs tbl n tag_arg_tag_symbol a = [(a.symbol, (n + PROG_BASE_ADDR) % 65536)] := by
  simp [operand_refs, he]

/-- The effect of an instruction in pass 2: its opcode word and operand words
are appended, every operand that names an external symbol gets the word 1 and
records the address of that word, and the error flag is set when an operand
names a symbol the table does not hold. -/
theorem second_pass_inst_effect (s : syntax_struct) (st st' : second_pass_state)
    (h : second_pass_inst s st = some st') :
    ∃ ws, pass2_effect st st' (opcode_word s :: ws)
        (inst_refs st.t_unit.symbol_table (gda_size st.t_unit.bmc_code) s)
        (inst_undefined st.t_unit.symbol_table s) ∧
      ∀ slot ∈ operand_slots st.t_unit.symbol_table s, slot.1 = tag_arg_tag_symbol →
        is_external st.t_unit.symbol_table slot.2.1.symbol = true →
        (opcode_word s :: ws).get? slot.2.2 = some 1 := by
  have e0 := emit_word_effect st (opcode_word s)
  by_cases hA : is_i_tag_groupA s.cpu_inst.i_tag = true
  · by_cases hr : s.cpu_inst.group_A.left_and_right_args.1 = tag_arg_tag_register ∧
        s.cpu_inst.group_A.left_and_right_args.2 = tag_arg_tag_register
    · rw [second_pass_inst_groupA_registers s st hA hr] at h
      cases h
      have hs : operand_slots st.t_unit.symbol_table s = [] := by
        simp [operand_slots, hA, hr]
      refine ⟨[shared_register_word s.cpu_inst.group_A.arg_option], ?_, ?_⟩
      · have := pass2_effect_trans e0 (emit_word_effect _
          (shared_register_word s.cpu_inst.group_A.arg_option))
        simpa [inst_refs, inst_undefined, hs] using this
      · simp [hs]
    · rw [second_pass_inst_groupA_loop s st hA hr] at h
      obtain ⟨w1, w2, hw1, hw2, -, e1⟩ := (operand_loop_spec _ _ _).2 st' h
      rw [e0.1, e0.2.1] at e1
      rw [e0.1] at hw1 hw2
      have hs : operand_slots st.t_unit.symbol_table s =
          [(s.cpu_inst.group_A.left_and_right_args.1, s.cpu_inst.group_A.arg_option.1, 1),
            (s.cpu_inst.group_A.left_and_right_args.2, s.cpu_inst.group_A.arg_option.2, 2)] := by
        simp only [operand_slots, hA, hr, ↓reduceIte]
      refine ⟨[w1, w2], ?_, ?_⟩
      · have := pass2_effect_trans e0 e1
        simpa [inst_refs, inst_undefined, hs, Nat.add_assoc] using this
      · intro slot hslot hsym hext
        rw [hs] at hslot
        simp only [List.mem_cons, List.mem_singleton, List.not_mem_nil, or_false] at hslot
        rcases hslot with rfl | rfl
        · dsimp only at hsym hext ⊢
          rw [hsym] at hw1
          rw [operand_word_external hext hw1]
          rfl
        · dsimp only at hsym hext ⊢
          rw [hsym] at hw2
          rw [operand_word_external hext hw2]
          rfl
  · by_cases hB : is_i_tag_groupB s.cpu_inst.i_tag = true
    · by_cases h2 : s.cpu_inst.group_B.arg_options = tag_arg_2_args_with_symbol
      · rw [second_pass_inst_groupB_indexed s st hB h2] at h
        obtain ⟨hm, hsp⟩ := symbol_operand_spec (emit_code { st with bmc_code_i := opcode_word s })
          s.cpu_inst.group_B.arg_2_symbol.symbol
        cases hso : symbol_operand (emit_code { st with bmc_code_i := opcode_word s })
            s.cpu_inst.group_B.arg_2_symbol.symbol with
        | none =>
          rw [hso] at h
          cases h
        | some r =>
          rw [hso] at h hm
          dsimp only at h
          obtain ⟨-, eb⟩ := hsp r hso
          rw [e0.1, e0.2.1] at eb
          rw [e0.1] at hm
          obtain ⟨wb, hwb, hmb⟩ := Option.map_eq_some'.mp hm.symm
          simp only [Prod.mk.injEq] at hmb
          obtain ⟨hwb1, hfound⟩ := hmb
          have e01 := pass2_effect_trans e0 eb
          cases hf : find_symbol st.t_unit.symbol_table s.cpu_inst.group_B.arg_2_symbol.symbol with
          | none =>
            rw [hf] at hfound
            simp only [Option.isSome_none] at hfound
            have hne : is_external st.t_unit.symbol_table
                s.cpu_inst.group_B.arg_2_symbol.symbol = false := by
              simp [is_external, hf]
            simp only [← hfound, Bool.false_eq_true, ↓reduceIte] at h
            by_cases hr : s.cpu_inst.group_B.arg_2_symbol.left_and_right_args.1 =
                tag_arg_tag_register ∧
                s.cpu_inst.group_B.arg_2_symbol.left_and_right_args.2 = tag_arg_tag_register
            · rw [if_pos hr] at h
              cases h
              have hs : operand_slots st.t_unit.symbol_table s =
                  [(tag_arg_tag_symbol, { symbol := s.cpu_inst.group_B.arg_2_symbol.symbol },
                    1)] := by
                simp only [operand_slots, groupB_not_groupA _ hB, hB, h2, hr, and_self,
                  ↓reduceIte, Bool.false_eq_true]
              refine ⟨[shared_register_word s.cpu_inst.group_B.arg_2_symbol.arg_2_args_options],
                ?_, ?_⟩
              · have := pass2_effect_trans e01 (emit_word_effect r.1
                  (shared_register_word s.cpu_inst.group_B.arg_2_symbol.arg_2_args_options))
                simpa [inst_refs, inst_undefined, hs] using this
              · intro slot hslot hsym hext
                rw [hs] at hslot
                simp only [List.mem_singleton] at hslot
                subst hslot
                rw [hne] at hext
                cases hext
            · rw [if_neg hr] at h
              obtain ⟨w1, w2, hw1, hw2, -, e1⟩ := (operand_loop_spec _ _ _).2 st' h
              rw [eb.1, eb.2.1, e0.1, e0.2.1] at e1
              rw [eb.1, e0.1] at hw1 hw2
              have hs : operand_slots st.t_unit.symbol_table s =
                  [(tag_arg_tag_symbol, { symbol := s.cpu_inst.group_B.arg_2_symbol.symbol }, 1),
                    (s.cpu_inst.group_B.arg_2_symbol.left_and_right_args.1,
                      s.cpu_inst.group_B.arg_2_symbol.arg_2_args_options.1, 1),
                    (s.cpu_inst.group_B.arg_2_symbol.left_and_right_args.2,
                      s.cpu_inst.group_B.arg_2_symbol.arg_2_args_options.2, 2)] := by
                simp only [operand_slots, groupB_not_groupA _ hB, hB, h2, hr, hf,
                  ↓reduceIte, Bool.false_eq_true, Option.isSome_none]
              refine ⟨[w1, w2], ?_, ?_⟩
              · have := pass2_effect_trans e01 e1
                simpa [inst_refs, inst_undefined, hs, Nat.add_assoc] using this
              · intro slot hslot hsym hext
                rw [hs] at hslot
                simp only [List.mem_cons, List.mem_singleton, List.not_mem_nil,
                  or_false] at hslot
                rcases hslot with rfl | rfl | rfl
                · rw [hne] at hext
                  cases hext
                · dsimp only at hsym hext ⊢
                  rw [hsym] at hw1
                  rw [operand_word_external hext hw1]
                  rfl
                · dsimp only at hsym hext ⊢
                  rw [hsym] at hw2
                  rw [operand_word_external hext hw2]
                  rfl
          | some y =>
            rw [hf] at hfound
            simp only [Option.isSome_some] at hfound
            simp only [← hfound, ↓reduceIte] at h
            have e02 := pass2_effect_trans e01 (emit_code_effect r.1)
            rw [← hwb1] at e02
            by_cases hr : s.cpu_inst.group_B.arg_2_symbol.left_and_right_args.1 =
                tag_arg_tag_register ∧
                s.cpu_inst.group_B.arg_2_symbol.left_and_right_args.2 = tag_arg_tag_register
            · rw [if_pos hr] at h
              cases h
              have hs : operand_slots st.t_unit.symbol_table s =
                  [(tag_arg_tag_symbol, { symbol := s.cpu_inst.group_B.arg_2_symbol.symbol },
                    1)] := by
                simp only [operand_slots, groupB_not_groupA _ hB, hB, h2, hr, and_self,
                  ↓reduceIte, Bool.false_eq_true]
              refine ⟨[wb,
                shared_register_word s.cpu_inst.group_B.arg_2_symbol.arg_2_args_options],
                ?_, ?_⟩
              · have := pass2_effect_trans e02 (emit_word_effect (emit_code r.1)
                  (shared_register_word s.cpu_inst.group_B.arg_2_symbol.arg_2_args_options))
                simpa [inst_refs, inst_undefined, hs] using this
              · intro slot hslot hsym hext
                rw [hs] at hslot
                simp only [List.mem_singleton] at hslot
                subst hslot
                dsimp only at hext ⊢
                rw [operand_word_external hext hwb]
                rfl
            · rw [if_neg hr] at h
              obtain ⟨w1, w2, hw1, hw2, -, e1⟩ := (operand_loop_spec _ _ _).2 st' h
              rw [e02.1, e02.2.1] at e1
              rw [e02.1] at hw1 hw2
              have hs : operand_slots st.t_unit.symbol_table s =
                  [(tag_arg_tag_symbol, { symbol := s.cpu_inst.group_B.arg_2_symbol.symbol }, 1),
                    (s.cpu_inst.group_B.arg_2_symbol.left_and_right_args.1,
                      s.cpu_inst.group_B.arg_2_symbol.arg_2_args_options.1, 2),
                    (s.cpu_inst.group_B.arg_2_symbol.left_and_right_args.2,
                      s.cpu_inst.group_B.arg_2_symbol.arg_2_args_options.2, 3)] := by
                simp only [operand_slots, groupB_not_groupA _ hB, hB, h2, hr, hf,
                  ↓reduceIte, Bool.false_eq_true, Option.isSome_some]
              refine ⟨[wb, w1, w2], ?_, ?_⟩
              · have := pass2_effect_trans e02 e1
                simpa [inst_refs, inst_undefined, hs, Nat.add_assoc] using this
              · intro slot hslot hsym hext
                rw [hs] at hslot
                simp only [List.mem_cons, List.mem_singleton, List.not_mem_nil,
                  or_false] at hslot
                rcases hslot with rfl | rfl | rfl
                · dsimp only at hext ⊢
                  rw [operand_word_external hext hwb]
                  rfl
                · dsimp only at hsym hext ⊢
                  rw [hsym] at hw1
                  rw [operand_word_external hext hw1]
                  rfl
                · dsimp only at hsym hext ⊢
                  rw [hsym] at hw2
                  rw [operand_word_external hext hw2]
                  rfl
      · rw [second_pass_inst_groupB_single s st hB h2] at h
        obtain ⟨st1, h1, rfl⟩ := Option.map_eq_some'.mp h
        obtain ⟨hm, hsp⟩ := operand_switch_spec (emit_code { st with bmc_code_i := opcode_word s })
          s.cpu_inst.group_B.rest_of_group_b.arg_opt s.cpu_inst.group_B.rest_of_group_b.arg_option
          (st.i.map (fun i => 8 - i * 6))
        obtain ⟨-, e1⟩ := hsp st1 h1
        rw [h1, e0.1] at hm
        rw [e0.1, e0.2.1] at e1
        have hs : operand_slots st.t_unit.symbol_table s =
            [(s.cpu_inst.group_B.rest_of_group_b.arg_opt,
              s.cpu_inst.group_B.rest_of_group_b.arg_option, 1)] := by
          simp only [operand_slots, groupB_not_groupA _ hB, hB, h2, ↓reduceIte,
            Bool.false_eq_true]
        refine ⟨[st1.bmc_code_i], ?_, ?_⟩
        · have := pass2_effect_trans (pass2_effect_trans e0 e1) (emit_code_effect st1)
          simpa [inst_refs, inst_undefined, hs] using this
        · intro slot hslot hsym hext
          rw [hs] at hslot
          simp only [List.mem_singleton] at hslot
          subst hslot
          dsimp only at hsym hext ⊢
          rw [hsym] at hm
          have hm' : operand_word st.t_unit.symbol_table tag_arg_tag_symbol
              s.cpu_inst.group_B.rest_of_group_b.arg_option (st.i.map (fun i => 8 - i * 6))
              (emit_code { st with bmc_code_i := opcode_word s }).bmc_code_i =
              some st1.bmc_code_i := hm.symm
          rw [operand_word_external hext hm']
          rfl
    · have hA' : is_i_tag_groupA s.cpu_inst.i_tag = false := by simpa using hA
      have hB' : is_i_tag_groupB s.cpu_inst.i_tag = false := by simpa using hB
      rw [second_pass_inst_groupC s st hA' hB'] at h
      cases h
      have hs : operand_slots st.t_unit.symbol_table s = [] := by
        simp [operand_slots, hA', hB']
      refine ⟨[], ?_, ?_⟩
      · simpa [inst_refs, inst_undefined, hs] using e0
      · simp [hs]

/-! ## Pass 2: one line and the whole scan -/

theorem pass2_effect_of_frame {st st' : second_pass_state}
    (h1 : st'.t_unit.symbol_table = st.t_unit.symbol_table)
    (h2 : st'.t_unit.bmc_code = st.t_unit.bmc_code)
    (h3 : st'.t_unit.extern_usage = st.t_unit.extern_usage)
    (he : st'.error = st.error) : pass2_effect st st' [] [] false := by
  refine ⟨h1, by rw [h2]; rfl, fun c hc => ?_, fun h => ⟨by rw [h3]; exact h, fun X => ?_⟩,
    by simpa using he⟩
  · rw [h2, List.append_nil]
    exact hc
  · simp [refs_of, extern_addresses, extern_entry, h3]

theorem string_loop_frame (st : second_pass_state) (cs : List Char) :
    (string_loop st cs).t_unit.symbol_table = st.t_unit.symbol_table ∧
      (string_loop st cs).t_unit.bmc_code = st.t_unit.bmc_code ∧
      (string_loop st cs).t_unit.extern_usage = st.t_unit.extern_usage ∧
      (string_loop st cs).error = st.error ∧ (string_loop st cs).buffer = st.buffer := by
  induction cs generalizing st with
  | nil => exact ⟨rfl, rfl, rfl, rfl, rfl⟩
  | cons c cs ih =>
    obtain ⟨h1, h2, h3, h4, h5⟩ := ih (emit_data { st with bmc_code_i := char_to_ushort c })
    exact ⟨h1, h2, h3, h4, h5⟩

theorem data_loop_frame (num_array : List Int) (fuel i : Nat) (st st' : second_pass_state)
    (h : data_loop num_array fuel i st = some st') :
    st'.t_unit.symbol_table = st.t_unit.symbol_table ∧
      st'.t_unit.bmc_code = st.t_unit.bmc_code ∧
      st'.t_unit.extern_usage = st.t_unit.extern_usage ∧
      st'.error = st.error ∧ st'.buffer = st.buffer := by
  induction fuel generalizing i st with
  | zero =>
    simp only [data_loop, Option.some.injEq] at h
    subst h
    exact ⟨rfl, rfl, rfl, rfl, rfl⟩
  | succ fuel ih =>
    simp only [data_loop] at h
    cases hg : num_array.get? i with
    | none =>
      rw [hg] at h
      cases h
    | some v =>
      simp only [hg] at h
      obtain ⟨h1, h2, h3, h4, h5⟩ := ih _ _ h
      exact ⟨h1, h2, h3, h4, h5⟩

theorem second_pass_dir_frame (s : syntax_struct) (st st' : second_pass_state)
    (h : second_pass_dir s st = some st') :
    st'.t_unit.symbol_table = st.t_unit.symbol_table ∧
      st'.t_unit.bmc_code = st.t_unit.bmc_code ∧
      st'.t_unit.extern_usage = st.t_unit.extern_usage ∧
      st'.error = st.error ∧ st'.buffer = st.buffer := by
  unfold second_pass_dir at h
  dsimp only at h
  split at h
  · cases h
    exact string_loop_frame st _
  · split at h
    · exact data_loop_frame _ _ _ _ _ h
    · cases h
      exact ⟨rfl, rfl, rfl, rfl, rfl⟩

theorem symbol_operand_buffer (st : second_pass_state) (name : List Char)
    (r : second_pass_state × Bool) (h : symbol_operand st name = some r) :
    r.1.buffer = st.buffer := by
  unfold symbol_operand at h
  split at h
  · cases h
    rfl
  · split at h
    · cases h
    · split at h
      · cases h
        rfl
      · obtain ⟨a, -, rfl⟩ := Option.map_eq_some'.mp h
        rfl

theorem operand_switch_buffer (st : second_pass_state) (opt : argument_option) (a : arg_union)
    (count : Option Int) (st1 : second_pass_state)
    (h : operand_switch st opt a count = some st1) : st1.buffer = st.buffer := by
  unfold operand_switch at h
  split at h
  · split at h
    · cases h
    · obtain ⟨w, -, rfl⟩ := Option.map_eq_some'.mp h
      rfl
  · cases h
    rfl
  · obtain ⟨r, hr, rfl⟩ := Option.map_eq_some'.mp h
    exact symbol_operand_buffer _ _ _ hr

theorem operand_loop_buffer (st : second_pass_state) (args : argument_option × argument_option)
    (opts : arg_union × arg_union) (st' : second_pass_state)
    (h : operand_loop st args opts = some st') : st'.buffer = st.buffer := by
  unfold operand_loop at h
  split at h
  · cases h
  · rename_i st1 h1
    dsimp only at h
    split at h
    · cases h
    · rename_i st2 h2
      cases h
      have b1 := operand_switch_buffer _ _ _ _ _ h1
      have b2 := operand_switch_buffer _ _ _ _ _ h2
      exact b2.trans b1

theorem second_pass_inst_buffer (s : syntax_struct) (st st' : second_pass_state)
    (h : second_pass_inst s st = some st') : st'.buffer = st.buffer := by
  by_cases hA : is_i_tag_groupA s.cpu_inst.i_tag = true
  · by_cases hr : s.cpu_inst.group_A.left_and_right_args.1 = tag_arg_tag_register ∧
        s.cpu_inst.group_A.left_and_right_args.2 = tag_arg_tag_register
    · rw [second_pass_inst_groupA_registers s st hA hr] at h
      cases h
      rfl
    · rw [second_pass_inst_groupA_loop s st hA hr] at h
      exact (operand_loop_buffer _ _ _ _ h).trans rfl
  · by_cases hB : is_i_tag_groupB s.cpu_inst.i_tag = true
    · by_cases h2 : s.cpu_inst.group_B.arg_options = tag_arg_2_args_with_symbol
      · rw [second_pass_inst_groupB_indexed s st hB h2] at h
        split at h
        · cases h
        · rename_i r hr
          have b0 := symbol_operand_buffer _ _ _ hr
          have b1 : (if r.2 = true then emit_code r.1 else r.1).buffer = st.buffer := by
            split <;> exact b0
          split at h
          · cases h
            exact b1
          · exact (operand_loop_buffer _ _ _ _ h).trans b1
      · rw [second_pass_inst_groupB_single s st hB h2] at h
        obtain ⟨st1, h1, rfl⟩ := Option.map_eq_some'.mp h
        exact (operand_switch_buffer _ _ _ _ _ h1).trans rfl
    · have hA' : is_i_tag_groupA s.cpu_inst.i_tag = false := by simpa using hA
      have hB' : is_i_tag_groupB s.cpu_inst.i_tag = false := by simpa using hB
      rw [second_pass_inst_groupC s st hA' hB'] at h
      cases h
      rfl

/-- The effect of one line of pass 2. -/
theorem second_pass_line_effect (st st' : second_pass_state) (line : List Char)
    (h : second_pass_line st line = some st') :
    st'.buffer = (lang_engine_create_ss_from_logical_line (fgets_store st.buffer line)).2 ∧
      ∃ ws, pass2_effect st st' ws
          (line_refs st.t_unit.symbol_table (gda_size st.t_unit.bmc_code)
            (second_pass_parse st line))
          (line_undefined st.t_unit.symbol_table (second_pass_parse st line)) ∧
        ((second_pass_parse st line).dir_or_inst_tag ≠ tag_inst → ws = []) ∧
        ((second_pass_parse st line).dir_or_inst_tag = tag_inst →
          ∃ ws', ws = opcode_word (second_pass_parse st line) :: ws' ∧
            ∀ slot ∈ operand_slots st.t_unit.symbol_table (second_pass_parse st line),
              slot.1 = tag_arg_tag_symbol →
              is_external st.t_unit.symbol_table slot.2.1.symbol = true →
              ws.get? slot.2.2 = some 1) := by
  unfold second_pass_line at h
  dsimp only at h
  obtain ⟨st1, h1, rfl⟩ := Option.map_eq_some'.mp h
  unfold second_pass_parse line_refs line_undefined
  generalize lang_engine_create_ss_from_logical_line (fgets_store st.buffer line) = r at h1 ⊢
  cases htag : r.1.dir_or_inst_tag with
  | tag_syntax_error =>
    simp only [htag] at h1
    cases h1
    refine ⟨rfl, [], ?_, fun _ => rfl, fun hc => by cases hc⟩
    simpa using @pass2_effect_of_frame st _ rfl rfl rfl rfl
  | tag_line_null =>
    simp only [htag] at h1
    cases h1
    refine ⟨rfl, [], ?_, fun _ => rfl, fun hc => by cases hc⟩
    simpa using @pass2_effect_of_frame st _ rfl rfl rfl rfl
  | tag_dir =>
    simp only [htag] at h1
    obtain ⟨f1, f2, f3, f4, f5⟩ := second_pass_dir_frame _ _ _ h1
    refine ⟨f5, [], ?_, fun _ => rfl, fun hc => by cases hc⟩
    simpa using @pass2_effect_of_frame st _ f1 f2 f3 f4
  | tag_inst =>
    simp only [htag] at h1
    obtain ⟨ws, e, hw⟩ := second_pass_inst_effect _ _ _ h1
    refine ⟨second_pass_inst_buffer _ _ _ h1, _ :: ws, ?_, fun hc => absurd rfl hc,
      fun _ => ⟨ws, rfl, hw⟩⟩
    simp only [↓reduceIte, decide_True, Bool.true_and]
    exact ⟨e.1, e.2.1, e.2.2.1, e.2.2.2.1, e.2.2.2.2⟩

theorem refs_of_append (r1 r2 : List (List Char × Nat)) (X : List Char) :
    refs_of (r1 ++ r2) X = refs_of r1 X ++ refs_of r2 X := by
  simp [refs_of]

theorem refs_of_operand_refs (tbl : gda symbol) (n : Nat) (opt : argument_option)
    (a : arg_union) (X : List Char) :
    refs_of (operand_refs tbl n opt a) X =
      if (decide (opt = tag_arg_tag_symbol) && decide (a.symbol = X) && is_external tbl X) = true
      then [(n + PROG_BASE_ADDR) % 65536] else [] := by
  unfold refs_of operand_refs
  by_cases h1 : opt = tag_arg_tag_symbol
  · by_cases h2 : a.symbol = X
    · subst h2
      cases h3 : is_external tbl a.symbol <;> simp [h1, h3]
    · cases h3 : is_external tbl a.symbol <;> simp [h1, h2, h3]
  · simp [h1]

/-- The addresses an instruction records under `X`: one for each operand that
names the external symbol `X`, in the order of the operands. -/
theorem refs_of_inst_refs (tbl : gda symbol) (n : Nat) (s : syntax_struct) (X : List Char) :
    refs_of (inst_refs tbl n s) X =
      ((operand_slots tbl s).filter (fun slot =>
        decide (slot.1 = tag_arg_tag_symbol) && decide (slot.2.1.symbol = X) &&
          is_external tbl X)).map (fun slot => (n + slot.2.2 + PROG_BASE_ADDR) % 65536) := by
  unfold inst_refs
  induction operand_slots tbl s with
  | nil => rfl
  | cons slot rest ih =>
    rw [List.flatMap_cons, refs_of_append, ih, refs_of_operand_refs, List.filter_cons]
    split <;> simp

theorem refs_of_line_refs_length (tbl : gda symbol) (n : Nat) (s : syntax_struct)
    (X : List Char) : (refs_of (line_refs tbl n s) X).length = reference_count tbl X s := by
  unfold line_refs reference_count
  split
  · rw [refs_of_inst_refs, List.length_map]
  · rfl

theorem second_pass_scan_append (pre post : List (List Char)) (st : second_pass_state) :
    second_pass_scan (pre ++ post) st = (second_pass_scan pre st).bind (second_pass_scan post) := by
  induction pre generalizing st with
  | nil => rfl
  | cons line rest ih =>
    simp only [List.cons_append, second_pass_scan]
    cases second_pass_line st line with
    | none => rfl
    | some st1 => exact ih st1

/-- The effect of the whole scan of pass 2 on the extern-usage map and the error
flag. -/
theorem second_pass_scan_effect (lines : List (List Char)) (st st' : second_pass_state)
    (h : second_pass_scan lines st = some st')
    (hu : extern_usage_ok st.t_unit.extern_usage) :
    st'.t_unit.symbol_table = st.t_unit.symbol_table ∧
      extern_usage_ok st'.t_unit.extern_usage ∧
      (∀ X, (extern_addresses st'.t_unit X).length =
        (extern_addresses st.t_unit X).length +
          ((parsed_lines lines st.buffer).map
            (reference_count st.t_unit.symbol_table X)).sum) ∧
      (∀ X, extern_addresses st.t_unit X <+: extern_addresses st'.t_unit X) ∧
      (st'.error ≠ 0 ↔
        st.error ≠ 0 ∨
          ∃ s ∈ parsed_lines lines st.buffer, line_undefined st.t_unit.symbol_table s = true) := by
  induction lines generalizing st with
  | nil =>
    cases h
    exact ⟨rfl, hu, fun X => by simp [parsed_lines], fun X => List.prefix_refl _,
      by simp [parsed_lines]⟩
  | cons line rest ih =>
    simp only [second_pass_scan] at h
    cases h1 : second_pass_line st line with
    | none =>
      rw [h1] at h
      cases h
    | some st1 =>
      rw [h1] at h
      obtain ⟨hb, ws, e, -, -⟩ := second_pass_line_effect st st1 line h1
      obtain ⟨hu1, hx⟩ := e.2.2.2.1 hu
      obtain ⟨i1, i2, i3, i4, i5⟩ := ih st1 h hu1
      rw [e.1, hb] at i3 i5
      refine ⟨i1.trans e.1, i2, fun X => ?_, fun X => ?_, ?_⟩
      · rw [i3 X, hx X, List.length_append, refs_of_line_refs_length]
        simp only [parsed_lines, List.map_cons, List.sum_cons, second_pass_parse]
        omega
      · refine List.IsPrefix.trans ?_ (i4 X)
        rw [hx X]
        exact List.prefix_append _ _
      · rw [i5, e.2.2.2.2]
        simp only [parsed_lines, List.mem_cons, exists_eq_or_imp, second_pass_parse]
        by_cases hlu : line_undefined st.t_unit.symbol_table
            (lang_engine_create_ss_from_logical_line (fgets_store st.buffer line)).1 = true
        · simp [hlu]
        · simp [hlu]

/-! ## Pass 2 does not consult the error flag -/

theorem same_but_error_some {a b : second_pass_state} :
    same_but_error (some a) (some b) ↔ b = { a with error := b.error } := by
  obtain ⟨t1, b1, w1, l1, i1, e1⟩ := a
  obtain ⟨t2, b2, w2, l2, i2, e2⟩ := b
  simp only [same_but_error, Option.map_some', Option.some.injEq, Prod.mk.injEq,
    second_pass_state.mk.injEq, and_true]
  constructor
  · rintro ⟨rfl, rfl, rfl, rfl, rfl⟩
    exact ⟨rfl, rfl, rfl, rfl, rfl⟩
  · rintro ⟨rfl, rfl, rfl, rfl, rfl⟩
    exact ⟨rfl, rfl, rfl, rfl, rfl⟩

theorem symbol_operand_error (st : second_pass_state) (e : Int) (name : List Char) :
    same_but_error ((symbol_operand { st with error := e } name).map (fun r => r.1))
        ((symbol_operand st name).map (fun r => r.1)) ∧
      (symbol_operand { st with error := e } name).map (fun r => r.2) =
        (symbol_operand st name).map (fun r => r.2) := by
  unfold symbol_operand same_but_error
  dsimp only
  split
  · exact ⟨rfl, rfl⟩
  · split
    · exact ⟨rfl, rfl⟩
    · split
      · exact ⟨rfl, rfl⟩
      · rename_i y _ _
        cases y.addr <;> exact ⟨rfl, rfl⟩

theorem operand_switch_error (st : second_pass_state) (e : Int) (opt : argument_option)
    (a : arg_union) (count : Option Int) :
    same_but_error (operand_switch { st with error := e } opt a count)
      (operand_switch st opt a count) := by
  cases opt with
  | tag_arg_tag_register =>
    unfold operand_switch same_but_error
    cases count with
    | none => rfl
    | some count =>
      dsimp only
      cases register_word a.register_number count <;> rfl
  | tag_arg_tag_constant => rfl
  | tag_arg_tag_symbol =>
    have := (symbol_operand_error st e a.symbol).1
    unfold operand_switch
    exact this

theorem emit_code_error {a b : second_pass_state} (h : same_but_error (some a) (some b)) :
    same_but_error (some (emit_code a)) (some (emit_code b)) := by
  rw [same_but_error_some] at h ⊢
  rw [h]
  rfl


theorem same_but_error_symm {a b : Option second_pass_state} (h : same_but_error a b) :
    same_but_error b a :=
  Eq.symm h

theorem same_but_error_trans {a b c : Option second_pass_state} (h1 : same_but_error a b)
    (h2 : same_but_error b c) : same_but_error a c :=
  Eq.trans h1 h2

theorem same_but_error_lift {f : second_pass_state → Option second_pass_state}
    (hf : ∀ st e, same_but_error (f { st with error := e }) (f st))
    {a b : second_pass_state} (h : same_but_error (some a) (some b)) :
    same_but_error (f a) (f b) := by
  rw [same_but_error_some] at h
  rw [h]
  exact same_but_error_symm (hf a b.error)

theorem same_but_error_bind {A B : Option second_pass_state}
    {f : second_pass_state → Option second_pass_state} (h : same_but_error A B)
    (hf : ∀ st e, same_but_error (f { st with error := e }) (f st)) :
    same_but_error (A.bind f) (B.bind f) := by
  cases A with
  | none =>
    cases B with
    | none => rfl
    | some b => simp [same_but_error] at h
  | some a =>
    cases B with
    | none => simp [same_but_error] at h
    | some b => exact same_but_error_lift hf h

theorem operand_loop_eq_bind (st : second_pass_state)
    (args : argument_option × argument_option) (opts : arg_union × arg_union) :
    operand_loop st args opts =
      (operand_switch { st with i := some 0 } args.1 opts.1 (some (8 - 0 * 6))).bind
        (fun st1 =>
          (operand_switch { emit_code st1 with i := some 1 } args.2 opts.2
            (some (8 - 1 * 6))).bind
            (fun st2 => some { emit_code st2 with i := some 2 })) := by
  unfold operand_loop
  cases operand_switch { st with i := some 0 } args.1 opts.1 (some (8 - 0 * 6)) with
  | none => rfl
  | some st1 =>
    dsimp only [Option.some_bind]
    cases operand_switch { emit_code st1 with i := some 1 } args.2 opts.2
      (some (8 - 1 * 6)) <;> rfl

theorem operand_loop_error (st : second_pass_state) (e : Int)
    (args : argument_option × argument_option) (opts : arg_union × arg_union) :
    same_but_error (operand_loop { st with error := e } args opts)
      (operand_loop st args opts) := by
  rw [operand_loop_eq_bind, operand_loop_eq_bind]
  refine same_but_error_bind
    (operand_switch_error { st with i := some 0 } e args.1 opts.1 _) ?_
  intro st1 e1
  refine same_but_error_bind
    (operand_switch_error { emit_code st1 with i := some 1 } e1 args.2 opts.2 _) ?_
  intro st2 e2
  rfl

theorem string_loop_error (st : second_pass_state) (e : Int) (cs : List Char) :
    same_but_error (some (string_loop { st with error := e } cs))
      (some (string_loop st cs)) := by
  induction cs generalizing st with
  | nil => rfl
  | cons c cs ih => exact ih (emit_data { st with bmc_code_i := char_to_ushort c })

theorem data_loop_error (num_array : List Int) (fuel i : Nat) (st : second_pass_state)
    (e : Int) :
    same_but_error (data_loop num_array fuel i { st with error := e })
      (data_loop num_array fuel i st) := by
  induction fuel generalizing i st with
  | zero => rfl
  | succ fuel ih =>
    simp only [data_loop]
    cases num_array.get? i with
    | none => rfl
    | some v =>
      dsimp only
      exact ih _ (emit_data { st with i := some (i : Int), bmc_code_i := to_ushort v })

theorem second_pass_dir_error (s : syntax_struct) (st : second_pass_state) (e : Int) :
    same_but_error (second_pass_dir s { st with error := e }) (second_pass_dir s st) := by
  unfold second_pass_dir
  dsimp only
  split
  · have := string_loop_error st e s.asm_directive.string
    rw [same_but_error_some] at this ⊢
    rw [this]
    rfl
  · split
    · exact data_loop_error _ _ _ _ _
    · rfl

theorem second_pass_inst_error (s : syntax_struct) (st : second_pass_state) (e : Int) :
    same_but_error (second_pass_inst s { st with error := e }) (second_pass_inst s st) := by
  by_cases hA : is_i_tag_groupA s.cpu_inst.i_tag = true
  · by_cases hr : s.cpu_inst.group_A.left_and_right_args.1 = tag_arg_tag_register ∧
        s.cpu_inst.group_A.left_and_right_args.2 = tag_arg_tag_register
    · rw [second_pass_inst_groupA_registers s _ hA hr, second_pass_inst_groupA_registers s _ hA hr]
      rfl
    · rw [second_pass_inst_groupA_loop s _ hA hr, second_pass_inst_groupA_loop s _ hA hr]
      exact operand_loop_error (emit_code { st with bmc_code_i := opcode_word s }) e _ _
  · by_cases hB : is_i_tag_groupB s.cpu_inst.i_tag = true
    · by_cases h2 : s.cpu_inst.group_B.arg_options = tag_arg_2_args_with_symbol
      · rw [second_pass_inst_groupB_indexed s _ hB h2, second_pass_inst_groupB_indexed s _ hB h2]
        obtain ⟨r1, r2⟩ := symbol_operand_error (emit_code { st with bmc_code_i := opcode_word s })
          e s.cpu_inst.group_B.arg_2_symbol.symbol
        have r1' : same_but_error
            ((symbol_operand (emit_code { { st with error := e } with
              bmc_code_i := opcode_word s }) s.cpu_inst.group_B.arg_2_symbol.symbol).map
              (fun r => r.1))
            ((symbol_operand (emit_code { st with bmc_code_i := opcode_word s })
              s.cpu_inst.group_B.arg_2_symbol.symbol).map (fun r => r.1)) := r1
        have r2' : (symbol_operand (emit_code { { st with error := e } with
              bmc_code_i := opcode_word s }) s.cpu_inst.group_B.arg_2_symbol.symbol).map
              (fun r => r.2) =
            (symbol_operand (emit_code { st with bmc_code_i := opcode_word s })
              s.cpu_inst.group_B.arg_2_symbol.symbol).map (fun r => r.2) := r2
        clear r1 r2
        cases hA1 : symbol_operand (emit_code { { st with error := e } with
            bmc_code_i := opcode_word s }) s.cpu_inst.group_B.arg_2_symbol.symbol with
        | none =>
          cases hB1 : symbol_operand (emit_code { st with bmc_code_i := opcode_word s })
              s.cpu_inst.group_B.arg_2_symbol.symbol with
          | none => rfl
          | some rb =>
            rw [hA1, hB1] at r2'
            cases r2'
        | some ra =>
          cases hB1 : symbol_operand (emit_code { st with bmc_code_i := opcode_word s })
              s.cpu_inst.group_B.arg_2_symbol.symbol with
          | none =>
            rw [hA1, hB1] at r2'
            cases r2'
          | some rb =>
            rw [hA1, hB1] at r1' r2'
            simp only [Option.map_some', Option.some.injEq] at r1' r2'
            dsimp only
            rw [r2']
            have hstb : same_but_error (some (if rb.2 = true then emit_code ra.1 else ra.1))
                (some (if rb.2 = true then emit_code rb.1 else rb.1)) := by
              split
              · exact emit_code_error r1'
              · exact r1'
            split
            · rw [same_but_error_some] at hstb ⊢
              rw [hstb]
              rfl
            · exact same_but_error_lift
                (f := fun x => operand_loop x s.cpu_inst.group_B.arg_2_symbol.left_and_right_args
                  s.cpu_inst.group_B.arg_2_symbol.arg_2_args_options)
                (fun st e => operand_loop_error st e _ _) hstb
      · rw [second_pass_inst_groupB_single s _ hB h2, second_pass_inst_groupB_single s _ hB h2]
        have := operand_switch_error (emit_code { st with bmc_code_i := opcode_word s }) e
          s.cpu_inst.group_B.rest_of_group_b.arg_opt s.cpu_inst.group_B.rest_of_group_b.arg_option
          (st.i.map (fun i => 8 - i * 6))
        have h := same_but_error_bind (f := fun x => some (emit_code x)) this
          (fun _ _ => rfl)
        simpa [Option.map_eq_bind] using h
    · have hA' : is_i_tag_groupA s.cpu_inst.i_tag = false := by simpa using hA
      have hB' : is_i_tag_groupB s.cpu_inst.i_tag = false := by simpa using hB
      rw [second_pass_inst_groupC s _ hA' hB', second_pass_inst_groupC s _ hA' hB']
      rfl


theorem second_pass_line_error (st : second_pass_state) (e : Int) (line : List Char) :
    same_but_error (second_pass_line { st with error := e } line) (second_pass_line st line) := by
  unfold second_pass_line
  dsimp only
  generalize lang_engine_create_ss_from_logical_line (fgets_store st.buffer line) = r
  have key : same_but_error
      (match r.1.dir_or_inst_tag with
        | tag_syntax_error => some { { st with error := e } with buffer := r.2 }
        | tag_line_null => some { { st with error := e } with buffer := r.2 }
        | tag_inst => second_pass_inst r.1 { { st with error := e } with buffer := r.2 }
        | tag_dir => second_pass_dir r.1 { { st with error := e } with buffer := r.2 })
      (match r.1.dir_or_inst_tag with
        | tag_syntax_error => some { st with buffer := r.2 }
        | tag_line_null => some { st with buffer := r.2 }
        | tag_inst => second_pass_inst r.1 { st with buffer := r.2 }
        | tag_dir => second_pass_dir r.1 { st with buffer := r.2 }) := by
    cases r.1.dir_or_inst_tag with
    | tag_syntax_error => rfl
    | tag_line_null => rfl
    | tag_inst => exact second_pass_inst_error r.1 { st with buffer := r.2 } e
    | tag_dir => exact second_pass_dir_error r.1 { st with buffer := r.2 } e
  have h := same_but_error_bind
    (f := fun x => some { x with line_counter := x.line_counter + 1 }) key (fun _ _ => rfl)
  simpa [Option.map_eq_bind] using h

/-- The scan of pass 2 never consults the error flag: started with another
value of the flag it reaches the same translation unit. -/
theorem second_pass_scan_error (lines : List (List Char)) (st : second_pass_state) (e : Int) :
    same_but_error (second_pass_scan lines { st with error := e })
      (second_pass_scan lines st) := by
  induction lines generalizing st e with
  | nil => rfl
  | cons line rest ih =>
    simp only [second_pass_scan]
    have h := same_but_error_bind (f := second_pass_scan rest)
      (second_pass_line_error st e line) (fun st e => ih st e)
    cases h1 : second_pass_line { st with error := e } line <;>
      cases h2 : second_pass_line st line <;> simp only [h1, h2, Option.some_bind,
        Option.none_bind] at h ⊢ <;> exact h

/-! ## Pass 2: the words in closed form, and when they are defined -/

theorem opcode_groupA_eq (t : inst_tag) (l r : argument_option) :
    ((t.toNat <<< 6) % 65536 ||| (l.toNat <<< 4) ||| (r.toNat <<< 2)) % 65536 =
      t.toNat * 2 ^ 6 + l.toNat * 2 ^ 4 + r.toNat * 2 ^ 2 := by
  cases t <;> cases l <;> cases r <;> rfl

theorem opcode_indexed_eq (t : inst_tag) (l r : argument_option) :
    ((t.toNat <<< 6) % 65536 ||| (2 <<< 2) ||| (l.toNat <<< 12) ||| (r.toNat <<< 10)) % 65536 =
      l.toNat * 2 ^ 12 + r.toNat * 2 ^ 10 + t.toNat * 2 ^ 6 + 2 * 2 ^ 2 := by
  cases t <;> cases l <;> cases r <;> rfl

theorem opcode_single_eq (t : inst_tag) (o : argument_option) :
    ((t.toNat <<< 6) % 65536 ||| (o.toNat <<< 2)) % 65536 =
      t.toNat * 2 ^ 6 + o.toNat * 2 ^ 2 := by
  cases t <;> cases o <;> rfl

theorem opcode_groupC_eq (t : inst_tag) : (t.toNat <<< 6) % 65536 = t.toNat * 2 ^ 6 := by
  cases t <;> rfl

theorem shared_register_word_eq (opts : arg_union × arg_union) (a b : Nat) (ha : a ≤ 7)
    (hb : b ≤ 7) (h1 : opts.1.register_number = (a : Int))
    (h2 : opts.2.register_number = (b : Int)) :
    shared_register_word opts = a * 2 ^ 8 + b * 2 ^ 2 := by
  unfold shared_register_word
  rw [h1, h2]
  interval_cases a <;> interval_cases b <;> rfl

theorem deref_mem_elems {g : gda symbol} {slot : Nat} {y : symbol}
    (h : g.deref slot = some y) : y ∈ g.elems := by
  unfold gda.deref at h
  unfold gda.elems
  rw [List.mem_filterMap]
  refine ⟨some y, ?_, rfl⟩
  cases hg : g.pointer_array.get? slot with
  | none =>
    rw [hg] at h
    cases h
  | some o =>
    rw [hg] at h
    have : o = some y := h
    rw [this] at hg
    exact List.get?_mem hg

theorem find_symbol_mem_elems {g : gda symbol} {name : List Char} {y : symbol}
    (h : find_symbol g name = some y) : y ∈ g.elems := by
  obtain ⟨slot, -, hd⟩ := (find_symbol_some_iff _ _ _).mp h
  exact deref_mem_elems hd

theorem operand_word_defined {tbl : gda symbol} (ha : addresses_assigned tbl)
    (opt : argument_option) (a : arg_union) (count : Option Int) (stale : Nat)
    (hc : opt = tag_arg_tag_register → ∃ c, count = some c ∧ 0 ≤ c ∧ c < 32) :
    ∃ w, operand_word tbl opt a count stale = some w := by
  cases opt with
  | tag_arg_tag_register =>
    obtain ⟨c, rfl, h0, h1⟩ := hc rfl
    simp [operand_word, register_word, h0, h1]
  | tag_arg_tag_constant => exact ⟨_, rfl⟩
  | tag_arg_tag_symbol =>
    unfold operand_word
    dsimp only
    cases hf : find_symbol tbl a.symbol with
    | none => exact ⟨_, rfl⟩
    | some y =>
      dsimp only
      by_cases hty : y.sym_type = sym_type_extern
      · rw [if_pos hty]
        exact ⟨_, rfl⟩
      · rw [if_neg hty]
        cases hy : y.addr with
        | none => exact absurd hy (ha y (find_symbol_mem_elems hf) hty)
        | some addr => exact ⟨_, rfl⟩

theorem operand_loop_defined (st : second_pass_state)
    (ha : addresses_assigned st.t_unit.symbol_table)
    (args : argument_option × argument_option) (opts : arg_union × arg_union) :
    ∃ st', operand_loop st args opts = some st' := by
  obtain ⟨w1, hw1⟩ := operand_word_defined ha args.1 opts.1 (some (8 - 0 * 6)) st.bmc_code_i
    (fun _ => ⟨_, rfl, by decide, by decide⟩)
  obtain ⟨w2, hw2⟩ := operand_word_defined ha args.2 opts.2 (some (8 - 1 * 6)) w1
    (fun _ => ⟨_, rfl, by decide, by decide⟩)
  have := (operand_loop_spec st args opts).1
  rw [hw1, Option.some_bind, hw2] at this
  exact Option.isSome_iff_exists.mp this

/-- An instruction gets its words in pass 2 whenever every symbol of the table
that is not external has an address and, for the single-operand form with a
register operand, the loop counter holds a value that gives a shift count in
range. -/
theorem second_pass_inst_defined (s : syntax_struct) (st : second_pass_state)
    (ha : addresses_assigned st.t_unit.symbol_table)
    (hi : single_register_form s → ∃ i, st.i = some i ∧ 0 ≤ 8 - i * 6 ∧ 8 - i * 6 < 32) :
    ∃ st', second_pass_inst s st = some st' := by
  have e0 := emit_word_effect st (opcode_word s)
  by_cases hA : is_i_tag_groupA s.cpu_inst.i_tag = true
  · by_cases hr : s.cpu_inst.group_A.left_and_right_args.1 = tag_arg_tag_register ∧
        s.cpu_inst.group_A.left_and_right_args.2 = tag_arg_tag_register
    · exact ⟨_, second_pass_inst_groupA_registers s st hA hr⟩
    · rw [second_pass_inst_groupA_loop s st hA hr]
      exact operand_loop_defined _ (by rw [e0.1]; exact ha) _ _
  · by_cases hB : is_i_tag_groupB s.cpu_inst.i_tag = true
    · by_cases h2 : s.cpu_inst.group_B.arg_options = tag_arg_2_args_with_symbol
      · rw [second_pass_inst_groupB_indexed s st hB h2]
        obtain ⟨hm, hsp⟩ := symbol_operand_spec
          (emit_code { st with bmc_code_i := opcode_word s })
          s.cpu_inst.group_B.arg_2_symbol.symbol
        obtain ⟨wb, hwb⟩ := @operand_word_defined st.t_unit.symbol_table ha
          tag_arg_tag_symbol { symbol := s.cpu_inst.group_B.arg_2_symbol.symbol } none
          (opcode_word s) (fun h => by cases h)
        rw [e0.1] at hm
        have hwb' : operand_word st.t_unit.symbol_table tag_arg_tag_symbol
            { symbol := s.cpu_inst.group_B.arg_2_symbol.symbol } none
            (emit_code { st with bmc_code_i := opcode_word s }).bmc_code_i = some wb := hwb
        rw [hwb'] at hm
        cases hso : symbol_operand (emit_code { st with bmc_code_i := opcode_word s })
            s.cpu_inst.group_B.arg_2_symbol.symbol with
        | none =>
          rw [hso] at hm
          cases hm
        | some r =>
          obtain ⟨-, eb⟩ := hsp r hso
          dsimp only
          split
          · exact ⟨_, rfl⟩
          · refine operand_loop_defined _ ?_ _ _
            have : (if r.2 = true then emit_code r.1 else r.1).t_unit.symbol_table =
                st.t_unit.symbol_table := by
              split
              · exact (eb.1.trans e0.1)
              · exact (eb.1.trans e0.1)
            rw [this]
            exact ha
      · rw [second_pass_inst_groupB_single s st hB h2]
        obtain ⟨hm, -⟩ := operand_switch_spec (emit_code { st with bmc_code_i := opcode_word s })
          s.cpu_inst.group_B.rest_of_group_b.arg_opt s.cpu_inst.group_B.rest_of_group_b.arg_option
          (st.i.map (fun i => 8 - i * 6))
        obtain ⟨w, hw⟩ := @operand_word_defined st.t_unit.symbol_table ha
          s.cpu_inst.group_B.rest_of_group_b.arg_opt s.cpu_inst.group_B.rest_of_group_b.arg_option
          (st.i.map (fun i => 8 - i * 6)) (opcode_word s)
          (fun hreg => by
            obtain ⟨i, hi1, hi2, hi3⟩ := hi ⟨hB, h2, hreg⟩
            exact ⟨8 - i * 6, by simp [hi1], hi2, hi3⟩)
        rw [e0.1] at hm
        have hw' : operand_word st.t_unit.symbol_table s.cpu_inst.group_B.rest_of_group_b.arg_opt
            s.cpu_inst.group_B.rest_of_group_b.arg_option (st.i.map (fun i => 8 - i * 6))
            (emit_code { st with bmc_code_i := opcode_word s }).bmc_code_i = some w := hw
        rw [hw'] at hm
        cases hso : operand_switch (emit_code { st with bmc_code_i := opcode_word s })
            s.cpu_inst.group_B.rest_of_group_b.arg_opt
            s.cpu_inst.group_B.rest_of_group_b.arg_option (st.i.map (fun i => 8 - i * 6)) with
        | none =>
          rw [hso] at hm
          cases hm
        | some st1 => exact ⟨_, rfl⟩
    · have hA' : is_i_tag_groupA s.cpu_inst.i_tag = false := by simpa using hA
      have hB' : is_i_tag_groupB s.cpu_inst.i_tag = false := by simpa using hB
      exact ⟨_, second_pass_inst_groupC s st hA' hB'⟩

theorem second_pass_line_inst (st : second_pass_state) (line : List Char)
    (ht : (second_pass_parse st line).dir_or_inst_tag = tag_inst) :
    second_pass_line st line =
      (second_pass_inst (second_pass_parse st line)
        { st with
          buffer := (lang_engine_create_ss_from_logical_line (fgets_store st.buffer line)).2 }).map
        (fun st => { st with line_counter := st.line_counter + 1 }) := by
  unfold second_pass_line
  unfold second_pass_parse at ht ⊢
  simp only [ht]

/-! ## Pass 2: the words of one instruction line (C14, C18, C19, C20) -/

theorem second_pass_line_inst_some (st st' : second_pass_state) (line : List Char)
    (ht : (second_pass_parse st line).dir_or_inst_tag = tag_inst)
    (h : second_pass_line st line = some st') :
    ∃ st2, second_pass_inst (second_pass_parse st line) (second_pass_at st line) = some st2 ∧
      st'.t_unit = st2.t_unit ∧ st'.error = st2.error := by
  rw [second_pass_line_inst st line ht] at h
  obtain ⟨st2, h2, rfl⟩ := Option.map_eq_some'.mp h
  exact ⟨st2, h2, rfl, rfl⟩

theorem second_pass_line_inst_defined (st : second_pass_state) (line : List Char)
    (ht : (second_pass_parse st line).dir_or_inst_tag = tag_inst)
    (ha : addresses_assigned st.t_unit.symbol_table)
    (hi : single_register_form (second_pass_parse st line) →
      ∃ i, st.i = some i ∧ 0 ≤ 8 - i * 6 ∧ 8 - i * 6 < 32) :
    ∃ st', second_pass_line st line = some st' := by
  rw [second_pass_line_inst st line ht]
  obtain ⟨st2, h2⟩ := second_pass_inst_defined (second_pass_parse st line)
    (second_pass_at st line) ha hi
  unfold second_pass_at at h2
  rw [h2]
  exact ⟨_, rfl⟩

theorem not_single_register_of_groupA {s : syntax_struct}
    (hA : is_i_tag_groupA s.cpu_inst.i_tag = true) : ¬single_register_form s := by
  intro h
  have := groupB_not_groupA _ h.1
  rw [hA] at this
  cases this

/-- C14.  Whatever the state of pass 2, for every line that parses to a Group A
instruction: when both operands are registers the line appends exactly 2 code
words, the opcode word and the shared register word; otherwise, in particular
when one operand is a Symbol and the other a Constant, it appends exactly 3
code words, the opcode word and one word per operand.  The line gets its words
whenever every symbol of the table that is not external has an address. -/
theorem second_pass_groupA_words (st : second_pass_state) (line : List Char) (code : List Nat)
    (hc : st.t_unit.bmc_code.holds code)
    (ht : (second_pass_parse st line).dir_or_inst_tag = tag_inst)
    (hA : is_i_tag_groupA (second_pass_parse st line).cpu_inst.i_tag = true) :
    ((second_pass_parse st line).cpu_inst.group_A.left_and_right_args =
          (tag_arg_tag_register, tag_arg_tag_register) →
        ∃ st', second_pass_line st line = some st' ∧
          st'.t_unit.bmc_code.elems =
            code ++ [opcode_word (second_pass_parse st line),
              shared_register_word (second_pass_parse st line).cpu_inst.group_A.arg_option]) ∧
      ((second_pass_parse st line).cpu_inst.group_A.left_and_right_args ≠
          (tag_arg_tag_register, tag_arg_tag_register) →
        (∀ st', second_pass_line st line = some st' →
          ∃ w1 w2, st'.t_unit.bmc_code.elems =
            code ++ [opcode_word (second_pass_parse st line), w1, w2]) ∧
        (addresses_assigned st.t_unit.symbol_table →
          ∃ st', second_pass_line st line = some st')) := by
  refine ⟨fun hr => ?_, fun hr => ⟨fun st' h => ?_, fun ha => ?_⟩⟩
  · have hr' : (second_pass_parse st line).cpu_inst.group_A.left_and_right_args.1 =
          tag_arg_tag_register ∧
        (second_pass_parse st line).cpu_inst.group_A.left_and_right_args.2 =
          tag_arg_tag_register := by
      rw [hr]
      exact ⟨rfl, rfl⟩
    rw [second_pass_line_inst st line ht, second_pass_inst_groupA_registers _ _ hA hr']
    refine ⟨_, rfl, ?_⟩
    have h2 := gda_insert_holds (gda_insert_holds hc (opcode_word (second_pass_parse st line)))
      (shared_register_word (second_pass_parse st line).cpu_inst.group_A.arg_option)
    rw [List.append_assoc] at h2
    exact gda_elems_holds h2
  · have hr' : ¬((second_pass_parse st line).cpu_inst.group_A.left_and_right_args.1 =
          tag_arg_tag_register ∧
        (second_pass_parse st line).cpu_inst.group_A.left_and_right_args.2 =
          tag_arg_tag_register) := by
      intro h
      exact hr (Prod.ext h.1 h.2)
    obtain ⟨st2, h2, e1, -⟩ := second_pass_line_inst_some st st' line ht h
    rw [second_pass_inst_groupA_loop _ _ hA hr'] at h2
    obtain ⟨w1, w2, -, -, -, e⟩ := (operand_loop_spec _ _ _).2 st2 h2
    have h3 := e.2.2.1 _ (gda_insert_holds hc (opcode_word (second_pass_parse st line)))
    rw [List.append_assoc] at h3
    exact ⟨w1, w2, by rw [e1]; exact gda_elems_holds h3⟩
  · exact second_pass_line_inst_defined st line ht ha
      (fun h => absurd h (not_single_register_of_groupA hA))


/-- Witness of C14 on `mov r1, r2` and `mov LEN, #5`, read at the start of pass 2
of the example program. -/
theorem second_pass_groupA_words_witness :
    (∃ st', second_pass_line (second_pass_init example_unit) "mov r1, r2\n".toList = some st' ∧
        st'.t_unit.bmc_code.elems =
          [] ++ [opcode_word (second_pass_parse (second_pass_init example_unit)
              "mov r1, r2\n".toList),
            shared_register_word (second_pass_parse (second_pass_init example_unit)
              "mov r1, r2\n".toList).cpu_inst.group_A.arg_option]) ∧
      (∀ st', second_pass_line (second_pass_init example_unit) "mov LEN, #5\n".toList =
          some st' →
        ∃ w1 w2, st'.t_unit.bmc_code.elems =
          [] ++ [opcode_word (second_pass_parse (second_pass_init example_unit)
            "mov LEN, #5\n".toList), w1, w2]) ∧
      (∃ st', second_pass_line (second_pass_init example_unit) "mov LEN, #5\n".toList =
        some st') :=
  ⟨(second_pass_groupA_words (second_pass_init example_unit) "mov r1, r2\n".toList []
      gda_create_holds (by decide!) (by decide!)).1 (by decide!),
    ((second_pass_groupA_words (second_pass_init example_unit) "mov LEN, #5\n".toList []
      gda_create_holds (by decide!) (by decide!)).2 (by decide!)).1,
    ((second_pass_groupA_words (second_pass_init example_unit) "mov LEN, #5\n".toList []
      gda_create_holds (by decide!) (by decide!)).2 (by decide!)).2
      (by unfold addresses_assigned; decide!)⟩

theorem bits_groupA (t : inst_tag) (l r : argument_option) :
    bits (t.toNat * 2 ^ 6 + l.toNat * 2 ^ 4 + r.toNat * 2 ^ 2) 9 6 = t.toNat ∧
      bits (t.toNat * 2 ^ 6 + l.toNat * 2 ^ 4 + r.toNat * 2 ^ 2) 5 4 = l.toNat ∧
      bits (t.toNat * 2 ^ 6 + l.toNat * 2 ^ 4 + r.toNat * 2 ^ 2) 3 2 = r.toNat ∧
      bits (t.toNat * 2 ^ 6 + l.toNat * 2 ^ 4 + r.toNat * 2 ^ 2) 15 10 = 0 ∧
      bits (t.toNat * 2 ^ 6 + l.toNat * 2 ^ 4 + r.toNat * 2 ^ 2) 1 0 = 0 := by
  cases t <;> cases l <;> cases r <;> decide

theorem bits_groupC (t : inst_tag) :
    bits (t.toNat * 2 ^ 6) 9 6 = t.toNat ∧ bits (t.toNat * 2 ^ 6) 15 10 = 0 ∧
      bits (t.toNat * 2 ^ 6) 5 0 = 0 := by
  cases t <;> decide

theorem bits_indexed (t : inst_tag) (l r : argument_option) :
    bits (l.toNat * 2 ^ 12 + r.toNat * 2 ^ 10 + t.toNat * 2 ^ 6 + 2 * 2 ^ 2) 9 6 = t.toNat ∧
      bits (l.toNat * 2 ^ 12 + r.toNat * 2 ^ 10 + t.toNat * 2 ^ 6 + 2 * 2 ^ 2) 3 2 = 2 ∧
      bits (l.toNat * 2 ^ 12 + r.toNat * 2 ^ 10 + t.toNat * 2 ^ 6 + 2 * 2 ^ 2) 13 12 =
        l.toNat ∧
      bits (l.toNat * 2 ^ 12 + r.toNat * 2 ^ 10 + t.toNat * 2 ^ 6 + 2 * 2 ^ 2) 11 10 =
        r.toNat ∧
      bits (l.toNat * 2 ^ 12 + r.toNat * 2 ^ 10 + t.toNat * 2 ^ 6 + 2 * 2 ^ 2) 15 14 = 0 ∧
      bits (l.toNat * 2 ^ 12 + r.toNat * 2 ^ 10 + t.toNat * 2 ^ 6 + 2 * 2 ^ 2) 5 4 = 0 ∧
      bits (l.toNat * 2 ^ 12 + r.toNat * 2 ^ 10 + t.toNat * 2 ^ 6 + 2 * 2 ^ 2) 1 0 = 0 := by
  cases t <;> cases l <;> cases r <;> decide

theorem bits_single (t : inst_tag) (o : argument_option) :
    bits (t.toNat * 2 ^ 6 + o.toNat * 2 ^ 2) 9 6 = t.toNat ∧
      bits (t.toNat * 2 ^ 6 + o.toNat * 2 ^ 2) 3 2 = o.toNat ∧
      bits (t.toNat * 2 ^ 6 + o.toNat * 2 ^ 2) 13 10 = 0 ∧
      bits (t.toNat * 2 ^ 6 + o.toNat * 2 ^ 2) 15 14 = 0 ∧
      bits (t.toNat * 2 ^ 6 + o.toNat * 2 ^ 2) 5 4 = 0 ∧
      bits (t.toNat * 2 ^ 6 + o.toNat * 2 ^ 2) 1 0 = 0 := by
  cases t <;> cases o <;> decide

theorem bits_shared (a b : Nat) (ha : a ≤ 7) (hb : b ≤ 7) :
    bits (a * 2 ^ 8 + b * 2 ^ 2) 10 8 = a ∧ bits (a * 2 ^ 8 + b * 2 ^ 2) 4 2 = b ∧
      bits (a * 2 ^ 8 + b * 2 ^ 2) 1 0 = 0 ∧ bits (a * 2 ^ 8 + b * 2 ^ 2) 15 11 = 0 ∧
      bits (a * 2 ^ 8 + b * 2 ^ 2) 7 5 = 0 := by
  interval_cases a <;> interval_cases b <;> decide

/-- The first word an instruction line appends is its opcode word. -/
theorem second_pass_line_opcode (st st' : second_pass_state) (line : List Char)
    (code : List Nat) (hc : st.t_unit.bmc_code.holds code)
    (ht : (second_pass_parse st line).dir_or_inst_tag = tag_inst)
    (h : second_pass_line st line = some st') :
    ∃ ws, st'.t_unit.bmc_code.elems = code ++ opcode_word (second_pass_parse st line) :: ws := by
  obtain ⟨st2, h2, e1, -⟩ := second_pass_line_inst_some st st' line ht h
  obtain ⟨ws, e, -⟩ := second_pass_inst_effect _ _ _ h2
  exact ⟨ws, by rw [e1]; exact gda_elems_holds (e.2.2.1 _ hc)⟩


/-- C18.  The operand modes have the values Constant 0, Symbol 1, Register 3.
Whatever the state of pass 2: the first word a Group A instruction line appends
has the instruction tag in bits 9..6, the mode of the left operand in bits
5..4, the mode of the right operand in bits 3..2 and every other bit 0, and
the line gets its words whenever every symbol of the table that is not
external has an address; a Group C instruction line appends a single word,
the tag in bits 9..6 with every other bit 0. -/
theorem second_pass_opcode_groupA_groupC (st : second_pass_state) (line : List Char)
    (code : List Nat) (hc : st.t_unit.bmc_code.holds code)
    (ht : (second_pass_parse st line).dir_or_inst_tag = tag_inst) :
    (tag_arg_tag_constant.toNat = 0 ∧ tag_arg_tag_symbol.toNat = 1 ∧
        tag_arg_tag_register.toNat = 3) ∧
      (is_i_tag_groupA (second_pass_parse st line).cpu_inst.i_tag = true →
        (∀ st', second_pass_line st line = some st' →
          ∃ w ws, st'.t_unit.bmc_code.elems = code ++ w :: ws ∧
            bits w 9 6 = (second_pass_parse st line).cpu_inst.i_tag.toNat ∧
            bits w 5 4 =
              (second_pass_parse st line).cpu_inst.group_A.left_and_right_args.1.toNat ∧
            bits w 3 2 =
              (second_pass_parse st line).cpu_inst.group_A.left_and_right_args.2.toNat ∧
            bits w 15 10 = 0 ∧ bits w 1 0 = 0) ∧
        (addresses_assigned st.t_unit.symbol_table →
          ∃ st', second_pass_line st line = some st')) ∧
      (is_i_tag_groupC (second_pass_parse st line).cpu_inst.i_tag = true →
        ∃ st' w, second_pass_line st line = some st' ∧
          st'.t_unit.bmc_code.elems = code ++ [w] ∧
          bits w 9 6 = (second_pass_parse st line).cpu_inst.i_tag.toNat ∧
          bits w 15 10 = 0 ∧ bits w 5 0 = 0) := by
  refine ⟨⟨rfl, rfl, rfl⟩, fun hA => ⟨fun st' h => ?_, fun ha => ?_⟩, fun hC => ?_⟩
  · obtain ⟨ws, hws⟩ := second_pass_line_opcode st st' line code hc ht h
    have hop : opcode_word (second_pass_parse st line) =
        (second_pass_parse st line).cpu_inst.i_tag.toNat * 2 ^ 6 +
          (second_pass_parse st line).cpu_inst.group_A.left_and_right_args.1.toNat * 2 ^ 4 +
          (second_pass_parse st line).cpu_inst.group_A.left_and_right_args.2.toNat * 2 ^ 2 := by
      unfold opcode_word
      rw [if_pos hA, opcode_groupA_eq]
    rw [hop] at hws
    exact ⟨_, ws, hws, bits_groupA _ _ _⟩
  · exact second_pass_line_inst_defined st line ht ha
      (fun h => absurd h (not_single_register_of_groupA hA))
  · obtain ⟨hA, hB⟩ := groupC_not_groupA_groupB _ hC
    have hop : opcode_word (second_pass_parse st line) =
        (second_pass_parse st line).cpu_inst.i_tag.toNat * 2 ^ 6 := by
      unfold opcode_word
      rw [if_neg (by simp [hA]), if_neg (by simp [hB]), opcode_groupC_eq]
    rw [second_pass_line_inst st line ht, second_pass_inst_groupC _ _ hA hB]
    refine ⟨_, _, rfl, ?_, bits_groupC (second_pass_parse st line).cpu_inst.i_tag⟩
    rw [← hop]
    exact gda_elems_holds (gda_insert_holds hc _)

/-- Witness of C18 on `cmp #5, LEN` and `stop`, read at the start of pass 2 of
the example program: the words 68 = 1·64 + 0·16 + 1·4 and 960 = 15·64. -/
theorem second_pass_opcode_groupA_groupC_witness :
    (∀ st', second_pass_line (second_pass_init example_unit) "cmp #5, LEN\n".toList =
          some st' →
        ∃ w ws, st'.t_unit.bmc_code.elems = [] ++ w :: ws ∧
          bits w 9 6 = (second_pass_parse (second_pass_init example_unit)
            "cmp #5, LEN\n".toList).cpu_inst.i_tag.toNat ∧
          bits w 5 4 = (second_pass_parse (second_pass_init example_unit)
            "cmp #5, LEN\n".toList).cpu_inst.group_A.left_and_right_args.1.toNat ∧
          bits w 3 2 = (second_pass_parse (second_pass_init example_unit)
            "cmp #5, LEN\n".toList).cpu_inst.group_A.left_and_right_args.2.toNat ∧
          bits w 15 10 = 0 ∧ bits w 1 0 = 0) ∧
      (∃ st', second_pass_line (second_pass_init example_unit) "cmp #5, LEN\n".toList =
        some st') ∧
      (∃ st' w, second_pass_line (second_pass_init example_unit) "stop\n".toList = some st' ∧
        st'.t_unit.bmc_code.elems = [] ++ [w] ∧
        bits w 9 6 = (second_pass_parse (second_pass_init example_unit)
          "stop\n".toList).cpu_inst.i_tag.toNat ∧
        bits w 15 10 = 0 ∧ bits w 5 0 = 0) :=
  ⟨((second_pass_opcode_groupA_groupC (second_pass_init example_unit) "cmp #5, LEN\n".toList
      [] gda_create_holds (by decide!)).2.1 (by decide!)).1,
    ((second_pass_opcode_groupA_groupC (second_pass_init example_unit) "cmp #5, LEN\n".toList
      [] gda_create_holds (by decide!)).2.1 (by decide!)).2
      (by unfold addresses_assigned; decide!),
    (second_pass_opcode_groupA_groupC (second_pass_init example_unit) "stop\n".toList
      [] gda_create_holds (by decide!)).2.2 (by decide!)⟩

/-- C19.  Whatever the state of pass 2, the first word a Group B instruction
line appends has the instruction tag in bits 9..6; in the indexed form it has
the value 2 in bits 3..2, the mode of the first index operand in bits 13..12
and the mode of the second in bits 11..10; in the single-operand form it has
the mode of the operand in bits 3..2 and 0 in bits 13..10; every remaining bit
is 0.  The line gets its words whenever every symbol of the table that is not
external has an address and, for a register operand of the single-operand
form, the loop counter gives a shift count in range. -/
theorem second_pass_opcode_groupB (st : second_pass_state) (line : List Char)
    (code : List Nat) (hc : st.t_unit.bmc_code.holds code)
    (ht : (second_pass_parse st line).dir_or_inst_tag = tag_inst)
    (hB : is_i_tag_groupB (second_pass_parse st line).cpu_inst.i_tag = true) :
    ((second_pass_parse st line).cpu_inst.group_B.arg_options = tag_arg_2_args_with_symbol →
        (∀ st', second_pass_line st line = some st' →
          ∃ w ws, st'.t_unit.bmc_code.elems = code ++ w :: ws ∧
            bits w 9 6 = (second_pass_parse st line).cpu_inst.i_tag.toNat ∧
            bits w 3 2 = 2 ∧
            bits w 13 12 =
              (second_pass_parse st line).cpu_inst.group_B.arg_2_symbol.left_and_right_args.1.toNat ∧
            bits w 11 10 =
              (second_pass_parse st line).cpu_inst.group_B.arg_2_symbol.left_and_right_args.2.toNat ∧
            bits w 15 14 = 0 ∧ bits w 5 4 = 0 ∧ bits w 1 0 = 0) ∧
        (addresses_assigned st.t_unit.symbol_table →
          ∃ st', second_pass_line st line = some st')) ∧
      ((second_pass_parse st line).cpu_inst.group_B.arg_options = tag_1_arg →
        (∀ st', second_pass_line st line = some st' →
          ∃ w ws, st'.t_unit.bmc_code.elems = code ++ w :: ws ∧
            bits w 9 6 = (second_pass_parse st line).cpu_inst.i_tag.toNat ∧
            bits w 3 2 =
              (second_pass_parse st line).cpu_inst.group_B.rest_of_group_b.arg_opt.toNat ∧
            bits w 13 10 = 0 ∧ bits w 15 14 = 0 ∧ bits w 5 4 = 0 ∧ bits w 1 0 = 0) ∧
        (addresses_assigned st.t_unit.symbol_table →
          ((second_pass_parse st line).cpu_inst.group_B.rest_of_group_b.arg_opt =
              tag_arg_tag_register →
            ∃ i, st.i = some i ∧ 0 ≤ 8 - i * 6 ∧ 8 - i * 6 < 32) →
          ∃ st', second_pass_line st line = some st')) := by
  refine ⟨fun h2 => ⟨fun st' h => ?_, fun ha => ?_⟩, fun h1 => ⟨fun st' h => ?_, fun ha hi => ?_⟩⟩
  · obtain ⟨ws, hws⟩ := second_pass_line_opcode st st' line code hc ht h
    have hop : opcode_word (second_pass_parse st line) =
        (second_pass_parse st line).cpu_inst.group_B.arg_2_symbol.left_and_right_args.1.toNat *
            2 ^ 12 +
          (second_pass_parse st line).cpu_inst.group_B.arg_2_symbol.left_and_right_args.2.toNat *
            2 ^ 10 +
          (second_pass_parse st line).cpu_inst.i_tag.toNat * 2 ^ 6 + 2 * 2 ^ 2 := by
      unfold opcode_word
      rw [if_neg (by simp [groupB_not_groupA _ hB]), if_pos hB, if_pos h2, opcode_indexed_eq]
    rw [hop] at hws
    exact ⟨_, ws, hws, bits_indexed _ _ _⟩
  · refine second_pass_line_inst_defined st line ht ha (fun h => ?_)
    exact absurd h2 h.2.1
  · obtain ⟨ws, hws⟩ := second_pass_line_opcode st st' line code hc ht h
    have hop : opcode_word (second_pass_parse st line) =
        (second_pass_parse st line).cpu_inst.i_tag.toNat * 2 ^ 6 +
          (second_pass_parse st line).cpu_inst.group_B.rest_of_group_b.arg_opt.toNat * 2 ^ 2 := by
      unfold opcode_word
      rw [if_neg (by simp [groupB_not_groupA _ hB]), if_pos hB, if_neg (by simp [h1]),
        opcode_single_eq]
    rw [hop] at hws
    exact ⟨_, ws, hws, bits_single _ _⟩
  · exact second_pass_line_inst_defined st line ht ha (fun h => hi h.2.2)

/-- Witness of C19 on `jmp LEN(X,r2)` and `prn X`, read at the start of pass 2
of the example program: the words 7752 = 1·4096 + 3·1024 + 9·64 + 2·4 and
772 = 12·64 + 1·4. -/
theorem second_pass_opcode_groupB_witness :
    (∀ st', second_pass_line (second_pass_init example_unit) "jmp LEN(X,r2)\n".toList =
          some st' →
        ∃ w ws, st'.t_unit.bmc_code.elems = [] ++ w :: ws ∧
          bits w 9 6 = (second_pass_parse (second_pass_init example_unit)
            "jmp LEN(X,r2)\n".toList).cpu_inst.i_tag.toNat ∧
          bits w 3 2 = 2 ∧
          bits w 13 12 = (second_pass_parse (second_pass_init example_unit)
            "jmp LEN(X,r2)\n".toList).cpu_inst.group_B.arg_2_symbol.left_and_right_args.1.toNat ∧
          bits w 11 10 = (second_pass_parse (second_pass_init example_unit)
            "jmp LEN(X,r2)\n".toList).cpu_inst.group_B.arg_2_symbol.left_and_right_args.2.toNat ∧
          bits w 15 14 = 0 ∧ bits w 5 4 = 0 ∧ bits w 1 0 = 0) ∧
      (∃ st', second_pass_line (second_pass_init example_unit) "jmp LEN(X,r2)\n".toList =
        some st') ∧
      (∀ st', second_pass_line (second_pass_init example_unit) "prn X\n".toList = some st' →
        ∃ w ws, st'.t_unit.bmc_code.elems = [] ++ w :: ws ∧
          bits w 9 6 = (second_pass_parse (second_pass_init example_unit)
            "prn X\n".toList).cpu_inst.i_tag.toNat ∧
          bits w 3 2 = (second_pass_parse (second_pass_init example_unit)
            "prn X\n".toList).cpu_inst.group_B.rest_of_group_b.arg_opt.toNat ∧
          bits w 13 10 = 0 ∧ bits w 15 14 = 0 ∧ bits w 5 4 = 0 ∧ bits w 1 0 = 0) ∧
      (∃ st', second_pass_line (second_pass_init example_unit) "prn X\n".toList = some st') :=
  ⟨((second_pass_opcode_groupB (second_pass_init example_unit) "jmp LEN(X,r2)\n".toList
      [] gda_create_holds (by decide!) (by decide!)).1 (by decide!)).1,
    ((second_pass_opcode_groupB (second_pass_init example_unit) "jmp LEN(X,r2)\n".toList
      [] gda_create_holds (by decide!) (by decide!)).1 (by decide!)).2
      (by unfold addresses_assigned; decide!),
    ((second_pass_opcode_groupB (second_pass_init example_unit) "prn X\n".toList
      [] gda_create_holds (by decide!) (by decide!)).2 (by decide!)).1,
    ((second_pass_opcode_groupB (second_pass_init example_unit) "prn X\n".toList
      [] gda_create_holds (by decide!) (by decide!)).2 (by decide!)).2
      (by unfold addresses_assigned; decide!) (fun h => absurd h (by decide!))⟩


/-- C20.  Let `a` and `b` be register numbers in 0..7.  A Group A instruction
line whose operands are the registers `a` and `b` appends the opcode word and
one shared operand word, `a * 2^8 + b * 2^2`.  A Group B instruction line in
the indexed form whose index operands are the registers `a` and `b` appends
the opcode word, the word of the base symbol when the table holds it, and one
shared operand word, `a * 2^8 + b * 2^2`; it gets its words whenever every
symbol of the table that is not external has an address.  That word has `a` in
bits 10..8, `b` in bits 4..2 and every other bit 0, bits 1..0 among them. -/
theorem second_pass_shared_register_word (st : second_pass_state) (line : List Char)
    (code : List Nat) (a b : Nat) (hc : st.t_unit.bmc_code.holds code)
    (ht : (second_pass_parse st line).dir_or_inst_tag = tag_inst) (ha : a ≤ 7) (hb : b ≤ 7) :
    (is_i_tag_groupA (second_pass_parse st line).cpu_inst.i_tag = true →
        (second_pass_parse st line).cpu_inst.group_A.left_and_right_args =
          (tag_arg_tag_register, tag_arg_tag_register) →
        (second_pass_parse st line).cpu_inst.group_A.arg_option.1.register_number = (a : Int) →
        (second_pass_parse st line).cpu_inst.group_A.arg_option.2.register_number = (b : Int) →
        ∃ st', second_pass_line st line = some st' ∧
          st'.t_unit.bmc_code.elems =
            code ++ [opcode_word (second_pass_parse st line), a * 2 ^ 8 + b * 2 ^ 2]) ∧
      (is_i_tag_groupB (second_pass_parse st line).cpu_inst.i_tag = true →
        (second_pass_parse st line).cpu_inst.group_B.arg_options = tag_arg_2_args_with_symbol →
        (second_pass_parse st line).cpu_inst.group_B.arg_2_symbol.left_and_right_args =
          (tag_arg_tag_register, tag_arg_tag_register) →
        (second_pass_parse st line).cpu_inst.group_B.arg_2_symbol.arg_2_args_options.1.register_number =
          (a : Int) →
        (second_pass_parse st line).cpu_inst.group_B.arg_2_symbol.arg_2_args_options.2.register_number =
          (b : Int) →
        (∀ st', second_pass_line st line = some st' →
          ∃ ws, st'.t_unit.bmc_code.elems =
              code ++ opcode_word (second_pass_parse st line) :: (ws ++ [a * 2 ^ 8 + b * 2 ^ 2]) ∧
            ws.length =
              if (find_symbol st.t_unit.symbol_table
                (second_pass_parse st line).cpu_inst.group_B.arg_2_symbol.symbol).isSome
              then 1 else 0) ∧
        (addresses_assigned st.t_unit.symbol_table →
          ∃ st', second_pass_line st line = some st')) ∧
      (bits (a * 2 ^ 8 + b * 2 ^ 2) 10 8 = a ∧ bits (a * 2 ^ 8 + b * 2 ^ 2) 4 2 = b ∧
        bits (a * 2 ^ 8 + b * 2 ^ 2) 1 0 = 0 ∧ bits (a * 2 ^ 8 + b * 2 ^ 2) 15 11 = 0 ∧
        bits (a * 2 ^ 8 + b * 2 ^ 2) 7 5 = 0) := by
  refine ⟨fun hA hr h1 h2 => ?_, fun hB h2s hr h1 h2 => ⟨fun st' h => ?_, fun haa => ?_⟩,
    bits_shared a b ha hb⟩
  · have hr' : (second_pass_parse st line).cpu_inst.group_A.left_and_right_args.1 =
          tag_arg_tag_register ∧
        (second_pass_parse st line).cpu_inst.group_A.left_and_right_args.2 =
          tag_arg_tag_register := by
      rw [hr]
      exact ⟨rfl, rfl⟩
    rw [second_pass_line_inst st line ht, second_pass_inst_groupA_registers _ _ hA hr']
    refine ⟨_, rfl, ?_⟩
    have h3 := gda_insert_holds (gda_insert_holds hc (opcode_word (second_pass_parse st line)))
      (shared_register_word (second_pass_parse st line).cpu_inst.group_A.arg_option)
    rw [List.append_assoc] at h3
    rw [← shared_register_word_eq _ a b ha hb h1 h2]
    exact gda_elems_holds h3
  · have hr' : (second_pass_parse st line).cpu_inst.group_B.arg_2_symbol.left_and_right_args.1 =
          tag_arg_tag_register ∧
        (second_pass_parse st line).cpu_inst.group_B.arg_2_symbol.left_and_right_args.2 =
          tag_arg_tag_register := by
      rw [hr]
      exact ⟨rfl, rfl⟩
    obtain ⟨st2, hst2, e1, -⟩ := second_pass_line_inst_some st st' line ht h
    rw [second_pass_inst_groupB_indexed _ _ hB h2s] at hst2
    have e0 := emit_word_effect (second_pass_at st line) (opcode_word (second_pass_parse st line))
    obtain ⟨hm, hsp⟩ := symbol_operand_spec
      (emit_code { second_pass_at st line with
        bmc_code_i := opcode_word (second_pass_parse st line) })
      (second_pass_parse st line).cpu_inst.group_B.arg_2_symbol.symbol
    cases hso : symbol_operand
        (emit_code { second_pass_at st line with
          bmc_code_i := opcode_word (second_pass_parse st line) })
        (second_pass_parse st line).cpu_inst.group_B.arg_2_symbol.symbol with
    | none =>
      rw [hso] at hst2
      cases hst2
    | some r =>
      rw [hso] at hst2 hm
      simp only [hr', and_self, ↓reduceIte, Option.some.injEq] at hst2
      obtain ⟨-, eb⟩ := hsp r hso
      obtain ⟨wb, hwb, hmb⟩ := Option.map_eq_some'.mp hm.symm
      simp only [Prod.mk.injEq] at hmb
      have hfound : r.2 = (find_symbol st.t_unit.symbol_table
          (second_pass_parse st line).cpu_inst.group_B.arg_2_symbol.symbol).isSome := hmb.2.symm
      have e01 := pass2_effect_trans e0 eb
      rw [← hfound]
      subst hst2
      rw [e1]
      cases hr2 : r.2 with
      | false =>
        refine ⟨[], ?_, rfl⟩
        have e := pass2_effect_trans e01 (emit_word_effect r.1
          (shared_register_word
            (second_pass_parse st line).cpu_inst.group_B.arg_2_symbol.arg_2_args_options))
        have E := gda_elems_holds (e.2.2.1 _ hc)
        rw [← shared_register_word_eq _ a b ha hb h1 h2]
        simpa [hr2] using E
      | true =>
        refine ⟨[r.1.bmc_code_i], ?_, rfl⟩
        have e := pass2_effect_trans (pass2_effect_trans e01 (emit_code_effect r.1))
          (emit_word_effect (emit_code r.1)
            (shared_register_word
              (second_pass_parse st line).cpu_inst.group_B.arg_2_symbol.arg_2_args_options))
        have E := gda_elems_holds (e.2.2.1 _ hc)
        rw [← shared_register_word_eq _ a b ha hb h1 h2]
        simpa [hr2] using E
  · refine second_pass_line_inst_defined st line ht haa (fun h => ?_)
    exact absurd h2s h.2.1

/-- Witness of C20 on `mov r1, r2` and `jmp LEN(r1,r2)`, read at the start of
pass 2 of the example program: the shared word is 264 = 1·256 + 2·4. -/
theorem second_pass_shared_register_word_witness :
    (∃ st', second_pass_line (second_pass_init example_unit) "mov r1, r2\n".toList = some st' ∧
        st'.t_unit.bmc_code.elems =
          [] ++ [opcode_word (second_pass_parse (second_pass_init example_unit)
            "mov r1, r2\n".toList), 1 * 2 ^ 8 + 2 * 2 ^ 2]) ∧
      (∀ st', second_pass_line (second_pass_init example_unit) "jmp LEN(r1,r2)\n".toList =
          some st' →
        ∃ ws, st'.t_unit.bmc_code.elems =
            [] ++ opcode_word (second_pass_parse (second_pass_init example_unit)
              "jmp LEN(r1,r2)\n".toList) :: (ws ++ [1 * 2 ^ 8 + 2 * 2 ^ 2]) ∧
          ws.length =
            if (find_symbol (second_pass_init example_unit).t_unit.symbol_table
              (second_pass_parse (second_pass_init example_unit)
                "jmp LEN(r1,r2)\n".toList).cpu_inst.group_B.arg_2_symbol.symbol).isSome
            then 1 else 0) ∧
      (∃ st', second_pass_line (second_pass_init example_unit) "jmp LEN(r1,r2)\n".toList =
        some st') :=
  ⟨(second_pass_shared_register_word (second_pass_init example_unit) "mov r1, r2\n".toList
      [] 1 2 gda_create_holds (by decide!) (by decide) (by decide)).1
      (by decide!) (by decide!) (by decide!) (by decide!),
    ((second_pass_shared_register_word (second_pass_init example_unit)
      "jmp LEN(r1,r2)\n".toList [] 1 2 gda_create_holds (by decide!) (by decide)
      (by decide)).2.1 (by decide!) (by decide!) (by decide!) (by decide!) (by decide!)).1,
    ((second_pass_shared_register_word (second_pass_init example_unit)
      "jmp LEN(r1,r2)\n".toList [] 1 2 gda_create_holds (by decide!) (by decide)
      (by decide)).2.1 (by decide!) (by decide!) (by decide!) (by decide!) (by decide!)).2
      (by unfold addresses_assigned; decide!)⟩

/-! ## Pass 2: operands that name an external symbol (C15) -/

theorem operand_slots_offset (tbl : gda symbol) (s : syntax_struct) :
    ∀ slot ∈ operand_slots tbl s, slot.2.2 ≤ 3 := by
  intro slot h
  unfold operand_slots at h
  split at h
  · split at h
    · cases h
    · simp only [List.mem_cons, List.mem_singleton, List.not_mem_nil, or_false] at h
      rcases h with rfl | rfl <;> simp
  · split at h
    · split at h
      · simp only [List.mem_cons, List.mem_singleton] at h
        rcases h with rfl | h
        · simp
        · split at h
          · cases h
          · simp only [List.mem_cons, List.mem_singleton, List.not_mem_nil, or_false] at h
            rcases h with rfl | rfl <;> dsimp only <;> split <;> omega
      · simp only [List.mem_singleton] at h
        subst h
        simp
    · cases h

theorem gda_size_holds {α : Type} {g : gda α} {l : List α} (h : g.holds l) :
    gda_size g = l.length := by
  obtain ⟨k, -, hc, -⟩ := h
  exact hc

/-- C15.  Whatever the state of pass 2, for every line that parses to an
instruction and gets its words: at every operand that pass 2 treats on its own
(an operand of a Group A instruction, the operand of the single-operand form
of Group B, the base symbol of the indexed form or one of its index operands)
and that names an external symbol, the code word at index `n` is 1, `n` being
the number of code words emitted before it; and for every external symbol `X`
the line appends to the addresses of `X` in the extern-usage map, in the order
of the operands, the address `100 + n` of each operand that names `X`, as the
`unsigned short` it is stored in, that is modulo 2^16, which is `100 + n`
itself as long as the code has fewer than 65433 words.  The line gets its
words whenever every symbol of the table that is not external has an address
and, for a register operand of the single-operand form, the loop counter
gives a shift count in range. -/
theorem second_pass_external_operand (st : second_pass_state) (line : List Char)
    (code : List Nat) (hc : st.t_unit.bmc_code.holds code)
    (hu : extern_usage_ok st.t_unit.extern_usage)
    (ht : (second_pass_parse st line).dir_or_inst_tag = tag_inst) :
    (∀ st', second_pass_line st line = some st' →
        (∀ slot ∈ operand_slots st.t_unit.symbol_table (second_pass_parse st line),
          slot.1 = tag_arg_tag_symbol →
          is_external st.t_unit.symbol_table slot.2.1.symbol = true →
          st'.t_unit.bmc_code.elems.get? (code.length + slot.2.2) = some 1) ∧
        (∀ X, is_external st.t_unit.symbol_table X = true →
          extern_addresses st'.t_unit X =
            extern_addresses st.t_unit X ++
              ((operand_slots st.t_unit.symbol_table (second_pass_parse st line)).filter
                (fun slot =>
                  decide (slot.1 = tag_arg_tag_symbol) && decide (slot.2.1.symbol = X))).map
                (fun slot => (100 + (code.length + slot.2.2)) % 65536)) ∧
        (code.length + 3 + 100 < 65536 →
          ∀ X, is_external st.t_unit.symbol_table X = true →
            extern_addresses st'.t_unit X =
              extern_addresses st.t_unit X ++
                ((operand_slots st.t_unit.symbol_table (second_pass_parse st line)).filter
                  (fun slot =>
                    decide (slot.1 = tag_arg_tag_symbol) && decide (slot.2.1.symbol = X))).map
                  (fun slot => 100 + (code.length + slot.2.2)))) ∧
      (addresses_assigned st.t_unit.symbol_table →
        (single_register_form (second_pass_parse st line) →
          ∃ i, st.i = some i ∧ 0 ≤ 8 - i * 6 ∧ 8 - i * 6 < 32) →
        ∃ st', second_pass_line st line = some st') := by
  refine ⟨fun st' h => ?_, fun ha hi => second_pass_line_inst_defined st line ht ha hi⟩
  obtain ⟨-, ws, e, -, hw⟩ := second_pass_line_effect st st' line h
  obtain ⟨ws', rfl, hone⟩ := hw ht
  have helems := gda_elems_holds (e.2.2.1 _ hc)
  have hrefs : ∀ X, is_external st.t_unit.symbol_table X = true →
      extern_addresses st'.t_unit X =
        extern_addresses st.t_unit X ++
          ((operand_slots st.t_unit.symbol_table (second_pass_parse st line)).filter
            (fun slot =>
              decide (slot.1 = tag_arg_tag_symbol) && decide (slot.2.1.symbol = X))).map
            (fun slot => (100 + (code.length + slot.2.2)) % 65536) := by
    intro X hX
    rw [(e.2.2.2.1 hu).2 X]
    unfold line_refs
    rw [if_pos ht, refs_of_inst_refs, gda_size_holds hc]
    congr 1
    simp only [hX, Bool.and_true, PROG_BASE_ADDR]
    congr 1
    funext slot
    rw [Nat.add_comm 100]
  refine ⟨fun slot hslot hsym hext => ?_, hrefs, fun hb X hX => ?_⟩
  · rw [helems, List.get?_eq_getElem?, List.getElem?_append_right (Nat.le_add_right _ _),
      Nat.add_sub_cancel_left, ← List.get?_eq_getElem?]
    exact hone slot hslot hsym hext
  · rw [hrefs X hX]
    congr 1
    refine List.map_congr_left (fun slot hslot => ?_)
    have := operand_slots_offset _ _ slot (List.mem_of_mem_filter hslot)
    exact Nat.mod_eq_of_lt (by omega)


theorem extern_usage_ok_create : extern_usage_ok (gda_create : gda extern_call) :=
  ⟨[], gda_create_holds, by simp, by simp⟩

/-- Witness of C15 on `jmp LEN(X,X)`, read at the start of pass 2 of the example
program: the line gets its words, the words at the indices 2 and 3 are 1, and
the addresses 102 and 103 are recorded for `X`, in that order. -/
theorem second_pass_external_operand_witness :
    ∃ st', second_pass_line (second_pass_init example_unit) "jmp LEN(X,X)\n".toList =
        some st' ∧
      st'.t_unit.bmc_code.elems.get? 2 = some 1 ∧
      st'.t_unit.bmc_code.elems.get? 3 = some 1 ∧
      extern_addresses st'.t_unit "X".toList = [102, 103] := by
  have T := second_pass_external_operand (second_pass_init example_unit)
    "jmp LEN(X,X)\n".toList [] gda_create_holds extern_usage_ok_create (by decide!)
  obtain ⟨st', h⟩ := T.2 (by unfold addresses_assigned; decide!)
    (fun hs => absurd hs.2.1 (by decide!))
  obtain ⟨h1, h2, -⟩ := T.1 st' h
  refine ⟨st', h, ?_, ?_, ?_⟩
  · simpa using h1 (tag_arg_tag_symbol, { symbol := "X".toList }, 2) (by decide!) rfl
      (by decide!)
  · simpa using h1 (tag_arg_tag_symbol, { symbol := "X".toList }, 3) (by decide!) rfl
      (by decide!)
  · rw [h2 "X".toList (by decide!)]
    decide!

/-! ## Pass 2: the extern-usage map and the error flag of a whole file (C16, C17) -/

theorem filter_of_find_nodup {α β : Type} [DecidableEq β] (key : α → β) (X : β) (l : List α)
    (hnd : (l.map key).Nodup) (e : α)
    (hf : l.find? (fun e => decide (key e = X)) = some e) :
    l.filter (fun e => decide (key e = X)) = [e] := by
  induction l with
  | nil => simp at hf
  | cons a l ih =>
    rw [List.map_cons, List.nodup_cons] at hnd
    by_cases ha : key a = X
    · simp only [List.find?_cons, ha, decide_True, Option.some.injEq] at hf
      subst hf
      rw [List.filter_cons, if_pos (by simp [ha])]
      congr 1
      rw [List.filter_eq_nil_iff]
      intro b hb hkb
      simp only [decide_eq_true_eq] at hkb
      exact hnd.1 (List.mem_map.mpr ⟨b, hb, hkb.trans ha.symm⟩)
    · simp only [List.find?_cons, ha, decide_False] at hf
      rw [List.filter_cons, if_neg (by simp [ha])]
      exact ih hnd.2 hf

theorem second_pass_scan_flag (lines : List (List Char)) (st st' : second_pass_state)
    (h : second_pass_scan lines st = some st') :
    st'.t_unit.symbol_table = st.t_unit.symbol_table ∧
      (st'.error ≠ 0 ↔
        st.error ≠ 0 ∨
          ∃ s ∈ parsed_lines lines st.buffer, line_undefined st.t_unit.symbol_table s = true) := by
  induction lines generalizing st with
  | nil =>
    cases h
    exact ⟨rfl, by simp [parsed_lines]⟩
  | cons line rest ih =>
    simp only [second_pass_scan] at h
    cases h1 : second_pass_line st line with
    | none =>
      rw [h1] at h
      cases h
    | some st1 =>
      rw [h1] at h
      obtain ⟨hb, ws, e, -, -⟩ := second_pass_line_effect st st1 line h1
      obtain ⟨i1, i5⟩ := ih st1 h
      rw [e.1, hb] at i5
      refine ⟨i1.trans e.1, ?_⟩
      rw [i5, e.2.2.2.2]
      simp only [parsed_lines, List.mem_cons, exists_eq_or_imp, second_pass_parse]
      by_cases hlu : line_undefined st.t_unit.symbol_table
          (lang_engine_create_ss_from_logical_line (fgets_store st.buffer line)).1 = true
      · simp [hlu]
      · simp [hlu]

theorem line_undefined_iff (tbl : gda symbol) (s : syntax_struct) :
    line_undefined tbl s = true ↔
      s.dir_or_inst_tag = tag_inst ∧
        ∃ slot ∈ operand_slots tbl s, slot.1 = tag_arg_tag_symbol ∧
          find_symbol tbl slot.2.1.symbol = none := by
  simp [line_undefined, inst_undefined, operand_undefined, List.any_eq_true,
    Option.isNone_iff_eq_none]


theorem assembler_second_pass_some {t_unit : translation_unit} {am_file : List Char}
    {err : Int} {tu' : translation_unit}
    (h : assembler_second_pass t_unit am_file = some (err, tu')) :
    ∃ st', second_pass_scan (file_lines am_file) (second_pass_init t_unit) = some st' ∧
      st'.error = err ∧ st'.t_unit = tu' := by
  unfold assembler_second_pass at h
  obtain ⟨st', h1, h2⟩ := Option.map_eq_some'.mp h
  simp only [Prod.mk.injEq] at h2
  exact ⟨st', h1, h2.1, h2.2⟩

theorem second_pass_scan_split {pre post : List (List Char)} {st st' : second_pass_state}
    (h : second_pass_scan (pre ++ post) st = some st') :
    ∃ st1, second_pass_scan pre st = some st1 ∧ second_pass_scan post st1 = some st' := by
  rw [second_pass_scan_append] at h
  cases h1 : second_pass_scan pre st with
  | none =>
    rw [h1] at h
    cases h
  | some st1 =>
    rw [h1] at h
    exact ⟨st1, rfl, h⟩

theorem same_but_error_unit {a b : Option second_pass_state} (h : same_but_error a b) :
    a.map (fun s => s.t_unit) = b.map (fun s => s.t_unit) := by
  unfold same_but_error at h
  cases a <;> cases b <;> simp_all

theorem data_loop_defined (num_array : List Int) (fuel i : Nat) (st : second_pass_state)
    (h : i + fuel ≤ num_array.length) : ∃ st', data_loop num_array fuel i st = some st' := by
  induction fuel generalizing i st with
  | zero => exact ⟨_, rfl⟩
  | succ fuel ih =>
    simp only [data_loop]
    have hi : i < num_array.length := by omega
    rw [List.get?_eq_getElem?, List.getElem?_eq_getElem hi]
    exact ih (i + 1) _ (by omega)

theorem second_pass_line_defined (st : second_pass_state) (line : List Char)
    (ha : addresses_assigned st.t_unit.symbol_table)
    (hd : line_defined (second_pass_parse st line)) :
    ∃ st', second_pass_line st line = some st' := by
  cases ht : (second_pass_parse st line).dir_or_inst_tag with
  | tag_inst =>
    exact second_pass_line_inst_defined st line ht ha (fun h => absurd h (hd.1 ht))
  | tag_syntax_error =>
    unfold second_pass_line
    unfold second_pass_parse at ht
    simp only [ht]
    exact ⟨_, rfl⟩
  | tag_line_null =>
    unfold second_pass_line
    unfold second_pass_parse at ht
    simp only [ht]
    exact ⟨_, rfl⟩
  | tag_dir =>
    have hd2 := hd.2 ht
    unfold second_pass_line
    unfold second_pass_parse at ht hd2
    simp only [ht]
    unfold second_pass_dir
    dsimp only
    split
    · exact ⟨_, rfl⟩
    · split
      · rename_i hdata
        obtain ⟨st2, h2⟩ := data_loop_defined
          (lang_engine_create_ss_from_logical_line
            (fgets_store st.buffer line)).1.asm_directive.num_array
          (lang_engine_create_ss_from_logical_line
            (fgets_store st.buffer line)).1.asm_directive.num_count 0
          { st with
            buffer := (lang_engine_create_ss_from_logical_line (fgets_store st.buffer line)).2 }
          (by simpa using hd2 hdata)
        rw [h2]
        exact ⟨_, rfl⟩
      · exact ⟨_, rfl⟩

/-- Pass 2 returns on a file whenever every symbol of the table that is not
external has an address and every line is treated with defined behaviour. -/
theorem second_pass_scan_defined (lines : List (List Char)) (st : second_pass_state)
    (ha : addresses_assigned st.t_unit.symbol_table)
    (hd : ∀ s ∈ parsed_lines lines st.buffer, line_defined s) :
    ∃ st', second_pass_scan lines st = some st' := by
  induction lines generalizing st with
  | nil => exact ⟨_, rfl⟩
  | cons line rest ih =>
    simp only [parsed_lines, List.mem_cons, forall_eq_or_imp] at hd
    obtain ⟨st1, h1⟩ := second_pass_line_defined st line ha hd.1
    obtain ⟨hb, ws, e, -, -⟩ := second_pass_line_effect st st1 line h1
    simp only [second_pass_scan, h1]
    exact ih st1 (by rw [e.1]; exact ha) (by rw [hb]; exact hd.2)

theorem assembler_second_pass_defined (t_unit : translation_unit) (am_file : List Char)
    (ha : addresses_assigned t_unit.symbol_table)
    (hd : ∀ s ∈ parsed_lines (file_lines am_file) buffer_init, line_defined s) :
    ∃ err tu', assembler_second_pass t_unit am_file = some (err, tu') := by
  obtain ⟨st', h⟩ := second_pass_scan_defined (file_lines am_file) (second_pass_init t_unit)
    ha hd
  unfold assembler_second_pass
  rw [h]
  exact ⟨_, _, rfl⟩

/-- C16.  Let pass 2 run on a file from a translation unit whose extern-usage
map is fresh.  When it returns, the map holds at most one entry per symbol
name; for every name `X` the number of addresses under `X` is the number of
operands of the file that name the external symbol `X`; when there is at least
one such reference, exactly one entry has the name `X` and it holds these
addresses; and the addresses are in the order of the references: after every
prefix of the file the addresses recorded so far are as many as the
references of the prefix and are an initial segment of the final ones.  Pass 2
returns whenever every symbol of the table that is not external has an address
and every line is treated with defined behaviour. -/
theorem extern_usage_one_entry_per_name (t_unit : translation_unit) (am_file : List Char)
    (hfresh : t_unit.extern_usage = gda_create) :
    (∀ err tu', assembler_second_pass t_unit am_file = some (err, tu') →
        (tu'.extern_usage.elems.map (fun e => e.symbol_name)).Nodup ∧
          ∀ X,
            (extern_addresses tu' X).length =
                ((parsed_lines (file_lines am_file) buffer_init).map
                  (reference_count t_unit.symbol_table X)).sum ∧
              (1 ≤ ((parsed_lines (file_lines am_file) buffer_init).map
                  (reference_count t_unit.symbol_table X)).sum →
                ∃ e,
                  tu'.extern_usage.elems.filter (fun e => decide (e.symbol_name = X)) = [e] ∧
                    e.addresses.elems = extern_addresses tu' X) ∧
              (∀ pre post, file_lines am_file = pre ++ post →
                ∃ st1, second_pass_scan pre (second_pass_init t_unit) = some st1 ∧
                  (extern_addresses st1.t_unit X).length =
                    ((parsed_lines pre buffer_init).map
                      (reference_count t_unit.symbol_table X)).sum ∧
                  extern_addresses st1.t_unit X <+: extern_addresses tu' X)) ∧
      (addresses_assigned t_unit.symbol_table →
        (∀ s ∈ parsed_lines (file_lines am_file) buffer_init, line_defined s) →
        ∃ err tu', assembler_second_pass t_unit am_file = some (err, tu')) := by
  refine ⟨fun err tu' h => ?_, assembler_second_pass_defined t_unit am_file⟩
  obtain ⟨st', hscan, -, rfl⟩ := assembler_second_pass_some h
  have hu : extern_usage_ok (second_pass_init t_unit).t_unit.extern_usage := by
    show extern_usage_ok t_unit.extern_usage
    rw [hfresh]
    exact extern_usage_ok_create
  have hinit : ∀ X, extern_addresses (second_pass_init t_unit).t_unit X = [] := by
    intro X
    show extern_addresses t_unit X = []
    simp [extern_addresses, extern_entry, hfresh, gda_create, gda.elems]
  obtain ⟨-, ⟨l, hl, hnd, -⟩, hcount, -, -⟩ := second_pass_scan_effect _ _ _ hscan hu
  refine ⟨by rw [gda_elems_holds hl]; exact hnd,
    fun X => ⟨?_, fun hk => ?_, fun pre post hsplit => ?_⟩⟩
  · have := hcount X
    rw [hinit X] at this
    simpa using this
  · have hlen : (extern_addresses st'.t_unit X).length =
        ((parsed_lines (file_lines am_file) buffer_init).map
          (reference_count t_unit.symbol_table X)).sum := by
      have := hcount X
      rw [hinit X] at this
      simpa using this
    have hfind : ∃ e, l.find? (fun e => decide (e.symbol_name = X)) = some e := by
      cases hf : l.find? (fun e => decide (e.symbol_name = X)) with
      | none =>
        rw [extern_addresses_holds hl, hf] at hlen
        have hzero : (0 : Nat) =
            ((parsed_lines (file_lines am_file) buffer_init).map
              (reference_count t_unit.symbol_table X)).sum := hlen
        omega
      | some e => exact ⟨e, rfl⟩
    obtain ⟨e, he⟩ := hfind
    refine ⟨e, ?_, ?_⟩
    · rw [gda_elems_holds hl]
      exact filter_of_find_nodup (fun e : extern_call => e.symbol_name) X l hnd e he
    · rw [extern_addresses_holds hl, he]
  · rw [hsplit] at hscan
    obtain ⟨st1, h1, h2⟩ := second_pass_scan_split hscan
    obtain ⟨t1, hu1, c1, -, -⟩ := second_pass_scan_effect _ _ _ h1 hu
    obtain ⟨-, -, -, p2, -⟩ := second_pass_scan_effect _ _ _ h2 hu1
    refine ⟨st1, h1, ?_, p2 X⟩
    have := c1 X
    rw [hinit X] at this
    simpa using this

/-- Witness of C16 on `extern_twice_program`, which refers to the external
symbol `X` in two lines: pass 2 returns `extern_twice_unit`, whose map has one
entry, for `X`, with the addresses 101 and 103 in that order. -/
theorem extern_usage_one_entry_per_name_witness :
    (∃ err tu', assembler_second_pass extern_twice_start extern_twice_program =
        some (err, tu')) ∧
      (extern_twice_unit.extern_usage.elems.map (fun e => e.symbol_name)).Nodup ∧
      (extern_addresses extern_twice_unit "X".toList).length =
        ((parsed_lines (file_lines extern_twice_program) buffer_init).map
          (reference_count extern_twice_start.symbol_table "X".toList)).sum ∧
      (1 ≤ ((parsed_lines (file_lines extern_twice_program) buffer_init).map
          (reference_count extern_twice_start.symbol_table "X".toList)).sum →
        ∃ e, extern_twice_unit.extern_usage.elems.filter
              (fun e => decide (e.symbol_name = "X".toList)) = [e] ∧
          e.addresses.elems = extern_addresses extern_twice_unit "X".toList) ∧
      extern_addresses extern_twice_unit "X".toList = [101, 103] ∧
      ((parsed_lines (file_lines extern_twice_program) buffer_init).map
        (reference_count extern_twice_start.symbol_table "X".toList)).sum = 2 :=
  ⟨(extern_usage_one_entry_per_name extern_twice_start extern_twice_program rfl).2
      (by unfold addresses_assigned; decide!)
      (by simp only [line_defined, single_register_form]; decide!),
    ((extern_usage_one_entry_per_name extern_twice_start extern_twice_program rfl).1 0
      extern_twice_unit (by decide!)).1,
    (((extern_usage_one_entry_per_name extern_twice_start extern_twice_program rfl).1 0
      extern_twice_unit (by decide!)).2 "X".toList).1,
    (((extern_usage_one_entry_per_name extern_twice_start extern_twice_program rfl).1 0
      extern_twice_unit (by decide!)).2 "X".toList).2.1,
    by decide!, by decide!⟩

/-- C17.  Let pass 2 run on a file.  When it returns, the error flag it returns
is not zero if and only if some line of the file parses to an instruction with
a Symbol operand (an operand of a Group A instruction, the operand of the
single-operand form of Group B, the base symbol of the indexed form or one of
its index operands) whose name the symbol table does not hold; and whatever
the lines before set the flag to, the lines after them are processed and leave
the translation unit they would leave if the flag were clear.  Pass 2 returns
whenever every symbol of the table that is not external has an address and
every line is treated with defined behaviour. -/
theorem second_pass_error_flag (t_unit : translation_unit) (am_file : List Char) :
    (∀ err tu', assembler_second_pass t_unit am_file = some (err, tu') →
        (err ≠ 0 ↔
          ∃ s ∈ parsed_lines (file_lines am_file) buffer_init,
            s.dir_or_inst_tag = tag_inst ∧
              ∃ slot ∈ operand_slots t_unit.symbol_table s, slot.1 = tag_arg_tag_symbol ∧
                find_symbol t_unit.symbol_table slot.2.1.symbol = none) ∧
          ∀ pre post, file_lines am_file = pre ++ post →
            ∃ st1, second_pass_scan pre (second_pass_init t_unit) = some st1 ∧
              (second_pass_scan post st1).map (fun s => s.t_unit) = some tu' ∧
              (second_pass_scan post { st1 with error := 0 }).map (fun s => s.t_unit) =
                some tu') ∧
      (addresses_assigned t_unit.symbol_table →
        (∀ s ∈ parsed_lines (file_lines am_file) buffer_init, line_defined s) →
        ∃ err tu', assembler_second_pass t_unit am_file = some (err, tu')) := by
  refine ⟨fun err tu' h => ?_, assembler_second_pass_defined t_unit am_file⟩
  obtain ⟨st', hscan, rfl, rfl⟩ := assembler_second_pass_some h
  refine ⟨?_, fun pre post hsplit => ?_⟩
  · rw [(second_pass_scan_flag _ _ _ hscan).2]
    simp only [line_undefined_iff]
    constructor
    · rintro (h0 | h1)
      · exact absurd rfl h0
      · exact h1
    · exact fun h1 => Or.inr h1
  · rw [hsplit] at hscan
    obtain ⟨st1, h1, h2⟩ := second_pass_scan_split hscan
    refine ⟨st1, h1, by rw [h2]; rfl, ?_⟩
    rw [same_but_error_unit (second_pass_scan_error post st1 0), h2]
    rfl

/-- Witness of C17 on `undefined_symbol_program`: pass 2 returns, the flag it
returns is 1, and the word of `stop`, the line after the undefined symbol, is
in the code. -/
theorem second_pass_error_flag_witness :
    (∃ err tu', assembler_second_pass assembler_create_new_translation_unit
        undefined_symbol_program = some (err, tu')) ∧
      (((1 : Int) ≠ 0 ↔
          ∃ s ∈ parsed_lines (file_lines undefined_symbol_program) buffer_init,
            s.dir_or_inst_tag = tag_inst ∧
              ∃ slot ∈ operand_slots assembler_create_new_translation_unit.symbol_table s,
                slot.1 = tag_arg_tag_symbol ∧
                find_symbol assembler_create_new_translation_unit.symbol_table
                  slot.2.1.symbol = none) ∧
        ∃ st1, second_pass_scan ["jmp NOPE\n".toList]
              (second_pass_init assembler_create_new_translation_unit) = some st1 ∧
          (second_pass_scan [" stop\n".toList] st1).map (fun s => s.t_unit) =
            some undefined_symbol_unit ∧
          (second_pass_scan [" stop\n".toList] { st1 with error := 0 }).map
            (fun s => s.t_unit) = some undefined_symbol_unit) ∧
      undefined_symbol_unit.bmc_code.elems = [580, 580, 960] :=
  ⟨(second_pass_error_flag assembler_create_new_translation_unit
      undefined_symbol_program).2 (by unfold addresses_assigned; decide!)
      (by simp only [line_defined, single_register_form]; decide!),
    ⟨((second_pass_error_flag assembler_create_new_translation_unit
        undefined_symbol_program).1 1 undefined_symbol_unit (by decide!)).1,
      ((second_pass_error_flag assembler_create_new_translation_unit
        undefined_symbol_program).1 1 undefined_symbol_unit (by decide!)).2
        ["jmp NOPE\n".toList] [" stop\n".toList] (by decide!)⟩,
    by decide⟩

/-! ## Pass 2: the address of an external reference is an `unsigned short` (C15) -/

/-- A line that parses to a Group B instruction in the single-operand form with
a Symbol operand naming an external symbol: pass 2 returns, appends the opcode
word and the word 1 and records one address. -/
theorem second_pass_line_single_external (st : second_pass_state) (line : List Char)
    (ht : (second_pass_parse st line).dir_or_inst_tag = tag_inst)
    (hB : is_i_tag_groupB (second_pass_parse st line).cpu_inst.i_tag = true)
    (h1 : (second_pass_parse st line).cpu_inst.group_B.arg_options ≠
      tag_arg_2_args_with_symbol)
    (h2 : (second_pass_parse st line).cpu_inst.group_B.rest_of_group_b.arg_opt =
      tag_arg_tag_symbol)
    (hx : is_external st.t_unit.symbol_table
      (second_pass_parse st line).cpu_inst.group_B.rest_of_group_b.arg_option.symbol = true) :
    ∃ st', second_pass_line st line = some st' ∧
      pass2_effect st st' [opcode_word (second_pass_parse st line), 1]
        [((second_pass_parse st line).cpu_inst.group_B.rest_of_group_b.arg_option.symbol,
          (gda_size st.t_unit.bmc_code + 1 + PROG_BASE_ADDR) % 65536)] false := by
  rw [second_pass_line_inst st line ht,
    second_pass_inst_groupB_single _ _ hB h1]
  generalize hs : second_pass_parse st line = s at ht hB h1 h2 hx ⊢
  generalize hb : (lang_engine_create_ss_from_logical_line (fgets_store st.buffer line)).2 = b
  have e0 : pass2_effect st (emit_code { { st with buffer := b } with bmc_code_i := opcode_word s })
      [opcode_word s] [] false :=
    pass2_effect_congr (by rfl : ({ st with buffer := b } : second_pass_state).t_unit = st.t_unit)
      (by rfl) (emit_word_effect { st with buffer := b } (opcode_word s))
  obtain ⟨hw, hsp⟩ := operand_switch_spec
    (emit_code { { st with buffer := b } with bmc_code_i := opcode_word s })
    s.cpu_inst.group_B.rest_of_group_b.arg_opt s.cpu_inst.group_B.rest_of_group_b.arg_option
    (Option.map (fun i => 8 - i * 6) ({ st with buffer := b } : second_pass_state).i)
  rw [e0.1] at hw
  have hone : operand_word st.t_unit.symbol_table s.cpu_inst.group_B.rest_of_group_b.arg_opt
      s.cpu_inst.group_B.rest_of_group_b.arg_option
      (Option.map (fun i => 8 - i * 6) ({ st with buffer := b } : second_pass_state).i)
      (emit_code { { st with buffer := b } with bmc_code_i := opcode_word s }).bmc_code_i =
      some 1 := by
    rw [h2]
    unfold operand_word
    unfold is_external at hx
    cases hf : find_symbol st.t_unit.symbol_table
        s.cpu_inst.group_B.rest_of_group_b.arg_option.symbol with
    | none => simp [hf] at hx
    | some y =>
      simp only [hf, decide_eq_true_eq] at hx
      simp only [hx, ↓reduceIte]
  rw [hone] at hw
  obtain ⟨st1, h1', hw1⟩ := Option.map_eq_some'.mp hw
  obtain ⟨-, e1⟩ := hsp st1 h1'
  rw [e0.1, e0.2.1, h2, operand_refs_symbol_external _ hx] at e1
  have hu : operand_undefined st.t_unit.symbol_table tag_arg_tag_symbol
      s.cpu_inst.group_B.rest_of_group_b.arg_option = false := by
    unfold operand_undefined
    unfold is_external at hx
    cases hf : find_symbol st.t_unit.symbol_table
        s.cpu_inst.group_B.rest_of_group_b.arg_option.symbol with
    | none => simp [hf] at hx
    | some y => simp
  rw [hu] at e1
  have e2 := emit_code_effect st1
  rw [hw1] at e2
  rw [h1']
  refine ⟨_, rfl, ?_⟩
  have e3 : pass2_effect (emit_code st1)
      { emit_code st1 with line_counter := (emit_code st1).line_counter + 1 } [] [] false :=
    pass2_effect_of_eq rfl rfl
  have := pass2_effect_trans (pass2_effect_trans (pass2_effect_trans e0 e1) e2) e3
  simpa using this

theorem second_pass_scan_cons {st st1 : second_pass_state} {line : List Char}
    (rest : List (List Char)) (h : second_pass_line st line = some st1) :
    second_pass_scan (line :: rest) st = second_pass_scan rest st1 := by
  simp only [second_pass_scan, h]

/-- The same line read again and again, when it parses to a Group B instruction
in the single-operand form whose operand names an external symbol and `fgets`
finds the line buffer each time as the parser left it: pass 2 returns and every
line appends two code words. -/
theorem second_pass_scan_repeat (line B : List Char) (tbl : gda symbol)
    (hfix : fgets_store (lang_engine_create_ss_from_logical_line B).2 line = B)
    (ht : (lang_engine_create_ss_from_logical_line B).1.dir_or_inst_tag = tag_inst)
    (hB : is_i_tag_groupB (lang_engine_create_ss_from_logical_line B).1.cpu_inst.i_tag = true)
    (h1 : (lang_engine_create_ss_from_logical_line B).1.cpu_inst.group_B.arg_options ≠
      tag_arg_2_args_with_symbol)
    (h2 : (lang_engine_create_ss_from_logical_line B).1.cpu_inst.group_B.rest_of_group_b.arg_opt =
      tag_arg_tag_symbol)
    (hx : is_external tbl
      (lang_engine_create_ss_from_logical_line
        B).1.cpu_inst.group_B.rest_of_group_b.arg_option.symbol = true)
    (k : Nat) (st : second_pass_state) (c : List Nat)
    (hb : fgets_store st.buffer line = B) (htbl : st.t_unit.symbol_table = tbl)
    (hu : extern_usage_ok st.t_unit.extern_usage) (hc : st.t_unit.bmc_code.holds c) :
    ∃ st' c', second_pass_scan (List.replicate k line) st = some st' ∧
      fgets_store st'.buffer line = B ∧ st'.t_unit.symbol_table = tbl ∧
      extern_usage_ok st'.t_unit.extern_usage ∧ st'.t_unit.bmc_code.holds c' ∧
      c'.length = c.length + 2 * k := by
  induction k generalizing st c with
  | zero => exact ⟨st, c, rfl, hb, htbl, hu, hc, rfl⟩
  | succ k ih =>
    have hp : second_pass_parse st line = (lang_engine_create_ss_from_logical_line B).1 := by
      unfold second_pass_parse
      rw [hb]
    obtain ⟨st1, hl, e⟩ := second_pass_line_single_external st line (by rw [hp]; exact ht)
      (by rw [hp]; exact hB) (by rw [hp]; exact h1) (by rw [hp]; exact h2)
      (by rw [hp, htbl]; exact hx)
    have hb1 := (second_pass_line_effect st st1 line hl).1
    rw [hb] at hb1
    obtain ⟨st', c', hs, i1, i2, i3, i4, i5⟩ := ih st1 _ (by rw [hb1]; exact hfix)
      (e.1.trans htbl) (e.2.2.2.1 hu).1 (e.2.2.1 c hc)
    refine ⟨st', c', ?_, i1, i2, i3, i4, ?_⟩
    · rw [List.replicate_succ, second_pass_scan_cons _ hl]
      exact hs
    · rw [i5]
      simp only [List.length_append, List.length_cons, List.length_nil]
      omega

/-- Counterexample to C15, on the file of the line `.extern X` followed by 32719
lines `prn X`: pass 2 returns on the first 32719 lines and has then emitted
65436 code words; on the last line it stores the operand word 1 at the index
65437 of the code, so that 65437 code words precede it, and the address it
appends to the usage of `X` is 1 (65537 as an `unsigned short`), not 65537. -/
theorem second_pass_extern_address_wraps :
    ∃ st1 st',
      second_pass_scan (extern_X_line :: List.replicate 32718 prn_X_line)
          (second_pass_init extern_twice_start) = some st1 ∧
        gda_size st1.t_unit.bmc_code = 65436 ∧
        second_pass_line st1 prn_X_line = some st' ∧
        st'.t_unit.bmc_code.elems.get? 65437 = some 1 ∧
        extern_addresses st'.t_unit "X".toList =
          extern_addresses st1.t_unit "X".toList ++ [1] := by
  have hfix : fgets_store (lang_engine_create_ss_from_logical_line prn_X_buffer).2 prn_X_line =
      prn_X_buffer := by decide!
  have ht : (lang_engine_create_ss_from_logical_line prn_X_buffer).1.dir_or_inst_tag =
      tag_inst := by decide!
  have hB : is_i_tag_groupB
      (lang_engine_create_ss_from_logical_line prn_X_buffer).1.cpu_inst.i_tag = true := by
    decide!
  have h1 : (lang_engine_create_ss_from_logical_line prn_X_buffer).1.cpu_inst.group_B.arg_options ≠
      tag_arg_2_args_with_symbol := by decide!
  have h2 : (lang_engine_create_ss_from_logical_line
      prn_X_buffer).1.cpu_inst.group_B.rest_of_group_b.arg_opt = tag_arg_tag_symbol := by
    decide!
  have hsym : (lang_engine_create_ss_from_logical_line
      prn_X_buffer).1.cpu_inst.group_B.rest_of_group_b.arg_option.symbol = "X".toList := by
    decide!
  have hx : is_external extern_twice_start.symbol_table
      (lang_engine_create_ss_from_logical_line
        prn_X_buffer).1.cpu_inst.group_B.rest_of_group_b.arg_option.symbol = true := by
    decide!
  -- the line `.extern X`
  obtain ⟨stE, hE⟩ : ∃ stE, second_pass_line (second_pass_init extern_twice_start)
      extern_X_line = some stE :=
    second_pass_line_defined _ _ (by unfold addresses_assigned; decide!)
      (by simp only [line_defined, single_register_form]; decide!)
  obtain ⟨hbE, ws, eE, hws, -⟩ := second_pass_line_effect _ stE _ hE
  have hws0 : ws = [] := hws (by decide!)
  subst hws0
  have hcE : stE.t_unit.bmc_code.holds ([] ++ []) := eE.2.2.1 [] gda_create_holds
  have huE := (eE.2.2.2.1 extern_usage_ok_create).1
  -- the first 32718 lines `prn X`
  obtain ⟨st1, c1, hs1, b1, t1, u1, hc1, l1⟩ := second_pass_scan_repeat prn_X_line prn_X_buffer
    extern_twice_start.symbol_table hfix ht hB h1 h2 hx 32718 stE _
    (by rw [hbE]; rfl) eE.1 huE hcE
  -- the last line
  have hp : second_pass_parse st1 prn_X_line =
      (lang_engine_create_ss_from_logical_line prn_X_buffer).1 := by
    unfold second_pass_parse
    rw [b1]
  obtain ⟨st', hl, e⟩ := second_pass_line_single_external st1 prn_X_line (by rw [hp]; exact ht)
    (by rw [hp]; exact hB) (by rw [hp]; exact h1) (by rw [hp]; exact h2)
    (by rw [hp, t1]; exact hx)
  have hsize : gda_size st1.t_unit.bmc_code = 65436 := by
    rw [gda_size_holds hc1, l1]
    rfl
  refine ⟨st1, st', ?_, hsize, hl, ?_, ?_⟩
  · rw [second_pass_scan_cons _ hE]
    exact hs1
  · rw [gda_elems_holds (e.2.2.1 c1 hc1)]
    have hlen : c1.length = 65436 := by
      rw [l1]
      rfl
    rw [List.get?_eq_getElem?, List.getElem?_append_right (by omega), hlen]
    rfl
  · rw [(e.2.2.2.1 u1).2, hp, hsym, hsize]
    rfl

/-! ## Pass 2: the words of an instruction, operand by operand (C21, C22) -/

theorem operand_word_stale {tbl : gda symbol} {a : arg_union} {count : Option Int}
    {stale w : Nat} (hf : find_symbol tbl a.symbol = none)
    (hw : operand_word tbl tag_arg_tag_symbol a count stale = some w) : w = stale := by
  unfold operand_word at hw
  simp only [hf, Option.some.injEq] at hw
  exact hw.symm

/-- The words an instruction appends in pass 2 are its opcode word and the
words `inst_operand_words` gives. -/
theorem second_pass_inst_words (s : syntax_struct) (st st' : second_pass_state)
    (h : second_pass_inst s st = some st') :
    ∃ ws, inst_operand_words st.t_unit.symbol_table s st.i = some ws ∧
      pass2_effect st st' (opcode_word s :: ws)
        (inst_refs st.t_unit.symbol_table (gda_size st.t_unit.bmc_code) s)
        (inst_undefined st.t_unit.symbol_table s) := by
  have e0 := emit_word_effect st (opcode_word s)
  by_cases hA : is_i_tag_groupA s.cpu_inst.i_tag = true
  · by_cases hr : s.cpu_inst.group_A.left_and_right_args.1 = tag_arg_tag_register ∧
        s.cpu_inst.group_A.left_and_right_args.2 = tag_arg_tag_register
    · rw [second_pass_inst_groupA_registers s st hA hr] at h
      cases h
      have hs : operand_slots st.t_unit.symbol_table s = [] := by
        simp [operand_slots, hA, hr]
      refine ⟨[shared_register_word s.cpu_inst.group_A.arg_option], ?_, ?_⟩
      · simp only [inst_operand_words, hA, hr, and_self, ↓reduceIte]
      · have := pass2_effect_trans e0 (emit_word_effect _
          (shared_register_word s.cpu_inst.group_A.arg_option))
        simpa [inst_refs, inst_undefined, hs] using this
    · rw [second_pass_inst_groupA_loop s st hA hr] at h
      obtain ⟨w1, w2, hw1, hw2, -, e1⟩ := (operand_loop_spec _ _ _).2 st' h
      rw [e0.1, e0.2.1] at e1
      rw [e0.1] at hw1 hw2
      have hs : operand_slots st.t_unit.symbol_table s =
          [(s.cpu_inst.group_A.left_and_right_args.1, s.cpu_inst.group_A.arg_option.1, 1),
            (s.cpu_inst.group_A.left_and_right_args.2, s.cpu_inst.group_A.arg_option.2, 2)] := by
        simp only [operand_slots, hA, hr, ↓reduceIte]
      refine ⟨[w1, w2], ?_, ?_⟩
      · simp only [inst_operand_words, hA, hr, ↓reduceIte, operand_loop_words]
        have hw1' : operand_word st.t_unit.symbol_table s.cpu_inst.group_A.left_and_right_args.1
            s.cpu_inst.group_A.arg_option.1 (some (8 - 0 * 6)) (opcode_word s) = some w1 := hw1
        rw [hw1', Option.some_bind, hw2]
        rfl
      · have := pass2_effect_trans e0 e1
        simpa [inst_refs, inst_undefined, hs, Nat.add_assoc] using this
  · by_cases hB : is_i_tag_groupB s.cpu_inst.i_tag = true
    · by_cases h2 : s.cpu_inst.group_B.arg_options = tag_arg_2_args_with_symbol
      · rw [second_pass_inst_groupB_indexed s st hB h2] at h
        obtain ⟨hm, hsp⟩ := symbol_operand_spec (emit_code { st with bmc_code_i := opcode_word s })
          s.cpu_inst.group_B.arg_2_symbol.symbol
        cases hso : symbol_operand (emit_code { st with bmc_code_i := opcode_word s })
            s.cpu_inst.group_B.arg_2_symbol.symbol with
        | none =>
          rw [hso] at h
          cases h
        | some r =>
          rw [hso] at h hm
          dsimp only at h
          obtain ⟨-, eb⟩ := hsp r hso
          rw [e0.1, e0.2.1] at eb
          rw [e0.1] at hm
          obtain ⟨wb, hwb, hmb⟩ := Option.map_eq_some'.mp hm.symm
          simp only [Prod.mk.injEq] at hmb
          obtain ⟨hwb1, hfound⟩ := hmb
          have hwb' : operand_word st.t_unit.symbol_table tag_arg_tag_symbol
              { symbol := s.cpu_inst.group_B.arg_2_symbol.symbol } none (opcode_word s) =
              some wb := hwb
          have e01 := pass2_effect_trans e0 eb
          cases hf : find_symbol st.t_unit.symbol_table s.cpu_inst.group_B.arg_2_symbol.symbol with
          | none =>
            rw [hf] at hfound
            simp only [Option.isSome_none] at hfound
            simp only [← hfound, Bool.false_eq_true, ↓reduceIte] at h
            by_cases hr : s.cpu_inst.group_B.arg_2_symbol.left_and_right_args.1 =
                tag_arg_tag_register ∧
                s.cpu_inst.group_B.arg_2_symbol.left_and_right_args.2 = tag_arg_tag_register
            · rw [if_pos hr] at h
              cases h
              have hs : operand_slots st.t_unit.symbol_table s =
                  [(tag_arg_tag_symbol, { symbol := s.cpu_inst.group_B.arg_2_symbol.symbol },
                    1)] := by
                simp only [operand_slots, groupB_not_groupA _ hB, hB, h2, hr, and_self,
                  ↓reduceIte, Bool.false_eq_true]
              refine ⟨[shared_register_word s.cpu_inst.group_B.arg_2_symbol.arg_2_args_options],
                ?_, ?_⟩
              · simp only [inst_operand_words, groupB_not_groupA _ hB, hB, h2, hr, and_self,
                  ↓reduceIte, Bool.false_eq_true, hwb', Option.some_bind, hf,
                  Option.isSome_none, List.nil_append]
              · have := pass2_effect_trans e01 (emit_word_effect r.1
                  (shared_register_word s.cpu_inst.group_B.arg_2_symbol.arg_2_args_options))
                simpa [inst_refs, inst_undefined, hs] using this
            · rw [if_neg hr] at h
              obtain ⟨w1, w2, hw1, hw2, -, e1⟩ := (operand_loop_spec _ _ _).2 st' h
              rw [eb.1, eb.2.1, e0.1, e0.2.1] at e1
              rw [eb.1, e0.1] at hw1 hw2
              rw [← hwb1] at hw1
              have hs : operand_slots st.t_unit.symbol_table s =
                  [(tag_arg_tag_symbol, { symbol := s.cpu_inst.group_B.arg_2_symbol.symbol }, 1),
                    (s.cpu_inst.group_B.arg_2_symbol.left_and_right_args.1,
                      s.cpu_inst.group_B.arg_2_symbol.arg_2_args_options.1, 1),
                    (s.cpu_inst.group_B.arg_2_symbol.left_and_right_args.2,
                      s.cpu_inst.group_B.arg_2_symbol.arg_2_args_options.2, 2)] := by
                simp only [operand_slots, groupB_not_groupA _ hB, hB, h2, hr, hf,
                  ↓reduceIte, Bool.false_eq_true, Option.isSome_none]
              refine ⟨[w1, w2], ?_, ?_⟩
              · simp only [inst_operand_words, groupB_not_groupA _ hB, hB, h2, hr,
                  ↓reduceIte, Bool.false_eq_true, hwb', Option.some_bind, hf,
                  Option.isSome_none, List.nil_append, operand_loop_words, hw1, hw2,
                  Option.map_some']
              · have := pass2_effect_trans e01 e1
                simpa [inst_refs, inst_undefined, hs, Nat.add_assoc] using this
          | some y =>
            rw [hf] at hfound
            simp only [Option.isSome_some] at hfound
            simp only [← hfound, ↓reduceIte] at h
            have e02 := pass2_effect_trans e01 (emit_code_effect r.1)
            rw [← hwb1] at e02
            by_cases hr : s.cpu_inst.group_B.arg_2_symbol.left_and_right_args.1 =
                tag_arg_tag_register ∧
                s.cpu_inst.group_B.arg_2_symbol.left_and_right_args.2 = tag_arg_tag_register
            · rw [if_pos hr] at h
              cases h
              have hs : operand_slots st.t_unit.symbol_table s =
                  [(tag_arg_tag_symbol, { symbol := s.cpu_inst.group_B.arg_2_symbol.symbol },
                    1)] := by
                simp only [operand_slots, groupB_not_groupA _ hB, hB, h2, hr, and_self,
                  ↓reduceIte, Bool.false_eq_true]
              refine ⟨[wb,
                shared_register_word s.cpu_inst.group_B.arg_2_symbol.arg_2_args_options],
                ?_, ?_⟩
              · simp only [inst_operand_words, groupB_not_groupA _ hB, hB, h2, hr, and_self,
                  ↓reduceIte, Bool.false_eq_true, hwb', Option.some_bind, hf,
                  Option.isSome_some, List.singleton_append]
              · have := pass2_effect_trans e02 (emit_word_effect (emit_code r.1)
                  (shared_register_word s.cpu_inst.group_B.arg_2_symbol.arg_2_args_options))
                simpa [inst_refs, inst_undefined, hs] using this
            · rw [if_neg hr] at h
              obtain ⟨w1, w2, hw1, hw2, -, e1⟩ := (operand_loop_spec _ _ _).2 st' h
              rw [e02.1, e02.2.1] at e1
              rw [e02.1] at hw1 hw2
              have hw1' : operand_word st.t_unit.symbol_table
                  s.cpu_inst.group_B.arg_2_symbol.left_and_right_args.1
                  s.cpu_inst.group_B.arg_2_symbol.arg_2_args_options.1 (some (8 - 0 * 6))
                  r.1.bmc_code_i = some w1 := hw1
              rw [← hwb1] at hw1'
              have hs : operand_slots st.t_unit.symbol_table s =
                  [(tag_arg_tag_symbol, { symbol := s.cpu_inst.group_B.arg_2_symbol.symbol }, 1),
                    (s.cpu_inst.group_B.arg_2_symbol.left_and_right_args.1,
                      s.cpu_inst.group_B.arg_2_symbol.arg_2_args_options.1, 2),
                    (s.cpu_inst.group_B.arg_2_symbol.left_and_right_args.2,
                      s.cpu_inst.group_B.arg_2_symbol.arg_2_args_options.2, 3)] := by
                simp only [operand_slots, groupB_not_groupA _ hB, hB, h2, hr, hf,
                  ↓reduceIte, Bool.false_eq_true, Option.isSome_some]
              refine ⟨[wb, w1, w2], ?_, ?_⟩
              · simp only [inst_operand_words, groupB_not_groupA _ hB, hB, h2, hr,
                  ↓reduceIte, Bool.false_eq_true, hwb', Option.some_bind, hf,
                  Option.isSome_some, List.singleton_append, operand_loop_words, hw1', hw2,
                  Option.map_some']
              · have := pass2_effect_trans e02 e1
                simpa [inst_refs, inst_undefined, hs, Nat.add_assoc] using this
      · rw [second_pass_inst_groupB_single s st hB h2] at h
        obtain ⟨st1, h1, rfl⟩ := Option.map_eq_some'.mp h
        obtain ⟨hm, hsp⟩ := operand_switch_spec (emit_code { st with bmc_code_i := opcode_word s })
          s.cpu_inst.group_B.rest_of_group_b.arg_opt s.cpu_inst.group_B.rest_of_group_b.arg_option
          (st.i.map (fun i => 8 - i * 6))
        obtain ⟨-, e1⟩ := hsp st1 h1
        rw [h1, e0.1] at hm
        rw [e0.1, e0.2.1] at e1
        have hm' : operand_word st.t_unit.symbol_table
            s.cpu_inst.group_B.rest_of_group_b.arg_opt
            s.cpu_inst.group_B.rest_of_group_b.arg_option (st.i.map (fun i => 8 - i * 6))
            (opcode_word s) = some st1.bmc_code_i := hm.symm
        have hs : operand_slots st.t_unit.symbol_table s =
            [(s.cpu_inst.group_B.rest_of_group_b.arg_opt,
              s.cpu_inst.group_B.rest_of_group_b.arg_option, 1)] := by
          simp only [operand_slots, groupB_not_groupA _ hB, hB, h2, ↓reduceIte,
            Bool.false_eq_true]
        refine ⟨[st1.bmc_code_i], ?_, ?_⟩
        · simp only [inst_operand_words, groupB_not_groupA _ hB, hB, h2, ↓reduceIte,
            Bool.false_eq_true, hm', Option.map_some']
        · have := pass2_effect_trans (pass2_effect_trans e0 e1) (emit_code_effect st1)
          simpa [inst_refs, inst_undefined, hs] using this
    · have hA' : is_i_tag_groupA s.cpu_inst.i_tag = false := by simpa using hA
      have hB' : is_i_tag_groupB s.cpu_inst.i_tag = false := by simpa using hB
      rw [second_pass_inst_groupC s st hA' hB'] at h
      cases h
      have hs : operand_slots st.t_unit.symbol_table s = [] := by
        simp [operand_slots, hA', hB']
      refine ⟨[], ?_, ?_⟩
      · simp only [inst_operand_words, hA', hB', Bool.false_eq_true, ↓reduceIte]
      · simpa [inst_refs, inst_undefined, hs] using e0

/-- Every operand pass 2 treats on its own has its word among the words of the
instruction, at the offset `operand_slots` gives, except a base symbol that the
table does not hold, which gets no word. -/
theorem inst_operand_words_slot {tbl : gda symbol} {s : syntax_struct} {i : Option Int}
    {ws : List Nat} (h : inst_operand_words tbl s i = some ws) :
    ∀ slot ∈ operand_slots tbl s,
      (slot.1 = tag_arg_tag_symbol → (find_symbol tbl slot.2.1.symbol).isSome = true) →
      ∃ count stale w, (opcode_word s :: ws).get? slot.2.2 = some w ∧
        operand_word tbl slot.1 slot.2.1 count stale = some w := by
  intro slot hslot hfound
  unfold inst_operand_words at h
  unfold operand_slots at hslot
  by_cases hA : is_i_tag_groupA s.cpu_inst.i_tag = true
  · simp only [hA, ↓reduceIte] at h hslot
    by_cases hr : s.cpu_inst.group_A.left_and_right_args.1 = tag_arg_tag_register ∧
        s.cpu_inst.group_A.left_and_right_args.2 = tag_arg_tag_register
    · simp only [hr, and_self, ↓reduceIte, List.not_mem_nil] at hslot
    · simp only [hr, ↓reduceIte, operand_loop_words] at h hslot
      obtain ⟨w1, hw1, h⟩ := Option.bind_eq_some.mp h
      obtain ⟨w2, hw2, rfl⟩ := Option.map_eq_some'.mp h
      simp only [List.mem_cons, List.mem_singleton, List.not_mem_nil, or_false] at hslot
      rcases hslot with rfl | rfl
      · exact ⟨_, _, w1, rfl, hw1⟩
      · exact ⟨_, _, w2, rfl, hw2⟩
  · have hA' : is_i_tag_groupA s.cpu_inst.i_tag = false := by simpa using hA
    simp only [hA', Bool.false_eq_true, ↓reduceIte] at h hslot
    by_cases hB : is_i_tag_groupB s.cpu_inst.i_tag = true
    · simp only [hB, ↓reduceIte] at h hslot
      by_cases h2 : s.cpu_inst.group_B.arg_options = tag_arg_2_args_with_symbol
      · simp only [h2, ↓reduceIte] at h hslot
        obtain ⟨wb, hwb, h⟩ := Option.bind_eq_some.mp h
        by_cases hr : s.cpu_inst.group_B.arg_2_symbol.left_and_right_args.1 =
            tag_arg_tag_register ∧
            s.cpu_inst.group_B.arg_2_symbol.left_and_right_args.2 = tag_arg_tag_register
        · simp only [hr, and_self, ↓reduceIte, Option.some.injEq, List.mem_singleton] at h hslot
          subst hslot
          have hf := hfound rfl
          dsimp only at hf
          rw [hf] at h
          subst h
          exact ⟨_, _, wb, rfl, hwb⟩
        · simp only [hr, ↓reduceIte] at h hslot
          obtain ⟨lw, hlw, rfl⟩ := Option.map_eq_some'.mp h
          unfold operand_loop_words at hlw
          obtain ⟨w1, hw1, hlw⟩ := Option.bind_eq_some.mp hlw
          obtain ⟨w2, hw2, rfl⟩ := Option.map_eq_some'.mp hlw
          simp only [List.mem_cons, List.mem_singleton, List.not_mem_nil, or_false] at hslot
          rcases hslot with rfl | rfl | rfl
          · have hf := hfound rfl
            dsimp only at hf
            rw [hf]
            exact ⟨_, _, wb, rfl, hwb⟩
          · cases hf : (find_symbol tbl s.cpu_inst.group_B.arg_2_symbol.symbol).isSome
            · exact ⟨_, _, w1, rfl, hw1⟩
            · exact ⟨_, _, w1, rfl, hw1⟩
          · cases hf : (find_symbol tbl s.cpu_inst.group_B.arg_2_symbol.symbol).isSome
            · exact ⟨_, _, w2, rfl, hw2⟩
            · exact ⟨_, _, w2, rfl, hw2⟩
      · simp only [h2, ↓reduceIte, List.mem_singleton] at h hslot
        subst hslot
        obtain ⟨w, hw, rfl⟩ := Option.map_eq_some'.mp h
        exact ⟨_, _, w, rfl, hw⟩
    · have hB' : is_i_tag_groupB s.cpu_inst.i_tag = false := by simpa using hB
      simp only [hB', Bool.false_eq_true, ↓reduceIte, List.not_mem_nil] at hslot

/-- The code an instruction line leaves: the code before it, its opcode word
and the words `inst_operand_words` gives. -/
theorem second_pass_line_words (st st' : second_pass_state) (line : List Char)
    (code : List Nat) (hc : st.t_unit.bmc_code.holds code)
    (ht : (second_pass_parse st line).dir_or_inst_tag = tag_inst)
    (h : second_pass_line st line = some st') :
    ∃ ws, inst_operand_words st.t_unit.symbol_table (second_pass_parse st line) st.i = some ws ∧
      st'.t_unit.bmc_code.elems = code ++ opcode_word (second_pass_parse st line) :: ws := by
  obtain ⟨st2, h2, e2, -⟩ := second_pass_line_inst_some st st' line ht h
  obtain ⟨ws, hws, e⟩ := second_pass_inst_words _ _ _ h2
  refine ⟨ws, hws, ?_⟩
  rw [e2]
  exact gda_elems_holds (e.2.2.1 code hc)

/-- The word of an operand in the code an instruction line leaves. -/
theorem second_pass_line_slot_word (st st' : second_pass_state) (line : List Char)
    (code : List Nat) (hc : st.t_unit.bmc_code.holds code)
    (ht : (second_pass_parse st line).dir_or_inst_tag = tag_inst)
    (h : second_pass_line st line = some st') :
    ∀ slot ∈ operand_slots st.t_unit.symbol_table (second_pass_parse st line),
      (slot.1 = tag_arg_tag_symbol →
        (find_symbol st.t_unit.symbol_table slot.2.1.symbol).isSome = true) →
      ∃ count stale w, st'.t_unit.bmc_code.elems.get? (code.length + slot.2.2) = some w ∧
        operand_word st.t_unit.symbol_table slot.1 slot.2.1 count stale = some w := by
  intro slot hslot hfound
  obtain ⟨ws, hws, he⟩ := second_pass_line_words st st' line code hc ht h
  obtain ⟨count, stale, w, hw, how⟩ := inst_operand_words_slot hws slot hslot hfound
  refine ⟨count, stale, w, ?_, how⟩
  rw [he, List.get?_eq_getElem?, List.getElem?_append_right (Nat.le_add_right _ _),
    Nat.add_sub_cancel_left, ← List.get?_eq_getElem?]
  exact hw

theorem shiftLeft_two_lor_two (a : Nat) : (a <<< 2 ||| 2) = a * 4 + 2 := by
  have := Nat.mul_add_lt_is_or (by norm_num : 2 < 2 ^ 2) a
  rw [Nat.shiftLeft_eq, Nat.mul_comm a, ← this]

/-- C21.  Whatever the state of pass 2, for every line that parses to an
instruction and gets its words, and every Constant operand of it with value
`c` (an operand of a Group A instruction, the operand of the single-operand
form of Group B or an index operand of the indexed form): the code word of the
operand is `4 * c` modulo 2^16, so its bits 1..0 are 00; for `c` in
[-8192, 8191] that is `4 * c` when `c` is not negative and `65536 + 4 * c` when
it is.  The line gets its words whenever every symbol of the table that is not
external has an address and, for a register operand of the single-operand
form, the loop counter gives a shift count in range. -/
theorem second_pass_constant_word (st : second_pass_state) (line : List Char)
    (code : List Nat) (hc : st.t_unit.bmc_code.holds code)
    (ht : (second_pass_parse st line).dir_or_inst_tag = tag_inst) :
    (∀ st', second_pass_line st line = some st' →
        ∀ slot ∈ operand_slots st.t_unit.symbol_table (second_pass_parse st line),
          slot.1 = tag_arg_tag_constant →
          ∃ w, st'.t_unit.bmc_code.elems.get? (code.length + slot.2.2) = some w ∧
            (w : Int) = (4 * slot.2.1.constant_number) % 65536 ∧
            bits w 1 0 = 0 ∧
            (MIN_C_NUMBER ≤ slot.2.1.constant_number →
              slot.2.1.constant_number ≤ MAX_C_NUMBER →
              (0 ≤ slot.2.1.constant_number → (w : Int) = 4 * slot.2.1.constant_number) ∧
              (slot.2.1.constant_number < 0 →
                (w : Int) = 65536 + 4 * slot.2.1.constant_number))) ∧
      (addresses_assigned st.t_unit.symbol_table →
        (single_register_form (second_pass_parse st line) →
          ∃ i, st.i = some i ∧ 0 ≤ 8 - i * 6 ∧ 8 - i * 6 < 32) →
        ∃ st', second_pass_line st line = some st') := by
  refine ⟨fun st' h slot hslot hconst => ?_,
    fun ha hi => second_pass_line_inst_defined st line ht ha hi⟩
  obtain ⟨count, stale, w, hw, how⟩ := second_pass_line_slot_word st st' line code hc ht h
    slot hslot (fun hsym => by rw [hconst] at hsym; cases hsym)
  rw [hconst] at how
  have hval : (w : Int) = (4 * slot.2.1.constant_number) % 65536 := by
    unfold operand_word to_ushort at how
    simp only [Option.some.injEq] at how
    rw [← how, Int.toNat_of_nonneg (Int.emod_nonneg _ (by norm_num)), Int.mul_comm]
  refine ⟨w, hw, hval, ?_, fun hmin hmax => ?_⟩
  · unfold bits
    norm_num
    omega
  · unfold MIN_C_NUMBER at hmin
    unfold MAX_C_NUMBER at hmax
    constructor <;> intro h0 <;> omega

/-- Witness of C21 on `cmp #-3, #5`, read at the start of pass 2 of the example
program: the line gets its words, and the words of the two constants are
65524 (65536 - 12) and 20. -/
theorem second_pass_constant_word_witness :
    ∃ st', second_pass_line (second_pass_init example_unit) "cmp #-3, #5\n".toList =
        some st' ∧
      st'.t_unit.bmc_code.elems.get? 1 = some 65524 ∧
      st'.t_unit.bmc_code.elems.get? 2 = some 20 := by
  have T := second_pass_constant_word (second_pass_init example_unit)
    "cmp #-3, #5\n".toList [] gda_create_holds (by decide!)
  obtain ⟨st', h⟩ := T.2 (by unfold addresses_assigned; decide!)
    (fun hs => absurd hs.1 (by decide!))
  refine ⟨st', h, ?_, ?_⟩
  · obtain ⟨w, hw, hv, -, -⟩ := T.1 st' h
      (tag_arg_tag_constant, { constant_number := -3 }, 1) (by decide!) rfl
    have : w = 65524 := by
      have hv' : (w : Int) = (4 * (-3)) % 65536 := hv
      omega
    rw [this] at hw
    simpa using hw
  · obtain ⟨w, hw, hv, -, -⟩ := T.1 st' h
      (tag_arg_tag_constant, { constant_number := 5 }, 2) (by decide!) rfl
    have : w = 20 := by
      have hv' : (w : Int) = (4 * 5) % 65536 := hv
      omega
    rw [this] at hw
    simpa using hw

/-- C22.  Whatever the state of pass 2, for every line that parses to an
instruction and gets its words, and every Symbol operand of it (an operand of
a Group A instruction, the operand of the single-operand form of Group B, the
base symbol of the indexed form or one of its index operands) whose name the
table holds with a type other than External: the symbol has an address `a`,
and the code word of the operand is `a * 4 + 2` modulo 2^16, the word being an
`unsigned short`; its bits 1..0 are 10, and it is `a * 4 + 2` itself as long as
`a < 16384`.  The line gets its words whenever every symbol of the table that
is not external has an address and, for a register operand of the
single-operand form, the loop counter gives a shift count in range. -/
theorem second_pass_symbol_word (st : second_pass_state) (line : List Char)
    (code : List Nat) (hc : st.t_unit.bmc_code.holds code)
    (ht : (second_pass_parse st line).dir_or_inst_tag = tag_inst) :
    (∀ st', second_pass_line st line = some st' →
        ∀ slot ∈ operand_slots st.t_unit.symbol_table (second_pass_parse st line),
          slot.1 = tag_arg_tag_symbol →
          ∀ y, find_symbol st.t_unit.symbol_table slot.2.1.symbol = some y →
            y.sym_type ≠ sym_type_extern →
            ∃ a, y.addr = some a ∧
              st'.t_unit.bmc_code.elems.get? (code.length + slot.2.2) =
                some ((a * 4 + 2) % 65536) ∧
              bits ((a * 4 + 2) % 65536) 1 0 = 2 ∧
              (a < 16384 →
                st'.t_unit.bmc_code.elems.get? (code.length + slot.2.2) = some (a * 4 + 2))) ∧
      (addresses_assigned st.t_unit.symbol_table →
        (single_register_form (second_pass_parse st line) →
          ∃ i, st.i = some i ∧ 0 ≤ 8 - i * 6 ∧ 8 - i * 6 < 32) →
        ∃ st', second_pass_line st line = some st') := by
  refine ⟨fun st' h slot hslot hsym y hy hne => ?_,
    fun ha hi => second_pass_line_inst_defined st line ht ha hi⟩
  obtain ⟨count, stale, w, hw, how⟩ := second_pass_line_slot_word st st' line code hc ht h
    slot hslot (fun _ => by rw [hy]; rfl)
  rw [hsym] at how
  unfold operand_word at how
  simp only [hy, hne, ↓reduceIte] at how
  obtain ⟨a, ha, rfl⟩ := Option.map_eq_some'.mp how
  rw [shiftLeft_two_lor_two] at hw
  refine ⟨a, ha, hw, ?_, fun hlt => ?_⟩
  · unfold bits
    norm_num
    omega
  · rw [hw, Nat.mod_eq_of_lt (by omega)]

/-- Witness of C22 on `mov LEN, #5`, read at the start of pass 2 of the example
program, where `LEN` is a data symbol at address 104: the line gets its words
and the word of `LEN` is 418 = 104 * 4 + 2. -/
theorem second_pass_symbol_word_witness :
    ∃ st', second_pass_line (second_pass_init example_unit) "mov LEN, #5\n".toList =
        some st' ∧
      st'.t_unit.bmc_code.elems.get? 1 = some 418 := by
  have T := second_pass_symbol_word (second_pass_init example_unit)
    "mov LEN, #5\n".toList [] gda_create_holds (by decide!)
  obtain ⟨st', h⟩ := T.2 (by unfold addresses_assigned; decide!)
    (fun hs => absurd hs.1 (by decide!))
  refine ⟨st', h, ?_⟩
  obtain ⟨a, ha, -, -, hw⟩ := T.1 st' h
    (tag_arg_tag_symbol, { symbol := "LEN".toList }, 1) (by decide!) rfl
    ⟨"LEN".toList, some 104, sym_type_data, 3⟩ (by decide!) (by decide)
  have ha' : a = 104 := by
    simpa using ha.symm
  subst ha'
  simpa using hw (by norm_num)

/-! ## Pass 2: the word of a symbol is an `unsigned short` (C22) -/

/-- An instruction line without label in pass 1: the line buffer is left as the
parser leaves it, `IC` grows by the words of the instruction and the line
count by one. -/
theorem first_pass_line_unlabeled_inst (st : first_pass_state) (line B : List Char)
    (hb : fgets_store st.buffer line = B)
    (ht : (lang_engine_create_ss_from_logical_line B).1.dir_or_inst_tag = tag_inst)
    (hsym : (lang_engine_create_ss_from_logical_line B).1.symbol = []) :
    first_pass_line st line =
      { st with
        buffer := (lang_engine_create_ss_from_logical_line B).2
        IC := st.IC + first_pass_inst_words (lang_engine_create_ss_from_logical_line B).1
        line_count := st.line_count + 1 } := by
  unfold first_pass_line
  rw [hb]
  simp only [first_pass_switch, ht, first_pass_inst_label, hsym, ne_eq, not_true_eq_false,
    ↓reduceIte]

/-- The same unlabeled instruction line read again and again in pass 1, when
`fgets` finds the line buffer each time as the parser left it. -/
theorem first_pass_scan_repeat (line B : List Char)
    (hfix : fgets_store (lang_engine_create_ss_from_logical_line B).2 line = B)
    (ht : (lang_engine_create_ss_from_logical_line B).1.dir_or_inst_tag = tag_inst)
    (hsym : (lang_engine_create_ss_from_logical_line B).1.symbol = [])
    (k : Nat) (st : first_pass_state) (hb : fgets_store st.buffer line = B) :
    first_pass_scan st (List.replicate (k + 1) line) =
      { st with
        buffer := (lang_engine_create_ss_from_logical_line B).2
        IC := st.IC +
          (k + 1) * first_pass_inst_words (lang_engine_create_ss_from_logical_line B).1
        line_count := st.line_count + (k + 1) } := by
  induction k generalizing st with
  | zero =>
    simp only [List.replicate, first_pass_scan, List.foldl, Nat.zero_add, Nat.one_mul]
    exact first_pass_line_unlabeled_inst st line B hb ht hsym
  | succ k ih =>
    rw [List.replicate_succ]
    have : first_pass_scan st (line :: List.replicate (k + 1) line) =
        first_pass_scan (first_pass_line st line) (List.replicate (k + 1) line) := rfl
    rw [this, first_pass_line_unlabeled_inst st line B hb ht hsym, ih _ hfix]
    simp only [first_pass_state.mk.injEq, true_and]
    refine ⟨by omega, by ring, trivial⟩

/-- The same line read again and again in pass 2, as in `second_pass_scan_repeat`:
the error flag stays and the code before the lines stays in place. -/
theorem second_pass_scan_repeat_code (line B : List Char) (tbl : gda symbol)
    (hfix : fgets_store (lang_engine_create_ss_from_logical_line B).2 line = B)
    (ht : (lang_engine_create_ss_from_logical_line B).1.dir_or_inst_tag = tag_inst)
    (hB : is_i_tag_groupB (lang_engine_create_ss_from_logical_line B).1.cpu_inst.i_tag = true)
    (h1 : (lang_engine_create_ss_from_logical_line B).1.cpu_inst.group_B.arg_options ≠
      tag_arg_2_args_with_symbol)
    (h2 : (lang_engine_create_ss_from_logical_line B).1.cpu_inst.group_B.rest_of_group_b.arg_opt =
      tag_arg_tag_symbol)
    (hx : is_external tbl
      (lang_engine_create_ss_from_logical_line
        B).1.cpu_inst.group_B.rest_of_group_b.arg_option.symbol = true)
    (k : Nat) (st : second_pass_state) (c : List Nat)
    (hb : fgets_store st.buffer line = B) (htbl : st.t_unit.symbol_table = tbl)
    (hu : extern_usage_ok st.t_unit.extern_usage) (hc : st.t_unit.bmc_code.holds c) :
    ∃ st' ws, second_pass_scan (List.replicate k line) st = some st' ∧
      st'.error = st.error ∧ st'.t_unit.bmc_code.holds (c ++ ws) ∧ ws.length = 2 * k := by
  induction k generalizing st c with
  | zero => exact ⟨st, [], rfl, rfl, by rw [List.append_nil]; exact hc, rfl⟩
  | succ k ih =>
    have hp : second_pass_parse st line = (lang_engine_create_ss_from_logical_line B).1 := by
      unfold second_pass_parse
      rw [hb]
    obtain ⟨st1, hl, e⟩ := second_pass_line_single_external st line (by rw [hp]; exact ht)
      (by rw [hp]; exact hB) (by rw [hp]; exact h1) (by rw [hp]; exact h2)
      (by rw [hp, htbl]; exact hx)
    have hb1 := (second_pass_line_effect st st1 line hl).1
    rw [hb] at hb1
    obtain ⟨st', ws, hs, i1, i2, i3⟩ := ih st1 _ (by rw [hb1]; exact hfix)
      (e.1.trans htbl) (e.2.2.2.1 hu).1 (e.2.2.1 c hc)
    refine ⟨st', [opcode_word (second_pass_parse st line), 1] ++ ws, ?_, ?_, ?_, ?_⟩
    · rw [List.replicate_succ, second_pass_scan_cons _ hl]
      exact hs
    · rw [i1, e.2.2.2.2]
      rfl
    · rw [← List.append_assoc]
      exact i2
    · simp only [List.length_append, List.length_cons, List.length_nil, i3]
      omega

/-- Counterexample to C22, on the file of the lines `L: .data 5`, `.extern X`,
`jmp L` and 8141 lines `prn X`: pass 1 returns 0 and gives the data symbol `L`
the address 16384 (the final instruction counter, 100 + 16284, plus the data
counter 0); pass 2 returns without error, and the code word of the operand `L`
of `jmp L`, the word at index 1 behind the opcode word 580, is 2 (65538 as an
`unsigned short`), not 16384 * 4 + 2 = 65538. -/
theorem second_pass_symbol_word_wraps :
    (first_pass_finish (first_pass_scan (first_pass_init gda_create) far_symbol_lines)).map
        (fun ps => (ps.error, ps.symbol_table)) = some (0, far_symbol_table) ∧
      find_symbol far_symbol_table "L".toList =
        some ⟨"L".toList, some 16384, sym_type_data, 1⟩ ∧
      ∃ st', second_pass_scan far_symbol_lines (second_pass_init far_symbol_unit) = some st' ∧
        st'.error = 0 ∧ st'.t_unit.bmc_code.elems.get? 0 = some 580 ∧
        st'.t_unit.bmc_code.elems.get? 1 = some 2 := by
  have hfix : fgets_store (lang_engine_create_ss_from_logical_line far_symbol_buffer).2
      prn_X_line = far_symbol_buffer := by decide!
  have ht : (lang_engine_create_ss_from_logical_line far_symbol_buffer).1.dir_or_inst_tag =
      tag_inst := by decide!
  have hsym : (lang_engine_create_ss_from_logical_line far_symbol_buffer).1.symbol = [] := by
    decide!
  refine ⟨?_, by decide!, ?_⟩
  · have hscan : first_pass_scan (first_pass_init gda_create) far_symbol_lines =
        first_pass_scan far_symbol_first (List.replicate (8140 + 1) prn_X_line) :=
      first_pass_scan_append _ _ _
    rw [hscan, first_pass_scan_repeat prn_X_line far_symbol_buffer hfix ht hsym 8140
      far_symbol_first rfl]
    decide!
  · have hB : is_i_tag_groupB
        (lang_engine_create_ss_from_logical_line far_symbol_buffer).1.cpu_inst.i_tag = true := by
      decide!
    have h1 : (lang_engine_create_ss_from_logical_line
        far_symbol_buffer).1.cpu_inst.group_B.arg_options ≠ tag_arg_2_args_with_symbol := by
      decide!
    have h2 : (lang_engine_create_ss_from_logical_line
        far_symbol_buffer).1.cpu_inst.group_B.rest_of_group_b.arg_opt = tag_arg_tag_symbol := by
      decide!
    have hx : is_external far_symbol_table
        (lang_engine_create_ss_from_logical_line
          far_symbol_buffer).1.cpu_inst.group_B.rest_of_group_b.arg_option.symbol = true := by
      decide!
    have h3 : (second_pass_scan ["L: .data 5\n".toList, extern_X_line, " jmp L\n".toList]
        (second_pass_init far_symbol_unit)).map
        (fun s => (s.t_unit.symbol_table, s.t_unit.bmc_code, s.t_unit.extern_usage, s.error,
          fgets_store s.buffer prn_X_line)) =
        some (far_symbol_table, { pointer_array := [some 580, some 2], elem_count := 2 },
          gda_create, 0, far_symbol_buffer) := by decide!
    obtain ⟨s3, hs3, hf⟩ := Option.map_eq_some'.mp h3
    simp only [Prod.mk.injEq] at hf
    obtain ⟨f1, f2, f3, f4, f5⟩ := hf
    have hc : s3.t_unit.bmc_code.holds [580, 2] := by
      rw [f2]
      exact ⟨0, rfl, rfl, by simp⟩
    obtain ⟨st', ws, hs, e1, e2, -⟩ := second_pass_scan_repeat_code prn_X_line far_symbol_buffer
      far_symbol_table hfix ht hB h1 h2 hx 8141 s3 [580, 2] f5 f1
      (by rw [f3]; exact extern_usage_ok_create) hc
    refine ⟨st', ?_, by rw [e1, f4], ?_, ?_⟩
    · have hsplit : second_pass_scan far_symbol_lines (second_pass_init far_symbol_unit) =
          (second_pass_scan ["L: .data 5\n".toList, extern_X_line, " jmp L\n".toList]
            (second_pass_init far_symbol_unit)).bind
            (second_pass_scan (List.replicate 8141 prn_X_line)) :=
        second_pass_scan_append _ _ _
      rw [hsplit, hs3, Option.some_bind]
      exact hs
    · rw [gda_elems_holds e2]
      rfl
    · rw [gda_elems_holds e2]
      rfl

/-! ## Pass 2: the data words of a directive line (C23) -/

theorem second_pass_line_dir (st : second_pass_state) (line : List Char)
    (ht : (second_pass_parse st line).dir_or_inst_tag = tag_dir) :
    second_pass_line st line =
      (second_pass_dir (second_pass_parse st line) (second_pass_at st line)).map
        (fun st => { st with line_counter := st.line_counter + 1 }) := by
  unfold second_pass_line second_pass_at
  unfold second_pass_parse at ht ⊢
  simp only [ht]

theorem emit_data_holds (st : second_pass_state) (d : List Nat)
    (h : st.t_unit.bmc_data.holds d) :
    (emit_data st).t_unit.bmc_data.holds (d ++ [st.bmc_code_i]) :=
  gda_insert_holds h _

/-- The `.string` loop appends one data word per character, in order. -/
theorem string_loop_data (st : second_pass_state) (cs : List Char) (d : List Nat)
    (h : st.t_unit.bmc_data.holds d) :
    (string_loop st cs).t_unit.bmc_data.holds (d ++ cs.map char_to_ushort) := by
  induction cs generalizing st d with
  | nil =>
    rw [List.map_nil, List.append_nil]
    exact h
  | cons c cs ih =>
    have := ih (emit_data { st with bmc_code_i := char_to_ushort c }) (d ++ [char_to_ushort c])
      (emit_data_holds { st with bmc_code_i := char_to_ushort c } d h)
    rw [List.append_assoc] at this
    exact this

/-- The `.data` loop appends one data word per number it reads, in order. -/
theorem data_loop_data (num_array : List Int) (fuel i : Nat) (st st' : second_pass_state)
    (d : List Nat) (hd : st.t_unit.bmc_data.holds d)
    (h : data_loop num_array fuel i st = some st') :
    st'.t_unit.bmc_data.holds (d ++ ((num_array.drop i).take fuel).map to_ushort) := by
  induction fuel generalizing i st d with
  | zero =>
    simp only [data_loop, Option.some.injEq] at h
    subst h
    rw [List.take_zero, List.map_nil, List.append_nil]
    exact hd
  | succ fuel ih =>
    simp only [data_loop] at h
    cases hg : num_array.get? i with
    | none =>
      rw [hg] at h
      cases h
    | some v =>
      simp only [hg] at h
      have hstep := ih (i + 1) _ (d ++ [to_ushort v])
        (emit_data_holds { st with i := some (i : Int), bmc_code_i := to_ushort v } d hd) h
      have hdrop : num_array.drop i = v :: num_array.drop (i + 1) := by
        rw [List.get?_eq_some] at hg
        obtain ⟨hi, hv⟩ := hg
        rw [← hv]
        exact List.drop_eq_getElem_cons hi
      rw [hdrop, List.take_succ_cons, List.map_cons]
      rw [List.append_assoc] at hstep
      exact hstep

theorem to_ushort_cast (v : Int) : (to_ushort v : Int) = v % 65536 := by
  unfold to_ushort
  exact Int.toNat_of_nonneg (Int.emod_nonneg _ (by norm_num))

/-- C23 as amended.  Whatever the state of pass 2, for every line that parses
to a directive: the line leaves the code words as they are.  A `.string` line
gets through and appends to the data words one word per character of its text,
in order, and then one word 0; the word of a character is its value as a
`char`, which is signed, converted to `unsigned short`: its code for every
character with a code below 128, and its code plus 65280 (the code minus 256,
modulo 2^16) for every byte from 128 to 255.
A `.data` line with count `k` appends the first `k` numbers of `num_array`, in
order, each as an `unsigned short`, that is modulo 2^16; it gets through
whenever `num_array` holds `k` numbers.  An `.extern` or `.entry` line gets
through and appends nothing. -/
theorem second_pass_directive_words (st : second_pass_state) (line : List Char)
    (code data : List Nat) (hc : st.t_unit.bmc_code.holds code)
    (hd : st.t_unit.bmc_data.holds data)
    (ht : (second_pass_parse st line).dir_or_inst_tag = tag_dir) :
    (∀ st', second_pass_line st line = some st' → st'.t_unit.bmc_code.elems = code) ∧
      ((second_pass_parse st line).asm_directive.d_tag = tag_string →
        ∃ st', second_pass_line st line = some st' ∧
          st'.t_unit.bmc_data.elems =
            data ++ ((second_pass_parse st line).asm_directive.string.map char_to_ushort ++ [0]) ∧
          (∀ c : Char, c.toNat < 128 → char_to_ushort c = c.toNat) ∧
          ∀ c : Char, 128 ≤ c.toNat → c.toNat < 256 → char_to_ushort c = c.toNat + 65280) ∧
      ((second_pass_parse st line).asm_directive.d_tag = tag_data →
        (∀ st', second_pass_line st line = some st' →
          st'.t_unit.bmc_data.elems =
            data ++ ((second_pass_parse st line).asm_directive.num_array.take
              (second_pass_parse st line).asm_directive.num_count).map to_ushort) ∧
        ((second_pass_parse st line).asm_directive.num_count ≤
            (second_pass_parse st line).asm_directive.num_array.length →
          ∃ st', second_pass_line st line = some st') ∧
        ∀ v : Int, (to_ushort v : Int) = v % 65536) ∧
      ((second_pass_parse st line).asm_directive.d_tag = tag_extern ∨
          (second_pass_parse st line).asm_directive.d_tag = tag_entry →
        ∃ st', second_pass_line st line = some st' ∧ st'.t_unit.bmc_data.elems = data) := by
  have hline := second_pass_line_dir st line ht
  generalize hs : second_pass_parse st line = s at hline ⊢
  have hd' : (second_pass_at st line).t_unit.bmc_data.holds data := hd
  refine ⟨fun st' h => ?_, fun hstr => ?_, fun hdata => ⟨fun st' h => ?_, fun hk => ?_,
    to_ushort_cast⟩, fun hsym => ?_⟩
  · rw [hline] at h
    obtain ⟨st2, h2, rfl⟩ := Option.map_eq_some'.mp h
    have hf := (second_pass_dir_frame _ _ _ h2).2.1
    show st2.t_unit.bmc_code.elems = code
    rw [hf]
    exact gda_elems_holds hc
  · have hdir : second_pass_dir s (second_pass_at st line) =
        some (emit_data { string_loop (second_pass_at st line) s.asm_directive.string with
          bmc_code_i := 0 }) := by
      unfold second_pass_dir
      simp only [hstr, ↓reduceIte]
    rw [hline, hdir]
    refine ⟨_, rfl, ?_, fun c hlt => ?_, fun c hge hlt => ?_⟩
    · have h1 := string_loop_data (second_pass_at st line) s.asm_directive.string data hd'
      have h2 := emit_data_holds { string_loop (second_pass_at st line) s.asm_directive.string
        with bmc_code_i := 0 } _ h1
      rw [List.append_assoc] at h2
      exact gda_elems_holds h2
    · unfold char_to_ushort
      rw [if_pos hlt]
    · unfold char_to_ushort to_ushort
      rw [if_neg (by omega)]
      omega
  · rw [hline] at h
    obtain ⟨st2, h2, rfl⟩ := Option.map_eq_some'.mp h
    have hne : s.asm_directive.d_tag ≠ tag_string := by
      rw [hdata]
      decide
    unfold second_pass_dir at h2
    simp only [hne, hdata, ↓reduceIte] at h2
    have := data_loop_data _ _ _ _ _ data hd' h2
    rw [List.drop_zero] at this
    exact gda_elems_holds this
  · have hne : s.asm_directive.d_tag ≠ tag_string := by
      rw [hdata]
      decide
    obtain ⟨st2, h2⟩ := data_loop_defined s.asm_directive.num_array s.asm_directive.num_count 0
      (second_pass_at st line) (by simpa using hk)
    rw [hline]
    unfold second_pass_dir
    simp only [hne, hdata, ↓reduceIte, h2]
    exact ⟨_, rfl⟩
  · have hne1 : s.asm_directive.d_tag ≠ tag_string := by
      rcases hsym with h | h <;> rw [h] <;> decide
    have hne2 : s.asm_directive.d_tag ≠ tag_data := by
      rcases hsym with h | h <;> rw [h] <;> decide
    rw [hline]
    unfold second_pass_dir
    simp only [hne1, hne2, ↓reduceIte]
    exact ⟨_, rfl, gda_elems_holds hd'⟩

/-- Witness of C23 at the start of pass 2 of the example program: the line
`.string "hi"` appends the data words 104, 105, 0; the line `.data 5, -3, 17`
appends 5, 65533 (65536 - 3) and 17; the line `.extern X` appends nothing. -/
theorem second_pass_directive_words_witness :
    (∃ st', second_pass_line (second_pass_init example_unit) " .string \"hi\"\n".toList =
        some st' ∧ st'.t_unit.bmc_data.elems = [104, 105, 0] ∧ st'.t_unit.bmc_code.elems = []) ∧
      (∃ st', second_pass_line (second_pass_init example_unit) " .data 5, -3, 17\n".toList =
        some st' ∧ st'.t_unit.bmc_data.elems = [5, 65533, 17] ∧ st'.t_unit.bmc_code.elems = []) ∧
      (∃ st', second_pass_line (second_pass_init example_unit) " .extern X\n".toList =
        some st' ∧ st'.t_unit.bmc_data.elems = [] ∧ st'.t_unit.bmc_code.elems = []) := by
  refine ⟨?_, ?_, ?_⟩
  · have T := second_pass_directive_words (second_pass_init example_unit)
      " .string \"hi\"\n".toList [] [] gda_create_holds gda_create_holds (by decide!)
    obtain ⟨st', h, hdata, -⟩ := T.2.1 (by decide!)
    refine ⟨st', h, ?_, T.1 st' h⟩
    rw [hdata]
    decide!
  · have T := second_pass_directive_words (second_pass_init example_unit)
      " .data 5, -3, 17\n".toList [] [] gda_create_holds gda_create_holds (by decide!)
    obtain ⟨hwords, hex, -⟩ := T.2.2.1 (by decide!)
    obtain ⟨st', h⟩ := hex (by decide!)
    refine ⟨st', h, ?_, T.1 st' h⟩
    rw [hwords st' h]
    decide!
  · have T := second_pass_directive_words (second_pass_init example_unit)
      " .extern X\n".toList [] [] gda_create_holds gda_create_holds (by decide!)
    obtain ⟨st', h, hdata⟩ := T.2.2.2 (Or.inl (by decide!))
    exact ⟨st', h, hdata, T.1 st' h⟩

/-- Counterexample to C23, on the program `S: .string "?A"` whose first
character of the text is the byte 233: both passes return 0 and the data words
are 65513, 65 and 0; the word of the first character is 233 - 256 as an
`unsigned short`, not the character code 233. -/
theorem string_directive_byte_233 :
    (assemble_file string_233_program).map
        (Option.map (fun tu => (tu.bmc_code.elems, tu.bmc_data.elems))) =
        some (some ([], [65513, 65, 0])) ∧
      (Char.ofNat 233).toNat = 233 ∧
      char_to_ushort (Char.ofNat 233) = 65513 := by
  decide!

/-! ## The keyword lookup (C30) -/

theorem cstrOf_poke_strpbrkOf (l : List Char) :
    cstrOf (match strpbrkOf l with
      | some t => l.set t END_LINE
      | none => l) = l.takeWhile (fun c => decide (c ≠ END_LINE) && !isspace c) := by
  induction l with
  | nil => rfl
  | cons x xs ih =>
    by_cases hx : x = END_LINE
    · simp [strpbrkOf, cstrOf, hx]
    · by_cases hs : isspace x = true
      · simp [strpbrkOf, cstrOf, hx, hs]
      · have hs' : isspace x = false := by simpa using hs
        cases ht : strpbrkOf xs with
        | none =>
          rw [ht] at ih
          simp only [strpbrkOf, hx, hs', ↓reduceIte, ht, Option.map_none', cstrOf,
            Bool.false_eq_true]
          rw [List.takeWhile_cons_of_pos (by simp [hx, hs'])]
          exact congrArg _ ih
        | some t =>
          rw [ht] at ih
          simp only [strpbrkOf, hx, hs', ↓reduceIte, ht, Option.map_some', List.set_cons_succ,
            cstrOf, Bool.false_eq_true]
          rw [List.takeWhile_cons_of_pos (by simp [hx, hs'])]
          exact congrArg _ ih

/-- The string the keyword lookup reads, after `strpbrk` has cut it, is the
first token. -/
theorem cstr_poke_strpbrk (buf : List Char) (p : Nat) :
    cstr (poke_if buf (strpbrk_SPACES buf p)) p =
      (buf.drop p).takeWhile (fun c => decide (c ≠ END_LINE) && !isspace c) := by
  rw [← cstrOf_poke_strpbrkOf]
  unfold cstr strpbrk_SPACES
  cases ht : strpbrkOf (buf.drop p) with
  | none => rfl
  | some t =>
    simp only [Option.map_some', poke_if, poke]
    congr 1
    rw [List.drop_set, if_neg (by omega)]
    congr 1
    omega

theorem strcmp_eq_zero (a b : List Char) : strcmp a b = 0 ↔ a = b := by
  induction a generalizing b with
  | nil =>
    cases b with
    | nil => simp [strcmp]
    | cons y ys => simp [strcmp]
  | cons x xs ih =>
    cases b with
    | nil => simp [strcmp]
    | cons y ys =>
      by_cases hxy : x = y
      · simp [strcmp, hxy, ih]
      · simp only [strcmp, hxy, ↓reduceIte, List.cons.injEq, false_and, iff_false]
        split <;> decide

theorem parse_data_loop_keeps (buf : List Char) (dir_name : String) (fuel i temp1 : Nat)
    (result : syntax_struct) :
    (parse_data_loop buf dir_name fuel i temp1 result).cpu_inst = result.cpu_inst ∧
      (parse_data_loop buf dir_name fuel i temp1 result).asm_directive.d_tag =
        result.asm_directive.d_tag ∧
      ((parse_data_loop buf dir_name fuel i temp1 result).dir_or_inst_tag =
          result.dir_or_inst_tag ∨
        (parse_data_loop buf dir_name fuel i temp1 result).dir_or_inst_tag =
          tag_syntax_error) := by
  induction fuel generalizing i temp1 result with
  | zero => exact ⟨rfl, rfl, Or.inl rfl⟩
  | succ fuel ih =>
    unfold parse_data_loop
    dsimp only
    repeat' split
    all_goals first
      | exact ⟨rfl, rfl, Or.inl rfl⟩
      | exact ⟨rfl, rfl, Or.inr rfl⟩
      | exact ih _ _ _

/-- The directive block keeps the instruction fields; a result that is not a
syntax error keeps the line tag and, for a directive, carries its tag. -/
theorem parse_directive_keeps (dir : Option asm_directive) (result : syntax_struct)
    (buf : List Char) (temp1 : Option Nat) :
    (parse_directive dir result buf temp1).1.cpu_inst = result.cpu_inst ∧
      ((parse_directive dir result buf temp1).1.dir_or_inst_tag = tag_syntax_error ∨
        ((parse_directive dir result buf temp1).1.dir_or_inst_tag = result.dir_or_inst_tag ∧
          ∀ d, dir = some d →
            (parse_directive dir result buf temp1).1.asm_directive.d_tag = d.d_tag)) := by
  unfold parse_directive
  cases dir with
  | none => exact ⟨rfl, Or.inr ⟨rfl, fun d h => by cases h⟩⟩
  | some d =>
    dsimp only
    cases temp1 with
    | none => exact ⟨rfl, Or.inl rfl⟩
    | some t =>
      dsimp only
      cases hd : d.d_tag with
      | tag_data =>
        dsimp only
        obtain ⟨h1, h2, h3⟩ := parse_data_loop_keeps buf (String.mk d.dir_name)
          max_data_in_a_line 0 (SKIP_SPACE buf (t + 1))
          { result with asm_directive := { result.asm_directive with d_tag := tag_data } }
        refine ⟨h1, ?_⟩
        rcases h3 with h3 | h3
        · exact Or.inr ⟨h3, fun d' hd' => by cases hd'; rw [h2, hd]⟩
        · exact Or.inl h3
      | tag_string =>
        dsimp only
        repeat' split
        all_goals first
          | exact ⟨rfl, Or.inl rfl⟩
          | exact ⟨rfl, Or.inr ⟨rfl, fun d' hd' => by cases hd'; exact hd.symm⟩⟩
      | tag_extern =>
        dsimp only
        repeat' split
        all_goals first
          | exact ⟨rfl, Or.inl rfl⟩
          | exact ⟨rfl, Or.inr ⟨rfl, fun d' hd' => by cases hd'; exact hd.symm⟩⟩
      | tag_entry =>
        dsimp only
        repeat' split
        all_goals first
          | exact ⟨rfl, Or.inl rfl⟩
          | exact ⟨rfl, Or.inr ⟨rfl, fun d' hd' => by cases hd'; exact hd.symm⟩⟩

theorem keeps_tags_same (r r' : syntax_struct) (h1 : r'.cpu_inst.i_tag = r.cpu_inst.i_tag)
    (h2 : r'.dir_or_inst_tag = r.dir_or_inst_tag) : keeps_tags r r' :=
  ⟨h1, Or.inl h2⟩

theorem keeps_tags_error (r r' : syntax_struct) (message : String)
    (h1 : r'.cpu_inst.i_tag = r.cpu_inst.i_tag) :
    keeps_tags r (lang_engine_set_result_as_error r' message) :=
  ⟨h1, Or.inr rfl⟩

theorem parse_directive_tags (dir : Option asm_directive) (r result : syntax_struct)
    (buf : List Char) (temp1 : Option Nat) (h1 : result.cpu_inst.i_tag = r.cpu_inst.i_tag)
    (h2 : result.dir_or_inst_tag = r.dir_or_inst_tag) :
    keeps_tags r (parse_directive dir result buf temp1).1 := by
  obtain ⟨k1, k2⟩ := parse_directive_keeps dir result buf temp1
  refine ⟨by rw [k1, h1], ?_⟩
  rcases k2 with k2 | k2
  · exact Or.inr k2
  · exact Or.inl (k2.1.trans h2)

theorem parse_group_A_tags (inst : cpu_instruction) (dir : Option asm_directive)
    (result : syntax_struct) (buf : List Char) (temp1 : Nat) :
    keeps_tags result (parse_group_A inst dir result buf temp1).1 := by
  unfold parse_group_A
  repeat' first
    | split
    | dsimp only
  all_goals first
    | apply keeps_tags_error <;> rfl
    | apply parse_directive_tags <;> rfl

theorem parse_group_B_2_args_tags (inst : cpu_instruction) (dir : Option asm_directive)
    (result : syntax_struct) (buf : List Char) (temp1 temp2 temp3 : Nat) :
    keeps_tags result (parse_group_B_2_args inst dir result buf temp1 temp2 temp3).1 := by
  unfold parse_group_B_2_args
  repeat' first
    | split
    | dsimp only
  all_goals first
    | apply keeps_tags_error <;> rfl
    | apply parse_directive_tags <;> rfl

theorem parse_group_B_tags (inst : cpu_instruction) (dir : Option asm_directive)
    (result : syntax_struct) (buf : List Char) (temp1 : Nat) :
    keeps_tags result (parse_group_B inst dir result buf temp1).1 := by
  unfold parse_group_B
  repeat' first
    | split
    | dsimp only
  all_goals first
    | apply keeps_tags_error <;> rfl
    | apply parse_directive_tags <;> rfl
    | apply parse_group_B_2_args_tags

theorem parse_group_C_tags (inst : cpu_instruction) (dir : Option asm_directive)
    (result : syntax_struct) (buf : List Char) (temp1 : Option Nat) :
    keeps_tags result (parse_group_C inst dir result buf temp1).1 := by
  unfold parse_group_C
  repeat' first
    | split
    | dsimp only
  all_goals first
    | apply keeps_tags_error <;> rfl
    | apply parse_directive_tags <;> rfl

theorem cpu_inst_lookup_iff (w : List Char) (e : cpu_instruction) :
    lang_engine_is_string_a_cpu_inst w = some e ↔ e.inst_name = w ∧ e.i_tag.mnemonic = w := by
  constructor
  · intro h
    unfold lang_engine_is_string_a_cpu_inst at h
    have hn : e.inst_name = w := by simpa using List.find?_some h
    have hm : ∀ x ∈ i_map, x.i_tag.mnemonic = x.inst_name := by decide
    exact ⟨hn, (hm e (List.mem_of_find?_eq_some h)).trans hn⟩
  · rintro ⟨h1, h2⟩
    obtain ⟨name, t⟩ := e
    dsimp only at h1 h2
    subst h1
    subst h2
    cases t <;> rfl

theorem asm_dir_lookup_iff (w : List Char) (d : asm_directive) :
    lang_engine_is_string_a_asm_dir w = some d ↔ d.dir_name = w ∧ d.d_tag.keyword = w := by
  constructor
  · intro h
    unfold lang_engine_is_string_a_asm_dir at h
    have hn : d.dir_name = w := by simpa using List.find?_some h
    have hm : ∀ x ∈ asm_dirs, x.d_tag.keyword = x.dir_name := by decide
    exact ⟨hn, (hm d (List.mem_of_find?_eq_some h)).trans hn⟩
  · rintro ⟨h1, h2⟩
    obtain ⟨name, t⟩ := d
    dsimp only at h1 h2
    subst h1
    subst h2
    cases t <;> rfl

theorem mnemonic_ne_keyword (t : inst_tag) (d : dir_tag) : t.mnemonic ≠ d.keyword := by
  cases t <;> cases d <;> decide

/-- What `parse_after_label` returns, by the outcome of the two lookups of the
first token. -/
theorem parse_after_label_keyword (result : syntax_struct) (buf : List Char) (p : Nat) :
    (lang_engine_is_string_a_cpu_inst (first_token buf p) = none →
      lang_engine_is_string_a_asm_dir (first_token buf p) = none →
      (parse_after_label result buf p).1 =
        lang_engine_set_result_as_error result
          ("'" ++ String.mk (first_token buf p) ++ "' unknown key word.")) ∧
    (∀ inst, lang_engine_is_string_a_cpu_inst (first_token buf p) = some inst →
      (parse_after_label result buf p).1.cpu_inst.i_tag = inst.i_tag ∧
        ((parse_after_label result buf p).1.dir_or_inst_tag = tag_inst ∨
          (parse_after_label result buf p).1.dir_or_inst_tag = tag_syntax_error)) ∧
    (∀ d, lang_engine_is_string_a_asm_dir (first_token buf p) = some d →
      result.dir_or_inst_tag = tag_dir →
      (parse_after_label result buf p).1.dir_or_inst_tag = tag_syntax_error ∨
        ((parse_after_label result buf p).1.dir_or_inst_tag = tag_dir ∧
          (parse_after_label result buf p).1.asm_directive.d_tag = d.d_tag)) := by
  have htok : cstr (poke_if buf (strpbrk_SPACES buf (SKIP_SPACE buf p))) (SKIP_SPACE buf p) =
      first_token buf p := cstr_poke_strpbrk buf (SKIP_SPACE buf p)
  refine ⟨fun hI hD => ?_, fun inst hI => ?_, fun d hD hr => ?_⟩
  · unfold parse_after_label
    simp only [htok, hI, hD]
  · have hD : lang_engine_is_string_a_asm_dir (first_token buf p) = none := by
      cases hD : lang_engine_is_string_a_asm_dir (first_token buf p) with
      | none => rfl
      | some d =>
        exact absurd (((cpu_inst_lookup_iff _ _).mp hI).2.trans
          ((asm_dir_lookup_iff _ _).mp hD).2.symm) (mnemonic_ne_keyword _ _)
    have key : keeps_tags
        { result with
          dir_or_inst_tag := tag_inst
          cpu_inst := { result.cpu_inst with i_tag := inst.i_tag } }
        (parse_after_label result buf p).1 := by
      unfold parse_after_label
      simp only [htok, hI, hD]
      repeat' first
        | split
        | dsimp only
      all_goals first
        | apply keeps_tags_error <;> rfl
        | apply parse_group_A_tags
        | apply parse_group_B_tags
        | apply parse_group_C_tags
    exact key
  · have hI : lang_engine_is_string_a_cpu_inst (first_token buf p) = none := by
      cases hI : lang_engine_is_string_a_cpu_inst (first_token buf p) with
      | none => rfl
      | some e =>
        exact absurd (((cpu_inst_lookup_iff _ _).mp hI).2.trans
          ((asm_dir_lookup_iff _ _).mp hD).2.symm) (mnemonic_ne_keyword _ _)
    have hpal : (parse_after_label result buf p).1 =
        (parse_directive (some d) result
          (poke_if buf (strpbrk_SPACES buf (SKIP_SPACE buf p)))
          (strpbrk_SPACES buf (SKIP_SPACE buf p))).1 := by
      unfold parse_after_label
      simp only [htok, hI, hD]
    rw [hpal]
    obtain ⟨-, k⟩ := parse_directive_keeps (some d) result
      (poke_if buf (strpbrk_SPACES buf (SKIP_SPACE buf p)))
      (strpbrk_SPACES buf (SKIP_SPACE buf p))
    rcases k with k | k
    · exact Or.inl k
    · exact Or.inr ⟨k.1.trans hr, k.2 d rfl⟩

/-- C30.  The two keyword tables are sorted by `strcmp` without repetition, as
`bsearch` requires, and `strcmp` gives 0 only for equal strings.  For every
string `w`: the instruction lookup returns an entry if and only if `w` is the
mnemonic of an instruction tag, and the entry then carries `w` and that tag;
the directive lookup returns an entry if and only if `w` is the keyword of a
directive tag (`.data`, `.string`, `.extern`, `.entry`), and the entry then
carries `w` and that tag.  In the parser, which looks up the first token `w`
behind the optional label: when `w` is a mnemonic the result has the tag of
that mnemonic and is an instruction or a syntax error; when `w` is a directive
keyword the result is a syntax error or a directive with the tag of that
keyword; for every other `w` the result is the syntax error
`'w' unknown key word.`.  The last two statements say where the parser starts
the lookup: at the first non-blank character of a line without `:`, and behind
the `:` of a line with one valid label. -/
theorem keyword_lookup :
    (i_map.Pairwise (fun a b => cpu_i_compar a.inst_name b.inst_name < 0) ∧
      asm_dirs.Pairwise (fun a b => cpu_i_compar a.dir_name b.dir_name < 0) ∧
      ∀ a b, cpu_i_compar a b = 0 ↔ a = b) ∧
    (∀ w,
      (∀ e, lang_engine_is_string_a_cpu_inst w = some e ↔
        e.inst_name = w ∧ e.i_tag.mnemonic = w) ∧
      ((lang_engine_is_string_a_cpu_inst w).isSome = true ↔ ∃ t : inst_tag, t.mnemonic = w) ∧
      (∀ d, lang_engine_is_string_a_asm_dir w = some d ↔
        d.dir_name = w ∧ d.d_tag.keyword = w) ∧
      ((lang_engine_is_string_a_asm_dir w).isSome = true ↔ ∃ t : dir_tag, t.keyword = w)) ∧
    (∀ result buf p,
      (∀ t : inst_tag, t.mnemonic = first_token buf p →
        (parse_after_label result buf p).1.cpu_inst.i_tag = t ∧
          ((parse_after_label result buf p).1.dir_or_inst_tag = tag_inst ∨
            (parse_after_label result buf p).1.dir_or_inst_tag = tag_syntax_error)) ∧
      (∀ t : dir_tag, t.keyword = first_token buf p → result.dir_or_inst_tag = tag_dir →
        (parse_after_label result buf p).1.dir_or_inst_tag = tag_syntax_error ∨
          ((parse_after_label result buf p).1.dir_or_inst_tag = tag_dir ∧
            (parse_after_label result buf p).1.asm_directive.d_tag = t)) ∧
      ((∀ t : inst_tag, t.mnemonic ≠ first_token buf p) →
        (∀ t : dir_tag, t.keyword ≠ first_token buf p) →
        (parse_after_label result buf p).1 =
          lang_engine_set_result_as_error result
            ("'" ++ String.mk (first_token buf p) ++ "' unknown key word."))) ∧
    (∀ buf, charAt buf (SKIP_SPACE buf 0) ≠ END_LINE → charAt buf (SKIP_SPACE buf 0) ≠ ';' →
      strchr buf (SKIP_SPACE buf 0) ':' = none →
      lang_engine_create_ss_from_logical_line buf =
        parse_after_label {} buf (SKIP_SPACE buf 0)) ∧
    (∀ buf temp1, charAt buf (SKIP_SPACE buf 0) ≠ END_LINE →
      charAt buf (SKIP_SPACE buf 0) ≠ ';' →
      strchr buf (SKIP_SPACE buf 0) ':' = some temp1 → strchr buf (temp1 + 1) ':' = none →
      lang_engine_symbol_validation (cstr (poke buf temp1 END_LINE) (SKIP_SPACE buf 0)) =
        sst_symbol_ok →
      lang_engine_create_ss_from_logical_line buf =
        parse_after_label { symbol := cstr (poke buf temp1 END_LINE) (SKIP_SPACE buf 0) } buf
          (temp1 + 1)) := by
  have hI : ∀ w, (lang_engine_is_string_a_cpu_inst w).isSome = true ↔
      ∃ t : inst_tag, t.mnemonic = w := by
    intro w
    constructor
    · intro h
      obtain ⟨e, he⟩ := Option.isSome_iff_exists.mp h
      exact ⟨e.i_tag, ((cpu_inst_lookup_iff w e).mp he).2⟩
    · rintro ⟨t, rfl⟩
      rw [(cpu_inst_lookup_iff t.mnemonic ⟨t.mnemonic, t⟩).mpr ⟨rfl, rfl⟩]
      rfl
  have hD : ∀ w, (lang_engine_is_string_a_asm_dir w).isSome = true ↔
      ∃ t : dir_tag, t.keyword = w := by
    intro w
    constructor
    · intro h
      obtain ⟨d, hd⟩ := Option.isSome_iff_exists.mp h
      exact ⟨d.d_tag, ((asm_dir_lookup_iff w d).mp hd).2⟩
    · rintro ⟨t, rfl⟩
      rw [(asm_dir_lookup_iff t.keyword ⟨t.keyword, t⟩).mpr ⟨rfl, rfl⟩]
      rfl
  refine ⟨⟨by decide!, by decide!, strcmp_eq_zero⟩,
    fun w => ⟨cpu_inst_lookup_iff w, hI w, asm_dir_lookup_iff w, hD w⟩,
    fun result buf p => ?_, fun buf h0 h1 h2 => ?_, fun buf temp1 h0 h1 h2 h3 h4 => ?_⟩
  · obtain ⟨k1, k2, k3⟩ := parse_after_label_keyword result buf p
    refine ⟨fun t ht => ?_, fun t ht hr => ?_, fun hni hnd => ?_⟩
    · exact k2 ⟨t.mnemonic, t⟩ ((cpu_inst_lookup_iff _ _).mpr ⟨ht, ht⟩)
    · exact k3 ⟨t.keyword, t⟩ ((asm_dir_lookup_iff _ _).mpr ⟨ht, ht⟩) hr
    · refine k1 ?_ ?_
      · cases h : lang_engine_is_string_a_cpu_inst (first_token buf p) with
        | none => rfl
        | some e => exact absurd ((cpu_inst_lookup_iff _ _).mp h).2 (hni _)
      · cases h : lang_engine_is_string_a_asm_dir (first_token buf p) with
        | none => rfl
        | some d => exact absurd ((asm_dir_lookup_iff _ _).mp h).2 (hnd _)
  · unfold lang_engine_create_ss_from_logical_line
    simp only [h0, h1, or_self, ↓reduceIte, h2]
  · have hget := strchr_spec _ _ _ _ h2
    unfold lang_engine_create_ss_from_logical_line
    simp only [h0, h1, or_self, ↓reduceIte, h2, h3, h4, poke_poke_restore _ _ _ _ hget]

/-- Witness of C30 on the lines `foo r1` and `L: bar`, whose first token behind
the optional label is no keyword: each is the syntax error that names the
token. -/
theorem keyword_lookup_witness :
    (lang_engine_create_ss_from_logical_line (fgets_store buffer_init " foo r1\n".toList)).1 =
        lang_engine_set_result_as_error {} "'foo' unknown key word." ∧
      (lang_engine_create_ss_from_logical_line (fgets_store buffer_init "L: bar\n".toList)).1 =
        lang_engine_set_result_as_error { symbol := "L".toList } "'bar' unknown key word." := by
  constructor
  · rw [keyword_lookup.2.2.2.1 _ (by decide!) (by decide!) (by decide!),
      (keyword_lookup.2.2.1 _ _ _).2.2
        (fun t => by cases t <;> decide!) (fun t => by cases t <;> decide!)]
    decide!
  · rw [keyword_lookup.2.2.2.2 _ 1 (by decide!) (by decide!) (by decide!) (by decide!)
        (by decide!),
      (keyword_lookup.2.2.1 _ _ _).2.2
        (fun t => by cases t <;> decide!) (fun t => by cases t <;> decide!)]
    decide!

/-! ## The operand parser on tokens that begin with `r` (C24, C25) -/

theorem strtol_digits_stop (rest : List Char) (acc n : Nat)
    (h : ∀ c, rest.head? = some c → isdigit c = false) :
    strtol_digits rest acc n = (acc, n) := by
  cases rest with
  | nil => rfl
  | cons c cs =>
    have hc := h c rfl
    simp [strtol_digits, hc]

/-- The operand parser on `r`, a digit `d` of 0..7 and then any text that does
not go on with a digit: the operand is the register `d`, without error. -/
theorem register_operand_digit_then_text (d : Nat) (hd : d ≤ 7) (rest : List Char)
    (hrest : ∀ c, rest.head? = some c → isdigit c = false) :
    lang_engine_parse_param ('r' :: digit_char d :: rest) 0 =
      { opt := tag_arg_tag_register, param := { register_number := (d : Int) } } := by
  have hs := digit_char_spec d (by omega)
  have h0 : SKIP_SPACE ('r' :: digit_char d :: rest) 0 = 0 := by
    simp [SKIP_SPACE, spanSpace, show isspace 'r' = false by decide]
  have hc : charAt ('r' :: digit_char d :: rest) 0 = 'r' := rfl
  have hst : strtol (digit_char d :: rest) =
      { value := (d : Int), consumed := 1, erange := false } := by
    unfold strtol
    have hdig : strtol_digits (digit_char d :: rest) 0 0 = (d, 1) := by
      simp only [strtol_digits, hs.1, ↓reduceIte, hs.2.1, Nat.zero_mul, Nat.zero_add]
      exact strtol_digits_stop rest d 1 hrest
    have hh1 : ¬ (digit_char d = '-') := hs.2.2.2.1
    have hh2 : ¬ (digit_char d = '+') := hs.2.2.2.2
    simp only [spanSpace, hs.2.2.1, Bool.false_eq_true, ↓reduceIte, List.drop_zero,
      List.head?_cons, Option.some.injEq, hh1, hh2, or_self, hdig, Nat.zero_add,
      one_ne_zero]
    have h1 : ¬ ((d : Int) > LONG_MAX) := by
      unfold LONG_MAX
      omega
    have h2 : ¬ ((d : Int) < LONG_MIN) := by
      unfold LONG_MIN
      omega
    simp only [decide_False, Bool.false_eq_true, ↓reduceIte, h1, h2]
  unfold lang_engine_parse_param
  simp only [h0, hc, ↓reduceIte, Nat.zero_add, lang_engine_number_validation, List.drop_one,
    List.tail_cons, hst, one_ne_zero, Bool.false_eq_true]
  have hw : long_to_int (d : Int) = (d : Int) := by
    unfold long_to_int
    omega
  have h3 : ¬ ((d : Int) > MAX_REG_NUM) := by
    unfold MAX_REG_NUM
    omega
  have h4 : ¬ ((d : Int) < MIN_REG_NUM) := by
    unfold MIN_REG_NUM
    omega
  simp only [hw, h3, h4, ↓reduceIte, ne_eq, not_true_eq_false]

/-- The operand parser on `r` followed by text that does not start with white
space, a sign or a digit (a letter, for example, or nothing): the operand is
taken for a register and refused, whatever the text is. -/
theorem operand_r_then_text_refused (rest : List Char)
    (hrest : ∀ c, rest.head? = some c →
      isdigit c = false ∧ isspace c = false ∧ c ≠ '-' ∧ c ≠ '+') :
    (lang_engine_parse_param ('r' :: rest) 0).error_str = "register is invalid number" ∧
      (lang_engine_parse_param ('r' :: rest) 0).opt = tag_arg_tag_register := by
  have h0 : SKIP_SPACE ('r' :: rest) 0 = 0 := by
    simp [SKIP_SPACE, spanSpace, show isspace 'r' = false by decide]
  have hc : charAt ('r' :: rest) 0 = 'r' := rfl
  have hst : (strtol rest).consumed = 0 := by
    cases rest with
    | nil => rfl
    | cons c cs =>
      obtain ⟨h1, h2, h3, h4⟩ := hrest c rfl
      unfold strtol
      simp only [spanSpace, h2, Bool.false_eq_true, ↓reduceIte, List.drop_zero, List.head?_cons,
        Option.some.injEq, h3, h4, or_self, strtol_digits, h1]
  unfold lang_engine_parse_param
  simp only [h0, hc, ↓reduceIte, Nat.zero_add, lang_engine_number_validation, List.drop_one,
    List.tail_cons, hst]
  exact ⟨by decide, trivial⟩

/-- C24 (code defect).  The operand parser hands the text behind `r` to `strtol`
and tests only the range of the number read, not where the number ends, so a
token that goes on after the digit, or has a sign or a leading zero, is taken
for a register: the lines `prn r5abc`, `prn r05`, `prn r+5` and `prn r1.5`
parse to the same Instruction as `prn r5` (`prn r1`), and a program with the
operand `r5abc` is assembled to the words of the one with `r5`. -/
theorem register_operand_accepts_trailing_text :
    (lang_engine_create_ss_from_logical_line (fgets_store buffer_init " prn r5abc\n".toList)).1 =
        { dir_or_inst_tag := tag_inst
          cpu_inst :=
            { i_tag := tag_prn
              group_B :=
                { rest_of_group_b :=
                    { arg_opt := tag_arg_tag_register
                      arg_option := { register_number := 5 } } } } } ∧
      (lang_engine_create_ss_from_logical_line (fgets_store buffer_init " prn r5\n".toList)).1 =
        (lang_engine_create_ss_from_logical_line
          (fgets_store buffer_init " prn r5abc\n".toList)).1 ∧
      (lang_engine_create_ss_from_logical_line (fgets_store buffer_init " prn r05\n".toList)).1 =
        (lang_engine_create_ss_from_logical_line
          (fgets_store buffer_init " prn r5abc\n".toList)).1 ∧
      (lang_engine_create_ss_from_logical_line (fgets_store buffer_init " prn r+5\n".toList)).1 =
        (lang_engine_create_ss_from_logical_line
          (fgets_store buffer_init " prn r5abc\n".toList)).1 ∧
      (lang_engine_create_ss_from_logical_line (fgets_store buffer_init " prn r1.5\n".toList)).1 =
        (lang_engine_create_ss_from_logical_line (fgets_store buffer_init " prn r1\n".toList)).1 ∧
      (lang_engine_create_ss_from_logical_line
          (fgets_store buffer_init " prn r8\n".toList)).1.dir_or_inst_tag = tag_syntax_error ∧
      assemble_file "A: mov r5abc, r1\n".toList = assemble_file "A: mov r5, r1\n".toList ∧
      (assemble_file "A: mov r5abc, r1\n".toList).map
          (fun o => o.map (fun tu => tu.bmc_code.elems)) = some (some [60, 1284]) := by
  decide!

/-- C25 (code defect).  Every operand that begins with `r` is taken for a
register, so a valid symbol name that begins with `r` is refused as an
operand: `jmp rabbit` is the syntax error `register is invalid number`,
although `rabbit` passes the symbol validation, labels a line in `rabbit: stop`
and is accepted as the base symbol in `jmp rabbit(r1,r2)`; the program
`rabbit: stop` / `jmp rabbit` is refused, the same program with the name
`LEN` is assembled. -/
theorem symbol_operand_starting_with_r_refused :
    (lang_engine_create_ss_from_logical_line
        (fgets_store buffer_init " jmp rabbit\n".toList)).1 =
        lang_engine_set_result_as_error
          { dir_or_inst_tag := tag_inst, cpu_inst := { i_tag := tag_jmp } }
          "register is invalid number" ∧
      lang_engine_symbol_validation "rabbit".toList = sst_symbol_ok ∧
      (lang_engine_create_ss_from_logical_line
        (fgets_store buffer_init "rabbit: stop\n".toList)).1 =
        { symbol := "rabbit".toList, dir_or_inst_tag := tag_inst
          cpu_inst := { i_tag := tag_stop } } ∧
      (lang_engine_create_ss_from_logical_line
        (fgets_store buffer_init " jmp rabbit(r1,r2)\n".toList)).1 =
        { dir_or_inst_tag := tag_inst
          cpu_inst :=
            { i_tag := tag_jmp
              group_B :=
                { arg_options := tag_arg_2_args_with_symbol
                  arg_2_symbol :=
                    { symbol := "rabbit".toList
                      left_and_right_args := (tag_arg_tag_register, tag_arg_tag_register)
                      arg_2_args_options :=
                        ({ register_number := 1 }, { register_number := 2 }) } } } } ∧
      (lang_engine_create_ss_from_logical_line (fgets_store buffer_init " jmp LEN\n".toList)).1 =
        { dir_or_inst_tag := tag_inst
          cpu_inst :=
            { i_tag := tag_jmp
              group_B :=
                { rest_of_group_b :=
                    { arg_opt := tag_arg_tag_symbol
                      arg_option := { symbol := "LEN".toList } } } } } ∧
      assemble_file "rabbit: stop\n jmp rabbit\n".toList = some none ∧
      (assemble_file "LEN: stop\n jmp LEN\n".toList).map
          (fun o => o.map (fun tu => tu.bmc_code.elems)) = some (some [960, 580, 402]) := by
  decide!

/-- C26 (code defect).  In the Group A branch the first white space behind the
first operand is overwritten with the terminator and the text between it and
the comma is never looked at, so `mov r1 xyz, r2` parses to the same
Instruction as `mov r1, r2`; a third operand is accepted too when it follows
the second without white space, `mov r1, r2,r3`.  Text behind the second
operand that is set off by white space is refused (`mov r1, r2 x`,
`mov r1, r2, r3`). -/
theorem groupA_accepts_text_before_comma :
    (lang_engine_create_ss_from_logical_line
        (fgets_store buffer_init " mov r1 xyz, r2\n".toList)).1 =
        { dir_or_inst_tag := tag_inst
          cpu_inst :=
            { i_tag := tag_mov
              group_A :=
                { left_and_right_args := (tag_arg_tag_register, tag_arg_tag_register)
                  arg_option := ({ register_number := 1 }, { register_number := 2 }) } } } ∧
      (lang_engine_create_ss_from_logical_line (fgets_store buffer_init " mov r1, r2\n".toList)).1 =
        (lang_engine_create_ss_from_logical_line
          (fgets_store buffer_init " mov r1 xyz, r2\n".toList)).1 ∧
      (lang_engine_create_ss_from_logical_line
        (fgets_store buffer_init " mov r1, r2,r3\n".toList)).1 =
        (lang_engine_create_ss_from_logical_line
          (fgets_store buffer_init " mov r1 xyz, r2\n".toList)).1 ∧
      (lang_engine_create_ss_from_logical_line
        (fgets_store buffer_init " mov r1, r2 x\n".toList)).1 =
        lang_engine_set_result_as_error
          { dir_or_inst_tag := tag_inst, cpu_inst := { i_tag := tag_mov } }
          "extraneous text for cpu instruction: 'mov'." ∧
      (lang_engine_create_ss_from_logical_line
        (fgets_store buffer_init " mov r1, r2, r3\n".toList)).1 =
        lang_engine_set_result_as_error
          { dir_or_inst_tag := tag_inst, cpu_inst := { i_tag := tag_mov } }
          "extraneous text for cpu instruction: 'mov'." ∧
      assemble_file "A: mov r1 xyz, r2\n".toList = assemble_file "A: mov r1, r2\n".toList ∧
      (assemble_file "A: mov r1 xyz, r2\n".toList).map
          (fun o => o.map (fun tu => tu.bmc_code.elems)) = some (some [60, 264]) := by
  decide!

/-- C27 (code defect).  In the indexed form the comma is searched from the
opening bracket to the end of the line, not to the closing bracket, and the
check for text behind `)` is made after the comma was overwritten with the
terminator: `jmp L(r1 r2),x` has no comma between the brackets and text behind
`)`, yet it parses to the indexed form with the base symbol `L` and the
operands `r1` and `x`.  An index operand that is a symbol beginning with `r`
is refused, `jmp L(rabbit,r1)`.  The other malformed shapes are refused. -/
theorem indexed_form_accepts_comma_after_bracket :
    (lang_engine_create_ss_from_logical_line
        (fgets_store buffer_init " jmp L(r1 r2),x\n".toList)).1 =
        { dir_or_inst_tag := tag_inst
          cpu_inst :=
            { i_tag := tag_jmp
              group_B :=
                { arg_options := tag_arg_2_args_with_symbol
                  arg_2_symbol :=
                    { symbol := "L".toList
                      left_and_right_args := (tag_arg_tag_register, tag_arg_tag_symbol)
                      arg_2_args_options :=
                        ({ register_number := 1 }, { symbol := "x".toList }) } } } } ∧
      (lang_engine_create_ss_from_logical_line
          (fgets_store buffer_init " jmp L(rabbit,r1)\n".toList)).1.dir_or_inst_tag =
        tag_syntax_error ∧
      (lang_engine_create_ss_from_logical_line
          (fgets_store buffer_init " jmp L(rabbit,r1)\n".toList)).1.syntax_error_buffer =
        "register is invalid number" ∧
      (lang_engine_create_ss_from_logical_line
          (fgets_store buffer_init " jmp L(r1,r2\n".toList)).1.dir_or_inst_tag =
        tag_syntax_error ∧
      (lang_engine_create_ss_from_logical_line
          (fgets_store buffer_init " jmp L r1,r2)\n".toList)).1.dir_or_inst_tag =
        tag_syntax_error ∧
      (lang_engine_create_ss_from_logical_line
          (fgets_store buffer_init " jmp L)r1,r2(\n".toList)).1.dir_or_inst_tag =
        tag_syntax_error ∧
      (lang_engine_create_ss_from_logical_line
          (fgets_store buffer_init " jmp L (r1,r2)\n".toList)).1.dir_or_inst_tag =
        tag_syntax_error ∧
      (lang_engine_create_ss_from_logical_line
          (fgets_store buffer_init " jmp L(r1 r2)\n".toList)).1.dir_or_inst_tag =
        tag_syntax_error ∧
      (lang_engine_create_ss_from_logical_line
          (fgets_store buffer_init " jmp L(r1,r2) x\n".toList)).1.dir_or_inst_tag =
        tag_syntax_error ∧
      (assemble_file "L: jmp L(r1 r2),L\n".toList).map
          (fun o => o.map (fun tu => tu.bmc_code.elems)) =
        some (some [13896, 402, 256, 402]) := by
  decide!

/-- C28 (code defect).  The value `strtol` returns is stored into an `int`
before the range tests, so the `.data` value 4294967296 (2^32) is read as 0 and
accepted: the line `.data 4294967296` parses to a Data directive with the one
value 0, and the program `L: .data 4294967296` is assembled with the data word
0.  The value 9000 is refused. -/
theorem data_directive_accepts_4294967296 :
    (lang_engine_create_ss_from_logical_line
        (fgets_store buffer_init " .data 4294967296\n".toList)).1 =
        { dir_or_inst_tag := tag_dir
          asm_directive := { d_tag := tag_data, num_array := [0], num_count := 1 } } ∧
      (lang_engine_create_ss_from_logical_line
        (fgets_store buffer_init " .data 5, -3, 17\n".toList)).1 =
        { dir_or_inst_tag := tag_dir
          asm_directive := { d_tag := tag_data, num_array := [5, -3, 17], num_count := 3 } } ∧
      (lang_engine_create_ss_from_logical_line
          (fgets_store buffer_init " .data 9000\n".toList)).1.dir_or_inst_tag =
        tag_syntax_error ∧
      (assemble_file "L: .data 4294967296\n".toList).map
          (fun o => o.map (fun tu => tu.bmc_data.elems)) = some (some [0]) := by
  decide!

/-- The parser on a `.data` line with 81 values (a line too long for the buffer
the passes read lines into): the loop ends after 80 values without an error,
and the result is a Data directive with count 81 and 80 values. -/
theorem data_directive_81_values :
    data_81_line.length = 168 ∧
      (lang_engine_create_ss_from_logical_line data_81_line).1.dir_or_inst_tag = tag_dir ∧
      (lang_engine_create_ss_from_logical_line data_81_line).1.asm_directive.num_count = 81 ∧
      (lang_engine_create_ss_from_logical_line data_81_line).1.asm_directive.num_array =
        List.replicate 80 1 := by
  decide!

/-- C29 (code defect).  The label is looked for with `strchr(logical_line, ':')`
on the whole line, so a colon inside the quotes is taken for the end of a
label: `.string "a:b"` is the syntax error that reports the invalid label
`.string "a`, and a program with this line is refused; `.string "ab"` parses to
the String directive with the text `ab`. -/
theorem string_directive_refuses_colon :
    (lang_engine_create_ss_from_logical_line
        (fgets_store buffer_init " .string \"a:b\"\n".toList)).1 =
        lang_engine_set_result_as_error {}
          "'.string \"a' symbol starts with non alpha character." ∧
      (lang_engine_create_ss_from_logical_line
        (fgets_store buffer_init " .string \"ab\"\n".toList)).1 =
        { dir_or_inst_tag := tag_dir
          asm_directive := { d_tag := tag_string, string := "ab".toList } } ∧
      assemble_file "L: stop\n .string \"a:b\"\n".toList = some none ∧
      (assemble_file "L: stop\n .string \"ab\"\n".toList).map
          (fun o => o.map (fun tu => tu.bmc_data.elems)) = some (some [97, 98, 0]) := by
  decide!

theorem gda_inserts_hold {α : Type} (xs : List α) (g : gda α) (l : List α) (h : g.holds l) :
    (xs.foldl gda_insert g).holds (l ++ xs) := by
  induction xs generalizing g l with
  | nil => simpa using h
  | cons x xs ih =>
    have := ih (gda_insert g x) (l ++ [x]) (gda_insert_holds h x)
    simpa using this

theorem gda_for_each_holds {α : Type} {g : gda α} {l : List α} (h : g.holds l) :
    ∃ k, gda_for_each g = l.map some ++ List.replicate k none := by
  obtain ⟨k, hp, hc, hpos⟩ := h
  refine ⟨k, ?_⟩
  apply List.ext_get?
  intro i
  simp only [gda_for_each, gda.pointers_count, gda.deref, List.get?_eq_getElem?,
    List.getElem?_map, List.getElem?_range]
  by_cases hi : i < g.pointer_array.length
  · rw [List.getElem?_range hi]
    simp only [Option.map_some']
    rw [← hp]
    rw [List.getElem?_eq_getElem hi]
    simp
  · rw [List.getElem?_eq_none (by simpa using hi)]
    rw [← hp, List.getElem?_eq_none (by simpa using hi)]
    rfl

theorem gda_search_find {α : Type} {g : gda α} {l : List α} (h : g.holds l) (hit : α → Bool) :
    (gda_search g hit).bind g.deref = l.find? hit := by
  rw [gda_search_holds h, ← findIdx?_bind_get?]
  congr 1
  funext i
  exact gda_deref_holds h i

/-- C40.  After `gda_insert` was called for the elements `xs`, in that order,
on a fresh array: `gda_size` is the number of elements; the slots `gda_for_each`
visits are the inserted elements in the order of insertion followed by null
slots only; and `gda_search` returns the first inserted element the comparison
accepts, `NULL` when it accepts none of them. -/
theorem gda_insert_sequence {α : Type} (xs : List α) (hit : α → Bool) :
    gda_size (gda_of_inserts xs) = xs.length ∧
      (∃ k, gda_for_each (gda_of_inserts xs) = xs.map some ++ List.replicate k none) ∧
      (gda_of_inserts xs).elems = xs ∧
      ((gda_search (gda_of_inserts xs) hit).bind (gda_of_inserts xs).deref = xs.find? hit) ∧
      ((gda_search (gda_of_inserts xs) hit = none) ↔ xs.all (fun x => !hit x) = true) := by
  have h : (gda_of_inserts xs).holds xs := by
    simpa using gda_inserts_hold xs gda_create [] gda_create_holds
  refine ⟨gda_size_holds h, gda_for_each_holds h, gda_elems_holds h, gda_search_find h hit, ?_⟩
  rw [gda_search_holds h]
  simp [List.findIdx?_eq_none_iff]

/-- C35 (code defect).  Pass 1 on the one-line program `stop`: no symbol is
created, the closing `gda_for_each` loop meets a null slot first and its
`else if` reads `in_table->sym_type` with `in_table` still `NULL`; the call has
no defined result. -/
theorem first_pass_stop_reads_null :
    (first_pass_scan (first_pass_init gda_create) (file_lines stop_program)).symbol_table =
        gda_create ∧
      (first_pass_scan (first_pass_init gda_create) (file_lines stop_program)).error = 0 ∧
      (first_pass_scan (first_pass_init gda_create) (file_lines stop_program)).in_table = none ∧
      assembler_first_pass_symbol_table gda_create stop_program = none ∧
      assemble_file stop_program = none := by
  decide!
theorem gda_search_create {α : Type} (hit : α → Bool) :
    gda_search (gda_create : gda α) hit = none := rfl

theorem first_pass_line_in_table (st : first_pass_state) (line : List Char)
    (ht : st.symbol_table = gda_create) (hi : st.in_table = none) :
    (first_pass_line st line).in_table = none := by
  unfold first_pass_line first_pass_switch
  dsimp only
  split
  · exact hi
  · unfold first_pass_inst_label
    dsimp only
    split
    · rw [ht, gda_search_create]
    · exact hi
  · unfold first_pass_dir first_pass_dir_lookup first_pass_extern_dir first_pass_entry_dir
      first_pass_data
    dsimp only
    rw [ht]
    simp only [gda_search_create]
    repeat' split
    all_goals first | exact hi | rfl
  · exact hi

theorem table_step_create {origin : Option symbol → symbol → Prop} {g : gda symbol}
    (h : table_step origin g gda_create) : g = gda_create := by
  rcases h with h | ⟨x, -, h, -⟩ | ⟨slot, y, f, hs, hd, -, h, -⟩
  · exact h.symm
  · exfalso
    have := congrArg gda.elem_count h
    unfold gda_insert at this
    split at this <;> simp [gda_create] at this
  · exfalso
    have hp := congrArg gda.pointer_array h
    simp only [gda.modify, gda_create] at hp
    have hlen : g.pointer_array.length = 2 := by
      have := congrArg List.length hp
      simpa using this.symm
    have hd' : (g.pointer_array.get? slot).join = some y := hd
    match hg : g.pointer_array, hlen with
    | [a, b], _ =>
      rw [hg] at hp hd'
      match slot with
      | 0 =>
        simp [List.modify] at hp
        simp at hd'
        rw [hd'] at hp
        simp at hp
      | 1 =>
        simp [List.modify] at hp
        simp at hd'
        rw [hd'] at hp
        simp at hp
      | n + 2 => simp at hd'

theorem first_pass_scan_no_symbol (lines : List (List Char))
    (h : (first_pass_scan (first_pass_init gda_create) lines).symbol_table = gda_create) :
    (first_pass_scan (first_pass_init gda_create) lines).in_table = none := by
  induction lines using List.reverseRecOn with
  | nil => rfl
  | append_singleton lines last ih =>
    rw [first_pass_scan_append] at h ⊢
    have hs := first_pass_line_step (first_pass_scan (first_pass_init gda_create) lines) last
    simp only [first_pass_scan, List.foldl_cons, List.foldl_nil] at h ⊢
    rw [show List.foldl first_pass_line (first_pass_init gda_create) lines =
      first_pass_scan (first_pass_init gda_create) lines from rfl] at h ⊢
    rw [h] at hs
    have ht := table_step_create hs
    exact first_pass_line_in_table _ _ ht (ih ht)

/-- Pass 1 has no defined result on any program that leaves the symbol table
empty: the closing loop reads `in_table->sym_type` at the first slot with
`in_table` null. -/
theorem first_pass_no_symbol_undefined (am_file : List Char)
    (h : (first_pass_scan (first_pass_init gda_create) (file_lines am_file)).symbol_table =
      gda_create) :
    assembler_first_pass_symbol_table gda_create am_file = none := by
  have hi := first_pass_scan_no_symbol _ h
  unfold assembler_first_pass_symbol_table first_pass_finish
  rw [h, hi]
  rfl

theorem and_0x2000_ne_zero (code : Nat) : (code &&& 0x2000 ≠ 0) ↔ code.testBit 13 = true := by
  have h := Nat.and_two_pow code 13
  norm_num at h
  rw [h]
  cases code.testBit 13 <;> simp

theorem out_print_bits_length (n code : Nat) : (out_print_bits n code).length = n := by
  induction n generalizing code with
  | zero => rfl
  | succ n ih => simp [out_print_bits, ih]

theorem out_print_bits_get (n : Nat) : ∀ (code k : Nat), k < n → n ≤ 14 →
    (out_print_bits n code).get? k = some (if code.testBit (13 - k) then '/' else '.') := by
  induction n with
  | zero => intro code k hk; omega
  | succ n ih =>
    intro code k hk hn
    cases k with
    | zero =>
      simp only [out_print_bits, List.get?_cons_zero, and_0x2000_ne_zero]
    | succ k =>
      simp only [out_print_bits, List.get?_cons_succ]
      rw [ih _ k (by omega) (by omega)]
      have : (code <<< 1 % 65536).testBit (13 - k) = code.testBit (13 - (k + 1)) := by
        rw [show (65536 : Nat) = 2 ^ 16 from rfl, Nat.testBit_mod_two_pow, Nat.testBit_shiftLeft]
        have h1 : 13 - k < 16 := by omega
        have h2 : 13 - k ≥ 1 := by omega
        simp [h1, h2]
        congr 1
        omega
      rw [this]

theorem glyphs_value_bits (n : Nat) : ∀ (code acc : Nat), n ≤ 14 →
    (out_print_bits n code).foldl (fun acc c => 2 * acc + (if c = '/' then 1 else 0)) acc =
      acc * 2 ^ n + (code % 2 ^ 14) / 2 ^ (14 - n) := by
  induction n with
  | zero =>
    intro code acc _
    simp only [out_print_bits, List.foldl_nil]
    have : code % 2 ^ 14 / 2 ^ (14 - 0) = 0 := by
      apply Nat.div_eq_of_lt
      exact Nat.mod_lt _ (by norm_num)
    omega
  | succ n ih =>
    intro code acc hn
    simp only [out_print_bits, List.foldl_cons]
    rw [ih _ _ (by omega)]
    have hb : (code &&& 0x2000 ≠ 0) ↔ code / 8192 % 2 = 1 := by
      rw [and_0x2000_ne_zero, Nat.testBit_to_div_mod]
      simp
    by_cases hc : code &&& 0x2000 ≠ 0
    · have h1 := hb.1 hc
      rw [if_pos hc, if_pos rfl]
      simp only [Nat.shiftLeft_eq]
      have hn' : n ≤ 13 := by omega
      interval_cases n <;> norm_num <;> omega
    · have h1 : code / 8192 % 2 = 0 := by
        have := mt hb.2 hc
        omega
      have hne : ('.' : Char) ≠ '/' := by decide
      rw [if_neg hc, if_neg hne]
      simp only [Nat.shiftLeft_eq]
      have hn' : n ≤ 13 := by omega
      interval_cases n <;> norm_num <;> omega

theorem out_print_word_length (w : Nat) : (out_print_word w).length = 14 :=
  out_print_bits_length _ _

theorem out_print_word_get (w : Nat) (k : Fin 14) :
    (out_print_word w).get? k.val = some (if w.testBit (13 - k.val) then '/' else '.') := by
  unfold out_print_word
  rw [out_print_bits_get 14 _ k.val k.isLt (le_refl _)]
  rw [show (65536 : Nat) = 2 ^ 16 from rfl, Nat.testBit_mod_two_pow]
  have : 13 - k.val < 16 := by omega
  simp [this]

theorem out_print_word_mod (w : Nat) : out_print_word w = out_print_word (w % 2 ^ 14) := by
  apply List.ext_get?
  intro i
  by_cases hi : i < 14
  · rw [out_print_word_get w ⟨i, hi⟩, out_print_word_get (w % 2 ^ 14) ⟨i, hi⟩,
      Nat.testBit_mod_two_pow]
    have : 13 - i < 14 := by omega
    simp [this]
  · rw [List.get?_eq_none.2 (by rw [out_print_word_length]; omega),
      List.get?_eq_none.2 (by rw [out_print_word_length]; omega)]

theorem glyphs_value_out_print_word (w : Nat) :
    glyphs_value (out_print_word w) = w % 2 ^ 14 := by
  unfold glyphs_value out_print_word
  rw [glyphs_value_bits 14 _ 0 (le_refl _)]
  norm_num

/-- The slots `gda_for_each` visits are the slots of the array, in order. -/
theorem gda_for_each_array {α : Type} (g : gda α) : gda_for_each g = g.pointer_array := by
  apply List.ext_get?
  intro i
  simp only [gda_for_each, gda.pointers_count, gda.deref, List.get?_eq_getElem?,
    List.getElem?_map]
  by_cases hi : i < g.pointer_array.length
  · rw [List.getElem?_range hi]
    simp [List.getElem?_eq_getElem hi, Option.join]
  · rw [List.getElem?_eq_none (by simpa using hi), List.getElem?_eq_none (by simpa using hi)]
    rfl

/-- The block `out_print_ob` writes for one array is, word by word in the order
of the array, the glyphs of the word and a newline. -/
theorem out_print_block_elems (it : gda Nat) :
    out_print_block it =
      it.elems.flatMap (fun w => out_print_word w ++ [Char.ofNat 10]) := by
  unfold out_print_block gda.elems
  rw [gda_for_each_array]
  induction it.pointer_array with
  | nil => rfl
  | cons a l ih =>
    cases a with
    | none => simpa [List.flatMap_cons] using ih
    | some w => simp [List.flatMap_cons, ih]

/-- C33.  The text the object-file writer `out_print_ob` writes for the arrays
`bmc_code` and `bmc_data` is the header line with the two sizes, then for every
code word in the order of the array a line of its glyphs, an empty line, for
every data word a line of its glyphs, and an empty line.  The glyphs of a word
`w` are exactly 14; the glyph at place `k`, counted from 0, is `/` when bit
`13 - k` of `w` is set and `.` when it is not; the glyphs are those of
`w mod 2^14`; and read as binary digits, most significant first, they give
`w mod 2^14`. -/
theorem object_word_rendering (bmc_code bmc_data : gda Nat) (w : Nat) :
    out_print_ob bmc_code bmc_data =
        decimal_nat (gda_size bmc_code) ++ [Char.ofNat 9] ++ decimal_nat (gda_size bmc_data) ++
          [Char.ofNat 10] ++
          (bmc_code.elems.flatMap (fun w => out_print_word w ++ [Char.ofNat 10]) ++
            [Char.ofNat 10]) ++
          (bmc_data.elems.flatMap (fun w => out_print_word w ++ [Char.ofNat 10]) ++
            [Char.ofNat 10]) ∧
      (out_print_word w).length = 14 ∧
      (∀ k : Fin 14, (out_print_word w).get? k.val =
        some (if w.testBit (13 - k.val) then '/' else '.')) ∧
      out_print_word w = out_print_word (w % 2 ^ 14) ∧
      glyphs_value (out_print_word w) = w % 2 ^ 14 := by
  refine ⟨?_, out_print_word_length w, out_print_word_get w, out_print_word_mod w,
    glyphs_value_out_print_word w⟩
  unfold out_print_ob
  rw [out_print_block_elems, out_print_block_elems]

theorem assemble_one_run {am : Option (List Char)} {run : file_run}
    (h : assemble_one am = some run) :
    (run.first_pass.isSome ↔ am.isSome) ∧
      (run.second_pass.isSome ↔ run.first_pass = some 0) ∧
      (run.printed.isSome ↔ run.first_pass = some 0 ∧ run.second_pass = some 0) := by
  unfold assemble_one at h
  cases am with
  | none =>
    cases h
    simp
  | some am_file =>
    dsimp only at h
    split at h
    · cases h
    · rename_i e1 tbl h1
      split at h
      · rename_i he1
        split at h
        · cases h
        · rename_i e2 tu h2
          split at h
          · rename_i he2
            cases h
            simp [he1, he2]
          · rename_i he2
            cases h
            simp [he1, he2]
      · rename_i he1
        cases h
        simp [he1]

/-- The unit handed to the output writer for an opened file is the one
`assemble_file` gives. -/
theorem assemble_one_printed (am_file : List Char) :
    (assemble_one (some am_file)).map file_run.printed = assemble_file am_file := by
  unfold assemble_one assemble_file
  dsimp only
  repeat' split
  all_goals simp_all

/-- The record of an opened file gives the values the two passes returned on
it: pass 1 on a fresh table; pass 2, called only when pass 1 returned 0, on the
fresh translation unit with the table pass 1 left; and the unit pass 2 left as
the one printed, only when pass 2 returned 0 too. -/
theorem assemble_one_passes {am_file : List Char} {run : file_run}
    (h : assemble_one (some am_file) = some run) :
    ∃ e1 tbl, assembler_first_pass_symbol_table gda_create am_file = some (e1, tbl) ∧
      run.first_pass = some e1 ∧
      (e1 ≠ 0 → run.second_pass = none ∧ run.printed = none) ∧
      (e1 = 0 →
        ∃ e2 tu, assembler_second_pass
            { assembler_create_new_translation_unit with symbol_table := tbl } am_file =
              some (e2, tu) ∧
          run.second_pass = some e2 ∧ run.printed = if e2 = 0 then some tu else none) := by
  unfold assemble_one at h
  dsimp only at h
  split at h
  · cases h
  · rename_i e1 tbl h1
    refine ⟨e1, tbl, h1, ?_⟩
    split at h
    · rename_i he1
      split at h
      · cases h
      · rename_i e2 tu h2
        split at h
        · rename_i he2
          cases h
          exact ⟨rfl, fun hc => absurd he1 hc, fun _ => ⟨e2, tu, h2, rfl, by rw [if_pos he2]⟩⟩
        · rename_i he2
          cases h
          exact ⟨rfl, fun hc => absurd he1 hc, fun _ => ⟨e2, tu, h2, rfl, by rw [if_neg he2]⟩⟩
    · rename_i he1
      cases h
      exact ⟨rfl, fun _ => ⟨rfl, rfl⟩, fun hc => absurd hc he1⟩

theorem assemble_loop_runs (files : List (Option (List Char))) :
    (∀ runs, assemble_loop files = some runs → files.map assemble_one = runs.map some) ∧
      ((∀ am ∈ files, assemble_one am ≠ none) → ∃ runs, assemble_loop files = some runs) := by
  induction files with
  | nil =>
    refine ⟨?_, fun _ => ⟨[], rfl⟩⟩
    intro runs h
    cases h
    rfl
  | cons am rest ih =>
    constructor
    · intro runs h
      simp only [assemble_loop] at h
      cases h1 : assemble_one am with
      | none =>
        rw [h1] at h
        cases h
      | some run =>
        rw [h1] at h
        obtain ⟨runs', h2, rfl⟩ := Option.map_eq_some'.mp h
        simp [h1, ih.1 runs' h2]
    · intro hall
      cases h1 : assemble_one am with
      | none => exact absurd h1 (hall am (List.mem_cons_self _ _))
      | some run =>
        obtain ⟨runs, h2⟩ := ih.2 (fun a ha => hall a (List.mem_cons_of_mem _ ha))
        exact ⟨run :: runs, by simp [assemble_loop, h1, h2]⟩

/-- The control flow of `assemble` on files on each of which the passes have a
defined result: `assemble` returns, and what it did with the files is, file by
file, what it does with that file alone.  For each file pass 2 was called
exactly when pass 1 returned 0, and the output writer was called exactly when
pass 1 and pass 2 both returned 0. -/
theorem assemble_pass_order (files : List (Option (List Char)))
    (h : ∀ am ∈ files, assemble_one am ≠ none) :
    ∃ runs, assemble files = some (0, runs) ∧
      files.map assemble_one = runs.map some ∧
      ∀ run ∈ runs,
        (run.second_pass.isSome ↔ run.first_pass = some 0) ∧
          (run.printed.isSome ↔ run.first_pass = some 0 ∧ run.second_pass = some 0) := by
  obtain ⟨runs, hr⟩ := (assemble_loop_runs files).2 h
  have hm := (assemble_loop_runs files).1 runs hr
  refine ⟨runs, by simp [assemble, hr], hm, ?_⟩
  intro run hrun
  have : some run ∈ files.map assemble_one := by
    rw [hm]
    exact List.mem_map_of_mem _ hrun
  obtain ⟨am, -, ham⟩ := List.mem_map.1 this
  exact (assemble_one_run ham).2

theorem assemble_pass_order_witness :
    (∀ am ∈ [some syntax_error_program, none, some undefined_operand_program,
        some labeled_stop_program], assemble_one am ≠ none) ∧
      ∃ runs, assemble [some syntax_error_program, none, some undefined_operand_program,
          some labeled_stop_program] = some (0, runs) ∧
        [some syntax_error_program, none, some undefined_operand_program,
          some labeled_stop_program].map assemble_one = runs.map some ∧
        ∀ run ∈ runs,
          (run.second_pass.isSome ↔ run.first_pass = some 0) ∧
            (run.printed.isSome ↔ run.first_pass = some 0 ∧ run.second_pass = some 0) :=
  have h : ∀ am ∈ [some syntax_error_program, none, some undefined_operand_program,
      some labeled_stop_program], assemble_one am ≠ none := by
    decide!
  ⟨h, assemble_pass_order _ h⟩

theorem assemble_returns_zero (files : List (Option (List Char))) (r : Int)
    (runs : List file_run) (h : assemble files = some (r, runs)) : r = 0 := by
  unfold assemble at h
  obtain ⟨_, -, h2⟩ := Option.map_eq_some'.mp h
  simp only [Prod.mk.injEq] at h2
  exact h2.1.symm

/-- C31 (code defect).  `assemble` on two files, the first holding the single
line `foo`, the second the program `A: stop`.  Pass 1 sets the error flag on
the first file and creates no symbol, so its closing loop reads
`in_table->sym_type` with `in_table` null: the run has no defined result and
the second file is not processed.  Alone, or behind a file on which pass 1
fails after it created a symbol, the second file is compiled. -/
theorem assemble_stops_at_file_without_symbol :
    (first_pass_scan (first_pass_init gda_create) (file_lines no_statement_program)).error = 1 ∧
      (first_pass_scan (first_pass_init gda_create)
        (file_lines no_statement_program)).symbol_table = gda_create ∧
      assembler_first_pass_symbol_table gda_create no_statement_program = none ∧
      assemble [some no_statement_program, some labeled_stop_program] = none ∧
      (assemble [some labeled_stop_program]).map
          (fun r => r.2.map (fun run => (run.first_pass, run.second_pass, run.printed.isSome))) =
        some [(some 0, some 0, true)] ∧
      (assemble [some syntax_error_program, some labeled_stop_program]).map
          (fun r => r.2.map (fun run => (run.first_pass, run.second_pass, run.printed.isSome))) =
        some [(some 1, none, false), (some 0, some 0, true)] := by
  decide!

/-- C32 (code defect).  `assemble` on the single file `A: stop`: preprocessing
succeeded, pass 1 and pass 2 return 0 and the output writer is called, so one
file was compiled; the value `assemble` returns is 0. -/
theorem assemble_returns_zero_for_compiled_file :
    (assemble [some labeled_stop_program]).map (fun r => r.1) = some 0 ∧
      (assemble [some labeled_stop_program]).map (fun r => compiled_count r.2) = some 1 ∧
      (assemble [some labeled_stop_program]).map
        (fun r => r.2.map (fun run => (run.first_pass, run.second_pass, run.printed.isSome))) =
        some [(some 0, some 0, true)] := by
  decide!

/-- C37 (code defect).  The line `prn r3` after three different first lines.
After `A: .data 1` the loop counter `i` is 1 and the operand word is `3 << 2`.
After `A: stop` the counter was never assigned, and after `A: mov r1, #5` it
is 2 and the shift count `8 - i * 6` is negative: in both the operand word has
no defined value. -/
theorem single_register_word_depends_on_earlier_lines :
    (assemble_file "A: .data 1\n prn r3\n".toList).map
        (Option.map (fun tu => tu.bmc_code.elems)) = some (some [780, 12]) ∧
      (assembler_first_pass_symbol_table gda_create "A: stop\n prn r3\n".toList).map
        (fun r => r.1) = some 0 ∧
      assemble_file "A: stop\n prn r3\n".toList = none ∧
      (assembler_first_pass_symbol_table gda_create "A: mov r1, #5\n prn r3\n".toList).map
        (fun r => r.1) = some 0 ∧
      assemble_file "A: mov r1, #5\n prn r3\n".toList = none := by
  decide!

theorem constant_word_shifted_by_4096 (c : Int) :
    to_ushort ((c + 4096) * 4) % 2 ^ 14 = to_ushort (c * 4) % 2 ^ 14 := by
  unfold to_ushort
  omega

/-- C39 as amended.  For every two different constants from -2048 to 2047, in
every state of pass 2: the `switch` on the operand tag computes an operand word
for each, `4 c` modulo 2^16; the two words differ in their low 14 bits and the
object-file writer prints different glyphs for them; and the constant is
recovered from the number `v` its glyphs denote as
`(v / 4 + 2048) mod 4096 - 2048`. -/
theorem constant_word_injective_12_bits (st : second_pass_state) (a1 a2 : arg_union)
    (count : Option Int)
    (h1 : -2048 ≤ a1.constant_number ∧ a1.constant_number ≤ 2047)
    (h2 : -2048 ≤ a2.constant_number ∧ a2.constant_number ≤ 2047)
    (hne : a1.constant_number ≠ a2.constant_number) :
    ∃ st1 st2, operand_switch st tag_arg_tag_constant a1 count = some st1 ∧
      operand_switch st tag_arg_tag_constant a2 count = some st2 ∧
      (st1.bmc_code_i : Int) = (a1.constant_number * 4) % 65536 ∧
      (st2.bmc_code_i : Int) = (a2.constant_number * 4) % 65536 ∧
      st1.bmc_code_i % 2 ^ 14 ≠ st2.bmc_code_i % 2 ^ 14 ∧
      out_print_word st1.bmc_code_i ≠ out_print_word st2.bmc_code_i ∧
      a1.constant_number =
        (((glyphs_value (out_print_word st1.bmc_code_i) / 4 + 2048) % 4096 : Nat) : Int) - 2048 ∧
      a2.constant_number =
        (((glyphs_value (out_print_word st2.bmc_code_i) / 4 + 2048) % 4096 : Nat) : Int) -
          2048 := by
  refine ⟨{ st with bmc_code_i := to_ushort (a1.constant_number * 4) },
    { st with bmc_code_i := to_ushort (a2.constant_number * 4) }, rfl, rfl,
    to_ushort_cast _, to_ushort_cast _, ?_, ?_, ?_, ?_⟩
  · show to_ushort (a1.constant_number * 4) % 2 ^ 14 ≠ to_ushort (a2.constant_number * 4) % 2 ^ 14
    unfold to_ushort
    omega
  · show out_print_word (to_ushort (a1.constant_number * 4)) ≠
      out_print_word (to_ushort (a2.constant_number * 4))
    intro h
    have := congrArg glyphs_value h
    rw [glyphs_value_out_print_word, glyphs_value_out_print_word] at this
    unfold to_ushort at this
    omega
  · show a1.constant_number = (((glyphs_value (out_print_word
      (to_ushort (a1.constant_number * 4))) / 4 + 2048) % 4096 : Nat) : Int) - 2048
    rw [glyphs_value_out_print_word]
    unfold to_ushort
    omega
  · show a2.constant_number = (((glyphs_value (out_print_word
      (to_ushort (a2.constant_number * 4))) / 4 + 2048) % 4096 : Nat) : Int) - 2048
    rw [glyphs_value_out_print_word]
    unfold to_ushort
    omega

theorem constant_word_injective_12_bits_witness :
    ∃ st1 st2,
      operand_switch (second_pass_init example_unit) tag_arg_tag_constant
          { constant_number := -2048 } none = some st1 ∧
        operand_switch (second_pass_init example_unit) tag_arg_tag_constant
          { constant_number := 2047 } none = some st2 ∧
        (st1.bmc_code_i : Int) = (-2048 * 4) % 65536 ∧
        (st2.bmc_code_i : Int) = (2047 * 4) % 65536 ∧
        st1.bmc_code_i % 2 ^ 14 ≠ st2.bmc_code_i % 2 ^ 14 ∧
        out_print_word st1.bmc_code_i ≠ out_print_word st2.bmc_code_i ∧
        (-2048 : Int) =
          (((glyphs_value (out_print_word st1.bmc_code_i) / 4 + 2048) % 4096 : Nat) : Int) -
            2048 ∧
        (2047 : Int) =
          (((glyphs_value (out_print_word st2.bmc_code_i) / 4 + 2048) % 4096 : Nat) : Int) -
            2048 :=
  constant_word_injective_12_bits (second_pass_init example_unit) { constant_number := -2048 }
    { constant_number := 2047 } none (by decide) (by decide) (by decide)

/-- Counterexample to C39: the constants 0 and 4096 are both in the accepted
range and different; the programs `A: prn #4096` and `A: prn #0` assemble to the
operand words 16384 and 0, which have the same low 14 bits, and the object
files written for the two programs are the same text. -/
theorem constant_4096_printed_as_0 :
    (assemble_file "A: prn #4096\n".toList).map
        (Option.map (fun tu => tu.bmc_code.elems)) = some (some [768, 16384]) ∧
      (assemble_file "A: prn #0\n".toList).map
        (Option.map (fun tu => tu.bmc_code.elems)) = some (some [768, 0]) ∧
      16384 % 2 ^ 14 = 0 % 2 ^ 14 ∧
      out_print_word 16384 = out_print_word 0 ∧
      (assemble_file "A: prn #4096\n".toList).map
          (Option.map (fun tu => out_print_ob tu.bmc_code tu.bmc_data)) =
        (assemble_file "A: prn #0\n".toList).map
          (Option.map (fun tu => out_print_ob tu.bmc_code tu.bmc_data)) := by
  decide!

/-! ## Pass 1: the names of the symbol table (C34) -/

theorem rebase_symbol_name (IC : Nat) (y : symbol) :
    (rebase_symbol IC y).symbol_name = y.symbol_name := by
  unfold rebase_symbol
  split <;> rfl

theorem rebase_symbol_type (IC : Nat) (y : symbol) :
    (rebase_symbol IC y).sym_type = y.sym_type := by
  unfold rebase_symbol
  split <;> rfl

/-- One line of pass 1 keeps the names of the table pairwise different. -/
theorem table_step_names {origin : Option symbol → symbol → Prop} {g g' : gda symbol}
    {l : List symbol} (h : table_step origin g g') (hl : g.holds l)
    (hn : (l.map symbol.symbol_name).Nodup) :
    ∃ l', g'.holds l' ∧ (l'.map symbol.symbol_name).Nodup := by
  rcases h with h | ⟨x, hf, h, -⟩ | ⟨slot, y, f, -, -, hname, h, -⟩
  · exact ⟨l, h ▸ hl, hn⟩
  · refine ⟨l ++ [x], h ▸ gda_insert_holds hl x, ?_⟩
    rw [find_symbol_holds hl, List.find?_eq_none] at hf
    rw [List.map_append, List.nodup_append]
    refine ⟨hn, by simp, ?_⟩
    intro a ha hb
    simp only [List.map_cons, List.map_nil, List.mem_singleton] at hb
    obtain ⟨z, hz, rfl⟩ := List.mem_map.1 ha
    exact hf z hz (by simp [symbol_named, hb])
  · refine ⟨l.modify f slot, h ▸ gda_modify_holds hl slot f, ?_⟩
    rw [map_modify_of_preserved symbol.symbol_name f hname]
    exact hn

theorem first_pass_scan_names (lines : List (List Char)) :
    ∃ l, (first_pass_state_after lines).symbol_table.holds l ∧
      (l.map symbol.symbol_name).Nodup := by
  induction lines using List.reverseRecOn with
  | nil => exact ⟨[], gda_create_holds, List.nodup_nil⟩
  | append_singleton lines last ih =>
    obtain ⟨l, hl, hn⟩ := ih
    have hs := first_pass_line_step (first_pass_state_after lines) last
    have : first_pass_state_after (lines ++ [last]) =
        first_pass_line (first_pass_state_after lines) last := by
      simp [first_pass_state_after, first_pass_scan, List.foldl_append]
    rw [this]
    exact table_step_names hs hl hn

theorem first_pass_finish_empty (st : first_pass_state) (h : st.symbol_table.holds []) :
    first_pass_finish st = none := by
  obtain ⟨k, hp, -, hpos⟩ := h
  simp only [List.map_nil, List.nil_append, List.length_nil, Nat.zero_add] at hp hpos
  obtain ⟨k', rfl⟩ : ∃ k', k = k' + 1 := ⟨k - 1, by omega⟩
  have hd : ∀ p, st.symbol_table.deref p = none := by
    intro p
    simp only [gda.deref, hp]
    by_cases hp' : p < k' + 1
    · simp [List.getElem?_replicate, hp']
    · simp [List.getElem?_replicate, hp']
  unfold first_pass_finish
  rw [gda.pointers_count, hp, List.length_replicate, List.range_succ_eq_map]
  simp only [first_pass_post, first_pass_post_step, hd]
  cases st.in_table <;> rfl

theorem first_pass_final_names (am_file : List Char) (e : Int) (tbl : gda symbol)
    (h : assembler_first_pass_symbol_table gda_create am_file = some (e, tbl)) :
    ∃ l, (first_pass_state_after (file_lines am_file)).symbol_table.holds l ∧
      (l.map symbol.symbol_name).Nodup ∧ l ≠ [] ∧
      tbl.holds (l.map (rebase_symbol (first_pass_state_after (file_lines am_file)).IC)) := by
  obtain ⟨l, hl, hn⟩ := first_pass_scan_names (file_lines am_file)
  unfold assembler_first_pass_symbol_table at h
  obtain ⟨ps, hps, hpe⟩ := Option.map_eq_some'.mp h
  simp only [Prod.mk.injEq] at hpe
  have hne : l ≠ [] := by
    rintro rfl
    have := first_pass_finish_empty _ hl
    rw [first_pass_state_after] at this
    rw [this] at hps
    cases hps
  obtain ⟨ps', k, hf, -, hh, -⟩ := first_pass_finish_holds _ l hl hne
  rw [first_pass_state_after] at hf
  rw [hf] at hps
  cases hps
  exact ⟨l, hl, hn, hne, hpe.2 ▸ hh⟩

/-- C34.  After any number of lines of pass 1 on a fresh symbol table no two
symbols of the table have the same name, and when pass 1 returns the same holds
of the table it leaves. -/
theorem symbol_names_unique (am_file : List Char) :
    (∀ lines : List (List Char),
        ((first_pass_state_after lines).symbol_table.elems.map symbol.symbol_name).Nodup) ∧
      ∀ (e : Int) (tbl : gda symbol),
        assembler_first_pass_symbol_table gda_create am_file = some (e, tbl) →
        (tbl.elems.map symbol.symbol_name).Nodup := by
  constructor
  · intro lines
    obtain ⟨l, hl, hn⟩ := first_pass_scan_names lines
    rw [gda_elems_holds hl]
    exact hn
  · intro e tbl h
    obtain ⟨l, -, hn, -, ht⟩ := first_pass_final_names am_file e tbl h
    rw [gda_elems_holds ht, List.map_map]
    have : symbol.symbol_name ∘ rebase_symbol
        (first_pass_state_after (file_lines am_file)).IC = symbol.symbol_name := by
      funext y
      exact rebase_symbol_name _ y
    rw [this]
    exact hn

theorem symbol_names_unique_witness :
    assembler_first_pass_symbol_table gda_create example_program =
        some (0, example_symbol_table) ∧
      (example_symbol_table.elems.map symbol.symbol_name).Nodup :=
  have h : assembler_first_pass_symbol_table gda_create example_program =
      some (0, example_symbol_table) := by decide!
  ⟨h, (symbol_names_unique example_program).2 0 example_symbol_table h⟩

/-! ## Pass 2: the addresses of the extern-usage map (C38) -/

theorem extern_address_ok_append {tbl : gda symbol} {code : List Nat} {X : List Char} {a : Nat}
    (ws : List Nat) (h : extern_address_ok tbl code X a) :
    extern_address_ok tbl (code ++ ws) X a := by
  obtain ⟨hx, n, ha, hn⟩ := h
  refine ⟨hx, n, ha, ?_⟩
  rw [List.get?_eq_getElem?] at hn ⊢
  have hlt : n < code.length := by
    by_contra hge
    rw [List.getElem?_eq_none (by omega)] at hn
    cases hn
  rw [List.getElem?_append_left hlt]
  exact hn

theorem mem_refs_of_line_refs {tbl : gda symbol} {n : Nat} {s : syntax_struct} {X : List Char}
    {a : Nat} (h : a ∈ refs_of (line_refs tbl n s) X) :
    s.dir_or_inst_tag = tag_inst ∧
      ∃ slot ∈ operand_slots tbl s, slot.1 = tag_arg_tag_symbol ∧ slot.2.1.symbol = X ∧
        is_external tbl slot.2.1.symbol = true ∧ a = (n + slot.2.2 + PROG_BASE_ADDR) % 65536 := by
  unfold refs_of at h
  obtain ⟨r, hr, rfl⟩ := List.mem_map.1 h
  obtain ⟨hr1, hr2⟩ := List.mem_filter.1 hr
  unfold line_refs at hr1
  by_cases ht : s.dir_or_inst_tag = tag_inst
  · rw [if_pos ht] at hr1
    unfold inst_refs at hr1
    obtain ⟨slot, hslot, hmem⟩ := List.mem_flatMap.1 hr1
    unfold operand_refs at hmem
    split at hmem
    · rename_i hc
      simp only [List.mem_singleton] at hmem
      subst hmem
      refine ⟨ht, slot, hslot, hc.1, by simpa using hr2, hc.2, rfl⟩
    · cases hmem
  · rw [if_neg ht] at hr1
    cases hr1

/-- One line of pass 2 keeps every address of the extern-usage map the address
of a code word 1 of an external symbol. -/
theorem second_pass_line_extern_addresses (st st' : second_pass_state) (line : List Char)
    (code : List Nat) (h : second_pass_line st line = some st')
    (hc : st.t_unit.bmc_code.holds code) (hu : extern_usage_ok st.t_unit.extern_usage)
    (hi : ∀ X a, a ∈ extern_addresses st.t_unit X →
      extern_address_ok st.t_unit.symbol_table code X a) :
    ∃ ws, st'.t_unit.bmc_code.holds (code ++ ws) ∧ extern_usage_ok st'.t_unit.extern_usage ∧
      st'.t_unit.symbol_table = st.t_unit.symbol_table ∧
      ∀ X a, a ∈ extern_addresses st'.t_unit X →
        extern_address_ok st.t_unit.symbol_table (code ++ ws) X a := by
  obtain ⟨-, ws, e, -, hinst⟩ := second_pass_line_effect st st' line h
  obtain ⟨hu', haddr⟩ := e.2.2.2.1 hu
  refine ⟨ws, e.2.2.1 code hc, hu', e.1, ?_⟩
  intro X a ha
  rw [haddr X, List.mem_append] at ha
  rcases ha with ha | ha
  · exact extern_address_ok_append ws (hi X a ha)
  · obtain ⟨ht, slot, hslot, hs1, hs2, hs3, hs4⟩ := mem_refs_of_line_refs ha
    obtain ⟨ws', -, hw⟩ := hinst ht
    have h1 := hw slot hslot hs1 hs3
    refine ⟨hs2 ▸ hs3, gda_size st.t_unit.bmc_code + slot.2.2, hs4, ?_⟩
    rw [gda_size_holds hc, List.get?_eq_getElem?,
      List.getElem?_append_right (Nat.le_add_right _ _), Nat.add_sub_cancel_left,
      ← List.get?_eq_getElem?]
    exact h1

theorem second_pass_scan_extern_addresses (lines : List (List Char)) :
    ∀ (st st' : second_pass_state) (code : List Nat),
      second_pass_scan lines st = some st' →
      st.t_unit.bmc_code.holds code → extern_usage_ok st.t_unit.extern_usage →
      (∀ X a, a ∈ extern_addresses st.t_unit X →
        extern_address_ok st.t_unit.symbol_table code X a) →
      ∃ ws, st'.t_unit.bmc_code.holds (code ++ ws) ∧
        ∀ X a, a ∈ extern_addresses st'.t_unit X →
          extern_address_ok st.t_unit.symbol_table (code ++ ws) X a := by
  induction lines with
  | nil =>
    intro st st' code h hc _ hi
    cases h
    exact ⟨[], by simpa using hc, by simpa using hi⟩
  | cons line rest ih =>
    intro st st' code h hc hu hi
    simp only [second_pass_scan] at h
    cases h1 : second_pass_line st line with
    | none =>
      rw [h1] at h
      cases h
    | some st1 =>
      rw [h1] at h
      obtain ⟨ws1, hc1, hu1, ht1, hi1⟩ :=
        second_pass_line_extern_addresses st st1 line code h1 hc hu hi
      obtain ⟨ws2, hc2, hi2⟩ := ih st1 st' (code ++ ws1) h hc1 hu1 (by rw [ht1]; exact hi1)
      refine ⟨ws1 ++ ws2, by rw [← List.append_assoc]; exact hc2, ?_⟩
      intro X a ha
      rw [← List.append_assoc, ← ht1]
      exact hi2 X a ha

theorem second_pass_scan_snoc {st st1 st' : second_pass_state} {lines : List (List Char)}
    {line : List Char} (h1 : second_pass_scan lines st = some st1)
    (h2 : second_pass_line st1 line = some st') :
    second_pass_scan (lines ++ [line]) st = some st' := by
  rw [second_pass_scan_append, h1, Option.some_bind, second_pass_scan_cons _ h2]
  rfl

/-- C38 as amended.  For every program and every address `a` the
extern-usage map holds under a name `X` after pass 2 on a fresh translation
unit with the symbol table `tbl`: `X` is external in `tbl`, and `a` is
`(n + 100) mod 2^16` for an index `n` at which the code holds the word 1.
When the code has at most 65436 words, `a` is at least 100 and the code word at
the index `a - 100` is 1. -/
theorem extern_usage_addresses (tbl : gda symbol) (am_file : List Char) (err : Int)
    (tu' : translation_unit)
    (h : assembler_second_pass
      { assembler_create_new_translation_unit with symbol_table := tbl } am_file =
        some (err, tu'))
    (X : List Char) (a : Nat) (ha : a ∈ extern_addresses tu' X) :
    is_external tbl X = true ∧
      (∃ n, a = (n + 100) % 65536 ∧ tu'.bmc_code.elems.get? n = some 1) ∧
      (gda_size tu'.bmc_code ≤ 65436 →
        100 ≤ a ∧ tu'.bmc_code.elems.get? (a - 100) = some 1) := by
  obtain ⟨st', hs, -, rfl⟩ := assembler_second_pass_some h
  obtain ⟨ws, hc, hi⟩ := second_pass_scan_extern_addresses _ _ st' [] hs gda_create_holds
    extern_usage_ok_create (by
      intro X a ha
      simp [extern_addresses, extern_entry, second_pass_init,
        assembler_create_new_translation_unit, gda.elems, gda_create] at ha)
  obtain ⟨hx, n, hn, hw⟩ := hi X a ha
  simp only [List.nil_append] at hc hw
  rw [gda_elems_holds hc, gda_size_holds hc]
  refine ⟨hx, ⟨n, hn, hw⟩, ?_⟩
  intro hsize
  have hlt : n < ws.length := by
    by_contra hge
    rw [List.get?_eq_getElem?, List.getElem?_eq_none (by omega)] at hw
    cases hw
  have hmod : (n + PROG_BASE_ADDR) % 65536 = n + 100 := by
    unfold PROG_BASE_ADDR
    omega
  rw [hn, hmod]
  refine ⟨by omega, ?_⟩
  rw [Nat.add_sub_cancel]
  exact hw

theorem extern_usage_addresses_witness :
    assembler_second_pass
        { assembler_create_new_translation_unit with
          symbol_table := extern_twice_start.symbol_table } extern_twice_program =
        some (0, extern_twice_unit) ∧
      (103 : Nat) ∈ extern_addresses extern_twice_unit "X".toList ∧
      is_external extern_twice_start.symbol_table "X".toList = true ∧
      (∃ n, 103 = (n + 100) % 65536 ∧ extern_twice_unit.bmc_code.elems.get? n = some 1) ∧
      (gda_size extern_twice_unit.bmc_code ≤ 65436 →
        100 ≤ 103 ∧ extern_twice_unit.bmc_code.elems.get? (103 - 100) = some 1) :=
  have h : assembler_second_pass
      { assembler_create_new_translation_unit with
        symbol_table := extern_twice_start.symbol_table } extern_twice_program =
      some (0, extern_twice_unit) := by decide!
  have ha : (103 : Nat) ∈ extern_addresses extern_twice_unit "X".toList := by decide!
  ⟨h, ha, extern_usage_addresses _ _ _ _ h _ _ ha⟩

/-- Counterexample to C38, on the file of the line `.extern X` followed by 32719
lines `prn X`: pass 2 returns with 65438 code words, the extern-usage map holds
the address 1 for `X`, which is less than 100, and the word 1 it stands for is
at the index 65437 of the code. -/
theorem extern_usage_address_below_100 :
    ∃ st', second_pass_scan (extern_X_line :: List.replicate 32719 prn_X_line)
          (second_pass_init extern_twice_start) = some st' ∧
        (1 : Nat) ∈ extern_addresses st'.t_unit "X".toList ∧
        st'.t_unit.bmc_code.elems.get? 65437 = some 1 ∧
        gda_size st'.t_unit.bmc_code = 65438 := by
  have hfix : fgets_store (lang_engine_create_ss_from_logical_line prn_X_buffer).2 prn_X_line =
      prn_X_buffer := by decide!
  have ht : (lang_engine_create_ss_from_logical_line prn_X_buffer).1.dir_or_inst_tag =
      tag_inst := by decide!
  have hB : is_i_tag_groupB
      (lang_engine_create_ss_from_logical_line prn_X_buffer).1.cpu_inst.i_tag = true := by
    decide!
  have h1 : (lang_engine_create_ss_from_logical_line prn_X_buffer).1.cpu_inst.group_B.arg_options ≠
      tag_arg_2_args_with_symbol := by decide!
  have h2 : (lang_engine_create_ss_from_logical_line
      prn_X_buffer).1.cpu_inst.group_B.rest_of_group_b.arg_opt = tag_arg_tag_symbol := by
    decide!
  have hsym : (lang_engine_create_ss_from_logical_line
      prn_X_buffer).1.cpu_inst.group_B.rest_of_group_b.arg_option.symbol = "X".toList := by
    decide!
  have hx : is_external extern_twice_start.symbol_table
      (lang_engine_create_ss_from_logical_line
        prn_X_buffer).1.cpu_inst.group_B.rest_of_group_b.arg_option.symbol = true := by
    decide!
  obtain ⟨stE, hE⟩ : ∃ stE, second_pass_line (second_pass_init extern_twice_start)
      extern_X_line = some stE :=
    second_pass_line_defined _ _ (by unfold addresses_assigned; decide!)
      (by simp only [line_defined, single_register_form]; decide!)
  obtain ⟨hbE, ws, eE, hws, -⟩ := second_pass_line_effect _ stE _ hE
  have hws0 : ws = [] := hws (by decide!)
  subst hws0
  have hcE : stE.t_unit.bmc_code.holds ([] ++ []) := eE.2.2.1 [] gda_create_holds
  have huE := (eE.2.2.2.1 extern_usage_ok_create).1
  obtain ⟨st1, c1, hs1, b1, t1, u1, hc1, l1⟩ := second_pass_scan_repeat prn_X_line prn_X_buffer
    extern_twice_start.symbol_table hfix ht hB h1 h2 hx 32718 stE _
    (by rw [hbE]; rfl) eE.1 huE hcE
  have hp : second_pass_parse st1 prn_X_line =
      (lang_engine_create_ss_from_logical_line prn_X_buffer).1 := by
    unfold second_pass_parse
    rw [b1]
  obtain ⟨st', hl, e⟩ := second_pass_line_single_external st1 prn_X_line (by rw [hp]; exact ht)
    (by rw [hp]; exact hB) (by rw [hp]; exact h1) (by rw [hp]; exact h2)
    (by rw [hp, t1]; exact hx)
  have hlen : c1.length = 65436 := by
    rw [l1]
    rfl
  have hsize : gda_size st1.t_unit.bmc_code = 65436 := by
    rw [gda_size_holds hc1, hlen]
  refine ⟨st', ?_, ?_, ?_, ?_⟩
  · have hsplit : extern_X_line :: List.replicate 32719 prn_X_line =
        (extern_X_line :: List.replicate 32718 prn_X_line) ++ [prn_X_line] :=
      congrArg (List.cons extern_X_line) (List.replicate_succ' 32718 prn_X_line)
    rw [hsplit]
    exact second_pass_scan_snoc ((second_pass_scan_cons _ hE).trans hs1) hl
  · rw [(e.2.2.2.1 u1).2, hp, hsym, hsize]
    exact List.mem_append_right _ (by decide)
  · rw [gda_elems_holds (e.2.2.1 c1 hc1)]
    rw [List.get?_eq_getElem?, List.getElem?_append_right (by omega), hlen]
    rfl
  · rw [e.2.1, hsize]
    rfl

/-! ## The two passes agree on the layout of the code (C36) -/

theorem first_pass_switch_buffer (s : syntax_struct) (st : first_pass_state) :
    (first_pass_switch s st).buffer = st.buffer := by
  unfold first_pass_switch first_pass_inst_label first_pass_dir first_pass_dir_lookup
    first_pass_extern_dir first_pass_entry_dir first_pass_data
  dsimp only
  repeat' split
  all_goals rfl

theorem first_pass_line_buffer (st : first_pass_state) (line : List Char) :
    (first_pass_line st line).buffer =
      (lang_engine_create_ss_from_logical_line (fgets_store st.buffer line)).2 := by
  unfold first_pass_line
  dsimp only
  rw [first_pass_switch_buffer]

theorem operand_loop_words_length {tbl : gda symbol} {args : argument_option × argument_option}
    {opts : arg_union × arg_union} {stale : Nat} {ws : List Nat}
    (h : operand_loop_words tbl args opts stale = some ws) : ws.length = 2 := by
  unfold operand_loop_words at h
  obtain ⟨w1, -, h⟩ := Option.bind_eq_some.1 h
  obtain ⟨w2, -, rfl⟩ := Option.map_eq_some'.mp h
  rfl

/-- The words pass 2 appends for an instruction none of whose symbols is
undefined are as many as pass 1 counts for it. -/
theorem inst_operand_words_length {tbl : gda symbol} {s : syntax_struct} {i : Option Int}
    {ws : List Nat} (h : inst_operand_words tbl s i = some ws)
    (hu : inst_undefined tbl s = false) : ws.length + 1 = first_pass_inst_words s := by
  unfold inst_operand_words at h
  unfold first_pass_inst_words
  dsimp only
  by_cases hA : is_i_tag_groupA s.cpu_inst.i_tag = true
  · rw [if_pos hA] at h ⊢
    by_cases hr : s.cpu_inst.group_A.left_and_right_args.1 = tag_arg_tag_register ∧
        s.cpu_inst.group_A.left_and_right_args.2 = tag_arg_tag_register
    · rw [if_pos hr] at h ⊢
      cases h
      rfl
    · rw [if_neg hr] at h ⊢
      rw [operand_loop_words_length h]
  · rw [if_neg hA] at h ⊢
    by_cases hB : is_i_tag_groupB s.cpu_inst.i_tag = true
    · rw [if_pos hB] at h ⊢
      by_cases hi : s.cpu_inst.group_B.arg_options = tag_arg_2_args_with_symbol
      · rw [if_pos hi] at h ⊢
        have hfound : (find_symbol tbl s.cpu_inst.group_B.arg_2_symbol.symbol).isSome = true := by
          have hmem : ((tag_arg_tag_symbol, ({ symbol := s.cpu_inst.group_B.arg_2_symbol.symbol } :
              arg_union), 1) : argument_option × arg_union × Nat) ∈ operand_slots tbl s := by
            simp [operand_slots, hA, hB, hi]
          unfold inst_undefined at hu
          rw [List.any_eq_false] at hu
          have := hu _ hmem
          simpa [operand_undefined, Option.isNone_iff_eq_none, Option.isSome_iff_exists,
            Option.ne_none_iff_exists'] using this
        obtain ⟨wb, -, h⟩ := Option.bind_eq_some.1 h
        rw [if_pos hfound] at h
        by_cases hr : s.cpu_inst.group_B.arg_2_symbol.left_and_right_args.1 =
            tag_arg_tag_register ∧
            s.cpu_inst.group_B.arg_2_symbol.left_and_right_args.2 = tag_arg_tag_register
        · rw [if_pos hr] at h ⊢
          cases h
          rfl
        · rw [if_neg hr] at h ⊢
          obtain ⟨ws', hws', rfl⟩ := Option.map_eq_some'.mp h
          simp [operand_loop_words_length hws']
      · rw [if_neg hi] at h ⊢
        obtain ⟨w, -, rfl⟩ := Option.map_eq_some'.mp h
        rfl
    · rw [if_neg hB] at h ⊢
      cases h
      rfl

/-- One line of pass 2 that leaves the error flag 0 appends as many code words
as pass 1 adds to `IC` for the line. -/
theorem second_pass_line_in_step (st1 : first_pass_state) (st2 st2' : second_pass_state)
    (line : List Char) (code : List Nat) (hb : st1.buffer = st2.buffer)
    (h : second_pass_line st2 line = some st2') (he : st2'.error = 0)
    (hc : st2.t_unit.bmc_code.holds code) :
    (first_pass_line st1 line).buffer = st2'.buffer ∧ st2.error = 0 ∧
      st2'.t_unit.symbol_table = st2.t_unit.symbol_table ∧
      first_pass_parse st1 line = second_pass_parse st2 line ∧
      ∃ ws, st2'.t_unit.bmc_code.holds (code ++ ws) ∧
        (first_pass_line st1 line).IC = st1.IC + ws.length ∧
        ((second_pass_parse st2 line).dir_or_inst_tag = tag_inst →
          ws.head? = some (opcode_word (second_pass_parse st2 line))) := by
  have hparse : first_pass_parse st1 line = second_pass_parse st2 line := by
    unfold first_pass_parse second_pass_parse
    rw [hb]
  obtain ⟨hbuf, ws, e, hnon, -⟩ := second_pass_line_effect st2 st2' line h
  have herr := e.2.2.2.2
  have hlu : line_undefined st2.t_unit.symbol_table (second_pass_parse st2 line) = false := by
    by_contra hne
    rw [Bool.not_eq_false] at hne
    rw [if_pos hne, he] at herr
    cases herr
  have he2 : st2.error = 0 := by
    rw [hlu, he] at herr
    simpa using herr.symm
  refine ⟨by rw [first_pass_line_buffer, hbuf, hb], he2, e.1, hparse, ws, e.2.2.1 code hc, ?_, ?_⟩
  · rw [first_pass_line_IC, hparse]
    by_cases ht : (second_pass_parse st2 line).dir_or_inst_tag = tag_inst
    · rw [if_pos ht]
      obtain ⟨ws', hws', hel⟩ := second_pass_line_words st2 st2' line code hc ht h
      rw [gda_elems_holds (e.2.2.1 code hc)] at hel
      have hws : ws = opcode_word (second_pass_parse st2 line) :: ws' :=
        List.append_cancel_left hel
      have hiu : inst_undefined st2.t_unit.symbol_table (second_pass_parse st2 line) = false := by
        simpa [line_undefined, ht] using hlu
      rw [hws, List.length_cons, inst_operand_words_length hws' hiu]
    · rw [if_neg ht, hnon ht]
      rfl
  · intro ht
    obtain ⟨ws', -, hel⟩ := second_pass_line_words st2 st2' line code hc ht h
    rw [gda_elems_holds (e.2.2.1 code hc)] at hel
    rw [List.append_cancel_left hel]
    rfl

/-- A stretch of pass 2 that leaves the error flag 0 appends as many code words
as pass 1 adds to `IC` over the same lines, when both passes find the same line
buffer at the start. -/
theorem second_pass_scan_in_step (lines : List (List Char)) :
    ∀ (st1 : first_pass_state) (st2 st2' : second_pass_state) (code : List Nat),
      st1.buffer = st2.buffer → second_pass_scan lines st2 = some st2' → st2'.error = 0 →
      st2.t_unit.bmc_code.holds code →
      (first_pass_scan st1 lines).buffer = st2'.buffer ∧ st2.error = 0 ∧
        st2'.t_unit.symbol_table = st2.t_unit.symbol_table ∧
        ∃ ws, st2'.t_unit.bmc_code.holds (code ++ ws) ∧
          (first_pass_scan st1 lines).IC = st1.IC + ws.length := by
  induction lines with
  | nil =>
    intro st1 st2 st2' code hb h he hc
    cases h
    exact ⟨hb, he, rfl, [], by simpa using hc, rfl⟩
  | cons line rest ih =>
    intro st1 st2 st2' code hb h he hc
    simp only [second_pass_scan] at h
    cases h1 : second_pass_line st2 line with
    | none =>
      rw [h1] at h
      cases h
    | some st2a =>
      rw [h1] at h
      obtain ⟨hbuf, ws0, e, -, -⟩ := second_pass_line_effect st2 st2a line h1
      have hc0 := e.2.2.1 code hc
      obtain ⟨hb', he', ht', ws', hc', hIC'⟩ :=
        ih (first_pass_line st1 line) st2a st2' (code ++ ws0)
          (by rw [first_pass_line_buffer, hb, hbuf]) h he hc0
      obtain ⟨-, he2, ht2, -, ws, hcw, hICw, -⟩ :=
        second_pass_line_in_step st1 st2 st2a line code hb h1 he' hc
      have hws : ws0 = ws := by
        have := (gda_elems_holds hc0).symm.trans (gda_elems_holds hcw)
        exact List.append_cancel_left this
      subst hws
      refine ⟨hb', he2, ht'.trans ht2, ws0 ++ ws', by rw [← List.append_assoc]; exact hc', ?_⟩
      rw [first_pass_scan_cons, hIC', hICw, List.length_append]
      omega

theorem find?_of_nodup_names {l : List symbol} (hn : (l.map symbol.symbol_name).Nodup)
    {y : symbol} (hy : y ∈ l) : l.find? (symbol_named y.symbol_name) = some y := by
  induction l with
  | nil => cases hy
  | cons a l ih =>
    rw [List.map_cons, List.nodup_cons] at hn
    rcases List.mem_cons.1 hy with rfl | hy'
    · simp [List.find?_cons, symbol_named]
    · have hne : a.symbol_name ≠ y.symbol_name := by
        intro heq
        exact hn.1 (heq ▸ List.mem_map_of_mem _ hy')
      simp only [List.find?_cons, symbol_named, hne, decide_False]
      exact ih hn.2 hy'

theorem second_pass_scan_error_zero {lines : List (List Char)} {st st' : second_pass_state}
    (h : second_pass_scan lines st = some st') (he : st'.error = 0) : st.error = 0 := by
  by_contra hne
  exact ((second_pass_scan_flag lines st st' h).2.2 (Or.inl hne)) he

/-- C36.  For every program on which pass 1 and pass 2 both return 0: at every
line, the number of code words pass 2 has emitted before the line, plus 100, is
the value of `IC` with which pass 1 reached the line, and the same holds after
the line, so the line makes pass 2 append as many code words as pass 1 adds to
`IC` for it; the final `IC` is 100 plus the number of code words; and every
Code or CodeEntry symbol of the table labels an instruction line, its address is
100 plus the number `k` of code words emitted before that line, and the code
word at the index `k` is the opcode word of that line. -/
theorem passes_agree_on_code_layout (am_file : List Char) (tbl : gda symbol)
    (tu' : translation_unit)
    (h1 : assembler_first_pass_symbol_table gda_create am_file = some (0, tbl))
    (h2 : assembler_second_pass
      { assembler_create_new_translation_unit with symbol_table := tbl } am_file =
        some (0, tu')) :
    (∀ pre line post, file_lines am_file = pre ++ line :: post →
        ∃ st st', second_pass_scan pre (second_pass_init
              { assembler_create_new_translation_unit with symbol_table := tbl }) = some st ∧
          second_pass_line st line = some st' ∧
          second_pass_parse st line = first_pass_parse (first_pass_state_after pre) line ∧
          gda_size st.t_unit.bmc_code + 100 = (first_pass_state_after pre).IC ∧
          gda_size st'.t_unit.bmc_code + 100 =
            (first_pass_line (first_pass_state_after pre) line).IC) ∧
      (first_pass_state_after (file_lines am_file)).IC = 100 + gda_size tu'.bmc_code ∧
      ∀ y ∈ tbl.elems, (y.sym_type = sym_type_code ∨ y.sym_type = sym_type_code_entry) →
        ∃ pre line post st, file_lines am_file = pre ++ line :: post ∧
          (first_pass_parse (first_pass_state_after pre) line).dir_or_inst_tag = tag_inst ∧
          (first_pass_parse (first_pass_state_after pre) line).symbol = y.symbol_name ∧
          second_pass_scan pre (second_pass_init
              { assembler_create_new_translation_unit with symbol_table := tbl }) = some st ∧
          y.addr = some (100 + gda_size st.t_unit.bmc_code) ∧
          tu'.bmc_code.elems.get? (gda_size st.t_unit.bmc_code) =
            some (opcode_word (first_pass_parse (first_pass_state_after pre) line)) := by
  obtain ⟨st', hs, herr, rfl⟩ := assembler_second_pass_some h2
  have hinit : (first_pass_init gda_create).buffer = (second_pass_init
      { assembler_create_new_translation_unit with symbol_table := tbl }).buffer := rfl
  have hcode0 : (second_pass_init
      { assembler_create_new_translation_unit with symbol_table := tbl }).t_unit.bmc_code.holds
        [] := gda_create_holds
  -- the state of pass 2 at a line
  have hat : ∀ pre line post, file_lines am_file = pre ++ line :: post →
      ∃ st sl wsp wl wpost, second_pass_scan pre (second_pass_init
            { assembler_create_new_translation_unit with symbol_table := tbl }) = some st ∧
        second_pass_line st line = some sl ∧
        second_pass_parse st line = first_pass_parse (first_pass_state_after pre) line ∧
        st.t_unit.bmc_code.holds wsp ∧ (first_pass_state_after pre).IC = 100 + wsp.length ∧
        sl.t_unit.bmc_code.holds (wsp ++ wl) ∧
        (first_pass_line (first_pass_state_after pre) line).IC =
          (first_pass_state_after pre).IC + wl.length ∧
        ((second_pass_parse st line).dir_or_inst_tag = tag_inst →
          wl.head? = some (opcode_word (second_pass_parse st line))) ∧
        st'.t_unit.bmc_code.holds (wsp ++ wl ++ wpost) := by
    intro pre line post hsplit
    rw [hsplit] at hs
    obtain ⟨st, hpre, hrest⟩ := second_pass_scan_split hs
    have hrest' := hrest
    simp only [second_pass_scan] at hrest'
    cases hl : second_pass_line st line with
    | none =>
      rw [hl] at hrest'
      cases hrest'
    | some sl =>
      rw [hl] at hrest'
      have hpost : second_pass_scan post sl = some st' := hrest'
      have he_st : st.error = 0 := second_pass_scan_error_zero hrest herr
      have he_sl : sl.error = 0 := second_pass_scan_error_zero hpost herr
      obtain ⟨hb1, -, -, wsp, hcp, hICp⟩ := second_pass_scan_in_step pre
        (first_pass_init gda_create) _ st [] hinit hpre he_st hcode0
      rw [List.nil_append] at hcp
      obtain ⟨hb2, -, -, hparse, wl, hcl, hICl, hhead⟩ :=
        second_pass_line_in_step (first_pass_state_after pre) st sl line wsp hb1 hl he_sl hcp
      obtain ⟨-, -, -, wpost, hcpost, -⟩ := second_pass_scan_in_step post
        (first_pass_line (first_pass_state_after pre) line) sl st' (wsp ++ wl) hb2 hpost herr hcl
      exact ⟨st, sl, wsp, wl, wpost, hpre, hl, hparse.symm, hcp, hICp, hcl, hICl, hhead, hcpost⟩
  refine ⟨?_, ?_, ?_⟩
  · intro pre line post hsplit
    obtain ⟨st, sl, wsp, wl, wpost, hpre, hl, hparse, hcp, hICp, hcl, hICl, -, -⟩ :=
      hat pre line post hsplit
    refine ⟨st, sl, hpre, hl, hparse, ?_, ?_⟩
    · rw [gda_size_holds hcp, hICp]
      omega
    · rw [gda_size_holds hcl, hICl, hICp, List.length_append]
      omega
  · obtain ⟨-, -, -, ws, hc, hIC⟩ := second_pass_scan_in_step (file_lines am_file)
      (first_pass_init gda_create) _ st' [] hinit hs herr hcode0
    rw [List.nil_append] at hc
    rw [gda_size_holds hc]
    exact hIC
  · intro y hy hty
    obtain ⟨l, hl, hn, -, htbl⟩ := first_pass_final_names am_file 0 tbl h1
    rw [gda_elems_holds htbl] at hy
    obtain ⟨y0, hy0, rfl⟩ := List.mem_map.1 hy
    rw [rebase_symbol_type] at hty
    have hreb : rebase_symbol (first_pass_state_after (file_lines am_file)).IC y0 = y0 := by
      unfold rebase_symbol
      rw [if_neg]
      rintro (hd | hd) <;> rcases hty with hc | hc <;> rw [hd] at hc <;> cases hc
    rw [hreb]
    have hfind : find_symbol (first_pass_state_after (file_lines am_file)).symbol_table
        y0.symbol_name = some y0 := by
      rw [find_symbol_holds hl]
      exact find?_of_nodup_names hn hy0
    obtain ⟨pre, line, post, hsplit, hdef, haddr⟩ :=
      (first_pass_scan_recorded (file_lines am_file) _ _ hfind).2 hty
    obtain ⟨st, sl, wsp, wl, wpost, hpre, hl', hparse, hcp, hICp, hcl, hICl, hhead, hcpost⟩ :=
      hat pre line post hsplit
    refine ⟨pre, line, post, st, hsplit, hdef.1, hdef.2.1, hpre, ?_, ?_⟩
    · rw [haddr, hICp, gda_size_holds hcp]
    · rw [gda_size_holds hcp, gda_elems_holds hcpost, ← hparse]
      have hh := hhead (hparse ▸ hdef.1)
      cases wl with
      | nil => cases hh
      | cons w wl' =>
        simp only [List.head?_cons, Option.some.injEq] at hh
        subst hh
        rw [List.append_assoc, List.get?_eq_getElem?,
          List.getElem?_append_right (le_refl _), Nat.sub_self]
        simp

theorem passes_agree_on_code_layout_witness :
    assembler_first_pass_symbol_table gda_create two_labels_program =
        some (0, two_labels_table) ∧
      assembler_second_pass
          { assembler_create_new_translation_unit with symbol_table := two_labels_table }
          two_labels_program = some (0, two_labels_unit) ∧
      (first_pass_state_after (file_lines two_labels_program)).IC =
        100 + gda_size two_labels_unit.bmc_code ∧
      two_labels_unit.bmc_code.elems = [48, 256, 20, 960] :=
  have h1 : assembler_first_pass_symbol_table gda_create two_labels_program =
      some (0, two_labels_table) := by decide!
  have h2 : assembler_second_pass
      { assembler_create_new_translation_unit with symbol_table := two_labels_table }
      two_labels_program = some (0, two_labels_unit) := by decide!
  ⟨h1, h2, (passes_agree_on_code_layout two_labels_program two_labels_table two_labels_unit
    h1 h2).2.1, by decide⟩

end Asm
